import Mathlib

/-!
# ExternalSequence: loading and decoding of a pulse-sequence description

A shallow embedding of `src/code/pulseq-master/src/ExternalSequence.cpp`.

Conventions of the embedding.

* Sample values (`float`, `double`) are the finite values, as rational numbers; infinities
  and NaN are outside of the embedding, and a statement about the samples of a block is one
  about finite samples.  What the two clamping statements do to a sample that is a NaN is
  given apart, by `clampSample`.  Comparisons and assignments of samples are exact.  The
  sum of two `float` values is a parameter `add` of the functions that form it: `floatAdd`
  is the sum the source forms, rounded to the nearest `float`, and `exactAdd` is the sum
  over exact arithmetic.
* An `int` is a 32-bit two's-complement integer.  Every result the source forms in `int`
  arithmetic from values of the input is reduced by `wrapInt`.
* A `long` is a two's-complement integer of `L.bits` bits, at least 32: its width differs
  between the targets the source names and is a parameter `L` of the functions that add in
  `long`.  Every sum the source forms in `long` is reduced by `wrapLong L`.  The combined
  version, which `load` forms in `long` and stores in a member declared outside of the
  sources, is reduced to the width `W` of the narrower of the two types, a parameter of
  `load`.
* A C array or vector is a list; an access outside of it is the fault `outOfBounds`, and a
  `resize` to a negative `int` count, which the vector refuses by throwing, is the fault
  `lengthError`.
* A loop whose trip count is not known in advance runs on fuel; running out of fuel is the
  fault `outOfFuel`, and the entry points pass enough fuel for it never to happen.
-/

namespace ExternalSequence

/-! ## Machine integers and memory -/

/-- Value of a 32-bit two's-complement `int` after an operation whose exact result is `x`. -/
def wrapInt (x : Int) : Int := (x + 2147483648) % 4294967296 - 2147483648

/-- The width of `long` on the target: at least 32 bits (32 on the VxWorks and Windows
targets the source names, 64 on Linux). -/
structure LongBits where
  bits : Nat
  wide : 32 ≤ bits

/-- A `long` of 32 bits. -/
def long32 : LongBits := ⟨32, le_refl 32⟩

/-- A `long` of 64 bits. -/
def long64 : LongBits := ⟨64, by decide⟩

/-- Value of a two's-complement `long` after an operation whose exact result is `x`. -/
def wrapLong (L : LongBits) (x : Int) : Int :=
  (x + 2 ^ (L.bits - 1)) % 2 ^ L.bits - 2 ^ (L.bits - 1)

/-- The value `x` is one a `long` holds. -/
def FitsLong (L : LongBits) (x : Int) : Prop :=
  -2 ^ (L.bits - 1) ≤ x ∧ x < 2 ^ (L.bits - 1)

instance (L : LongBits) (x : Int) : Decidable (FitsLong L x) := by
  unfold FitsLong
  infer_instance

/-- The conversion `(int)x` of a sample value: truncation toward zero. -/
def floatToInt (x : ℚ) : Int := wrapInt (Int.tdiv x.num x.den)

/-- What can go wrong in the embedding that the source does not report. -/
inductive Fault where
  | outOfBounds
  | outOfFuel
  | lengthError
  deriving DecidableEq, Repr

/-- Read `xs[i]`. -/
def readAt {α : Type} (xs : List α) (i : Int) : Except Fault α :=
  if i < 0 then .error .outOfBounds
  else match xs[i.toNat]? with
    | some v => .ok v
    | none => .error .outOfBounds

/-- Write `xs[i] = v`. -/
def writeAt {α : Type} (xs : List α) (i : Int) (v : α) : Except Fault (List α) :=
  if 0 ≤ i ∧ i.toNat < xs.length then .ok (xs.set i.toNat v) else .error .outOfBounds

/-! ## Sample values -/

/-- The integer nearest to `y`, the even one of the two when `y` is halfway between them. -/
def roundHalfEven (y : ℚ) : Int :=
  let f := ⌊y⌋
  let r := y - f
  if r < 1 / 2 then f
  else if 1 / 2 < r then f + 1
  else if f % 2 = 0 then f else f + 1

/-- The exponent of the binade of `x` in `float`: `e` with `2^e ≤ |x| < 2^(e+1)`, and not
below `-126`, the exponent of the subnormal values. -/
def floatExponent (x : ℚ) : Int := max (Int.log 2 |x|) (-126)

/-- The value of `float` nearest to `x`, with the even significand when `x` is halfway
between two: the significand of a `float` has 24 bits.  Beyond the largest `float`, where
the source gets an infinity, the value is outside of the embedding. -/
def roundFloat (x : ℚ) : ℚ :=
  (roundHalfEven (x / 2 ^ (floatExponent x - 23)) : ℚ) * 2 ^ (floatExponent x - 23)

/-- The sum of two `float` values as the source forms it. -/
def floatAdd (a b : ℚ) : ℚ := roundFloat (a + b)

/-- The sum of two sample values over exact arithmetic. -/
def exactAdd (a b : ℚ) : ℚ := a + b

/-! ## Shapes and their decompression -/

/-- A compressed waveform of the shape library. -/
structure CompressedShape where
  numUncompressedSamples : Int
  samples : List ℚ

/-- The inner loop of `decompressShape`:
`for (i = countUnpack-1; i <= countUnpack+rep-2; i++) shape[i] = packed[countPack-1]`,
with `n` the number of iterations left and `i` the current index. -/
def fillRun (v : ℚ) : Nat → Int → List ℚ → Except Fault (List ℚ)
  | 0, _, shape => .ok shape
  | n + 1, i, shape => do
      let shape1 ← writeAt shape i v
      fillRun v n (i + 1) shape1

/-- The `while (countPack < numPacked)` loop of `decompressShape`; it returns the two
counters and the buffer at the exit of the loop. -/
def unpackLoop (packed : List ℚ) (numPacked : Int) :
    Nat → Int → Int → List ℚ → Except Fault (Int × Int × List ℚ)
  | 0, countPack, countUnpack, shape =>
      if countPack < numPacked then .error .outOfFuel
      else .ok (countPack, countUnpack, shape)
  | fuel + 1, countPack, countUnpack, shape =>
      if countPack < numPacked then do
        let a ← readAt packed (countPack - 1)
        let b ← readAt packed countPack
        if a ≠ b then do
          let shape1 ← writeAt shape (countUnpack - 1) a
          unpackLoop packed numPacked fuel (countPack + 1) (wrapInt (countUnpack + 1)) shape1
        else do
          let c ← readAt packed (countPack + 1)
          let rep := wrapInt (floatToInt c + 2)
          let last := wrapInt (wrapInt (countUnpack + rep) - 2)
          let shape1 ← fillRun a (last - (countUnpack - 1) + 1).toNat (countUnpack - 1) shape
          unpackLoop packed numPacked fuel (countPack + 3) (wrapInt (countUnpack + rep)) shape1
      else .ok (countPack, countUnpack, shape)

/-- The loop `for (i = 1; i < numSamples; i++) shape[i] = shape[i] + shape[i-1]`, with `n`
the number of iterations left and `add` the sum of two `float` values. -/
def cumulativeSum (add : ℚ → ℚ → ℚ) : Nat → Int → List ℚ → Except Fault (List ℚ)
  | 0, _, shape => .ok shape
  | n + 1, i, shape => do
      let a ← readAt shape i
      let b ← readAt shape (i - 1)
      let shape1 ← writeAt shape i (add a b)
      cumulativeSum add n (i + 1) shape1

/-- The statement after the loop of `decompressShape`:
`if (countPack == numPacked) shape[countUnpack-1] = packed[countPack-1]`, on the counters
and the buffer the loop has left. -/
def trailingLiteral (packed : List ℚ) (numPacked : Int) :
    Int × Int × List ℚ → Except Fault (List ℚ)
  | (countPack, countUnpack, shape) =>
      if countPack = numPacked then do
        let a ← readAt packed (countPack - 1)
        writeAt shape (countUnpack - 1) a
      else .ok shape

/-- The function `ExternalSequence::decompressShape(encoded, shape)`: `shape` is the caller's buffer as
it is on entry, the result is the buffer on return, `add` is the sum of two `float` values.
The counter `countPack` is bounded by the size of the vector and is kept exact. -/
def decompressShape (add : ℚ → ℚ → ℚ) (encoded : CompressedShape) (shape : List ℚ) :
    Except Fault (List ℚ) := do
  let packed := encoded.samples
  let numPacked : Int := packed.length
  let numSamples := encoded.numUncompressedSamples
  let counters ← unpackLoop packed numPacked packed.length 1 1 shape
  let shape2 ← trailingLiteral packed numPacked counters
  cumulativeSum add (numSamples - 1).toNat 1 shape2

/-! ### The packed format, in the words of the specification -/

/-- One item of a packed sequence: a literal value, or a run `v, v, k`. -/
inductive Token where
  | literal (v : ℚ)
  | run (v : ℚ) (k : ℕ)

/-- The packed values of an item. -/
def Token.packed : Token → List ℚ
  | .literal v => [v]
  | .run v k => [v, v, (k : ℚ)]

/-- The samples an item stands for: a literal once, a run as `k + 2` copies. -/
def Token.expansion : Token → List ℚ
  | .literal v => [v]
  | .run v k => List.replicate (k + 2) v

/-- The packed sequence made of the items `ts`. -/
def packedOf : List Token → List ℚ
  | [] => []
  | t :: ts => t.packed ++ packedOf ts

/-- The expansion of the items `ts`. -/
def expansionOf : List Token → List ℚ
  | [] => []
  | t :: ts => t.expansion ++ expansionOf ts

/-- The items `ts` are what the packed sequence splits into, left to right: every literal is
different from the packed value after it, or is the last value. -/
def Splits : List Token → Prop
  | [] => True
  | .literal v :: ts => (packedOf ts).head? ≠ some v ∧ Splits ts
  | .run _ _ :: ts => Splits ts

/-- The prefix sums of `xs`: entry `i` is `xs[0] + ... + xs[i]`. -/
def prefixSums (xs : List ℚ) : List ℚ :=
  (List.range xs.length).map fun i => (xs.take (i + 1)).sum

/-- The running sums of `r` started from `s`, with `add` the sum of two `float` values: what
the cumulative-sum loop leaves after an entry that already holds `s`. -/
def runningFrom (add : ℚ → ℚ → ℚ) (s : ℚ) : List ℚ → List ℚ
  | [] => []
  | x :: r => add x s :: runningFrom add (add x s) r

/-- The running sums of `xs`, with `add` the sum of two `float` values: entry `0` is
`xs[0]`, and entry `i` is the sum `add` forms of `xs[i]` and of entry `i - 1`. -/
def runningSums (add : ℚ → ℚ → ℚ) : List ℚ → List ℚ
  | [] => []
  | x :: r => x :: runningFrom add x r

/-- Every sum of the running sums of `r` started from `s` is formed by `add` without
rounding. -/
def ExactFrom (add : ℚ → ℚ → ℚ) (s : ℚ) : List ℚ → Prop
  | [] => True
  | x :: r => add x s = x + s ∧ ExactFrom add (x + s) r

/-- Every sum of the running sums of `xs` is formed by `add` without rounding: each of the
sums `xs[0] + ... + xs[i]` is a value `add` returns for `xs[i]` and the sum before it. -/
def ExactSums (add : ℚ → ℚ → ℚ) : List ℚ → Prop
  | [] => True
  | x :: r => ExactFrom add x r

/-! ## Events, blocks and libraries

The declarations of `ExternalSequence.h` are not among the sources.  The records below
follow the data model of the specification, with the field names the source uses. -/

/-- Modelled from the spec: `RFEvent`, `{ amplitude, magShapeId, phaseShapeId, delay,
freqOffset, phaseOffset }`. -/
structure RFEvent where
  amplitude : ℚ
  magShape : Int
  phaseShape : Int
  delay : Int
  freqOffset : ℚ
  phaseOffset : ℚ

/-- Modelled from the spec: `GradEvent`; `shape == 0` marks a trapezoid, `shape > 0` an
arbitrary gradient.  The three times are `long` (scanned with `%ld`), `delay` and `shape`
are `int`. -/
structure GradEvent where
  amplitude : ℚ
  rampUpTime : Int
  flatTime : Int
  rampDownTime : Int
  delay : Int
  shape : Int

/-- Modelled from the spec: `ADCEvent`; the three integers are `int` (scanned with `%d`). -/
structure ADCEvent where
  numSamples : Int
  dwellTime : Int
  delay : Int
  freqOffset : ℚ
  phaseOffset : ℚ

/-- Modelled from the spec: the two variants of a control event, and the value of a control
event that was never assigned. -/
inductive ControlType where
  | UNDEFINED
  | TRIGGER
  | ROTATION
  deriving DecidableEq, Repr

/-- Modelled from the spec: `ControlEvent`, a trigger `{ triggerType, duration }` or a
rotation `{ rotMatrix }` under one id space; `duration` is `long`. -/
structure ControlEvent where
  type : ControlType
  triggerType : Int
  duration : Int
  rotMatrix : List ℚ

/-- Modelled from the spec: `EventIDs`, the seven slots `{ delay, rf, gx, gy, gz, adc, ctrl }`
of a block; the source writes `events.id[RF]` for `events.rf`. -/
structure EventIDs where
  delay : Int
  rf : Int
  gx : Int
  gy : Int
  gz : Int
  adc : Int
  ctrl : Int
  deriving DecidableEq, Repr

/-- The slot `events.id[GX + i]`. -/
def EventIDs.grad (events : EventIDs) : Nat → Int
  | 0 => events.gx
  | 1 => events.gy
  | _ => events.gz

/-- An array of `NUM_GRADS = 3` entries. -/
structure Three (α : Type) where
  x : α
  y : α
  z : α

/-- Read `a[i]`. -/
def Three.get {α : Type} (a : Three α) : Nat → α
  | 0 => a.x
  | 1 => a.y
  | _ => a.z

/-- Write `a[i] = v`. -/
def Three.set {α : Type} (a : Three α) (i : Nat) (v : α) : Three α :=
  match i with
  | 0 => { a with x := v }
  | 1 => { a with y := v }
  | _ => { a with z := v }

/-- Modelled from the spec: `SeqBlock`, the materialised block. -/
structure SeqBlock where
  index : Int
  events : EventIDs
  delay : Int
  rf : RFEvent
  grad : Three GradEvent
  adc : ADCEvent
  control : ControlEvent
  rfAmplitude : List ℚ
  rfPhase : List ℚ
  gradWaveforms : Three (List ℚ)
  duration : Int

/-- Modelled from the spec: an event is present when the id of its slot is positive (`0`
means absent, and `GetBlock` fetches an event only for a positive id). -/
def SeqBlock.isRF (block : SeqBlock) : Bool := decide (block.events.rf > 0)

/-- Modelled from the spec: see `SeqBlock.isRF`. -/
def SeqBlock.isADC (block : SeqBlock) : Bool := decide (block.events.adc > 0)

/-- Modelled from the spec: see `SeqBlock.isRF`. -/
def SeqBlock.isDelay (block : SeqBlock) : Bool := decide (block.events.delay > 0)

/-- Modelled from the spec: a present gradient is arbitrary when its shape id is positive. -/
def SeqBlock.isArbitraryGradient (block : SeqBlock) (channel : Nat) : Bool :=
  decide (block.events.grad channel > 0) && decide ((block.grad.get channel).shape > 0)

/-- Modelled from the spec: a present gradient is a trapezoid when its shape id is `0`. -/
def SeqBlock.isTrapGradient (block : SeqBlock) (channel : Nat) : Bool :=
  decide (block.events.grad channel > 0) && decide ((block.grad.get channel).shape = 0)

/-- Modelled from the spec: a present control event that is a trigger. -/
def SeqBlock.isTrigger (block : SeqBlock) : Bool :=
  decide (block.events.ctrl > 0) && decide (block.control.type = ControlType.TRIGGER)

/-- Modelled from the spec: a present control event that is a rotation. -/
def SeqBlock.isRotation (block : SeqBlock) : Bool :=
  decide (block.events.ctrl > 0) && decide (block.control.type = ControlType.ROTATION)

/-- Modelled from the spec: the macro `MAX(a, b)`. -/
def MAX (a b : Int) : Int := if a > b then a else b

/-- A `std::map<int, α>`. -/
def Lib (α : Type) : Type := Int → Option α

/-- The empty map, as `clear()` leaves it. -/
def Lib.empty {α : Type} : Lib α := fun _ => none

/-- The call `m.count(k)`. -/
def Lib.count {α : Type} (m : Lib α) (k : Int) : Nat :=
  match m k with
  | some _ => 1
  | none => 0

/-- The assignment `m[k] = v`. -/
def Lib.assign {α : Type} (m : Lib α) (k : Int) (v : α) : Lib α :=
  fun j => if j = k then some v else m j

/-- The expression `m[k]` read as a value: a key that is missing is first inserted with the
value-initialised `dflt`.  The result is the value and the map afterwards. -/
def Lib.index {α : Type} (m : Lib α) (k : Int) (dflt : α) : α × Lib α :=
  match m k with
  | some v => (v, m)
  | none => (dflt, m.assign k dflt)

/-- A value-initialised `CompressedShape`. -/
def CompressedShape.zero : CompressedShape := ⟨0, []⟩

/-- A value-initialised `RFEvent`. -/
def RFEvent.zero : RFEvent := ⟨0, 0, 0, 0, 0, 0⟩

/-- A value-initialised `GradEvent`. -/
def GradEvent.zero : GradEvent := ⟨0, 0, 0, 0, 0, 0⟩

/-- A value-initialised `ADCEvent`. -/
def ADCEvent.zero : ADCEvent := ⟨0, 0, 0, 0, 0⟩

/-- A value-initialised `ControlEvent`. -/
def ControlEvent.zero : ControlEvent := ⟨ControlType.UNDEFINED, 0, 0, []⟩

/-- The members of `ExternalSequence`. -/
structure State where
  version_major : Int
  version_minor : Int
  version_revision : Int
  version_combined : Int
  m_fileIndex : List Char → Option Int
  m_shapeLibrary : Lib CompressedShape
  m_rfLibrary : Lib RFEvent
  m_gradLibrary : Lib GradEvent
  m_adcLibrary : Lib ADCEvent
  m_delayLibrary : Lib Int
  m_controlLibrary : Lib ControlEvent
  m_definitions : List Char → Option (List ℚ)
  m_blocks : List EventIDs

/-! ## Referential validation -/

/-- The function `ExternalSequence::checkBlockReferences(events)`. -/
def checkBlockReferences (s : State) (events : EventIDs) : Bool :=
  let error := decide (events.rf > 0) && decide (s.m_rfLibrary.count events.rf = 0)
  let error := error || (decide (events.gx > 0) && decide (s.m_gradLibrary.count events.gx = 0))
  let error := error || (decide (events.gy > 0) && decide (s.m_gradLibrary.count events.gy = 0))
  let error := error || (decide (events.gz > 0) && decide (s.m_gradLibrary.count events.gz = 0))
  let error := error || (decide (events.adc > 0) && decide (s.m_adcLibrary.count events.adc = 0))
  let error := error ||
    (decide (events.delay > 0) && decide (s.m_delayLibrary.count events.delay = 0))
  let error := error ||
    (decide (events.ctrl > 0) && decide (s.m_controlLibrary.count events.ctrl = 0))
  !error

/-! ## Materialising a block -/

/-- One pass of the loop `for (i = 0; i < NUM_GRADS; i++) if (events.id[GX+i] > 0)
block->grad[i] = m_gradLibrary[events.id[GX+i]]`. -/
def fetchGrad (events : EventIDs) (p : SeqBlock × State) (i : Nat) : SeqBlock × State :=
  if events.grad i > 0 then
    let r := p.2.m_gradLibrary.index (events.grad i) GradEvent.zero
    ({ p.1 with grad := p.1.grad.set i r.1 }, { p.2 with m_gradLibrary := r.2 })
  else p

/-- The first half of `GetBlock`: the event ids are copied, the defaults set and the events
of the slots with a positive id fetched from their libraries.  `fresh` is the block as
`new SeqBlock()` leaves it. -/
def fetchEvents (s : State) (fresh : SeqBlock) (index : Int) (events : EventIDs) :
    SeqBlock × State :=
  let block := { fresh with events := events }
  let block := { block with index := index }
  let block := { block with delay := 0 }
  let block := { block with adc := { block.adc with numSamples := 0 } }
  let p : SeqBlock × State :=
    if events.rf > 0 then
      let r := s.m_rfLibrary.index events.rf RFEvent.zero
      ({ block with rf := r.1 }, { s with m_rfLibrary := r.2 })
    else (block, s)
  let p : SeqBlock × State :=
    if events.adc > 0 then
      let r := p.2.m_adcLibrary.index events.adc ADCEvent.zero
      ({ p.1 with adc := r.1 }, { p.2 with m_adcLibrary := r.2 })
    else p
  let p : SeqBlock × State :=
    if events.delay > 0 then
      let r := p.2.m_delayLibrary.index events.delay 0
      ({ p.1 with delay := r.1 }, { p.2 with m_delayLibrary := r.2 })
    else p
  let p : SeqBlock × State :=
    if events.ctrl > 0 then
      let r := p.2.m_controlLibrary.index events.ctrl ControlEvent.zero
      ({ p.1 with control := r.1 }, { p.2 with m_controlLibrary := r.2 })
    else p
  [0, 1, 2].foldl (fetchGrad events) p

/-- One pass of the loop over the gradient channels in the duration computation of
`GetBlock`; `10 * numUncompressedSamples` is a product of `int`, and the sums, formed from
left to right, are sums of `long`. -/
def gradDuration (L : LongBits) (block : SeqBlock) (p : Int × State) (iC : Nat) :
    Int × State :=
  let grad := block.grad.get iC
  if block.isArbitraryGradient iC then
    let r := p.2.m_shapeLibrary.index grad.shape CompressedShape.zero
    (MAX p.1 (wrapLong L (wrapInt (10 * r.1.numUncompressedSamples) + grad.delay)),
      { p.2 with m_shapeLibrary := r.2 })
  else if block.isTrapGradient iC then
    (MAX p.1 (wrapLong L (wrapLong L (wrapLong L (grad.rampUpTime + grad.flatTime)
      + grad.rampDownTime) + grad.delay)), p.2)
  else p

/-- The candidate of the ADC event, `adc.delay + (adc.numSamples*adc.dwellTime)/1000`, all
of it in `int` arithmetic, the quotient truncated toward zero. -/
def adcDuration (adc : ADCEvent) : Int :=
  wrapInt (adc.delay + Int.tdiv (wrapInt (adc.numSamples * adc.dwellTime)) 1000)

/-- The computation of `duration` in `GetBlock`, before the block delay is applied.  The
conversion of an `int` to `long` keeps its value. -/
def eventsDuration (L : LongBits) (s : State) (block : SeqBlock) : Int × State :=
  let duration : Int := 0
  let p : Int × State :=
    if block.isRF then
      let r := s.m_shapeLibrary.index block.rf.magShape CompressedShape.zero
      (MAX duration r.1.numUncompressedSamples, { s with m_shapeLibrary := r.2 })
    else (duration, s)
  let p := [0, 1, 2].foldl (gradDuration L block) p
  let p : Int × State :=
    if block.isADC then (MAX p.1 (adcDuration block.adc), p.2) else p
  if block.isTrigger then (MAX p.1 block.control.duration, p.2) else p

/-- The function `ExternalSequence::GetBlock(index)`: the block it returns and the members afterwards.
`fresh` is the block as `new SeqBlock()` leaves it; `duration + block->delay` is a sum of
`long`. -/
def GetBlock (L : LongBits) (s : State) (fresh : SeqBlock) (index : Int) :
    Except Fault (SeqBlock × State) := do
  let events ← readAt s.m_blocks index
  let p := fetchEvents s fresh index events
  let d := eventsDuration L p.2 p.1
  if d.2.version_combined < 1002000 then
    pure ({ p.1 with duration := wrapLong L (d.1 + p.1.delay) }, d.2)
  else
    pure ({ p.1 with duration := MAX d.1 p.1.delay }, d.2)

/-! ### The duration of a block, in the words of the specification -/

/-- The declared (uncompressed) sample count of the shape `id`; a shape that is not in the
library counts `0` samples, like the entry `m_shapeLibrary[id]` creates for it. -/
def declaredSamples (s : State) (id : Int) : Int :=
  match s.m_shapeLibrary id with
  | some shape => shape.numUncompressedSamples
  | none => 0

/-- The candidate of gradient channel `i`, if the channel has a gradient: `tenTimes` of the
declared sample count of its shape, plus the delay, for an arbitrary gradient (shape id
`> 0`); `rampUp + flat + rampDown + delay` for a trapezoid (shape id `== 0`).  `long` is
what the exact value of a sum becomes when the sum is formed. -/
def gradCandidate (tenTimes long : Int → Int) (s : State) (block : SeqBlock) (i : Nat) :
    List Int :=
  let grad := block.grad.get i
  if block.events.grad i > 0 ∧ grad.shape > 0 then
    [long (tenTimes (declaredSamples s grad.shape) + grad.delay)]
  else if block.events.grad i > 0 ∧ grad.shape = 0 then
    [long (long (long (grad.rampUpTime + grad.flatTime) + grad.rampDownTime) + grad.delay)]
  else []

/-- The candidates of the events present in a block: the RF event, the three gradient
channels, the ADC event and a trigger. -/
def candidatesWith (tenTimes long : Int → Int) (s : State) (block : SeqBlock) : List Int :=
  (if block.events.rf > 0 then [declaredSamples s block.rf.magShape] else []) ++
  gradCandidate tenTimes long s block 0 ++ gradCandidate tenTimes long s block 1 ++
  gradCandidate tenTimes long s block 2 ++
  (if block.events.adc > 0 then [adcDuration block.adc] else []) ++
  (if block.events.ctrl > 0 ∧ block.control.type = ControlType.TRIGGER
    then [block.control.duration] else [])

/-- The candidates with `10 * count` and the sums taken over the integers. -/
def exactCandidates (s : State) (block : SeqBlock) : List Int :=
  candidatesWith (fun n => 10 * n) (fun x => x) s block

/-- The candidates with `10 * count` formed as a product of `int` and the sums as sums of
`long`. -/
def candidates (L : LongBits) (s : State) (block : SeqBlock) : List Int :=
  candidatesWith (fun n => wrapInt (10 * n)) (wrapLong L) s block

/-- The maximum of `0` and the entries of `l`. -/
def maxOf (l : List Int) : Int := l.foldr max 0

/-- A value of `SeqBlock` for the examples: nothing is set in it. -/
def SeqBlock.blank : SeqBlock :=
  { index := 0, events := ⟨0, 0, 0, 0, 0, 0, 0⟩, delay := 0, rf := RFEvent.zero,
    grad := ⟨GradEvent.zero, GradEvent.zero, GradEvent.zero⟩, adc := ADCEvent.zero,
    control := ControlEvent.zero, rfAmplitude := [], rfPhase := [],
    gradWaveforms := ⟨[], [], []⟩, duration := 0 }

/-- The members of a freshly constructed `ExternalSequence`, with the combined version set
to `vc`. -/
def State.init (vc : Int) : State :=
  { version_major := 0, version_minor := 0, version_revision := 0, version_combined := vc,
    m_fileIndex := fun _ => none, m_shapeLibrary := Lib.empty, m_rfLibrary := Lib.empty,
    m_gradLibrary := Lib.empty, m_adcLibrary := Lib.empty, m_delayLibrary := Lib.empty,
    m_controlLibrary := Lib.empty, m_definitions := fun _ => none, m_blocks := [] }

/-- The example of the specification: one block with the trapezoid gradient 1
(`rampUp = 100`, `flat = 1000`, `rampDown = 100`, `delay = 50`) on the x channel and the
delay 1 of `2000`, under the combined version `vc`. -/
def trapezoidExample (vc : Int) : State :=
  { State.init vc with
    m_gradLibrary := Lib.empty.assign 1 ⟨1, 100, 1000, 100, 50, 0⟩
    m_delayLibrary := Lib.empty.assign 1 2000
    m_blocks := [⟨1, 0, 1, 0, 0, 0, 0⟩] }

/-- An example with an arbitrary gradient: the gradient 1 on the x channel of the only
block, with delay 5, whose shape 7 declares `n` samples. -/
def arbitraryExample (n : Int) : State :=
  { State.init 0 with
    m_shapeLibrary := Lib.empty.assign 7 ⟨n, []⟩
    m_gradLibrary := Lib.empty.assign 1 ⟨1, 0, 0, 0, 5, 7⟩
    m_blocks := [⟨0, 0, 1, 0, 0, 0, 0⟩] }

/-- The block of `arbitraryExample`, as the first half of `GetBlock` materialises it. -/
def arbitraryBlock (n : Int) : SeqBlock :=
  (fetchEvents (arbitraryExample n) SeqBlock.blank 0 ⟨0, 0, 1, 0, 0, 0, 0⟩).1

/-- The slot `id` resolves in the library `m`: it is one of its keys. -/
def Resolves {α : Type} (m : Lib α) (id : Int) : Prop := (m id).isSome = true

/-- Every slot whose id satisfies `used` holds a key of its corresponding library: delay in
the delay library, rf in the RF library, gx, gy and gz in the gradient library, adc in the
ADC library, ctrl in the control library. -/
def SlotsResolve (used : Int → Prop) (s : State) (events : EventIDs) : Prop :=
  (used events.delay → Resolves s.m_delayLibrary events.delay) ∧
  (used events.rf → Resolves s.m_rfLibrary events.rf) ∧
  (used events.gx → Resolves s.m_gradLibrary events.gx) ∧
  (used events.gy → Resolves s.m_gradLibrary events.gy) ∧
  (used events.gz → Resolves s.m_gradLibrary events.gz) ∧
  (used events.adc → Resolves s.m_adcLibrary events.adc) ∧
  (used events.ctrl → Resolves s.m_controlLibrary events.ctrl)

/-- What the duration computation keeps of the members: everything but the shape library,
and of that library the declared sample counts. -/
def SameButShapes (s t : State) : Prop :=
  t.version_combined = s.version_combined ∧ t.m_blocks = s.m_blocks ∧
  t.m_rfLibrary = s.m_rfLibrary ∧ t.m_gradLibrary = s.m_gradLibrary ∧
  t.m_adcLibrary = s.m_adcLibrary ∧ t.m_delayLibrary = s.m_delayLibrary ∧
  t.m_controlLibrary = s.m_controlLibrary ∧ ∀ id, declaredSamples t id = declaredSamples s id

/-! ## The input stream

A `std::ifstream` opened in binary mode, with the state flags the source depends on.  A byte
is a `Char` below 256; `char` is signed, so the byte 255 read by `is.get()` compares equal to
`EOF` in `getline`. -/

/-- The stream: the bytes of the file, the read position and the flags `eofbit`, `failbit`. -/
structure IStream where
  data : List Char
  pos : Nat
  eofbit : Bool
  failbit : Bool
  deriving DecidableEq, Repr

/-- The call `is.good()`. -/
def IStream.good (is : IStream) : Bool := !is.eofbit && !is.failbit

/-- The call `is.get()`: the byte read, or `none` for `EOF`.  On a stream that is not good
it sets `failbit`; at the end of the data it sets `eofbit` and `failbit`. -/
def IStream.get (is : IStream) : Option Char × IStream :=
  if is.good then
    match is.data[is.pos]? with
    | some c => (some c, { is with pos := is.pos + 1 })
    | none => (none, { is with eofbit := true, failbit := true })
  else (none, { is with failbit := true })

/-- The call `is.peek()`: at the end of the data it sets `eofbit` only. -/
def IStream.peek (is : IStream) : Option Char × IStream :=
  if is.good then
    match is.data[is.pos]? with
    | some c => (some c, is)
    | none => (none, { is with eofbit := true })
  else (none, { is with failbit := true })

/-- The call `is.seekg(p)` from the beginning: `eofbit` is cleared first; a stream that has
failed is left where it is; a negative position sets `failbit`. -/
def IStream.seekg (is : IStream) (p : Int) : IStream :=
  if is.failbit then { is with eofbit := false }
  else if p < 0 then { is with eofbit := false, failbit := true }
  else { is with eofbit := false, pos := p.toNat }

/-- The call `is.tellg()`: the position, or `-1` on a stream that is not good (which then
has `failbit` set). -/
def IStream.tellg (is : IStream) : Int × IStream :=
  if is.good then ((is.pos : Int), is) else (-1, { is with failbit := true })

/-- The call `is.clear()`. -/
def IStream.clear (is : IStream) : IStream := { is with eofbit := false, failbit := false }

/-- The calls `data_file.open(...)` and `data_file.seekg(0)` on a file that may be missing. -/
def IStream.open (file : Option (List Char)) : IStream :=
  match file with
  | some data => ⟨data, 0, false, false⟩
  | none => ⟨[], 0, false, true⟩

/-- The constant `ExternalSequence::MAX_LINE_SIZE`. -/
def MAX_LINE_SIZE : Nat := 256

/-- The constant `ExternalSequence::COMMENT_CHAR`. -/
def COMMENT_CHAR : Char := '#'

/-- What a call of `getline` has stored in `buffer`: the characters at `buffer[0..i)`, and
whether `buffer[i] = 0` was written after them. -/
structure Buffer where
  chars : List Char
  terminated : Bool
  deriving DecidableEq, Repr

/-- The character `buffer[0]`. -/
def Buffer.first (buffer : Buffer) : Char := buffer.chars.headD (Char.ofNat 0)

/-- The C string at `buffer`, as `strlen`, `sscanf` and `std::string(buffer)` read it: the
characters before the first NUL.  Without a NUL in the buffer the read leaves the array. -/
def Buffer.cstr (buffer : Buffer) : Except Fault (List Char) :=
  let s := buffer.chars.takeWhile (fun c => c ≠ Char.ofNat 0)
  if s.length < buffer.chars.length ∨ buffer.terminated = true then .ok s
  else .error .outOfBounds

/-- The result of `getline`: the value returned, the buffer and the stream afterwards. -/
structure GetlineResult where
  ok : Bool
  buffer : Buffer
  stream : IStream
  deriving DecidableEq, Repr

/-- The `case EOF` of `getline`, with `acc` the characters stored so far. -/
def getlineEof (is : IStream) (acc : List Char) : GetlineResult :=
  ⟨!acc.isEmpty, ⟨acc, true⟩, if acc.isEmpty then is.seekg (-1) else is⟩

/-- The `case '\r'` of `getline`. -/
def getlineCr (is : IStream) (acc : List Char) : GetlineResult :=
  let p := is.peek
  ⟨true, ⟨acc, true⟩, if p.1 = some '\n' then p.2.get.2 else p.2⟩

/-- The loop of `getline`; `acc` holds the `i` characters stored so far and `room` is
`MAX_SIZE - 1 - i`, the number of characters that can still be stored before the test
`i >= MAX_SIZE` ends the loop. -/
def getlineLoop : Nat → IStream → List Char → GetlineResult
  | 0, is, acc =>
      match is.get with
      | (none, is1) => getlineEof is1 acc
      | (some c, is1) =>
          if c = '\n' then ⟨true, ⟨acc, true⟩, is1⟩
          else if c = '\r' then getlineCr is1 acc
          else if c = Char.ofNat 255 then getlineEof is1 acc
          else ⟨true, ⟨acc ++ [c], false⟩, is1⟩
  | room + 1, is, acc =>
      match is.get with
      | (none, is1) => getlineEof is1 acc
      | (some c, is1) =>
          if c = '\n' then ⟨true, ⟨acc, true⟩, is1⟩
          else if c = '\r' then getlineCr is1 acc
          else if c = Char.ofNat 255 then getlineEof is1 acc
          else getlineLoop room is1 (acc ++ [c])

/-- The function `ExternalSequence::getline(is, buffer, MAX_SIZE)`. -/
def getline (is : IStream) (MAX_SIZE : Nat) : GetlineResult :=
  getlineLoop (MAX_SIZE - 1) is []

/-! ## Formatted input -/

/-- The function `isspace` in the C locale. -/
def isSpace (c : Char) : Bool :=
  c = ' ' || c = '\t' || c = '\n' || c = Char.ofNat 11 || c = Char.ofNat 12 || c = '\r'

/-- The value of a sequence of decimal digits. -/
def digitsValue (ds : List Char) : Nat :=
  ds.foldl (fun n c => 10 * n + (c.toNat - '0'.toNat)) 0

/-- An integer conversion on input that starts after the white space: an optional sign and
at least one digit.  The result is the exact value and the rest of the input. -/
def scanInteger (input : List Char) : Option (Int × List Char) :=
  let signed : Bool × List Char :=
    match input with
    | '-' :: r => (true, r)
    | '+' :: r => (false, r)
    | r => (false, r)
  let ds := signed.2.takeWhile Char.isDigit
  if ds.isEmpty then none
  else
    let v : Int := digitsValue ds
    some (if signed.1 then -v else v, signed.2.dropWhile Char.isDigit)

/-- The conversions the source uses. -/
inductive Conv where
  | d
  | ld
  | f
  | lf
  | s
  deriving DecidableEq, Repr

/-- A value a conversion has assigned. -/
inductive Arg where
  | int (v : Int)
  | real (q : ℚ)
  | str (s : List Char)

/-- The conversions of floating-point text, which the embedding takes as given: `scanFloat`
is the conversion `%f` / `%lf` of `sscanf` on input that starts after the white space,
`extractDouble` is `ss >> value` of a `std::istringstream` on the rest of its line. -/
structure Scanners where
  scanFloat : List Char → Option (ℚ × List Char)
  extractDouble : List Char → Option (ℚ × List Char)

/-- One conversion of `sscanf` on non-empty input that starts after the white space.  `%d`
stores an `int`, `%ld` a `long`. -/
def convert (sc : Scanners) (c : Conv) (input : List Char) : Option (Arg × List Char) :=
  match c with
  | .d => (scanInteger input).map fun r => (Arg.int (wrapInt r.1), r.2)
  | .ld => (scanInteger input).map fun r => (Arg.int r.1, r.2)
  | .f => (sc.scanFloat input).map fun r => (Arg.real r.1, r.2)
  | .lf => (sc.scanFloat input).map fun r => (Arg.real r.1, r.2)
  | .s => some (Arg.str (input.takeWhile fun c => !isSpace c), input.dropWhile fun c => !isSpace c)

/-- The conversions of `sscanf` in turn; `done` holds the values assigned so far.  The
result is the value `sscanf` returns and the values assigned: `EOF` (`-1`) when the input
ends before the first conversion, else the number of values assigned. -/
def sscanfLoop (sc : Scanners) : List Conv → List Char → List Arg → Int × List Arg
  | [], _, done => ((done.length : Int), done)
  | c :: cs, input, done =>
      match input.dropWhile isSpace with
      | [] => (if done.isEmpty then -1 else (done.length : Int), done)
      | x :: rest =>
          match convert sc c (x :: rest) with
          | none => ((done.length : Int), done)
          | some (v, rest1) => sscanfLoop sc cs rest1 (done ++ [v])

/-- The call `sscanf(buffer, format, ...)` for a format made of conversions only. -/
def sscanf (sc : Scanners) (buffer : List Char) (format : List Conv) : Int × List Arg :=
  sscanfLoop sc format buffer []

/-- The `int` or `long` stored in argument `i`, `dflt` if that argument was not assigned. -/
def argInt (args : List Arg) (i : Nat) (dflt : Int) : Int :=
  match args[i]? with
  | some (Arg.int v) => v
  | _ => dflt

/-- The `float` or `double` stored in argument `i`. -/
def argReal (args : List Arg) (i : Nat) : ℚ :=
  match args[i]? with
  | some (Arg.real q) => q
  | _ => 0

/-! ## Loading -/

/-- How a part of `load` ends other than by falling through: on a fault of the embedding, or
on a `return` of `load` with the members as they are at that moment. -/
inductive Exit where
  | fault (f : Fault)
  | ret (value : Bool) (s : State)

/-- A fault of a read becomes a fault of `load`. -/
def liftFault {α : Type} (r : Except Fault α) : Except Exit α :=
  match r with
  | .ok a => .ok a
  | .error f => .error (Exit.fault f)

/-- The assignment `m_fileIndex[line] = pos`, and likewise `m_definitions[key] = values`. -/
def assignKey {α : Type} (m : List Char → Option α) (key : List Char) (v : α) :
    List Char → Option α :=
  fun k => if k = key then some v else m k

/-- The expression `m_fileIndex[tag]` read as a value. -/
def indexOf (s : State) (tag : String) : Int := (s.m_fileIndex tag.toList).getD 0

/-- The test `m_fileIndex.find(tag) != m_fileIndex.end()`. -/
def hasSection (s : State) (tag : String) : Bool := (s.m_fileIndex tag.toList).isSome

/-- The loop of `skipComments`. -/
def skipCommentsLoop : Nat → IStream → Except Fault (Buffer × IStream)
  | 0, _ => .error .outOfFuel
  | fuel + 1, is =>
      let r := getline is MAX_LINE_SIZE
      if r.ok = false then .ok (r.buffer, r.stream)
      else if r.buffer.first = COMMENT_CHAR then skipCommentsLoop fuel r.stream
      else
        match r.buffer.cstr with
        | .error f => .error f
        | .ok line =>
            if line.length > 0 then .ok (r.buffer, r.stream)
            else skipCommentsLoop fuel r.stream

/-- The function `ExternalSequence::skipComments(fileStream, buffer)`: the buffer and the stream
afterwards. -/
def skipComments (is : IStream) : Except Fault (Buffer × IStream) :=
  skipCommentsLoop (is.data.length + 1) is

/-- The loop of `buildFileIndex`. -/
def buildFileIndexLoop : Nat → State → IStream → Except Fault (State × IStream)
  | 0, _, _ => .error .outOfFuel
  | fuel + 1, s, is =>
      let r := getline is MAX_LINE_SIZE
      if r.ok = false then .ok (s, r.stream)
      else
        match r.buffer.cstr with
        | .error f => .error f
        | .ok line =>
            if line.headD (Char.ofNat 0) = '[' ∧ line.getLastD (Char.ofNat 0) = ']' then
              let p := r.stream.tellg
              buildFileIndexLoop fuel { s with m_fileIndex := assignKey s.m_fileIndex line p.1 } p.2
            else buildFileIndexLoop fuel s r.stream

/-- The function `ExternalSequence::buildFileIndex(fileStream)`. -/
def buildFileIndex (s : State) (is : IStream) : Except Fault (State × IStream) :=
  match buildFileIndexLoop (is.data.length + 1) s is with
  | .error f => .error f
  | .ok (s1, is1) => .ok (s1, (is1.clear).seekg 0)

/-- The loop every record section of `load` is read with:
`while (getline(...)) { if (buffer[0]=='[' || strlen(buffer)==0) break; body }`. -/
def sectionLoop (body : State → List Char → Except Exit State) :
    Nat → State → IStream → Except Exit (State × IStream)
  | 0, _, _ => .error (Exit.fault .outOfFuel)
  | fuel + 1, s, is =>
      let r := getline is MAX_LINE_SIZE
      if r.ok = false then .ok (s, r.stream)
      else if r.buffer.first = '[' then .ok (s, r.stream)
      else
        match r.buffer.cstr with
        | .error f => .error (Exit.fault f)
        | .ok line =>
            if line.length = 0 then .ok (s, r.stream)
            else
              match body s line with
              | .error e => .error e
              | .ok s1 => sectionLoop body fuel s1 r.stream

/-- A record section that may be missing: `if (m_fileIndex.find(tag) != m_fileIndex.end())
{ data_file.seekg(m_fileIndex[tag]); s = before(s); loop }`. -/
def optionalSection (tag : String) (before : State → State)
    (body : State → List Char → Except Exit State) (p : State × IStream) :
    Except Exit (State × IStream) :=
  if hasSection p.1 tag then
    sectionLoop body (p.2.data.length + 1) (before p.1) (p.2.seekg (indexOf p.1 tag))
  else .ok p

/-- One field of the `[VERSION]` section: `sscanf(buffer + n, "%d", &field)`. -/
def scanVersionField (sc : Scanners) (line : List Char) (n : Nat) : Option Int :=
  let r := sscanf sc (line.drop n) [Conv.d]
  if r.1 = 1 then some (argInt r.2 0 0) else none

/-- One line of the `[VERSION]` section: the key is compared with `strncmp`, the value
scanned with `%d`; an unknown key or a value that does not scan makes `load` return `false`. -/
def versionField (sc : Scanners) (s : State) (line : List Char) : Except Exit State :=
  if line.take 5 = "major".toList then
    match scanVersionField sc line 5 with
    | some v => .ok { s with version_major := v }
    | none => .error (Exit.ret false s)
  else if line.take 5 = "minor".toList then
    match scanVersionField sc line 5 with
    | some v => .ok { s with version_minor := v }
    | none => .error (Exit.ret false s)
  else if line.take 8 = "revision".toList then
    match scanVersionField sc line 8 with
    | some v => .ok { s with version_revision := v }
    | none => .error (Exit.ret false s)
  else .error (Exit.ret false s)

/-- The loop over the lines of the `[VERSION]` section.  Each pass first writes the buffer to
the message stream, which reads it as a C string. -/
def versionLoop (sc : Scanners) : Nat → State → Buffer → IStream → Except Exit (State × IStream)
  | 0, _, _, _ => .error (Exit.fault .outOfFuel)
  | fuel + 1, s, buffer, is =>
      if is.good && decide (buffer.first ≠ '[') then
        match liftFault buffer.cstr with
        | .error e => .error e
        | .ok line =>
            match versionField sc s line with
            | .error e => .error e
            | .ok s1 =>
                match liftFault (skipComments is) with
                | .error e => .error e
                | .ok (buffer1, is1) => versionLoop sc fuel s1 buffer1 is1
      else .ok (s, is)

/-- The part of `load` that reads the `[VERSION]` section.  The products and the sums of
`version_major*1000000L+version_minor*1000L+version_revision` are formed in `long`, and the
result is stored in `version_combined`, whose declaration is outside of the sources: the
value stored is the exact one reduced to `W`, the width of the narrower of `long` and of the
type of `version_combined`. -/
def readVersion (W : LongBits) (sc : Scanners) (s : State) (is : IStream) :
    Except Exit (State × IStream) :=
  if hasSection s "[VERSION]" then do
    let (buffer, is1) ← liftFault (skipComments (is.seekg (indexOf s "[VERSION]")))
    let (s1, is2) ← versionLoop sc (is.data.length + 1) s buffer is1
    let combined :=
      wrapLong W (s1.version_major * 1000000 + s1.version_minor * 1000 + s1.version_revision)
    pure ({ s1 with version_combined := combined }, is2)
  else pure (s, is)

/-- The loop over the sample lines of one shape: the samples, the buffer at the exit and the
stream. -/
def sampleLoop (sc : Scanners) (s : State) :
    Nat → List ℚ → IStream → Except Exit (List ℚ × IStream)
  | 0, _, _ => .error (Exit.fault .outOfFuel)
  | fuel + 1, samples, is =>
      let r := getline is MAX_LINE_SIZE
      if r.ok = false then .ok (samples, r.stream)
      else if r.buffer.first = 's' then .ok (samples, r.stream)
      else
        match r.buffer.cstr with
        | .error f => .error (Exit.fault f)
        | .ok line =>
            if line.length = 0 then .ok (samples, r.stream)
            else
              let n := sscanf sc line [Conv.f]
              if n.1 = 1 then sampleLoop sc s fuel (samples ++ [argReal n.2 0]) r.stream
              else .error (Exit.ret false s)

/-- A line `name <int>` of the shapes section: `sscanf(buffer, "%s%d", tmpStr, &value)`. -/
def scanNamedInt (sc : Scanners) (line : List Char) : Option Int :=
  let r := sscanf sc line [Conv.s, Conv.d]
  if r.1 = 2 then some (argInt r.2 1 0) else none

/-- One shape of the `[SHAPES]` section, from its header line in `buffer`: the shape is
stored in the library and the next line that is neither a comment nor empty is read. -/
def readShape (sc : Scanners) (s : State) (buffer : Buffer) (is : IStream) :
    Except Exit (State × Buffer × IStream) := do
  let line ← liftFault buffer.cstr
  match scanNamedInt sc line with
  | none => .error (Exit.ret false s)
  | some shapeId =>
      let r := getline is MAX_LINE_SIZE
      let line1 ← liftFault r.buffer.cstr
      match scanNamedInt sc line1 with
      | none => .error (Exit.ret false s)
      | some numSamples =>
          let (samples, is1) ← sampleLoop sc s (is.data.length + 1) [] r.stream
          let s1 := { s with
            m_shapeLibrary := s.m_shapeLibrary.assign shapeId ⟨numSamples, samples⟩ }
          let (buffer1, is2) ← liftFault (skipComments is1)
          pure (s1, buffer1, is2)

/-- The loop over the shapes of the `[SHAPES]` section. -/
def shapeLoop (sc : Scanners) : Nat → State → Buffer → IStream → Except Exit (State × IStream)
  | 0, _, _, _ => .error (Exit.fault .outOfFuel)
  | fuel + 1, s, buffer, is =>
      if is.good && decide (buffer.first = 's') then
        match readShape sc s buffer is with
        | .error e => .error e
        | .ok (s1, buffer1, is2) => shapeLoop sc fuel s1 buffer1 is2
      else .ok (s, is)

/-- The part of `load` that reads the `[SHAPES]` section. -/
def readShapes (sc : Scanners) (s : State) (is : IStream) : Except Exit (State × IStream) :=
  if hasSection s "[SHAPES]" then do
    let (buffer, is1) ← liftFault (skipComments (is.seekg (indexOf s "[SHAPES]")))
    let s1 := { s with m_shapeLibrary := Lib.empty }
    let (s2, is2) ← shapeLoop sc (is.data.length + 1) s1 buffer is1
    pure (s2, is2.clear)
  else .error (Exit.ret false s)

/-- One line of the `[RF]` section. -/
def rfRecord (sc : Scanners) (s : State) (line : List Char) : Except Exit State :=
  if s.version_combined < 1002000 then
    let r := sscanf sc line [Conv.d, Conv.f, Conv.d, Conv.d, Conv.f, Conv.f]
    if r.1 = 6 then
      .ok { s with m_rfLibrary := (s.m_rfLibrary.assign (argInt r.2 0 0)
        ⟨argReal r.2 1, argInt r.2 2 0, argInt r.2 3 0, 0, argReal r.2 4, argReal r.2 5⟩) }
    else .error (Exit.ret false s)
  else
    let r := sscanf sc line [Conv.d, Conv.f, Conv.d, Conv.d, Conv.d, Conv.f, Conv.f]
    if r.1 = 7 then
      .ok { s with m_rfLibrary := (s.m_rfLibrary.assign (argInt r.2 0 0)
        ⟨argReal r.2 1, argInt r.2 2 0, argInt r.2 3 0, argInt r.2 4 0, argReal r.2 5,
          argReal r.2 6⟩) }
    else .error (Exit.ret false s)

/-- One line of the `[GRADIENTS]` section; the fields of the event the source does not set
are `0` here. -/
def gradRecord (sc : Scanners) (s : State) (line : List Char) : Except Exit State :=
  if s.version_combined ≥ 1001001 then
    let r := sscanf sc line [Conv.d, Conv.f, Conv.d, Conv.d]
    if r.1 = 4 then
      .ok { s with m_gradLibrary := (s.m_gradLibrary.assign (argInt r.2 0 0)
        { GradEvent.zero with
          amplitude := argReal r.2 1, shape := argInt r.2 2 0, delay := argInt r.2 3 0 }) }
    else .error (Exit.ret false s)
  else
    let r := sscanf sc line [Conv.d, Conv.f, Conv.d]
    if r.1 = 3 then
      .ok { s with m_gradLibrary := (s.m_gradLibrary.assign (argInt r.2 0 0)
        { GradEvent.zero with amplitude := argReal r.2 1, shape := argInt r.2 2 0, delay := 0 }) }
    else .error (Exit.ret false s)

/-- One line of the `[TRAP]` section. -/
def trapRecord (sc : Scanners) (s : State) (line : List Char) : Except Exit State :=
  if s.version_combined ≥ 1001001 then
    let r := sscanf sc line [Conv.d, Conv.f, Conv.ld, Conv.ld, Conv.ld, Conv.d]
    if r.1 = 6 then
      .ok { s with m_gradLibrary := (s.m_gradLibrary.assign (argInt r.2 0 0)
        ⟨argReal r.2 1, argInt r.2 2 0, argInt r.2 3 0, argInt r.2 4 0, argInt r.2 5 0, 0⟩) }
    else .error (Exit.ret false s)
  else
    let r := sscanf sc line [Conv.d, Conv.f, Conv.ld, Conv.ld, Conv.ld]
    if r.1 = 5 then
      .ok { s with m_gradLibrary := (s.m_gradLibrary.assign (argInt r.2 0 0)
        ⟨argReal r.2 1, argInt r.2 2 0, argInt r.2 3 0, argInt r.2 4 0, 0, 0⟩) }
    else .error (Exit.ret false s)

/-- One line of the `[ADC]` section. -/
def adcRecord (sc : Scanners) (s : State) (line : List Char) : Except Exit State :=
  let r := sscanf sc line [Conv.d, Conv.d, Conv.d, Conv.d, Conv.f, Conv.f]
  if r.1 = 6 then
    .ok { s with m_adcLibrary := (s.m_adcLibrary.assign (argInt r.2 0 0)
      ⟨argInt r.2 1 0, argInt r.2 2 0, argInt r.2 3 0, argReal r.2 4, argReal r.2 5⟩) }
  else .error (Exit.ret false s)

/-- One line of the `[DELAYS]` section. -/
def delayRecord (sc : Scanners) (s : State) (line : List Char) : Except Exit State :=
  let r := sscanf sc line [Conv.d, Conv.ld]
  if r.1 = 2 then
    .ok { s with m_delayLibrary := (s.m_delayLibrary.assign (argInt r.2 0 0) (argInt r.2 1 0)) }
  else .error (Exit.ret false s)

/-- One line of the `[TRIGGERS]` section; the rotation matrix, which the source does not set,
is empty here. -/
def triggerRecord (sc : Scanners) (s : State) (line : List Char) : Except Exit State :=
  let r := sscanf sc line [Conv.d, Conv.d, Conv.ld]
  if r.1 = 3 then
    .ok { s with m_controlLibrary := (s.m_controlLibrary.assign (argInt r.2 0 0)
      { ControlEvent.zero with
        type := ControlType.TRIGGER, triggerType := argInt r.2 1 0, duration := argInt r.2 2 0 }) }
  else .error (Exit.ret false s)

/-- One line of the `[ROTATIONS]` section. -/
def rotationRecord (sc : Scanners) (s : State) (line : List Char) : Except Exit State :=
  let r := sscanf sc line
    [Conv.d, Conv.lf, Conv.lf, Conv.lf, Conv.lf, Conv.lf, Conv.lf, Conv.lf, Conv.lf, Conv.lf]
  if r.1 = 10 then
    .ok { s with m_controlLibrary := (s.m_controlLibrary.assign (argInt r.2 0 0)
      { ControlEvent.zero with
        type := ControlType.ROTATION
        rotMatrix := (List.range 9).map fun i => argReal r.2 (i + 1) }) }
  else .error (Exit.ret false s)

/-- The loop `while (ss >> value) values.push_back(value)`; an extraction that succeeds
consumes at least one character. -/
def extractValues (sc : Scanners) : Nat → List Char → List ℚ → List ℚ
  | 0, _, values => values
  | fuel + 1, input, values =>
      match sc.extractDouble input with
      | none => values
      | some (v, rest) =>
          if rest.length < input.length then extractValues sc fuel rest (values ++ [v])
          else values ++ [v]

/-- One line of the `[DEFINITIONS]` section. -/
def definitionRecord (sc : Scanners) (s : State) (line : List Char) : Except Exit State :=
  let input := line.dropWhile isSpace
  let key := input.takeWhile fun c => !isSpace c
  let rest := input.dropWhile fun c => !isSpace c
  let values := if key.isEmpty then [] else extractValues sc line.length rest []
  .ok { s with m_definitions := assignKey s.m_definitions key values }

/-- One line of the `[BLOCKS]` section: the ids are zeroed, scanned, checked against the
libraries and appended to the block table. -/
def blockRecord (sc : Scanners) (s : State) (line : List Char) : Except Exit State :=
  let r := sscanf sc line
    [Conv.d, Conv.d, Conv.d, Conv.d, Conv.d, Conv.d, Conv.d, Conv.d]
  let events : EventIDs :=
    ⟨argInt r.2 1 0, argInt r.2 2 0, argInt r.2 3 0, argInt r.2 4 0, argInt r.2 5 0,
      argInt r.2 6 0, argInt r.2 7 0⟩
  if 7 < r.1 then .error (Exit.ret false s)
  else if checkBlockReferences s events = false then .error (Exit.ret false s)
  else .ok { s with m_blocks := s.m_blocks ++ [events] }

/-- The files `load` may find under `path`: the single `.seq` file, or the three files
`shapes.seq`, `events.seq` and `blocks.seq`; a file that cannot be read is `none`. -/
structure Files where
  single : Option (List Char)
  shapes : Option (List Char)
  events : Option (List Char)
  blocks : Option (List Char)

/-- The step of `load` to the next file in separate-file mode:
`if (!isSingleFileMode) { open the file; if (!data_file.good()) return false;
buildFileIndex(data_file); }`. -/
def nextFile (isSingleFileMode : Bool) (file : Option (List Char)) (p : State × IStream) :
    Except Exit (State × IStream) :=
  if isSingleFileMode then .ok p
  else
    let is := IStream.open file
    if is.good then liftFault (buildFileIndex p.1 is) else .error (Exit.ret false p.1)

/-- The part of `load` from the first call of `buildFileIndex` to the seek to the `[BLOCKS]`
section: the shapes, the events and the definitions, read from the stream `is` and, in
separate-file mode, from the two other files. -/
def loadSections (W : LongBits) (sc : Scanners) (files : Files) (isSingleFileMode : Bool)
    (s0 : State) (is : IStream) : Except Exit (State × IStream) := do
  let p ← liftFault (buildFileIndex s0 is)
  let p ← readVersion W sc p.1 p.2
  let p ← readShapes sc p.1 p.2
  let p ← nextFile isSingleFileMode files.events p
  let p ← optionalSection "[RF]" (fun s => { s with m_rfLibrary := Lib.empty })
    (rfRecord sc) p
  let p : State × IStream := ({ p.1 with m_gradLibrary := Lib.empty }, p.2)
  let p ← optionalSection "[GRADIENTS]" id (gradRecord sc) p
  let p ← optionalSection "[TRAP]" id (trapRecord sc) p
  let p ← optionalSection "[ADC]" (fun s => { s with m_adcLibrary := Lib.empty })
    (adcRecord sc) p
  let p ← optionalSection "[DELAYS]" (fun s => { s with m_delayLibrary := Lib.empty })
    (delayRecord sc) p
  let p : State × IStream := ({ p.1 with m_controlLibrary := Lib.empty }, p.2)
  let p ← optionalSection "[TRIGGERS]" id (triggerRecord sc) p
  let p ← optionalSection "[ROTATIONS]" id (rotationRecord sc) p
  let p ← nextFile isSingleFileMode files.blocks p
  let p ← optionalSection "[DEFINITIONS]" (fun s => { s with m_definitions := fun _ => none })
    (definitionRecord sc) p
  if hasSection p.1 "[BLOCKS]" then .ok (p.1, p.2.seekg (indexOf p.1 "[BLOCKS]"))
  else .error (Exit.ret false p.1)

/-- The part of `load` before the blocks are read: the single file is tried first, then
`shapes.seq`; if neither can be read `load` returns `false`.  Its result is the members and
the stream at the point where `load` clears the block table. -/
def loadPrefix (W : LongBits) (sc : Scanners) (files : Files) (s0 : State) :
    Except Exit (State × IStream) :=
  let first := IStream.open files.single
  let isSingleFileMode := first.good
  let is := if isSingleFileMode then first else IStream.open files.shapes
  if is.good = false then .error (Exit.ret false s0)
  else loadSections W sc files isSingleFileMode s0 is

/-- The part of `load` that reads the blocks, from `m_blocks.clear()` on: the block loop and
the check of the number of blocks, with `numBlocks` the local the source initialises to `0`
and never assigns.  The banner printed before `return true` is left out. -/
def loadBlocks (sc : Scanners) (p : State × IStream) : Except Exit State := do
  let numBlocks : Nat := 0
  let q ← sectionLoop (blockRecord sc) (p.2.data.length + 1) { p.1 with m_blocks := [] } p.2
  if numBlocks > 0 ∧ q.1.m_blocks.length ≠ numBlocks then .error (Exit.ret false q.1)
  else .ok q.1

/-- The function `ExternalSequence::load(path)` on the members `s0`: the value it returns and
the members afterwards; `W` is the width the combined version is reduced to. -/
def load (W : LongBits) (sc : Scanners) (files : Files) (s0 : State) :
    Except Fault (Bool × State) :=
  match loadPrefix W sc files s0 >>= loadBlocks sc with
  | .ok s => .ok (true, s)
  | .error (Exit.ret value s) => .ok (value, s)
  | .error (Exit.fault f) => .error f

/-! ### The rows of a section, for the statements about `load` -/

/-- The event ids `load` takes from a line of the `[BLOCKS]` section: fields 2 to 8 as far as
they scan, `0` for the rest. -/
def rowEvents (sc : Scanners) (line : List Char) : EventIDs :=
  let r := sscanf sc line
    [Conv.d, Conv.d, Conv.d, Conv.d, Conv.d, Conv.d, Conv.d, Conv.d]
  ⟨argInt r.2 1 0, argInt r.2 2 0, argInt r.2 3 0, argInt r.2 4 0, argInt r.2 5 0,
    argInt r.2 6 0, argInt r.2 7 0⟩

/-- The number of integers that scan from a line of the `[BLOCKS]` section, as `sscanf`
returns it. -/
def rowCount (sc : Scanners) (line : List Char) : Int :=
  (sscanf sc line [Conv.d, Conv.d, Conv.d, Conv.d, Conv.d, Conv.d, Conv.d, Conv.d]).1

/-- The first `n` rows a record loop reads from the stream: the lines `getline` delivers
that do not end the loop (not empty, not starting with `[`); `none` if there are fewer. -/
def takeRows : Nat → IStream → Option (List (List Char))
  | 0, _ => some []
  | n + 1, is =>
      let r := getline is MAX_LINE_SIZE
      if r.ok = true ∧ r.buffer.first ≠ '[' then
        match r.buffer.cstr with
        | .ok line =>
            if line.length = 0 then none
            else (takeRows n r.stream).map fun rows => line :: rows
        | .error _ => none
      else none

/-! ### Examples of input -/

/-- Scanners for the examples: a floating-point value written as a plain integer. -/
def integerScanners : Scanners :=
  { scanFloat := fun input => (scanInteger input).map fun r => ((r.1 : ℚ), r.2)
    extractDouble := fun input =>
      (scanInteger (input.dropWhile isSpace)).map fun r => ((r.1 : ℚ), r.2) }

/-- A single `.seq` file with the given text. -/
def singleFile (text : String) : Files := ⟨some text.toList, none, none, none⟩

/-! ### Notions for the proofs about `load` -/

/-- The stream `r` is `is` after some reads: the same bytes, a position that has not moved
back and has not passed the end of the data if it was not past it before. -/
def Advances (is r : IStream) : Prop :=
  r.data = is.data ∧ is.pos ≤ r.pos ∧ (is.pos ≤ is.data.length → r.pos ≤ is.data.length)

/-- Whether the block loop of `load` accepts the line: `sscanf` returns at most 7 and the
ids it has scanned pass `checkBlockReferences`. -/
def rowAccepted (sc : Scanners) (s : State) (line : List Char) : Bool :=
  !decide (7 < rowCount sc line) && checkBlockReferences s (rowEvents sc line)

/-- What a caller observes of a call of `load`: the value returned and the block table
afterwards; `none` on a fault. -/
def loadResult (r : Except Fault (Bool × State)) : Option (Bool × List EventIDs) :=
  match r with
  | .ok (value, s) => some (value, s.m_blocks)
  | .error _ => none

/-- The fuel `fuel` is enough for a loop that calls `getline` once per pass on the stream
`is`: one pass for each byte left, and one for the call that fails. -/
def Fueled (fuel : Nat) (is : IStream) : Prop :=
  1 ≤ fuel ∧ (is.pos ≤ is.data.length → is.data.length + 1 ≤ fuel + is.pos)

/-- The fuel `fuel` is enough for a loop that tests `is.good()` and then reads at least one
line per pass, entered after a first read. -/
def FueledAfterRead (fuel : Nat) (is : IStream) : Prop :=
  1 ≤ fuel ∧ (is.good = true → is.pos ≤ is.data.length ∧ is.data.length + 2 ≤ fuel + is.pos)

/-! ## Clamping of the decoded samples -/

/-- The two statements `if (v[i] > hi) v[i] = hi; if (v[i] < lo) v[i] = lo;` the clamping
functions apply to a sample, with their reads and writes of `v[i]`. -/
def clampAt (lo hi : ℚ) (v : List ℚ) (i : Int) : Except Fault (List ℚ) := do
  let a ← readAt v i
  let v1 ← if a > hi then writeAt v i hi else pure v
  let b ← readAt v1 i
  if b < lo then writeAt v1 i lo else pure v1

/-- The inner loop of `checkGradient`, `for (j = 0; j < waveform.size(); j++)` with the bounds
`-1.0` and `1.0`; `n` is the number of iterations left. -/
def checkGradientLoop : Nat → Int → List ℚ → Except Fault (List ℚ)
  | 0, _, waveform => .ok waveform
  | n + 1, j, waveform => do
      let waveform1 ← clampAt (-1) 1 waveform j
      checkGradientLoop n (j + 1) waveform1

/-- One pass of the outer loop of `checkGradient`, on `block.gradWaveforms[i]`. -/
def checkGradientChannel (block : SeqBlock) (i : Nat) : Except Fault SeqBlock := do
  let waveform := block.gradWaveforms.get i
  let waveform1 ← checkGradientLoop waveform.length 0 waveform
  pure { block with gradWaveforms := block.gradWaveforms.set i waveform1 }

/-- The function `ExternalSequence::checkGradient(block)`. -/
def checkGradient (block : SeqBlock) : Except Fault SeqBlock :=
  [0, 1, 2].foldlM checkGradientChannel block

/-- One pass of the loop of `checkRF`: `block.rfAmplitude[i]` is clamped to `0.0` and `1.0`,
then `block.rfPhase[i]` to `0` and `TWO_PI - 1.e-4`.  That constant, which is not rational
and whose `TWO_PI` is declared outside of the sources, is the parameter `U`, both where the
sample is compared with it and where its conversion to `float` is stored. -/
def checkRFAt (U : ℚ) (block : SeqBlock) (i : Int) : Except Fault SeqBlock := do
  let rfAmplitude ← clampAt 0 1 block.rfAmplitude i
  let rfPhase ← clampAt 0 U block.rfPhase i
  pure { block with rfAmplitude := rfAmplitude, rfPhase := rfPhase }

/-- The loop of `checkRF`, `for (i = 0; i < block.rfAmplitude.size(); i++)`, with `n` the
number of iterations left. -/
def checkRFLoop (U : ℚ) : Nat → Int → SeqBlock → Except Fault SeqBlock
  | 0, _, block => .ok block
  | n + 1, i, block => do
      let block1 ← checkRFAt U block i
      checkRFLoop U n (i + 1) block1

/-- The function `ExternalSequence::checkRF(block)`, with `U` for `TWO_PI - 1.e-4`. -/
def checkRF (U : ℚ) (block : SeqBlock) : Except Fault SeqBlock :=
  checkRFLoop U block.rfAmplitude.length 0 block

/-- The value `x` clamped to `[lo, hi]`: `hi` if it is above, else `lo` if it is below. -/
def clampTo (lo hi x : ℚ) : ℚ :=
  let y := if x > hi then hi else x
  if y < lo then lo else y

/-- A `float` as a sample can hold it: a finite value, or a NaN, which `sscanf` stores for
the text `nan`. -/
inductive Sample where
  | finite (v : ℚ)
  | nan
  deriving DecidableEq

/-- The comparison `x > c` of a sample with a constant: false when the sample is a NaN. -/
def Sample.above : Sample → ℚ → Bool
  | .finite v, c => decide (v > c)
  | .nan, _ => false

/-- The comparison `x < c` of a sample with a constant: false when the sample is a NaN. -/
def Sample.below : Sample → ℚ → Bool
  | .finite v, c => decide (v < c)
  | .nan, _ => false

/-- The two statements `if (x > hi) x = hi; if (x < lo) x = lo;` of the clamping functions,
on a sample that may be a NaN. -/
def clampSample (lo hi : ℚ) (x : Sample) : Sample :=
  let y := if x.above hi then Sample.finite hi else x
  if y.below lo then Sample.finite lo else y

/-- A block for the examples of clamping: the given RF amplitude and phase samples, and the
given waveform on the x channel. -/
def sampleBlock (rfAmplitude rfPhase gx : List ℚ) : SeqBlock :=
  { SeqBlock.blank with
    rfAmplitude := rfAmplitude, rfPhase := rfPhase, gradWaveforms := ⟨gx, [], []⟩ }

/-! ### The steps of `fetchEvents`, one by one, for the proofs about `GetBlock` -/

/-- The block of `fetchEvents` before the first event is fetched. -/
def fetchInit (fresh : SeqBlock) (index : Int) (events : EventIDs) : SeqBlock :=
  { fresh with
    events := events, index := index, delay := 0, adc := { fresh.adc with numSamples := 0 } }

/-- The statement `if (events.id[RF]>0) block->rf = m_rfLibrary[events.id[RF]]`. -/
def fetchRF (events : EventIDs) (p : SeqBlock × State) : SeqBlock × State :=
  if events.rf > 0 then
    let r := p.2.m_rfLibrary.index events.rf RFEvent.zero
    ({ p.1 with rf := r.1 }, { p.2 with m_rfLibrary := r.2 })
  else p

/-- The statement `if (events.id[ADC]>0) block->adc = m_adcLibrary[events.id[ADC]]`. -/
def fetchADC (events : EventIDs) (p : SeqBlock × State) : SeqBlock × State :=
  if events.adc > 0 then
    let r := p.2.m_adcLibrary.index events.adc ADCEvent.zero
    ({ p.1 with adc := r.1 }, { p.2 with m_adcLibrary := r.2 })
  else p

/-- The statement `if (events.id[DELAY]>0) block->delay = m_delayLibrary[events.id[DELAY]]`. -/
def fetchDelay (events : EventIDs) (p : SeqBlock × State) : SeqBlock × State :=
  if events.delay > 0 then
    let r := p.2.m_delayLibrary.index events.delay 0
    ({ p.1 with delay := r.1 }, { p.2 with m_delayLibrary := r.2 })
  else p

/-- The statement `if (events.id[CTRL]>0) block->control = m_controlLibrary[events.id[CTRL]]`. -/
def fetchControl (events : EventIDs) (p : SeqBlock × State) : SeqBlock × State :=
  if events.ctrl > 0 then
    let r := p.2.m_controlLibrary.index events.ctrl ControlEvent.zero
    ({ p.1 with control := r.1 }, { p.2 with m_controlLibrary := r.2 })
  else p

/-- What a step of `fetchEvents` leaves alone: of the block the ids, the index and the
decoded samples, of the members the block table, the shape library and the version. -/
def Untouched (p q : SeqBlock × State) : Prop :=
  q.1.events = p.1.events ∧ q.1.index = p.1.index ∧ q.1.rfAmplitude = p.1.rfAmplitude ∧
  q.1.rfPhase = p.1.rfPhase ∧ q.1.gradWaveforms = p.1.gradWaveforms ∧
  q.2.m_blocks = p.2.m_blocks ∧ q.2.m_shapeLibrary = p.2.m_shapeLibrary ∧
  q.2.version_combined = p.2.version_combined

/-! ### The number of samples a shape decodes to -/

/-- The number of samples the decode loop of `decompressShape` has emitted into `shape` when
the cumulative sum starts: `countUnpack - 1` after the `while` loop, and one more when the
statement after the loop stores a trailing literal. -/
def emittedSamples (encoded : CompressedShape) (shape : List ℚ) : Except Fault Int := do
  let packed := encoded.samples
  let numPacked : Int := packed.length
  let counters ← unpackLoop packed numPacked packed.length 1 1 shape
  let _ ← trailingLiteral packed numPacked counters
  pure (if counters.1 = numPacked then counters.2.1 else counters.2.1 - 1)

/-- The buffer a caller passes for a shape: `waveform.resize(numUncompressedSamples)` on an
empty vector. -/
def freshBuffer (encoded : CompressedShape) : List ℚ :=
  List.replicate encoded.numUncompressedSamples.toNat 0

/-- What a caller observes of the shape `id` after a call of `load`: the value returned and
the entry of the shape library, as declared length and packed samples. -/
def storedShape (r : Except Fault (Bool × State)) (id : Int) :
    Option (Bool × Option (Int × List ℚ)) :=
  match r with
  | .ok (value, s) =>
      some (value, (s.m_shapeLibrary id).map fun e => (e.numUncompressedSamples, e.samples))
  | .error _ => none

/-! ### The records of a section, for the statement about the libraries -/

/-- The rows a record loop of `load` reads from the stream until it ends: the lines `getline`
delivers up to the first that is empty or starts with `[`, or to the end of the data; and
the stream when the loop is left. -/
def sectionRows : Nat → IStream → Option (List (List Char) × IStream)
  | 0, _ => none
  | fuel + 1, is =>
      let r := getline is MAX_LINE_SIZE
      if r.ok = false then some ([], r.stream)
      else if r.buffer.first = '[' then some ([], r.stream)
      else
        match r.buffer.cstr with
        | .error _ => none
        | .ok line =>
            if line.length = 0 then some ([], r.stream)
            else (sectionRows fuel r.stream).map fun p => (line :: p.1, p.2)

/-- The id and the fields of a well-formed line of the `[RF]` section under the combined
version `vc`; `none` for a line that is not well-formed. -/
def rfFields (sc : Scanners) (vc : Int) (line : List Char) : Option (Int × RFEvent) :=
  if vc < 1002000 then
    let r := sscanf sc line [Conv.d, Conv.f, Conv.d, Conv.d, Conv.f, Conv.f]
    if r.1 = 6 then
      some (argInt r.2 0 0,
        ⟨argReal r.2 1, argInt r.2 2 0, argInt r.2 3 0, 0, argReal r.2 4, argReal r.2 5⟩)
    else none
  else
    let r := sscanf sc line [Conv.d, Conv.f, Conv.d, Conv.d, Conv.d, Conv.f, Conv.f]
    if r.1 = 7 then
      some (argInt r.2 0 0,
        ⟨argReal r.2 1, argInt r.2 2 0, argInt r.2 3 0, argInt r.2 4 0, argReal r.2 5,
          argReal r.2 6⟩)
    else none

/-- The id and the fields of a well-formed line of the `[GRADIENTS]` section. -/
def gradFields (sc : Scanners) (vc : Int) (line : List Char) : Option (Int × GradEvent) :=
  if vc ≥ 1001001 then
    let r := sscanf sc line [Conv.d, Conv.f, Conv.d, Conv.d]
    if r.1 = 4 then
      some (argInt r.2 0 0,
        { GradEvent.zero with
          amplitude := argReal r.2 1, shape := argInt r.2 2 0, delay := argInt r.2 3 0 })
    else none
  else
    let r := sscanf sc line [Conv.d, Conv.f, Conv.d]
    if r.1 = 3 then
      some (argInt r.2 0 0,
        { GradEvent.zero with amplitude := argReal r.2 1, shape := argInt r.2 2 0, delay := 0 })
    else none

/-- The id and the fields of a well-formed line of the `[TRAP]` section. -/
def trapFields (sc : Scanners) (vc : Int) (line : List Char) : Option (Int × GradEvent) :=
  if vc ≥ 1001001 then
    let r := sscanf sc line [Conv.d, Conv.f, Conv.ld, Conv.ld, Conv.ld, Conv.d]
    if r.1 = 6 then
      some (argInt r.2 0 0,
        ⟨argReal r.2 1, argInt r.2 2 0, argInt r.2 3 0, argInt r.2 4 0, argInt r.2 5 0, 0⟩)
    else none
  else
    let r := sscanf sc line [Conv.d, Conv.f, Conv.ld, Conv.ld, Conv.ld]
    if r.1 = 5 then
      some (argInt r.2 0 0,
        ⟨argReal r.2 1, argInt r.2 2 0, argInt r.2 3 0, argInt r.2 4 0, 0, 0⟩)
    else none

/-- The id and the fields of a well-formed line of the `[ADC]` section. -/
def adcFields (sc : Scanners) (_vc : Int) (line : List Char) : Option (Int × ADCEvent) :=
  let r := sscanf sc line [Conv.d, Conv.d, Conv.d, Conv.d, Conv.f, Conv.f]
  if r.1 = 6 then
    some (argInt r.2 0 0,
      ⟨argInt r.2 1 0, argInt r.2 2 0, argInt r.2 3 0, argReal r.2 4, argReal r.2 5⟩)
  else none

/-- The id and the duration of a well-formed line of the `[DELAYS]` section. -/
def delayFields (sc : Scanners) (_vc : Int) (line : List Char) : Option (Int × Int) :=
  let r := sscanf sc line [Conv.d, Conv.ld]
  if r.1 = 2 then some (argInt r.2 0 0, argInt r.2 1 0) else none

/-- The id and the fields of a well-formed line of the `[TRIGGERS]` section. -/
def triggerFields (sc : Scanners) (_vc : Int) (line : List Char) :
    Option (Int × ControlEvent) :=
  let r := sscanf sc line [Conv.d, Conv.d, Conv.ld]
  if r.1 = 3 then
    some (argInt r.2 0 0,
      { ControlEvent.zero with
        type := ControlType.TRIGGER, triggerType := argInt r.2 1 0, duration := argInt r.2 2 0 })
  else none

/-- The id and the fields of a well-formed line of the `[ROTATIONS]` section. -/
def rotationFields (sc : Scanners) (_vc : Int) (line : List Char) :
    Option (Int × ControlEvent) :=
  let r := sscanf sc line
    [Conv.d, Conv.lf, Conv.lf, Conv.lf, Conv.lf, Conv.lf, Conv.lf, Conv.lf, Conv.lf, Conv.lf]
  if r.1 = 10 then
    some (argInt r.2 0 0,
      { ControlEvent.zero with
        type := ControlType.ROTATION
        rotMatrix := (List.range 9).map fun i => argReal r.2 (i + 1) })
  else none

/-- The fields of the last of the `records` that carries the id `id`. -/
def lastRecord {α : Type} (records : List (Int × α)) (id : Int) : Option α :=
  (records.reverse.find? fun r => decide (r.1 = id)).map fun r => r.2

/-- Last write wins, for a record loop with the body `body` that fills the library `lib`:
when every row the loop reads is well-formed (`fields` gives its id and fields), the loop
returns, and the library afterwards maps each id some row carries to the fields of the last
row carrying it, as its one entry for that id, and every other id as before. -/
def LastWriteWins {α : Type} (body : State → List Char → Except Exit State)
    (fields : Int → List Char → Option (Int × α)) (lib : State → Lib α) : Prop :=
  ∀ (fuel : Nat) (s : State) (is is1 : IStream) (rows : List (List Char)),
    sectionRows fuel is = some (rows, is1) →
    (∀ row ∈ rows, (fields s.version_combined row).isSome = true) →
    ∃ s1, sectionLoop body fuel s is = .ok (s1, is1) ∧
      ∀ id,
        (∀ v, lastRecord (rows.filterMap (fields s.version_combined)) id = some v →
          lib s1 id = some v ∧ (lib s1).count id = 1) ∧
        (lastRecord (rows.filterMap (fields s.version_combined)) id = none →
          lib s1 id = lib s id)

/-! ### Repeated calls of `getline` -/

/-- The stream after `n` calls of `getline(is, buffer, MAX_SIZE)`. -/
def afterCalls (MAX_SIZE : Nat) : Nat → IStream → IStream
  | 0, is => is
  | n + 1, is => afterCalls MAX_SIZE n (getline is MAX_SIZE).stream

/-! ### Text made of lines, for the statement about the section index -/

/-- A line of a text with its terminator: the characters of the line, and whether it ends
with `\r\n` rather than a bare `\n`. -/
structure TextLine where
  content : List Char
  crlf : Bool

/-- The bytes of a line, terminator included. -/
def TextLine.bytes (l : TextLine) : List Char :=
  l.content ++ (if l.crlf then ['\r', '\n'] else ['\n'])

/-- The bytes of a text made of the lines `lines`. -/
def textOf : List TextLine → List Char
  | [] => []
  | l :: ls => l.bytes ++ textOf ls

/-- The line begins with `[` and ends with `]`. -/
def isTag (content : List Char) : Bool :=
  decide (content.head? = some '[') && decide (content.getLast? = some ']')

/-- Each line of `lines` with the byte offset immediately after it, the first line starting
at the offset `start`. -/
def lineEnds : Nat → List TextLine → List (List Char × Int)
  | _, [] => []
  | start, l :: ls =>
      (l.content, ((start + l.bytes.length : Nat) : Int)) :: lineEnds (start + l.bytes.length) ls

/-- The offset after the last of the lines `ends` that is a tag and reads `key`. -/
def tagOffset (ends : List (List Char × Int)) (key : List Char) : Option Int :=
  (ends.reverse.find? fun p => isTag p.1 && decide (p.1 = key)).map fun p => p.2

/-- A line the line reader returns whole and unchanged: shorter than `MAX_LINE_SIZE` and
free of the bytes `\n`, `\r`, `0x00` and `0xFF`. -/
def PlainLine (l : TextLine) : Prop :=
  l.content.length < MAX_LINE_SIZE ∧
    ∀ c ∈ l.content, c ≠ '\n' ∧ c ≠ '\r' ∧ c ≠ Char.ofNat 255 ∧ c ≠ Char.ofNat 0

/-- What a caller observes of the tag `tag` after a call of `buildFileIndex`: its entry in
the index, and the read position of the stream. -/
def indexedAt (r : Except Fault (State × IStream)) (tag : String) : Option (Option Int × Nat) :=
  match r with
  | .ok (s, is) => some (s.m_fileIndex tag.toList, is.pos)
  | .error _ => none

/-! ### The version fields across `load` -/

/-- The stream `load` reads the index, the version and the shapes from: the single `.seq`
file if it can be read, else `shapes.seq`. -/
def firstFile (files : Files) : IStream :=
  if (IStream.open files.single).good then IStream.open files.single
  else IStream.open files.shapes

/-- The first `n` lines the loop over the `[VERSION]` section processes, from the buffer and
the stream the first `skipComments` has left, and the buffer and the stream after them. -/
def versionLines : Nat → Buffer → IStream → Option (List (List Char) × Buffer × IStream)
  | 0, buffer, is => some ([], buffer, is)
  | n + 1, buffer, is =>
      if is.good && decide (buffer.first ≠ '[') then
        match buffer.cstr with
        | .error _ => none
        | .ok line =>
            match skipComments is with
            | .error _ => none
            | .ok (buffer1, is1) =>
                (versionLines n buffer1 is1).map fun r => (line :: r.1, r.2)
      else none

/-- In the words of the specification: the version fields `(major, minor, revision)` after
a line of the `[VERSION]` section is parsed, from the fields `v` before it.  A line that
begins with `major`, `minor` or `revision` and after which an integer scans (`%d`) gives
that field its value; the other fields keep theirs. -/
def parsedField (sc : Scanners) (line : List Char) (v : Int × Int × Int) : Int × Int × Int :=
  if line.take 5 = "major".toList then
    match scanVersionField sc line 5 with
    | some x => (x, v.2.1, v.2.2)
    | none => v
  else if line.take 5 = "minor".toList then
    match scanVersionField sc line 5 with
    | some x => (v.1, x, v.2.2)
    | none => v
  else if line.take 8 = "revision".toList then
    match scanVersionField sc line 8 with
    | some x => (v.1, v.2.1, x)
    | none => v
  else v

/-- In the words of the specification: the version fields `(major, minor, revision)` parsed
from the lines of the `[VERSION]` section, in the order of the file and from the fields `v`
on: the last line of a key gives the field its value. -/
def parsedVersion (sc : Scanners) : List (List Char) → Int × Int × Int → Int × Int × Int
  | [], v => v
  | line :: rest, v => parsedVersion sc rest (parsedField sc line v)

/-- A line of the `[VERSION]` section the loop does not accept: it begins with none of
`major`, `minor`, `revision`, or no integer scans (`%d`) from what follows that word. -/
def BadVersionLine (sc : Scanners) (line : List Char) : Prop :=
  (line.take 5 ≠ "major".toList ∧ line.take 5 ≠ "minor".toList ∧
    line.take 8 ≠ "revision".toList) ∨
  (line.take 5 = "major".toList ∧ scanVersionField sc line 5 = none) ∨
  (line.take 5 = "minor".toList ∧ scanVersionField sc line 5 = none) ∨
  (line.take 8 = "revision".toList ∧ scanVersionField sc line 8 = none)

/-- What a caller observes of the version after a call of `load`: the value returned and the
members `version_major`, `version_minor`, `version_revision` and `version_combined`. -/
def versionResult (r : Except Fault (Bool × State)) : Option (Bool × Int × Int × Int × Int) :=
  match r with
  | .ok (value, s) =>
      some (value, s.version_major, s.version_minor, s.version_revision, s.version_combined)
  | .error _ => none

/-- The members `t` hold the version fields of `s`. -/
def SameVersion (s t : State) : Prop :=
  t.version_major = s.version_major ∧ t.version_minor = s.version_minor ∧
  t.version_revision = s.version_revision ∧ t.version_combined = s.version_combined

/-- A condition on every way a part of `load` can end: `Good` holds of the members when it
falls through, and when it makes `load` return, the value returned is `false` and `Bad`
holds of the members. -/
def Post {β : Type} (st : β → State) (Good Bad : State → Prop) (r : Except Exit β) : Prop :=
  match r with
  | .ok b => Good (st b)
  | .error (Exit.ret value t) => value = false ∧ Bad t
  | .error (Exit.fault _) => True

/-! ## Decoding a block -/

/-- The call `waveform.resize(n)` with an `int` count: the vector keeps its first `n` samples
and is filled up with zeros.  A negative count converts to a size no vector can have, and
the call throws. -/
def resize (waveform : List ℚ) (n : Int) : Except Fault (List ℚ) :=
  if n < 0 then .error .lengthError
  else .ok (waveform.take n.toNat ++ List.replicate (n.toNat - waveform.length) 0)

/-- The statements `waveform.resize(shape.numUncompressedSamples);
decompressShape(shape, &waveform[0]);` of `decodeBlock`: the vector `waveform` afterwards. -/
def decodeShape (add : ℚ → ℚ → ℚ) (shape : CompressedShape) (waveform : List ℚ) :
    Except Fault (List ℚ) := do
  let waveform1 ← resize waveform shape.numUncompressedSamples
  decompressShape add shape waveform1

/-- The part `if (block->isRF()) { ... }` of `decodeBlock`, on the block, the members and the
local vector `waveform`: the amplitude is decoded from the mag shape and stored, the phase
shape is decoded into `waveform` and not stored. -/
def decodeRF (add : ℚ → ℚ → ℚ) (p : SeqBlock × State × List ℚ) :
    Except Fault (SeqBlock × State × List ℚ) :=
  if p.1.isRF then do
    let r := p.2.1.m_shapeLibrary.index p.1.rf.magShape CompressedShape.zero
    let waveform1 ← decodeShape add r.1 p.2.2
    let block1 := { p.1 with rfAmplitude := waveform1 }
    let s1 := { p.2.1 with m_shapeLibrary := r.2 }
    let r2 := s1.m_shapeLibrary.index block1.rf.phaseShape CompressedShape.zero
    let waveform2 ← decodeShape add r2.1 waveform1
    pure (block1, { s1 with m_shapeLibrary := r2.2 }, waveform2)
  else pure p

/-- One pass of the loop `for (iC = GX; iC < ADC; iC++)` of `decodeBlock`, on the channel
`i = iC - GX`. -/
def decodeGrad (add : ℚ → ℚ → ℚ) (p : SeqBlock × State × List ℚ) (i : Nat) :
    Except Fault (SeqBlock × State × List ℚ) :=
  if p.1.isArbitraryGradient i then do
    let r := p.2.1.m_shapeLibrary.index (p.1.grad.get i).shape CompressedShape.zero
    let waveform1 ← decodeShape add r.1 p.2.2
    pure ({ p.1 with gradWaveforms := p.1.gradWaveforms.set i waveform1 },
      { p.2.1 with m_shapeLibrary := r.2 }, waveform1)
  else pure p

/-- The function `ExternalSequence::decodeBlock(block)`, which always returns `true`: the
block and the members afterwards.  `U` stands for `TWO_PI - 1.e-4`.  The message printed on
entry is left out, and `&waveform[0]` of an empty vector is taken as a valid argument. -/
def decodeBlock (add : ℚ → ℚ → ℚ) (U : ℚ) (s : State) (block : SeqBlock) :
    Except Fault (SeqBlock × State) := do
  let p ← decodeRF add (block, s, [])
  let p ← [0, 1, 2].foldlM (decodeGrad add) p
  let block1 ← checkGradient p.1
  let block2 ← checkRF U block1
  pure (block2, p.2.1)

/-- The call of `GetBlock` followed by `decodeBlock` on the block it returns. -/
def materialize (L : LongBits) (add : ℚ → ℚ → ℚ) (U : ℚ) (s : State) (fresh : SeqBlock)
    (index : Int) : Except Fault (SeqBlock × State) := do
  let r ← GetBlock L s fresh index
  decodeBlock add U r.2 r.1

/-- Every shape id an event of the block names is a key of the shape library: the mag and
the phase shape of a present RF event, and the shape of every arbitrary gradient. -/
def ShapesResolve (s : State) (block : SeqBlock) : Prop :=
  (block.isRF = true → Resolves s.m_shapeLibrary block.rf.magShape ∧
    Resolves s.m_shapeLibrary block.rf.phaseShape) ∧
  ∀ i, i < 3 → block.isArbitraryGradient i = true →
    Resolves s.m_shapeLibrary (block.grad.get i).shape

/-- The members `t` are the members `s` but for entries added to the shape library: every
other member, so the block table and each of the five event libraries, is the same, and
every key of the shape library of `s` is held with its value. -/
def OnlyShapesAdded (s t : State) : Prop :=
  t = { s with m_shapeLibrary := t.m_shapeLibrary } ∧
  ∀ id, Resolves s.m_shapeLibrary id → t.m_shapeLibrary id = s.m_shapeLibrary id

/-- The shape ids the duration computation of `GetBlock` looks up for the block: the mag
shape of a present RF event and the shape of every arbitrary gradient. -/
def TimedShape (block : SeqBlock) (id : Int) : Prop :=
  (block.isRF = true ∧ id = block.rf.magShape) ∨
  ∃ i, i < 3 ∧ block.isArbitraryGradient i = true ∧ id = (block.grad.get i).shape

/-- The shape ids an event of the block names: the mag and the phase shape of a present RF
event and the shape of every arbitrary gradient. -/
def NamedShape (block : SeqBlock) (id : Int) : Prop :=
  (block.isRF = true ∧ (id = block.rf.magShape ∨ id = block.rf.phaseShape)) ∨
  ∃ i, i < 3 ∧ block.isArbitraryGradient i = true ∧ id = (block.grad.get i).shape

/-- Of the ids that are not keys of the shape library of `s`, the shape library of `t`
holds those that satisfy `named`, each with a value-initialised shape, and no other. -/
def AddedShapes (s t : State) (named : Int → Prop) : Prop :=
  ∀ id, s.m_shapeLibrary id = none →
    (named id → t.m_shapeLibrary id = some CompressedShape.zero) ∧
    (¬ named id → t.m_shapeLibrary id = none)

/-- Every entry of the block table passes `checkBlockReferences` on the members. -/
def BlocksResolve (s : State) : Prop :=
  ∀ e, e ∈ s.m_blocks → checkBlockReferences s e = true

/-- What a caller observes of the shape `id` before and after a block is materialised:
whether `load` returned `true`, the number of entries of the id in the shape library after
`load`, and that number after `GetBlock` and `decodeBlock` on the block `index`. -/
def shapeCountAround (L : LongBits) (add : ℚ → ℚ → ℚ) (U : ℚ)
    (r : Except Fault (Bool × State)) (index id : Int) : Option (Bool × Nat × Nat) :=
  match r with
  | .ok (value, s) =>
      match materialize L add U s SeqBlock.blank index with
      | .ok (_, t) => some (value, s.m_shapeLibrary.count id, t.m_shapeLibrary.count id)
      | .error _ => none
  | .error _ => none

/-- What a caller gets from `load` followed by `GetBlock` and `decodeBlock` on the block
`index`: the value `load` has returned and the decoded block, or the fault. -/
def decodedAfterLoad (L : LongBits) (add : ℚ → ℚ → ℚ) (U : ℚ)
    (r : Except Fault (Bool × State)) (index : Int) : Except Fault (Bool × SeqBlock) := do
  let p ← r
  let q ← materialize L add U p.2 SeqBlock.blank index
  pure (p.1, q.1)

/-- An example with a shape that is shorter than it declares: the shape 1 declares 2 samples
and packs one, the shape 2 declares 2 samples and packs two; the gradient 1 has the shape 1
and the gradient 2 the shape 2.  The block 0 has the gradient 1 on the y channel, the block
1 the gradient 2 on the x channel and the gradient 1 on the y channel, the block 2 the
gradient 1 on the x channel and the gradient 2 on the y channel, and the block 3 the
gradient 2 on the y channel. -/
def staleExample : State :=
  { State.init 0 with
    m_shapeLibrary := (Lib.empty.assign 1 ⟨2, [1]⟩).assign 2 ⟨2, [-1, 0]⟩
    m_gradLibrary := (Lib.empty.assign 1 ⟨1, 0, 0, 0, 0, 1⟩).assign 2 ⟨1, 0, 0, 0, 0, 2⟩
    m_blocks := [⟨0, 0, 0, 1, 0, 0, 0⟩, ⟨0, 0, 2, 1, 0, 0, 0⟩, ⟨0, 0, 1, 2, 0, 0, 0⟩,
      ⟨0, 0, 0, 2, 0, 0, 0⟩] }

/-- What a caller observes of a gradient channel after `GetBlock` and `decodeBlock` on the
block `index`: the event of the channel and its decoded waveform; `none` on a fault. -/
def gradWaveformAt (L : LongBits) (add : ℚ → ℚ → ℚ) (U : ℚ) (s : State) (index : Int)
    (i : Nat) : Option (GradEvent × List ℚ) :=
  match materialize L add U s SeqBlock.blank index with
  | .ok (b, _) => some (b.grad.get i, b.gradWaveforms.get i)
  | .error _ => none

/-- The block `GetBlock` returns for an entry of `staleExample`: the gradients `gx` and `gy`
on the x and the y channel and the duration, nothing else. -/
def staleBlock (index : Int) (ids : EventIDs) (gx gy : GradEvent) (duration : Int) :
    SeqBlock :=
  { SeqBlock.blank with
    events := ids
    index := index
    grad := ⟨gx, gy, GradEvent.zero⟩
    duration := duration }

/-! # Theorems -/

/-! ## The sum of two samples -/

theorem roundHalfEven_below (y : ℚ) (f : Int) (h1 : (f : ℚ) ≤ y) (h2 : y < f + 1 / 2) :
    roundHalfEven y = f := by
  have hf : ⌊y⌋ = f := by
    rw [Int.floor_eq_iff]
    constructor
    · exact h1
    · linarith
  unfold roundHalfEven
  simp only [hf]
  rw [if_pos (by linarith)]

theorem roundHalfEven_above (y : ℚ) (f : Int) (h1 : (f : ℚ) + 1 / 2 < y) (h2 : y < f + 1) :
    roundHalfEven y = f + 1 := by
  have hf : ⌊y⌋ = f := by
    rw [Int.floor_eq_iff]
    constructor
    · linarith
    · exact h2
  unfold roundHalfEven
  simp only [hf]
  rw [if_neg (by linarith), if_pos (by linarith)]

theorem roundHalfEven_tie (y : ℚ) (f : Int) (h1 : y = f + 1 / 2) (h2 : f % 2 = 0) :
    roundHalfEven y = f := by
  have hf : ⌊y⌋ = f := by
    rw [Int.floor_eq_iff]
    constructor
    · linarith
    · linarith
  unfold roundHalfEven
  simp only [hf]
  rw [if_neg (by linarith), if_neg (by linarith), if_pos h2]

theorem floatExponent_eq (x : ℚ) (e : Int) (he : -126 ≤ e) (h1 : (2 : ℚ) ^ e ≤ |x|)
    (h2 : |x| < (2 : ℚ) ^ (e + 1)) : floatExponent x = e := by
  have hpos : 0 < |x| := lt_of_lt_of_le (by positivity) h1
  have a1 : e ≤ Int.log 2 |x| :=
    (Int.zpow_le_iff_le_log (by norm_num) hpos).mp (by exact_mod_cast h1)
  have a2 : Int.log 2 |x| < e + 1 :=
    (Int.lt_zpow_iff_log_lt (by norm_num) hpos).mp (by exact_mod_cast h2)
  unfold floatExponent
  rw [max_eq_left (by omega)]
  omega

theorem roundFloat_rounded (x : ℚ) (e n : Int) (he : -126 ≤ e)
    (h1 : (2 : ℚ) ^ e ≤ |x|) (h2 : |x| < (2 : ℚ) ^ (e + 1))
    (hr : roundHalfEven (x / 2 ^ (e - 23)) = n) :
    roundFloat x = (n : ℚ) * 2 ^ (e - 23) := by
  unfold roundFloat
  rw [floatExponent_eq x e he h1 h2, hr]

theorem floatAdd_rounded (a b : ℚ) (e n : Int) (he : -126 ≤ e)
    (h1 : (2 : ℚ) ^ e ≤ |a + b|) (h2 : |a + b| < (2 : ℚ) ^ (e + 1))
    (hr : roundHalfEven ((a + b) / 2 ^ (e - 23)) = n) :
    floatAdd a b = (n : ℚ) * 2 ^ (e - 23) :=
  roundFloat_rounded (a + b) e n he h1 h2 hr

theorem floatAdd_below (a b : ℚ) (e n : Int) (r : ℚ) (he : -126 ≤ e)
    (h1 : (2 : ℚ) ^ e ≤ |a + b|) (h2 : |a + b| < (2 : ℚ) ^ (e + 1))
    (h3 : (n : ℚ) ≤ (a + b) / 2 ^ (e - 23)) (h4 : (a + b) / 2 ^ (e - 23) < n + 1 / 2)
    (hr : (n : ℚ) * 2 ^ (e - 23) = r) : floatAdd a b = r := by
  rw [floatAdd_rounded a b e n he h1 h2 (roundHalfEven_below _ n h3 h4), hr]

theorem floatAdd_above (a b : ℚ) (e n : Int) (r : ℚ) (he : -126 ≤ e)
    (h1 : (2 : ℚ) ^ e ≤ |a + b|) (h2 : |a + b| < (2 : ℚ) ^ (e + 1))
    (h3 : (n : ℚ) + 1 / 2 < (a + b) / 2 ^ (e - 23)) (h4 : (a + b) / 2 ^ (e - 23) < n + 1)
    (hr : ((n + 1 : Int) : ℚ) * 2 ^ (e - 23) = r) : floatAdd a b = r := by
  rw [floatAdd_rounded a b e (n + 1) he h1 h2 (roundHalfEven_above _ n h3 h4), hr]

theorem floatAdd_exact (a b : ℚ) (e m : Int) (he : -126 ≤ e) (h1 : (2 : ℚ) ^ e ≤ |a + b|)
    (h2 : |a + b| < (2 : ℚ) ^ (e + 1)) (hm : a + b = (m : ℚ) * 2 ^ (e - 23)) :
    floatAdd a b = a + b := by
  have hp : (0 : ℚ) < 2 ^ (e - 23) := by positivity
  have hq : (a + b) / 2 ^ (e - 23) = (m : ℚ) := by
    rw [hm]
    field_simp
  rw [floatAdd_rounded a b e m he h1 h2
    (by rw [hq]; exact roundHalfEven_below (m : ℚ) m (le_refl _) (by linarith)), ← hm]

theorem floatAdd_zero_sum (a b : ℚ) (h : a + b = 0) : floatAdd a b = 0 := by
  unfold floatAdd roundFloat
  rw [h]
  simp [roundHalfEven]

theorem floatAdd_small :
    floatAdd 0 1 = 1 ∧ floatAdd (-1) 1 = 0 ∧ floatAdd 0 (-1) = -1 := by
  refine ⟨?_, ?_, ?_⟩
  · have h := floatAdd_exact 0 1 0 8388608 (by norm_num) (by norm_num) (by norm_num)
      (by norm_num)
    rw [h]; norm_num
  · exact floatAdd_zero_sum _ _ (by norm_num)
  · have h := floatAdd_exact 0 (-1) 0 (-8388608) (by norm_num) (by norm_num) (by norm_num)
      (by norm_num)
    rw [h]; norm_num

/-! ## Decompression -/

theorem wrapInt_of_range (x : Int) (h1 : -2147483648 ≤ x) (h2 : x ≤ 2147483647) :
    wrapInt x = x := by
  unfold wrapInt; omega

theorem wrapInt_wrapInt_add (x y : Int) : wrapInt (wrapInt x + y) = wrapInt (x + y) := by
  unfold wrapInt; omega

theorem readAt_append_length {α : Type} (pre : List α) (x : α) (tl : List α) :
    readAt (pre ++ x :: tl) (pre.length : Int) = .ok x := by
  have h : ¬ ((pre.length : Int) < 0) := by omega
  have e : (pre ++ x :: tl)[pre.length]? = some x := by
    rw [List.getElem?_append_right (le_refl _)]; simp
  simp only [readAt, h, if_false, Int.toNat_ofNat, e]

theorem writeAt_append_length {α : Type} (w : List α) (x v : α) (r : List α) :
    writeAt (w ++ x :: r) (w.length : Int) v = .ok (w ++ v :: r) := by
  simp [writeAt]

theorem fillRun_append (v : ℚ) (m : Nat) : ∀ (w buf : List ℚ), m ≤ buf.length →
    fillRun v m (w.length : Int) (w ++ buf) = .ok (w ++ List.replicate m v ++ buf.drop m) := by
  induction m with
  | zero => intro w buf _; simp [fillRun]
  | succ m ih =>
    intro w buf h
    cases buf with
    | nil => simp at h
    | cons x r =>
      have h' : m ≤ r.length := by simpa using h
      have := ih (w ++ [v]) r h'
      simp only [List.length_append, List.length_singleton, Nat.cast_add, Nat.cast_one,
        List.append_assoc, List.singleton_append] at this
      simp [fillRun, writeAt_append_length, bind, Except.bind, this, List.replicate_succ]

theorem unpackLoop_exit (packed : List ℚ) (N : Int) (fuel : Nat) (cp cu : Int) (sh : List ℚ)
    (h : ¬ cp < N) : unpackLoop packed N fuel cp cu sh = .ok (cp, cu, sh) := by
  cases fuel <;> simp [unpackLoop, h]

theorem packedOf_eq_nil (ts : List Token) (h : packedOf ts = []) : ts = [] := by
  cases ts with
  | nil => rfl
  | cons t ts => cases t <;> simp [packedOf, Token.packed] at h

theorem floatToInt_natCast (k : ℕ) (h : (k : Int) ≤ 2147483647) :
    floatToInt (k : ℚ) = k := by
  have hk : (0 : Int) ≤ k := Int.natCast_nonneg k
  simp only [floatToInt, Rat.num_natCast, Rat.den_natCast, Nat.cast_one, Int.tdiv_one]
  exact wrapInt_of_range _ (by omega) h


theorem unpackLoop_literal (packed : List ℚ) (N : Int) (fuel : Nat) (cp cu : Int)
    (sh sh1 : List ℚ) (a b : ℚ) (hlt : cp < N) (h1 : readAt packed (cp - 1) = .ok a)
    (h2 : readAt packed cp = .ok b) (hab : a ≠ b) (h3 : writeAt sh (cu - 1) a = .ok sh1) :
    unpackLoop packed N (fuel + 1) cp cu sh
      = unpackLoop packed N fuel (cp + 1) (wrapInt (cu + 1)) sh1 := by
  rw [unpackLoop, if_pos hlt, h1, h2]
  simp only [bind, Except.bind]
  rw [if_pos hab, h3]

theorem unpackLoop_run (packed : List ℚ) (N : Int) (fuel : Nat) (cp cu : Int)
    (sh sh1 : List ℚ) (a c : ℚ) (hlt : cp < N) (h1 : readAt packed (cp - 1) = .ok a)
    (h2 : readAt packed cp = .ok a) (h3 : readAt packed (cp + 1) = .ok c)
    (h4 : fillRun a (wrapInt (wrapInt (cu + wrapInt (floatToInt c + 2)) - 2)
      - (cu - 1) + 1).toNat (cu - 1) sh = .ok sh1) :
    unpackLoop packed N (fuel + 1) cp cu sh
      = unpackLoop packed N fuel (cp + 3) (wrapInt (cu + wrapInt (floatToInt c + 2))) sh1 := by
  rw [unpackLoop, if_pos hlt, h1, h2]
  simp only [bind, Except.bind]
  rw [if_neg (fun h => h rfl), h3]
  simp only []
  rw [h4]

theorem unpack_tokens : ∀ (toks : List Token) (pre w rest : List ℚ) (fuel : Nat),
    Splits toks → rest.length = (expansionOf toks).length →
    ((w.length : Int) + rest.length ≤ 2147483647) → (packedOf toks).length ≤ fuel →
    ∃ c, unpackLoop (pre ++ packedOf toks) ((pre ++ packedOf toks).length : ℕ) fuel
          ((pre.length : Int) + 1) (wrapInt ((w.length : Int) + 1)) (w ++ rest) = .ok c ∧
      trailingLiteral (pre ++ packedOf toks) ((pre ++ packedOf toks).length : ℕ) c
        = .ok (w ++ expansionOf toks) ∧
      ((w.length : Int) + rest.length < 2147483647 →
        (if c.1 = (((pre ++ packedOf toks).length : ℕ) : Int) then c.2.1 else c.2.1 - 1)
          = (w.length : Int) + rest.length) := by
  intro toks
  induction toks with
  | nil =>
    intro pre w rest fuel _ hlen _ _
    have hr : rest = [] := by simpa [expansionOf] using hlen
    subst hr
    refine ⟨_, unpackLoop_exit _ _ _ _ _ _ (by simp [packedOf]), ?_, ?_⟩
    · simp [trailingLiteral, packedOf, expansionOf]
    · intro hb
      simp only [List.length_nil, Nat.cast_zero, add_zero] at hb
      have hw : wrapInt ((w.length : Int) + 1) = w.length + 1 := by
        apply wrapInt_of_range <;> omega
      simp only [packedOf, List.append_nil, hw]
      rw [if_neg (by omega)]
      simp
  | cons t ts ih =>
    intro pre w rest fuel hs hlen hrange hfuel
    cases t with
    | literal v =>
      obtain ⟨hne, hs'⟩ := hs
      cases rest with
      | nil => simp [expansionOf, Token.expansion] at hlen
      | cons x rest' =>
        have hlen' : rest'.length = (expansionOf ts).length := by
          simpa [expansionOf, Token.expansion] using hlen
        have hcu : wrapInt ((w.length : Int) + 1) = w.length + 1 := by
          apply wrapInt_of_range
          · omega
          · simp only [List.length_cons, Nat.cast_add, Nat.cast_one] at hrange; omega
        rcases hts : packedOf ts with _ | ⟨b, tail⟩
        · have : ts = [] := packedOf_eq_nil ts hts
          subst this
          have hr' : rest' = [] := by simpa [expansionOf] using hlen'
          subst hr'
          refine ⟨_, unpackLoop_exit _ _ _ _ _ _ (by simp [packedOf, Token.packed]), ?_, ?_⟩
          · have e1 := readAt_append_length pre v []
            have e2 := writeAt_append_length w x v []
            simp [trailingLiteral, packedOf, Token.packed, expansionOf, Token.expansion, hcu,
              e1, e2, bind, Except.bind]
          · intro _
            simp [packedOf, Token.packed, hcu]
        · have hvb : v ≠ b := by
            intro h; apply hne; simp [hts, h]
          cases fuel with
          | zero => simp [packedOf, Token.packed] at hfuel
          | succ fuel =>
            have hfuel' : (packedOf ts).length ≤ fuel := by
              simpa [packedOf, Token.packed] using hfuel
            have hrange' : (((w ++ [v]).length : ℕ) : Int) + rest'.length ≤ 2147483647 := by
              simp only [List.length_cons, List.length_append, List.length_singleton,
                List.length_nil, Nat.cast_add, Nat.cast_one] at hrange ⊢
              omega
            obtain ⟨c, hc1, hc2, hc3⟩ :=
              ih (pre ++ [v]) (w ++ [v]) rest' fuel hs' hlen' hrange' hfuel'
            have hp : pre ++ packedOf (Token.literal v :: ts) = (pre ++ [v]) ++ packedOf ts := by
              simp [packedOf, Token.packed]
            have e1 : readAt (pre ++ [v] ++ packedOf ts) (pre.length : Int) = .ok v := by
              have := readAt_append_length pre v (packedOf ts)
              simpa using this
            have e2 : readAt (pre ++ [v] ++ packedOf ts) ((pre.length : Int) + 1) = .ok b := by
              have := readAt_append_length (pre ++ [v]) b tail
              rw [hts]
              simpa using this
            have e3 := writeAt_append_length w x v rest'
            have hlt : (pre.length : Int) + 1 < ((pre ++ [v] ++ packedOf ts).length : ℕ) := by
              simp [hts]
            refine ⟨c, ?_, ?_, ?_⟩
            · rw [hp, unpackLoop_literal _ _ fuel _ _ _ (w ++ v :: rest') v b hlt
                (by rw [add_sub_cancel_right]; exact e1) e2 hvb
                (by rw [hcu, add_sub_cancel_right]; exact e3)]
              rw [hcu]
              have a2 : (w.length : Int) + 1 + 1 = ((w ++ [v]).length : ℕ) + 1 := by
                simp only [List.length_append, List.length_cons, List.length_nil]; push_cast; ring
              have a1 : (pre.length : Int) + 1 = ((pre ++ [v]).length : ℕ) := by
                simp only [List.length_append, List.length_cons, List.length_nil]; push_cast; ring
              rw [a2, a1]
              simpa using hc1
            · rw [hp, hc2]; simp [expansionOf, Token.expansion]
            · intro hb
              rw [hp]
              simp only [List.length_cons, List.length_append, List.length_singleton,
                List.length_nil, Nat.cast_add, Nat.cast_one] at hb hc3 ⊢
              rw [hc3 (by omega)]
              omega
    | run v k =>
      have hs' : Splits ts := hs
      have hlen' : rest.length = (k + 2) + (expansionOf ts).length := by
        simpa [expansionOf, Token.expansion] using hlen
      have hk : k + 2 ≤ rest.length := by omega
      have hcu : wrapInt ((w.length : Int) + 1) = w.length + 1 := by
        apply wrapInt_of_range <;> omega
      have hrep : wrapInt (floatToInt (k : ℚ) + 2) = (k : Int) + 2 := by
        rw [floatToInt_natCast k (by omega)]
        apply wrapInt_of_range <;> omega
      have hlast : wrapInt (wrapInt ((w.length : Int) + 1 + ((k : Int) + 2)) - 2)
          = (w.length : Int) + k + 1 := by
        have e : wrapInt ((w.length : Int) + 1 + ((k : Int) + 2)) - 2
            = wrapInt ((w.length : Int) + 1 + ((k : Int) + 2)) + (-2) := by ring
        rw [e, wrapInt_wrapInt_add]
        have e' : (w.length : Int) + 1 + ((k : Int) + 2) + (-2) = (w.length : Int) + k + 1 := by
          ring
        rw [e']
        apply wrapInt_of_range <;> omega
      cases fuel with
      | zero => simp [packedOf, Token.packed] at hfuel
      | succ fuel =>
        have hfuel' : (packedOf ts).length ≤ fuel := by
          simp [packedOf, Token.packed] at hfuel; omega
        have hdrop : (rest.drop (k + 2)).length = (expansionOf ts).length := by
          rw [List.length_drop]; omega
        have hrange' : (((w ++ List.replicate (k + 2) v).length : ℕ) : Int)
            + (rest.drop (k + 2)).length ≤ 2147483647 := by
          rw [hdrop]
          simp only [List.length_append, List.length_replicate, Nat.cast_add]
          push_cast
          omega
        obtain ⟨c, hc1, hc2, hc3⟩ := ih (pre ++ [v, v, (k : ℚ)]) (w ++ List.replicate (k + 2) v)
          (rest.drop (k + 2)) fuel hs' hdrop hrange' hfuel'
        have hp : pre ++ packedOf (Token.run v k :: ts)
            = (pre ++ [v, v, (k : ℚ)]) ++ packedOf ts := by
          simp [packedOf, Token.packed]
        have e1 : readAt (pre ++ [v, v, (k : ℚ)] ++ packedOf ts) (pre.length : Int) = .ok v := by
          have := readAt_append_length pre v (v :: (k : ℚ) :: packedOf ts)
          simpa using this
        have e2 : readAt (pre ++ [v, v, (k : ℚ)] ++ packedOf ts) ((pre.length : Int) + 1)
            = .ok v := by
          have := readAt_append_length (pre ++ [v]) v ((k : ℚ) :: packedOf ts)
          simpa using this
        have e3 : readAt (pre ++ [v, v, (k : ℚ)] ++ packedOf ts) ((pre.length : Int) + 1 + 1)
            = .ok (k : ℚ) := by
          have := readAt_append_length (pre ++ [v, v]) (k : ℚ) (packedOf ts)
          simpa [add_assoc] using this
        have e4 := fillRun_append v (k + 2) w rest hk
        have hlt : (pre.length : Int) + 1
            < ((pre ++ [v, v, (k : ℚ)] ++ packedOf ts).length : ℕ) := by
          simp
          omega
        have hn : ((w.length : Int) + k + 1 - (w.length : Int) + 1).toNat = k + 2 := by
          omega
        have hcount : (wrapInt (wrapInt (wrapInt ((w.length : Int) + 1)
            + wrapInt (floatToInt (k : ℚ) + 2)) - 2)
            - (wrapInt ((w.length : Int) + 1) - 1) + 1).toNat = k + 2 := by
          rw [hrep, hcu, hlast]
          omega
        have h4 : fillRun v (wrapInt (wrapInt (wrapInt ((w.length : Int) + 1)
            + wrapInt (floatToInt (k : ℚ) + 2)) - 2)
            - (wrapInt ((w.length : Int) + 1) - 1) + 1).toNat
            (wrapInt ((w.length : Int) + 1) - 1) (w ++ rest)
            = .ok (w ++ List.replicate (k + 2) v ++ rest.drop (k + 2)) := by
          rw [hcount, hcu, add_sub_cancel_right]
          exact e4
        refine ⟨c, ?_, ?_, ?_⟩
        · rw [hp, unpackLoop_run _ _ fuel _ _ _ _ v (k : ℚ) hlt
            (by rw [add_sub_cancel_right]; exact e1) e2 e3 h4]
          rw [hrep, hcu]
          have a1 : (pre.length : Int) + 1 + 3 = ((pre ++ [v, v, (k : ℚ)]).length : ℕ) + 1 := by
            simp only [List.length_append, List.length_cons, List.length_nil]; push_cast; ring
          have a2 : (w.length : Int) + 1 + ((k : Int) + 2)
              = ((w ++ List.replicate (k + 2) v).length : ℕ) + 1 := by
            simp only [List.length_append, List.length_replicate]; push_cast; ring
          rw [a1, a2]
          exact hc1
        · rw [hp, hc2]; simp [expansionOf, Token.expansion]
        · intro hb
          rw [hp]
          have hd : ((rest.drop (k + 2)).length : Int) = (rest.length : Int) - ((k : Int) + 2) := by
            rw [List.length_drop]
            omega
          simp only [List.length_append, List.length_replicate, Nat.cast_add, Nat.cast_ofNat,
            hd] at hc3 ⊢
          rw [hc3 (by omega)]
          omega

theorem cumulativeSum_append (add : ℚ → ℚ → ℚ) : ∀ (r d : List ℚ) (s : ℚ),
    cumulativeSum add r.length ((d.length : Int) + 1) (d ++ s :: r)
      = .ok (d ++ s :: runningFrom add s r) := by
  intro r
  induction r with
  | nil => intro d s; simp [cumulativeSum, runningFrom]
  | cons x r ih =>
    intro d s
    have e1 : readAt (d ++ s :: x :: r) ((d.length : Int) + 1) = .ok x := by
      have := readAt_append_length (d ++ [s]) x r
      simpa using this
    have e2 : readAt (d ++ s :: x :: r) ((d.length : Int) + 1 - 1) = .ok s := by
      rw [add_sub_cancel_right]; exact readAt_append_length d s (x :: r)
    have e3 : writeAt (d ++ s :: x :: r) ((d.length : Int) + 1) (add x s)
        = .ok (d ++ s :: add x s :: r) := by
      have := writeAt_append_length (d ++ [s]) x (add x s) r
      simpa using this
    have h := ih (d ++ [s]) (add x s)
    have a1 : (((d ++ [s]).length : ℕ) : Int) = (d.length : Int) + 1 := by
      simp
    rw [a1] at h
    rw [List.length_cons, cumulativeSum, e1, e2]
    simp only [bind, Except.bind]
    rw [e3]
    simp only []
    simpa [runningFrom] using h

theorem cumulativeSum_runningSums (add : ℚ → ℚ → ℚ) (xs : List ℚ) :
    cumulativeSum add ((xs.length : Int) - 1).toNat 1 xs = .ok (runningSums add xs) := by
  cases xs with
  | nil => simp [cumulativeSum, runningSums]
  | cons x r =>
    have h := cumulativeSum_append add r [] x
    have e : (((x :: r).length : ℕ) : Int) - 1 = (r.length : Int) := by simp
    rw [e, Int.toNat_ofNat]
    simpa [runningSums] using h

theorem runningFrom_length (add : ℚ → ℚ → ℚ) (r : List ℚ) : ∀ s : ℚ,
    (runningFrom add s r).length = r.length := by
  induction r with
  | nil => intro s; rfl
  | cons x r ih => intro s; simp [runningFrom, ih]

theorem runningSums_length (add : ℚ → ℚ → ℚ) (xs : List ℚ) :
    (runningSums add xs).length = xs.length := by
  cases xs with
  | nil => rfl
  | cons x r => simp [runningSums, runningFrom_length]

theorem runningFrom_exact (add : ℚ → ℚ → ℚ) (r : List ℚ) : ∀ s : ℚ,
    ExactFrom add s r → runningFrom add s r = runningFrom exactAdd s r := by
  induction r with
  | nil => intro s _; rfl
  | cons x r ih =>
    intro s h
    obtain ⟨h1, h2⟩ := h
    simp only [runningFrom, exactAdd, h1]
    rw [ih (x + s) h2]

theorem exactFrom_exactAdd (r : List ℚ) : ∀ s : ℚ, ExactFrom exactAdd s r := by
  induction r with
  | nil => intro s; trivial
  | cons x r ih => intro s; exact ⟨rfl, ih (x + s)⟩

theorem exactSums_exactAdd (xs : List ℚ) : ExactSums exactAdd xs := by
  cases xs with
  | nil => trivial
  | cons x r => exact exactFrom_exactAdd r x

theorem prefixSums_cons (x : ℚ) (r : List ℚ) :
    prefixSums (x :: r) = x :: (prefixSums r).map (fun y => x + y) := by
  simp [prefixSums, List.range_succ_eq_map, List.map_map, Function.comp_def]

theorem runningFrom_eq (r : List ℚ) : ∀ s : ℚ,
    runningFrom exactAdd s r = (prefixSums r).map (fun y => y + s) := by
  induction r with
  | nil => intro s; simp [runningFrom, prefixSums]
  | cons x r ih =>
    intro s
    rw [runningFrom, ih, prefixSums_cons]
    unfold exactAdd
    simp only [List.map_cons, List.map_map, Function.comp_def, List.cons.injEq, true_and]
    apply List.map_congr_left
    intro a _
    ring

theorem runningSums_exactAdd (xs : List ℚ) : runningSums exactAdd xs = prefixSums xs := by
  cases xs with
  | nil => simp [runningSums, prefixSums]
  | cons x r =>
    rw [prefixSums_cons, runningSums, runningFrom_eq]
    simp [add_comm]

theorem runningSums_exact (add : ℚ → ℚ → ℚ) (xs : List ℚ) (h : ExactSums add xs) :
    runningSums add xs = prefixSums xs := by
  rw [← runningSums_exactAdd]
  cases xs with
  | nil => rfl
  | cons x r =>
    simp only [runningSums]
    rw [runningFrom_exact add r x h]

theorem cumulativeSum_prefixSums (xs : List ℚ) :
    cumulativeSum exactAdd ((xs.length : Int) - 1).toNat 1 xs = .ok (prefixSums xs) := by
  rw [cumulativeSum_runningSums, runningSums_exactAdd]

theorem decompressShape_running (add : ℚ → ℚ → ℚ) (toks : List Token) (n : Int)
    (buf : List ℚ) (hs : Splits toks) (hlen : ((expansionOf toks).length : Int) = n)
    (hbuf : (buf.length : Int) = n) (hn : n ≤ 2147483647) :
    decompressShape add ⟨n, packedOf toks⟩ buf = .ok (runningSums add (expansionOf toks)) := by
  have hlen' : buf.length = (expansionOf toks).length := by omega
  obtain ⟨c, hc1, hc2, _⟩ := unpack_tokens toks [] [] buf (packedOf toks).length hs hlen'
    (by simp only [List.length_nil, Nat.cast_zero, zero_add]; omega) (le_refl _)
  have h1 : wrapInt (((([] : List ℚ).length : ℕ) : Int) + 1) = 1 := by
    simp only [List.length_nil, Nat.cast_zero, zero_add]
    exact wrapInt_of_range 1 (by omega) (by omega)
  rw [h1] at hc1
  simp only [List.nil_append, List.length_nil, Nat.cast_zero, zero_add] at hc1 hc2
  simp only [decompressShape, bind, Except.bind, hc1, hc2]
  rw [← hlen]
  exact cumulativeSum_runningSums add _

theorem decompressShape_tokens (toks : List Token) (n : Int) (buf : List ℚ)
    (hs : Splits toks) (hlen : ((expansionOf toks).length : Int) = n)
    (hbuf : (buf.length : Int) = n) (hn : n ≤ 2147483647) :
    decompressShape exactAdd ⟨n, packedOf toks⟩ buf = .ok (prefixSums (expansionOf toks)) := by
  have hlen' : buf.length = (expansionOf toks).length := by omega
  obtain ⟨c, hc1, hc2, _⟩ := unpack_tokens toks [] [] buf (packedOf toks).length hs hlen'
    (by simp only [List.length_nil, Nat.cast_zero, zero_add]; omega) (le_refl _)
  have h1 : wrapInt (((([] : List ℚ).length : ℕ) : Int) + 1) = 1 := by
    simp only [List.length_nil, Nat.cast_zero, zero_add]
    exact wrapInt_of_range 1 (by omega) (by omega)
  rw [h1] at hc1
  simp only [List.nil_append, List.length_nil, Nat.cast_zero, zero_add] at hc1 hc2
  simp only [decompressShape, bind, Except.bind, hc1, hc2]
  rw [← hlen]
  exact cumulativeSum_prefixSums _

theorem splits_literals : ∀ (packed : List ℚ), List.Chain' (fun a b => a ≠ b) packed →
    Splits (packed.map Token.literal) ∧ packedOf (packed.map Token.literal) = packed ∧
      expansionOf (packed.map Token.literal) = packed := by
  intro packed
  induction packed with
  | nil => intro _; simp [Splits, packedOf, expansionOf]
  | cons a r ih =>
    intro h
    obtain ⟨h1, h2, h3⟩ := ih h.tail
    refine ⟨⟨?_, h1⟩, ?_, ?_⟩
    · rw [h2]
      cases r with
      | nil => simp
      | cons b r =>
        have hab : a ≠ b := (List.chain'_cons.mp h).1
        simpa using fun e => hab e.symm
    · simp [packedOf, Token.packed, h2]
    · simpa [expansionOf, Token.expansion] using h3

theorem prefixSums_replicate (m : ℕ) (d : ℚ) :
    prefixSums (List.replicate m d) = (List.range m).map fun (i : ℕ) => ((i : ℚ) + 1) * d := by
  simp only [prefixSums, List.length_replicate]
  apply List.map_congr_left
  intro i hi
  have hi' : i + 1 ≤ m := by
    have := List.mem_range.mp hi
    omega
  rw [List.take_replicate, List.sum_replicate, Nat.min_eq_left hi']
  simp

/-- C1. For every packed sequence that splits, left to right, into literals (a value
different from its successor, or the last value) and runs (two equal values `v, v` followed
by a count `k ≥ 0`), and whose expansion (each literal once, each run as `k + 2` copies of
`v`) has exactly `declaredLength` elements, `decompressShape` returns without fault and
leaves in the buffer of `declaredLength` entries the prefix sums of that expansion, over
exact arithmetic; `declaredLength` is an `int`. -/
theorem decompressShape_prefix_sums (packed : List ℚ) (toks : List Token)
    (declaredLength : Int) (shape : List ℚ)
    (hpacked : packed = packedOf toks) (hsplit : Splits toks)
    (hlen : ((expansionOf toks).length : Int) = declaredLength)
    (hshape : (shape.length : Int) = declaredLength)
    (hint : declaredLength ≤ 2147483647) :
    decompressShape exactAdd ⟨declaredLength, packed⟩ shape
      = .ok (prefixSums (expansionOf toks)) := by
  subst hpacked
  exact decompressShape_tokens toks declaredLength shape hsplit hlen hshape hint

/-- Witness of C1: the packed sequence `0, 1, 1, 3, 2` (a literal, a run of `3 + 2` ones, a
literal) with 7 declared samples. -/
theorem decompressShape_prefix_sums_witness :
    decompressShape exactAdd ⟨7, [0, 1, 1, 3, 2]⟩ [9, 9, 9, 9, 9, 9, 9]
      = .ok [0, 1, 2, 3, 4, 5, 7] := by
  have h := decompressShape_prefix_sums [0, 1, 1, 3, 2]
    [Token.literal 0, Token.run 1 3, Token.literal 2] 7 [9, 9, 9, 9, 9, 9, 9]
    (by simp [packedOf, Token.packed]) (by simp [Splits, packedOf, Token.packed])
    (by simp [expansionOf, Token.expansion]) (by simp) (by norm_num)
  rw [h]
  simp [prefixSums, expansionOf, Token.expansion, List.range_succ, List.replicate]
  norm_num

theorem exactFrom_ones :
    ExactFrom floatAdd 1 [1, 1, 1, 1] := by
  have h2 : floatAdd 1 1 = 1 + 1 := floatAdd_exact 1 1 1 8388608 (by norm_num)
    (by norm_num) (by norm_num) (by norm_num)
  have h3 : floatAdd 1 (1 + 1) = 1 + (1 + 1) := floatAdd_exact 1 (1 + 1) 1 12582912
    (by norm_num) (by norm_num) (by norm_num) (by norm_num)
  have h4 : floatAdd 1 (1 + (1 + 1)) = 1 + (1 + (1 + 1)) :=
    floatAdd_exact 1 (1 + (1 + 1)) 2 8388608 (by norm_num) (by norm_num) (by norm_num)
      (by norm_num)
  have h5 : floatAdd 1 (1 + (1 + (1 + 1))) = 1 + (1 + (1 + (1 + 1))) :=
    floatAdd_exact 1 (1 + (1 + (1 + 1))) 2 10485760 (by norm_num) (by norm_num)
      (by norm_num) (by norm_num)
  exact ⟨h2, h3, h4, h5, trivial⟩

theorem exactFrom_halves :
    ExactFrom floatAdd (1 / 2) [1 / 2, 1 / 2, 1 / 2] := by
  have h2 : floatAdd (1 / 2) (1 / 2) = 1 / 2 + 1 / 2 :=
    floatAdd_exact (1 / 2) (1 / 2) 0 8388608 (by norm_num) (by norm_num) (by norm_num)
      (by norm_num)
  have h3 : floatAdd (1 / 2) (1 / 2 + 1 / 2) = 1 / 2 + (1 / 2 + 1 / 2) :=
    floatAdd_exact (1 / 2) (1 / 2 + 1 / 2) 0 12582912 (by norm_num)
      (by norm_num [abs_of_pos]) (by norm_num [abs_of_pos]) (by norm_num)
  have h4 : floatAdd (1 / 2) (1 / 2 + (1 / 2 + 1 / 2)) = 1 / 2 + (1 / 2 + (1 / 2 + 1 / 2)) :=
    floatAdd_exact (1 / 2) (1 / 2 + (1 / 2 + 1 / 2)) 1 8388608 (by norm_num) (by norm_num)
      (by norm_num) (by norm_num)
  exact ⟨h2, h3, h4, trivial⟩

theorem exactFrom_052 : ExactFrom floatAdd 0 [5, 2] := by
  have h2 : floatAdd 5 0 = 5 + 0 := floatAdd_exact 5 0 2 10485760 (by norm_num)
    (by norm_num) (by norm_num) (by norm_num)
  have h3 : floatAdd 2 (5 + 0) = 2 + (5 + 0) := floatAdd_exact 2 (5 + 0) 2 14680064
    (by norm_num) (by norm_num) (by norm_num) (by norm_num)
  exact ⟨h2, h3, trivial⟩

theorem exactFrom_314 : ExactFrom floatAdd 3 [1, 4] := by
  have h2 : floatAdd 1 3 = 1 + 3 := floatAdd_exact 1 3 2 8388608 (by norm_num)
    (by norm_num) (by norm_num) (by norm_num)
  have h3 : floatAdd 4 (1 + 3) = 4 + (1 + 3) := floatAdd_exact 4 (1 + 3) 3 8388608
    (by norm_num) (by norm_num) (by norm_num) (by norm_num)
  exact ⟨h2, h3, trivial⟩

theorem decompressShape_run (add : ℚ → ℚ → ℚ) (d : ℚ) (k : ℕ) (shape : List ℚ)
    (hint : (k : Int) + 2 ≤ 2147483647) (hshape : shape.length = k + 2) :
    decompressShape add ⟨(k : Int) + 2, [d, d, (k : ℚ)]⟩ shape
      = .ok (runningSums add (List.replicate (k + 2) d)) := by
  have h := decompressShape_running add [Token.run d k] ((k : Int) + 2) shape
    (by simp [Splits]) (by simp [expansionOf, Token.expansion])
    (by rw [hshape]; push_cast; ring) hint
  simp only [packedOf, Token.packed, List.append_nil, expansionOf, Token.expansion] at h
  exact h

theorem decompressShape_plain (add : ℚ → ℚ → ℚ) (packed shape : List ℚ)
    (hadj : List.Chain' (fun a b => a ≠ b) packed)
    (hint : (packed.length : Int) ≤ 2147483647) (hshape : shape.length = packed.length) :
    decompressShape add ⟨packed.length, packed⟩ shape = .ok (runningSums add packed) := by
  obtain ⟨h1, h2, h3⟩ := splits_literals packed hadj
  have h := decompressShape_running add (packed.map Token.literal) packed.length shape h1
    (by rw [h3]) (by rw [hshape]) hint
  rw [h2, h3] at h
  exact h

/-- Counterexample to C2 as stated: `d = 13421773 / 134217728`, the `float` nearest to
`0.1`, and `k = 5`.  The last loop of `decompressShape` adds in `float`, and each sum is
rounded: `out[6]` is `2936013 / 4194304`, about `0.70000005`, which is neither `7 * d`,
about `0.70000001`, nor the `float` nearest to `7 * d`, which is `11744051 / 16777216`,
about `0.69999999`. -/
theorem decompressShape_ramp_float_counterexample :
    decompressShape floatAdd ⟨7, [13421773 / 134217728, 13421773 / 134217728, 5]⟩
        [0, 0, 0, 0, 0, 0, 0]
      = .ok [13421773 / 134217728, 13421773 / 67108864, 5033165 / 16777216,
          13421773 / 33554432, 1 / 2, 5033165 / 8388608, 2936013 / 4194304] ∧
    (2936013 / 4194304 : ℚ) ≠ 7 * (13421773 / 134217728) ∧
    roundFloat (7 * (13421773 / 134217728)) = 11744051 / 16777216 ∧
    (2936013 / 4194304 : ℚ) ≠ 11744051 / 16777216 := by
  refine ⟨?_, by norm_num, ?_, by norm_num⟩
  · have h := decompressShape_run floatAdd (13421773 / 134217728) 5
      [0, 0, 0, 0, 0, 0, 0] (by norm_num) (by simp)
    have e : ((5 : ℕ) : Int) + 2 = 7 := by norm_num
    have e' : ((5 : ℕ) : ℚ) = 5 := by norm_num
    rw [e, e'] at h
    rw [h]
    have h2 : floatAdd (13421773 / 134217728) (13421773 / 134217728)
        = 13421773 / 67108864 :=
      floatAdd_below _ _ (-3) 13421773 _ (by norm_num) (by norm_num [abs_of_pos])
        (by norm_num [abs_of_pos]) (by norm_num) (by norm_num) (by norm_num)
    have h3 : floatAdd (13421773 / 134217728) (13421773 / 67108864)
        = 5033165 / 16777216 :=
      floatAdd_above _ _ (-2) 10066329 _ (by norm_num) (by norm_num [abs_of_pos])
        (by norm_num [abs_of_pos]) (by norm_num) (by norm_num) (by norm_num)
    have h4 : floatAdd (13421773 / 134217728) (5033165 / 16777216)
        = 13421773 / 33554432 :=
      floatAdd_below _ _ (-2) 13421773 _ (by norm_num) (by norm_num [abs_of_pos])
        (by norm_num [abs_of_pos]) (by norm_num) (by norm_num) (by norm_num)
    have h5 : floatAdd (13421773 / 134217728) (13421773 / 33554432) = 1 / 2 :=
      floatAdd_below _ _ (-1) 8388608 _ (by norm_num) (by norm_num [abs_of_pos])
        (by norm_num [abs_of_pos]) (by norm_num) (by norm_num) (by norm_num)
    have h6 : floatAdd (13421773 / 134217728) (1 / 2) = 5033165 / 8388608 :=
      floatAdd_above _ _ (-1) 10066329 _ (by norm_num) (by norm_num [abs_of_pos])
        (by norm_num [abs_of_pos]) (by norm_num) (by norm_num) (by norm_num)
    have h7 : floatAdd (13421773 / 134217728) (5033165 / 8388608) = 2936013 / 4194304 :=
      floatAdd_above _ _ (-1) 11744051 _ (by norm_num) (by norm_num [abs_of_pos])
        (by norm_num [abs_of_pos]) (by norm_num) (by norm_num) (by norm_num)
    simp only [runningSums, runningFrom, List.replicate, h2, h3, h4, h5, h6, h7]
  · rw [roundFloat_rounded (7 * (13421773 / 134217728)) (-1) 11744051 (by norm_num)
      (by norm_num [abs_of_pos]) (by norm_num [abs_of_pos])
      (roundHalfEven_below _ 11744051 (by norm_num) (by norm_num))]
    norm_num

/-- C2, amended. For every finite value `d` and every integer `k ≥ 0` (with `k + 2`, the
declared length, an `int`), `decompressShape` on `packed = [d, d, k]` with `declaredLength = k + 2`
yields the running sums of `k + 2` copies of `d`: `out[0] = d`, and `out[i]` is the sum of
`d` and `out[i-1]` as the code forms it, rounded to `float`.  When none of these sums is
rounded, and so over exact arithmetic, the result is the linear ramp `out[i] = (i + 1) * d`
for `0 ≤ i < k + 2`; in particular `packed = [1, 1, 3]` with `declaredLength = 5` yields
`[1, 2, 3, 4, 5]` in the arithmetic of `float`. -/
theorem decompressShape_ramp (add : ℚ → ℚ → ℚ) (d : ℚ) (k : ℕ) (shape : List ℚ)
    (hint : (k : Int) + 2 ≤ 2147483647) (hshape : shape.length = k + 2) :
    decompressShape add ⟨(k : Int) + 2, [d, d, (k : ℚ)]⟩ shape
        = .ok (runningSums add (List.replicate (k + 2) d)) ∧
      (ExactSums add (List.replicate (k + 2) d) →
        decompressShape add ⟨(k : Int) + 2, [d, d, (k : ℚ)]⟩ shape
          = .ok ((List.range (k + 2)).map fun (i : ℕ) => ((i : ℚ) + 1) * d)) ∧
      decompressShape exactAdd ⟨(k : Int) + 2, [d, d, (k : ℚ)]⟩ shape
        = .ok ((List.range (k + 2)).map fun (i : ℕ) => ((i : ℚ) + 1) * d) ∧
      ∀ buf : List ℚ, buf.length = 5 →
        decompressShape floatAdd ⟨5, [1, 1, 3]⟩ buf = .ok [1, 2, 3, 4, 5] := by
  have key : ∀ (add : ℚ → ℚ → ℚ) (d : ℚ) (k : ℕ) (shape : List ℚ),
      (k : Int) + 2 ≤ 2147483647 → shape.length = k + 2 →
      ExactSums add (List.replicate (k + 2) d) →
      decompressShape add ⟨(k : Int) + 2, [d, d, (k : ℚ)]⟩ shape
        = .ok ((List.range (k + 2)).map fun (i : ℕ) => ((i : ℚ) + 1) * d) := by
    intro add d k shape hint hshape hex
    rw [decompressShape_run add d k shape hint hshape, runningSums_exact add _ hex,
      prefixSums_replicate]
  refine ⟨decompressShape_run add d k shape hint hshape, key add d k shape hint hshape,
    key exactAdd d k shape hint hshape (exactSums_exactAdd _), ?_⟩
  intro buf hbuf
  have h := key floatAdd 1 3 buf (by norm_num) (by rw [hbuf]) exactFrom_ones
  have e : ((3 : ℕ) : Int) + 2 = 5 := by norm_num
  have e' : ((3 : ℕ) : ℚ) = 3 := by norm_num
  rw [e, e'] at h
  rw [h]
  simp [List.range_succ]
  norm_num

/-- Witness of C2, amended: `d = 1/2`, `k = 2` in a buffer of four entries, in the
arithmetic of `float`, where none of the three sums is rounded. -/
theorem decompressShape_ramp_witness :
    decompressShape floatAdd ⟨4, [1 / 2, 1 / 2, 2]⟩ [0, 0, 0, 0]
      = .ok [1 / 2, 1, 3 / 2, 2] := by
  have h := (decompressShape_ramp floatAdd (1 / 2) 2 [0, 0, 0, 0] (by norm_num)
    (by simp)).2.1 exactFrom_halves
  have e : ((2 : ℕ) : Int) + 2 = 4 := by norm_num
  have e' : ((2 : ℕ) : ℚ) = 2 := by norm_num
  rw [e, e'] at h
  rw [h]
  simp [List.range_succ]
  norm_num

/-- Counterexample to C3 as stated: `packed = [16777216, 1]` with `declaredLength = 2`.  The
last loop of `decompressShape` adds in `float`, where `16777216 + 1` is rounded to
`16777216`: the result is `[16777216, 16777216]` and not the cumulative sum
`[16777216, 16777217]`. -/
theorem decompressShape_literals_float_counterexample :
    decompressShape floatAdd ⟨2, [16777216, 1]⟩ [0, 0] = .ok [16777216, 16777216] ∧
    (([16777216, 1] : List ℚ).take 2).sum = 16777217 := by
  constructor
  · have h := decompressShape_plain floatAdd [16777216, 1] [0, 0] (by simp) (by simp)
      (by simp)
    simp only [List.length_cons, List.length_nil] at h
    norm_num at h
    rw [h]
    have h2 : floatAdd 1 16777216 = 16777216 := by
      rw [floatAdd_rounded 1 16777216 24 8388608 (by norm_num) (by norm_num [abs_of_pos])
        (by norm_num [abs_of_pos])
        (roundHalfEven_tie _ 8388608 (by norm_num) (by decide))]
      norm_num
    simp [runningSums, runningFrom, h2]
  · norm_num

/-- C3, amended. For every non-empty packed sequence of length `n` (an `int`) in which no
two adjacent values are equal, the sequence splits into literals only (no run), and
`decompressShape` with `declaredLength = n` yields the running sums of `packed`:
`out[0] = packed[0]`, and `out[i]` is the sum of `packed[i]` and `out[i-1]` as the code
forms it, rounded to `float`.  When none of these sums is rounded, and so over exact
arithmetic, the result is the cumulative sum of `packed`
(`out[i] = packed[0] + ... + packed[i]`); in particular `packed = [0, 5, 2]` with
`declaredLength = 3` yields `[0, 5, 7]` in the arithmetic of `float`. -/
theorem decompressShape_literals (add : ℚ → ℚ → ℚ) (packed : List ℚ) (shape : List ℚ)
    (hne : packed ≠ []) (hadj : List.Chain' (fun a b => a ≠ b) packed)
    (hint : (packed.length : Int) ≤ 2147483647) (hshape : shape.length = packed.length) :
    (Splits (packed.map Token.literal) ∧ packedOf (packed.map Token.literal) = packed) ∧
      decompressShape add ⟨packed.length, packed⟩ shape = .ok (runningSums add packed) ∧
      (ExactSums add packed →
        decompressShape add ⟨packed.length, packed⟩ shape
          = .ok ((List.range packed.length).map fun (i : ℕ) => (packed.take (i + 1)).sum)) ∧
      decompressShape exactAdd ⟨packed.length, packed⟩ shape
        = .ok ((List.range packed.length).map fun (i : ℕ) => (packed.take (i + 1)).sum) ∧
      ∀ buf : List ℚ, buf.length = 3 →
        decompressShape floatAdd ⟨3, [0, 5, 2]⟩ buf = .ok [0, 5, 7] := by
  have key : ∀ (add : ℚ → ℚ → ℚ) (packed shape : List ℚ),
      List.Chain' (fun a b => a ≠ b) packed →
      (packed.length : Int) ≤ 2147483647 → shape.length = packed.length →
      ExactSums add packed →
      decompressShape add ⟨packed.length, packed⟩ shape = .ok (prefixSums packed) := by
    intro add packed shape hadj hint hshape hex
    rw [decompressShape_plain add packed shape hadj hint hshape, runningSums_exact add _ hex]
  have _ := hne
  obtain ⟨h1, h2, _⟩ := splits_literals packed hadj
  refine ⟨⟨h1, h2⟩, decompressShape_plain add packed shape hadj hint hshape,
    key add packed shape hadj hint hshape,
    key exactAdd packed shape hadj hint hshape (exactSums_exactAdd _), ?_⟩
  intro buf hbuf
  have h := key floatAdd [0, 5, 2] buf (by simp) (by simp) (by simpa using hbuf)
    exactFrom_052
  simp only [List.length_cons, List.length_nil] at h
  norm_num at h
  rw [h]
  simp [prefixSums, List.range_succ]
  norm_num

/-- Witness of C3, amended: the packed sequence `3, 1, 4` in a buffer of three entries, in
the arithmetic of `float`, where none of the two sums is rounded. -/
theorem decompressShape_literals_witness :
    decompressShape floatAdd ⟨3, [3, 1, 4]⟩ [0, 0, 0] = .ok [3, 4, 8] := by
  have h := (decompressShape_literals floatAdd [3, 1, 4] [0, 0, 0] (by simp) (by simp)
    (by simp) (by simp)).2.2.1 exactFrom_314
  simp only [List.length_cons, List.length_nil] at h
  norm_num at h
  rw [h]
  simp [List.range_succ]
  norm_num

/-! ## The duration of a block -/

theorem MAX_eq_max (a b : Int) : MAX a b = max a b := by
  unfold MAX
  split <;> omega

theorem index_fst_samples (s : State) (k : Int) :
    (s.m_shapeLibrary.index k CompressedShape.zero).1.numUncompressedSamples
      = declaredSamples s k := by
  unfold Lib.index declaredSamples
  cases s.m_shapeLibrary k <;> rfl

theorem declaredSamples_index (s : State) (k id : Int) :
    declaredSamples { s with m_shapeLibrary := (s.m_shapeLibrary.index k CompressedShape.zero).2 } id
      = declaredSamples s id := by
  unfold Lib.index declaredSamples
  cases h : s.m_shapeLibrary k with
  | some v => simp
  | none =>
    simp only [Lib.assign]
    by_cases e : id = k
    · subst e; simp [h, CompressedShape.zero]
    · simp [e]

theorem sameButShapes_refl (s : State) : SameButShapes s s :=
  ⟨rfl, rfl, rfl, rfl, rfl, rfl, rfl, fun _ => rfl⟩

theorem sameButShapes_index (s t : State) (k : Int) (h : SameButShapes s t) :
    SameButShapes s { t with m_shapeLibrary := (t.m_shapeLibrary.index k CompressedShape.zero).2 } := by
  obtain ⟨h1, h2, h3, h4, h5, h6, h7, h8⟩ := h
  exact ⟨h1, h2, h3, h4, h5, h6, h7, fun id => by rw [declaredSamples_index, h8]⟩

theorem two_pow_long (L : LongBits) :
    (2 : Int) ^ L.bits = 2 * 2 ^ (L.bits - 1) ∧ (2147483648 : Int) ≤ 2 ^ (L.bits - 1) := by
  have hw := L.wide
  constructor
  · have e : L.bits = (L.bits - 1) + 1 := by omega
    conv_lhs => rw [e]
    rw [pow_succ]
    ring
  · have h31 : (2147483648 : Int) = 2 ^ 31 := by norm_num
    rw [h31]
    exact pow_le_pow_right₀ (by norm_num) (by omega)

theorem wrapLong_of_fits (L : LongBits) (x : Int) (h : FitsLong L x) : wrapLong L x = x := by
  obtain ⟨h1, h2⟩ := h
  obtain ⟨e, _⟩ := two_pow_long L
  unfold wrapLong
  rw [e, Int.emod_eq_of_lt (by omega) (by omega)]
  omega

theorem fitsLong_of_int (L : LongBits) (x : Int) (h1 : -2147483648 ≤ x)
    (h2 : x ≤ 2147483647) : FitsLong L x := by
  obtain ⟨_, e⟩ := two_pow_long L
  constructor <;> omega

theorem wrapLong_of_int (L : LongBits) (x : Int) (h1 : -2147483648 ≤ x)
    (h2 : x ≤ 2147483647) : wrapLong L x = x :=
  wrapLong_of_fits L x (fitsLong_of_int L x h1 h2)

theorem gradCandidate_congr (f g : Int → Int) (s t : State) (block : SeqBlock) (i : Nat)
    (h : ∀ id, declaredSamples t id = declaredSamples s id) :
    gradCandidate f g t block i = gradCandidate f g s block i := by
  unfold gradCandidate
  simp only [h]

theorem gradDuration_spec (L : LongBits) (s : State) (block : SeqBlock) (p : Int × State)
    (i : Nat) (h : SameButShapes s p.2) :
    (gradDuration L block p i).1
        = (gradCandidate (fun n => wrapInt (10 * n)) (wrapLong L) s block i).foldl max p.1 ∧
      SameButShapes s (gradDuration L block p i).2 := by
  unfold gradDuration gradCandidate SeqBlock.isArbitraryGradient SeqBlock.isTrapGradient
  by_cases h1 : block.events.grad i > 0
  · by_cases h2 : (block.grad.get i).shape > 0
    · simp only [h1, h2, decide_True, Bool.and_self, if_true, and_self, List.foldl_cons,
        List.foldl_nil, MAX_eq_max, index_fst_samples, h.2.2.2.2.2.2.2]
      exact ⟨trivial, sameButShapes_index s p.2 _ h⟩
    · by_cases h3 : (block.grad.get i).shape = 0
      · simp [h1, h3, MAX_eq_max, h]
      · simp [h1, h2, h3, h]
  · simp [h1, h]

theorem foldl_max_eq_maxOf (l : List Int) : l.foldl max 0 = maxOf l := by
  unfold maxOf
  exact List.foldl_eq_foldr 0 l

theorem eventsDuration_spec (L : LongBits) (s : State) (block : SeqBlock) :
    (eventsDuration L s block).1 = maxOf (candidates L s block) ∧
      SameButShapes s (eventsDuration L s block).2 := by
  rw [← foldl_max_eq_maxOf]
  unfold eventsDuration candidates candidatesWith
  simp only [List.foldl_append, List.foldl_cons, List.foldl_nil]
  -- the RF event
  have hrf : ∀ p : Int × State,
      p = (if block.isRF = true then
        (MAX 0 (s.m_shapeLibrary.index block.rf.magShape CompressedShape.zero).1.numUncompressedSamples,
          { s with m_shapeLibrary := (s.m_shapeLibrary.index block.rf.magShape CompressedShape.zero).2 })
        else (0, s)) →
      p.1 = (if block.events.rf > 0 then [declaredSamples s block.rf.magShape] else []).foldl max 0 ∧
        SameButShapes s p.2 := by
    intro p hp
    subst hp
    unfold SeqBlock.isRF
    by_cases h : block.events.rf > 0
    · simp only [h, decide_True, if_true, List.foldl_cons, List.foldl_nil, MAX_eq_max,
        index_fst_samples, true_and]
      exact sameButShapes_index s s _ (sameButShapes_refl s)
    · simp [h, sameButShapes_refl]
  obtain ⟨a1, a2⟩ := hrf _ rfl
  generalize (if block.isRF = true then
        (MAX 0 (s.m_shapeLibrary.index block.rf.magShape CompressedShape.zero).1.numUncompressedSamples,
          { s with m_shapeLibrary := (s.m_shapeLibrary.index block.rf.magShape CompressedShape.zero).2 })
        else (0, s)) = p0 at a1 a2 ⊢
  obtain ⟨b1, b2⟩ := gradDuration_spec L s block p0 0 a2
  generalize gradDuration L block p0 0 = p1 at b1 b2 ⊢
  obtain ⟨c1, c2⟩ := gradDuration_spec L s block p1 1 b2
  generalize gradDuration L block p1 1 = p2 at c1 c2 ⊢
  obtain ⟨d1, d2⟩ := gradDuration_spec L s block p2 2 c2
  generalize gradDuration L block p2 2 = p3 at d1 d2 ⊢
  rw [← a1, ← b1, ← c1, ← d1]
  unfold SeqBlock.isADC SeqBlock.isTrigger
  by_cases h1 : block.events.adc > 0 <;>
    by_cases h2 : block.events.ctrl > 0 <;>
    by_cases h3 : block.control.type = ControlType.TRIGGER <;>
    simp [h1, h2, h3, MAX_eq_max, d2]

theorem candidates_congr (L : LongBits) (s t : State) (block : SeqBlock)
    (h : ∀ id, declaredSamples t id = declaredSamples s id) :
    candidates L t block = candidates L s block := by
  unfold candidates candidatesWith
  rw [gradCandidate_congr _ _ s t block 0 h, gradCandidate_congr _ _ s t block 1 h,
    gradCandidate_congr _ _ s t block 2 h, h]

theorem fetchGrad_frame (events : EventIDs) (p : SeqBlock × State) (i : Nat) :
    (fetchGrad events p i).2.m_shapeLibrary = p.2.m_shapeLibrary ∧
      (fetchGrad events p i).2.version_combined = p.2.version_combined := by
  unfold fetchGrad
  split <;> simp

theorem fetchEvents_frame (s : State) (fresh : SeqBlock) (index : Int) (events : EventIDs) :
    (fetchEvents s fresh index events).2.m_shapeLibrary = s.m_shapeLibrary ∧
      (fetchEvents s fresh index events).2.version_combined = s.version_combined := by
  unfold fetchEvents
  simp only [List.foldl_cons, List.foldl_nil]
  refine ⟨?_, ?_⟩
  · rw [(fetchGrad_frame _ _ _).1, (fetchGrad_frame _ _ _).1, (fetchGrad_frame _ _ _).1]
    split_ifs <;> rfl
  · rw [(fetchGrad_frame _ _ _).2, (fetchGrad_frame _ _ _).2, (fetchGrad_frame _ _ _).2]
    split_ifs <;> rfl

theorem GetBlock_duration (L : LongBits) (s : State) (fresh : SeqBlock) (index : Int)
    (h0 : 0 ≤ index) (h1 : index < s.m_blocks.length) :
    ∃ (b : SeqBlock) (t : State), GetBlock L s fresh index = .ok (b, t) ∧
      b.duration = (if s.version_combined < 1002000
        then wrapLong L (maxOf (candidates L s b) + b.delay)
        else max (maxOf (candidates L s b)) b.delay) := by
  have hread : ∃ events, readAt s.m_blocks index = .ok events := by
    unfold readAt
    have hlt : index.toNat < s.m_blocks.length := by omega
    rw [if_neg (by omega), List.getElem?_eq_getElem hlt]
    exact ⟨_, rfl⟩
  obtain ⟨events, hev⟩ := hread
  obtain ⟨f1, f2⟩ := fetchEvents_frame s fresh index events
  obtain ⟨e1, e2⟩ := eventsDuration_spec L (fetchEvents s fresh index events).2
    (fetchEvents s fresh index events).1
  have hc : candidates L (fetchEvents s fresh index events).2
        (fetchEvents s fresh index events).1
      = candidates L s (fetchEvents s fresh index events).1 :=
    candidates_congr L _ _ _ (fun id => by unfold declaredSamples; rw [f1])
  have hv := e2.1
  rw [f2] at hv
  rw [hc] at e1
  unfold GetBlock
  rw [hev]
  simp only [bind, Except.bind, hv, pure, Except.pure]
  by_cases hg : s.version_combined < 1002000
  · rw [if_pos hg]
    exact ⟨_, _, rfl, by rw [if_pos hg, e1]; rfl⟩
  · rw [if_neg hg]
    exact ⟨_, _, rfl, by rw [if_neg hg, MAX_eq_max, e1]; rfl⟩

theorem GetBlock_trapezoidExample (L : LongBits) (vc delay : Int) (blank : SeqBlock) :
    ∃ (b : SeqBlock) (t : State),
      GetBlock L { trapezoidExample vc with m_delayLibrary := Lib.empty.assign 1 delay }
        blank 0 = .ok (b, t) ∧
      b.delay = delay ∧
      maxOf (candidates L
        { trapezoidExample vc with m_delayLibrary := Lib.empty.assign 1 delay } b) = 1250 ∧
      b.duration = (if vc < 1002000 then wrapLong L (1250 + delay) else max 1250 delay) := by
  obtain ⟨b, t, hb, hd⟩ := GetBlock_duration L
    { trapezoidExample vc with m_delayLibrary := Lib.empty.assign 1 delay } blank 0
    (le_refl 0) (by simp [trapezoidExample])
  have hb' := hb
  simp only [GetBlock, readAt, trapezoidExample, State.init, bind, Except.bind, pure,
    Except.pure] at hb'
  simp only [lt_self_iff_false, if_false, Int.toNat_zero, List.getElem?_cons_zero] at hb'
  have w1 : wrapLong L 1100 = 1100 := wrapLong_of_int L _ (by norm_num) (by norm_num)
  have w2 : wrapLong L 1200 = 1200 := wrapLong_of_int L _ (by norm_num) (by norm_num)
  have w3 : wrapLong L 1250 = 1250 := wrapLong_of_int L _ (by norm_num) (by norm_num)
  have hcand : b.delay = delay ∧ maxOf (candidates L
      { trapezoidExample vc with m_delayLibrary := Lib.empty.assign 1 delay } b) = 1250 := by
    split at hb' <;>
    · injection hb' with hb'
      injection hb' with hb1 hb2
      subst hb1
      simp [candidates, candidatesWith, gradCandidate, maxOf, fetchEvents, fetchGrad,
        Lib.index, Lib.assign, Lib.empty, EventIDs.grad, Three.get, Three.set,
        trapezoidExample, State.init, w1, w2, w3]
  refine ⟨b, t, hb, hcand.1, hcand.2, ?_⟩
  rw [hd, hcand.1, hcand.2]
  rfl

/-- Counterexample to C4 as stated: the block of the specification's example (a trapezoid
gradient with `rampUp = 100`, `flat = 1000`, `rampDown = 100`, `delay = 50`, so `base` is
`1250`) with the block delay `LONG_MAX`, under the combined version `0`.  The sum
`base + block.delay` is formed in `long`: with a `long` of 32 bits the duration is
`-2147482399`, with one of 64 bits `-9223372036854774559`, and not `base + block.delay`. -/
theorem GetBlock_long_sum_counterexample :
    (∃ (b : SeqBlock) (t : State),
      GetBlock long32 { trapezoidExample 0 with
        m_delayLibrary := Lib.empty.assign 1 2147483647 } SeqBlock.blank 0 = .ok (b, t) ∧
      b.delay = 2147483647 ∧
      maxOf (candidates long32 { trapezoidExample 0 with
        m_delayLibrary := Lib.empty.assign 1 2147483647 } b) = 1250 ∧
      b.duration = -2147482399) ∧
    (∃ (b : SeqBlock) (t : State),
      GetBlock long64 { trapezoidExample 0 with
        m_delayLibrary := Lib.empty.assign 1 9223372036854775807 } SeqBlock.blank 0
          = .ok (b, t) ∧
      b.delay = 9223372036854775807 ∧
      maxOf (candidates long64 { trapezoidExample 0 with
        m_delayLibrary := Lib.empty.assign 1 9223372036854775807 } b) = 1250 ∧
      b.duration = -9223372036854774559) := by
  constructor
  · obtain ⟨b, t, h1, h2, h3, h4⟩ :=
      GetBlock_trapezoidExample long32 0 2147483647 SeqBlock.blank
    exact ⟨b, t, h1, h2, h3, by rw [h4]; decide⟩
  · obtain ⟨b, t, h1, h2, h3, h4⟩ :=
      GetBlock_trapezoidExample long64 0 9223372036854775807 SeqBlock.blank
    exact ⟨b, t, h1, h2, h3, by rw [h4]; decide⟩

/-- C4, amended. For every block (every valid index of the block table) and every width of
`long`, `GetBlock` sets `block.duration = base + block.delay` when
`version_combined < 1002000` and that sum is one a `long` holds, and
`block.duration = max(base, block.delay)` when `version_combined >= 1002000`, where `base`
is the maximum over the event candidates as `GetBlock` forms them; a block with only a
trapezoid gradient (`rampUp = 100`, `flat = 1000`, `rampDown = 100`, `delay = 50`) and a
block delay of `2000` gets duration `3250` below the gate and `2000` at or above it. -/
theorem GetBlock_version_gated_duration (L : LongBits) (s : State) (fresh : SeqBlock)
    (index : Int) (h0 : 0 ≤ index) (h1 : index < s.m_blocks.length) :
    (∃ (b : SeqBlock) (t : State), GetBlock L s fresh index = .ok (b, t) ∧
      (s.version_combined < 1002000 → FitsLong L (maxOf (candidates L s b) + b.delay) →
        b.duration = maxOf (candidates L s b) + b.delay) ∧
      (1002000 ≤ s.version_combined →
        b.duration = max (maxOf (candidates L s b)) b.delay)) ∧
    (∀ (vc : Int) (blank : SeqBlock), ∃ (b : SeqBlock) (t : State),
      GetBlock L (trapezoidExample vc) blank 0 = .ok (b, t) ∧
        b.duration = (if vc < 1002000 then 3250 else 2000)) := by
  constructor
  · obtain ⟨b, t, hb, hd⟩ := GetBlock_duration L s fresh index h0 h1
    refine ⟨b, t, hb, ?_, ?_⟩
    · intro hlo hfit
      rw [hd, if_pos hlo, wrapLong_of_fits L _ hfit]
    · intro hhi
      rw [hd, if_neg (not_lt.mpr hhi)]
  · intro vc blank
    obtain ⟨b, t, hb, _, _, hd⟩ := GetBlock_trapezoidExample L vc 2000 blank
    have e : ({ trapezoidExample vc with m_delayLibrary := Lib.empty.assign 1 2000 } : State)
        = trapezoidExample vc := rfl
    rw [e] at hb
    refine ⟨b, t, hb, ?_⟩
    rw [hd, wrapLong_of_int L _ (by norm_num) (by norm_num)]
    split <;> rfl

/-- Witness of C4, amended: the block of `trapezoidExample` under the combined version
`1001001`, with a `long` of 32 bits. -/
theorem GetBlock_version_gated_duration_witness :
    (∃ (b : SeqBlock) (t : State),
      GetBlock long32 (trapezoidExample 1001001) SeqBlock.blank 0 = .ok (b, t) ∧
      ((trapezoidExample 1001001).version_combined < 1002000 →
        FitsLong long32 (maxOf (candidates long32 (trapezoidExample 1001001) b) + b.delay) →
        b.duration = maxOf (candidates long32 (trapezoidExample 1001001) b) + b.delay) ∧
      (1002000 ≤ (trapezoidExample 1001001).version_combined →
        b.duration = max (maxOf (candidates long32 (trapezoidExample 1001001) b)) b.delay)) ∧
    (∀ (vc : Int) (blank : SeqBlock), ∃ (b : SeqBlock) (t : State),
      GetBlock long32 (trapezoidExample vc) blank 0 = .ok (b, t) ∧
        b.duration = (if vc < 1002000 then 3250 else 2000)) :=
  GetBlock_version_gated_duration long32 (trapezoidExample 1001001) SeqBlock.blank 0
    (le_refl 0) (by simp [trapezoidExample])

theorem gradCandidate_exact (L : LongBits) (s : State) (block : SeqBlock) (i : Nat)
    (hfit : block.events.grad i > 0 → (block.grad.get i).shape > 0 →
      (-2147483648 ≤ 10 * declaredSamples s (block.grad.get i).shape ∧
        10 * declaredSamples s (block.grad.get i).shape ≤ 2147483647) ∧
      FitsLong L (10 * declaredSamples s (block.grad.get i).shape + (block.grad.get i).delay))
    (hlong : block.events.grad i > 0 → (block.grad.get i).shape = 0 →
      FitsLong L ((block.grad.get i).rampUpTime + (block.grad.get i).flatTime) ∧
      FitsLong L ((block.grad.get i).rampUpTime + (block.grad.get i).flatTime
        + (block.grad.get i).rampDownTime) ∧
      FitsLong L ((block.grad.get i).rampUpTime + (block.grad.get i).flatTime
        + (block.grad.get i).rampDownTime + (block.grad.get i).delay)) :
    gradCandidate (fun n => wrapInt (10 * n)) (wrapLong L) s block i
      = gradCandidate (fun n => 10 * n) (fun x => x) s block i := by
  unfold gradCandidate
  dsimp only
  split
  · rename_i h
    obtain ⟨⟨h1, h2⟩, h3⟩ := hfit h.1 h.2
    rw [wrapInt_of_range _ h1 h2, wrapLong_of_fits L _ h3]
  · split
    · rename_i h
      obtain ⟨h1, h2, h3⟩ := hlong h.1 h.2
      rw [wrapLong_of_fits L _ h1, wrapLong_of_fits L _ h2, wrapLong_of_fits L _ h3]
    · rfl

/-- Counterexample to C5 as stated: for the arbitrary gradient of `arbitraryExample`, with a
shape that declares 300000000 samples and the delay 5, the claim's candidate
`10 * 300000000 + 5` makes the maximum `3000000005`, while the duration `GetBlock` computes
before the block delay is `0`, whatever the width of `long`: the product is formed in
`int`. -/
theorem eventsDuration_exact_counterexample :
    (∀ L : LongBits,
      (eventsDuration L (arbitraryExample 300000000) (arbitraryBlock 300000000)).1 = 0) ∧
      maxOf (exactCandidates (arbitraryExample 300000000) (arbitraryBlock 300000000))
        = 3000000005 := by
  constructor
  · intro L
    have w : wrapLong L (-1294967291) = -1294967291 :=
      wrapLong_of_int L _ (by norm_num) (by norm_num)
    rw [(eventsDuration_spec L _ _).1]
    simp [candidates, candidatesWith, gradCandidate, maxOf, fetchEvents, fetchGrad, Lib.index,
      Lib.assign, Lib.empty, EventIDs.grad, Three.get, Three.set, arbitraryExample,
      arbitraryBlock, State.init, declaredSamples, SeqBlock.blank, wrapInt, w]
  · simp [exactCandidates, candidatesWith, gradCandidate, maxOf, fetchEvents, fetchGrad,
      Lib.index, Lib.assign, Lib.empty, EventIDs.grad, Three.get, Three.set, arbitraryExample,
      arbitraryBlock, State.init, declaredSamples, SeqBlock.blank]

/-- Counterexample to C5 as stated, in the sums of `long`: the trapezoid with
`rampUp = LONG_MAX` and `flat = 1` has the candidate `LONG_MAX + 1`, while the sum the source
forms in a `long` of 32 or of 64 bits is negative and the duration before the block delay is
`0`. -/
theorem eventsDuration_long_counterexample :
    (eventsDuration long32 (State.init 0)
      { SeqBlock.blank with
        events := ⟨0, 0, 1, 0, 0, 0, 0⟩
        grad := ⟨⟨1, 2147483647, 1, 0, 0, 0⟩, GradEvent.zero, GradEvent.zero⟩ }).1 = 0 ∧
    (eventsDuration long64 (State.init 0)
      { SeqBlock.blank with
        events := ⟨0, 0, 1, 0, 0, 0, 0⟩
        grad := ⟨⟨1, 9223372036854775807, 1, 0, 0, 0⟩, GradEvent.zero,
          GradEvent.zero⟩ }).1 = 0 ∧
    maxOf (exactCandidates (State.init 0)
      { SeqBlock.blank with
        events := ⟨0, 0, 1, 0, 0, 0, 0⟩
        grad := ⟨⟨1, 2147483647, 1, 0, 0, 0⟩, GradEvent.zero, GradEvent.zero⟩ })
      = 2147483648 := by
  refine ⟨by decide, by decide, by decide⟩

/-- C5, amended. For every block in which `10 * declared sample count` fits a 32-bit `int`
for the shape of every arbitrary gradient, and in which the sums that make the candidate of
a gradient (`10 * count + delay`; `rampUp + flat`, `+ rampDown`, `+ delay`) are values a
`long` holds, the duration `GetBlock` computes before the block delay is applied equals the
maximum of `0` and the candidates of the events present in the block: the declared sample
count of the RF event's mag shape; for each of the three gradient channels,
`10 * declared sample count of its shape + delay` when the gradient is arbitrary (shape id
`> 0`) and `rampUp + flat + rampDown + delay` when it is a trapezoid (shape id `== 0`); the
ADC candidate; and the duration of a trigger. -/
theorem eventsDuration_max_candidates (L : LongBits) (s : State) (block : SeqBlock)
    (hfit : ∀ i, i < 3 → block.events.grad i > 0 → (block.grad.get i).shape > 0 →
      (-2147483648 ≤ 10 * declaredSamples s (block.grad.get i).shape ∧
        10 * declaredSamples s (block.grad.get i).shape ≤ 2147483647) ∧
      FitsLong L (10 * declaredSamples s (block.grad.get i).shape + (block.grad.get i).delay))
    (hlong : ∀ i, i < 3 → block.events.grad i > 0 → (block.grad.get i).shape = 0 →
      FitsLong L ((block.grad.get i).rampUpTime + (block.grad.get i).flatTime) ∧
      FitsLong L ((block.grad.get i).rampUpTime + (block.grad.get i).flatTime
        + (block.grad.get i).rampDownTime) ∧
      FitsLong L ((block.grad.get i).rampUpTime + (block.grad.get i).flatTime
        + (block.grad.get i).rampDownTime + (block.grad.get i).delay)) :
    (eventsDuration L s block).1 = maxOf (exactCandidates s block) := by
  rw [(eventsDuration_spec L s block).1]
  unfold candidates exactCandidates candidatesWith
  rw [gradCandidate_exact L s block 0 (hfit 0 (by decide)) (hlong 0 (by decide)),
    gradCandidate_exact L s block 1 (hfit 1 (by decide)) (hlong 1 (by decide)),
    gradCandidate_exact L s block 2 (hfit 2 (by decide)) (hlong 2 (by decide))]

/-- Witness of C5, amended: the arbitrary gradient of `arbitraryExample` with a shape of 100
samples and the trapezoid of `trapezoidExample`, with a `long` of 32 bits. -/
theorem eventsDuration_max_candidates_witness :
    (eventsDuration long32 (arbitraryExample 100) (arbitraryBlock 100)).1
      = maxOf (exactCandidates (arbitraryExample 100) (arbitraryBlock 100)) ∧
    (eventsDuration long32 (trapezoidExample 0)
      (fetchEvents (trapezoidExample 0) SeqBlock.blank 0 ⟨1, 0, 1, 0, 0, 0, 0⟩).1).1
      = maxOf (exactCandidates (trapezoidExample 0)
        (fetchEvents (trapezoidExample 0) SeqBlock.blank 0 ⟨1, 0, 1, 0, 0, 0, 0⟩).1) :=
  ⟨eventsDuration_max_candidates long32 (arbitraryExample 100) (arbitraryBlock 100)
      (by decide) (by decide),
    eventsDuration_max_candidates long32 (trapezoidExample 0)
      (fetchEvents (trapezoidExample 0) SeqBlock.blank 0 ⟨1, 0, 1, 0, 0, 0, 0⟩).1
      (by decide) (by decide)⟩

/-- Counterexample to C6 as stated, at three ADC events: with a negative dwell time the
quotient is truncated toward zero, not floored; with 4096 samples of 1000000 ns the product
leaves the range of `int`; with the delay `2147483647` the sum does. -/
theorem adcDuration_exact_counterexample :
    adcDuration ⟨1, -1, 0, 0, 0⟩ ≠ 0 + Int.fdiv (1 * -1) 1000 ∧
      adcDuration ⟨4096, 1000000, 0, 0, 0⟩ ≠ 0 + Int.fdiv (4096 * 1000000) 1000 ∧
      adcDuration ⟨1000, 1, 2147483647, 0, 0⟩ ≠ 2147483647 + Int.fdiv (1000 * 1) 1000 := by
  refine ⟨?_, ?_, ?_⟩ <;> decide

/-- C6, amended. For every ADC event whose product `numSamples * dwellTime` lies in
`[0, 2^31)` and whose sum `delay + floor(numSamples * dwellTime / 1000)` lies in the range
of `int`, the ADC duration candidate `GetBlock` uses equals
`delay + floor(numSamples * dwellTime / 1000)`, over the integers. -/
theorem adcDuration_exact (adc : ADCEvent)
    (hprod0 : 0 ≤ adc.numSamples * adc.dwellTime)
    (hprod1 : adc.numSamples * adc.dwellTime ≤ 2147483647)
    (hsum0 : -2147483648 ≤ adc.delay + Int.fdiv (adc.numSamples * adc.dwellTime) 1000)
    (hsum1 : adc.delay + Int.fdiv (adc.numSamples * adc.dwellTime) 1000 ≤ 2147483647) :
    adcDuration adc = adc.delay + Int.fdiv (adc.numSamples * adc.dwellTime) 1000 := by
  unfold adcDuration
  rw [wrapInt_of_range _ (by omega) hprod1]
  have e : Int.tdiv (adc.numSamples * adc.dwellTime) 1000
      = Int.fdiv (adc.numSamples * adc.dwellTime) 1000 := by
    rw [Int.tdiv_eq_ediv hprod0 (by decide), Int.fdiv_eq_ediv _ (by decide)]
  rw [e]
  exact wrapInt_of_range _ hsum0 hsum1

/-- Witness of C6, amended: 256 samples of 10000 ns after a delay of 50. -/
theorem adcDuration_exact_witness :
    adcDuration ⟨256, 10000, 50, 0, 0⟩ = 50 + Int.fdiv (256 * 10000) 1000 :=
  adcDuration_exact ⟨256, 10000, 50, 0, 0⟩ (by decide) (by decide) (by decide) (by decide)

/-! ## Referential validation -/

theorem count_eq_zero_iff {α : Type} (m : Lib α) (k : Int) :
    m.count k = 0 ↔ ¬ Resolves m k := by
  unfold Lib.count Resolves
  cases m k <;> simp

/-- Counterexample to C7 as stated: with every library empty and the rf slot `-1`,
`checkBlockReferences` returns `true`, although the nonzero id `-1` is not a key of the RF
library. -/
theorem checkBlockReferences_nonzero_counterexample :
    checkBlockReferences (State.init 0) ⟨0, -1, 0, 0, 0, 0, 0⟩ = true ∧
      ¬ SlotsResolve (fun id => id ≠ 0) (State.init 0) ⟨0, -1, 0, 0, 0, 0, 0⟩ := by
  constructor
  · decide
  · intro h
    have := h.2.1 (by decide)
    simp [Resolves, State.init, Lib.empty] at this

theorem checkBlockReferences_spec (s : State) (events : EventIDs) :
    checkBlockReferences s events = true ↔ SlotsResolve (fun id => id > 0) s events := by
  unfold checkBlockReferences SlotsResolve
  simp only [Bool.not_eq_true', Bool.or_eq_false_iff, Bool.and_eq_false_imp,
    decide_eq_true_eq, decide_eq_false_iff_not, count_eq_zero_iff, not_not]
  tauto

/-- C7, amended. For every `EventIDs` record and every state of the libraries,
`checkBlockReferences` returns `true` if and only if every slot whose id is positive holds
a key of its corresponding library (delay in the delay library, rf in the RF library, gx,
gy and gz in the gradient library, adc in the ADC library, ctrl in the control library). -/
theorem checkBlockReferences_iff (s : State) (events : EventIDs) :
    checkBlockReferences s events = true ↔ SlotsResolve (fun id => id > 0) s events :=
  checkBlockReferences_spec s events

/-! ## Reading lines -/

theorem advances_refl (is : IStream) : Advances is is := ⟨rfl, le_refl _, fun h => h⟩

theorem advances_trans {a b c : IStream} (h1 : Advances a b) (h2 : Advances b c) :
    Advances a c := by
  obtain ⟨d1, p1, b1⟩ := h1
  obtain ⟨d2, p2, b2⟩ := h2
  refine ⟨d2.trans d1, le_trans p1 p2, fun h => ?_⟩
  have := b1 h
  rw [d1] at b2
  exact b2 this

theorem get_some {is is1 : IStream} {c : Char} (h : is.get = (some c, is1)) :
    is1.data = is.data ∧ is1.pos = is.pos + 1 ∧ is.pos < is.data.length := by
  unfold IStream.get at h
  split at h
  · split at h
    · rename_i c' hc
      injection h with h1 h2
      subst h2
      have := (List.getElem?_eq_some_iff.mp hc).1
      exact ⟨rfl, rfl, this⟩
    · injection h with h1 h2
      cases h1
  · injection h with h1 h2
    cases h1

theorem get_none {is is1 : IStream} (h : is.get = (none, is1)) :
    is1.data = is.data ∧ is1.pos = is.pos := by
  unfold IStream.get at h
  split at h
  · split at h
    · injection h with h1 h2
      cases h1
    · injection h with h1 h2
      subst h2
      exact ⟨rfl, rfl⟩
  · injection h with h1 h2
    subst h2
    exact ⟨rfl, rfl⟩

theorem get_advances (is : IStream) : Advances is is.get.2 := by
  rcases h : is.get with ⟨_ | c, is1⟩
  · obtain ⟨h1, h2⟩ := get_none h
    exact ⟨h1, by simp [h2], fun hle => by simpa [h2] using hle⟩
  · obtain ⟨h1, h2, h3⟩ := get_some h
    exact ⟨h1, by simp [h2], fun _ => by simp [h2]; omega⟩

theorem peek_advances (is : IStream) : Advances is is.peek.2 := by
  unfold IStream.peek
  split
  · split <;> exact ⟨rfl, le_refl _, fun h => h⟩
  · exact ⟨rfl, le_refl _, fun h => h⟩

theorem seekg_neg_advances (is : IStream) : Advances is (is.seekg (-1)) := by
  unfold IStream.seekg
  split
  · exact ⟨rfl, le_refl _, fun h => h⟩
  · rw [if_pos (by decide)]
    exact ⟨rfl, le_refl _, fun h => h⟩

theorem getlineEof_advances (is : IStream) (acc : List Char) :
    Advances is (getlineEof is acc).stream := by
  unfold getlineEof
  dsimp only
  split
  · exact seekg_neg_advances is
  · exact advances_refl is

theorem getlineCr_advances (is : IStream) (acc : List Char) :
    Advances is (getlineCr is acc).stream := by
  unfold getlineCr
  dsimp only
  split
  · exact advances_trans (peek_advances is) (get_advances _)
  · exact peek_advances is

theorem getlineEof_ok (is : IStream) (acc : List Char) (h : (getlineEof is acc).ok = true) :
    acc ≠ [] := by
  intro e
  subst e
  simp [getlineEof] at h

theorem getlineLoop_progress : ∀ (room : Nat) (is : IStream) (acc : List Char),
    Advances is (getlineLoop room is acc).stream ∧
      ((getlineLoop room is acc).ok = true → acc = [] →
        is.pos < (getlineLoop room is acc).stream.pos ∧
          (getlineLoop room is acc).stream.pos ≤ is.data.length) := by
  intro room
  induction room with
  | zero =>
    intro is acc
    unfold getlineLoop
    rcases h : is.get with ⟨_ | c, is1⟩
    · have ha : Advances is is1 := by have := get_advances is; rwa [h] at this
      dsimp only
      refine ⟨advances_trans ha (getlineEof_advances is1 acc), fun hok hacc => ?_⟩
      exact absurd hacc (getlineEof_ok is1 acc hok)
    · obtain ⟨h1, h2, h3⟩ := get_some h
      have ha : Advances is is1 := by have := get_advances is; rwa [h] at this
      have hb : is1.pos ≤ is1.data.length := by rw [h1, h2]; omega
      dsimp only
      split
      · exact ⟨ha, fun _ _ => ⟨by rw [h2]; omega, by rw [h2]; omega⟩⟩
      · split
        · have hc := getlineCr_advances is1 acc
          refine ⟨advances_trans ha hc, fun _ _ => ⟨?_, ?_⟩⟩
          · have := hc.2.1; rw [h2] at this; omega
          · have := hc.2.2 hb; rw [h1] at this; exact this
        · split
          · refine ⟨advances_trans ha (getlineEof_advances is1 acc), fun hok hacc => ?_⟩
            exact absurd hacc (getlineEof_ok is1 acc hok)
          · exact ⟨ha, fun _ _ => ⟨by rw [h2]; omega, by rw [h2]; omega⟩⟩
  | succ room ih =>
    intro is acc
    unfold getlineLoop
    rcases h : is.get with ⟨_ | c, is1⟩
    · have ha : Advances is is1 := by have := get_advances is; rwa [h] at this
      dsimp only
      refine ⟨advances_trans ha (getlineEof_advances is1 acc), fun hok hacc => ?_⟩
      exact absurd hacc (getlineEof_ok is1 acc hok)
    · obtain ⟨h1, h2, h3⟩ := get_some h
      have ha : Advances is is1 := by have := get_advances is; rwa [h] at this
      have hb : is1.pos ≤ is1.data.length := by rw [h1, h2]; omega
      dsimp only
      split
      · exact ⟨ha, fun _ _ => ⟨by rw [h2]; omega, by rw [h2]; omega⟩⟩
      · split
        · have hc := getlineCr_advances is1 acc
          refine ⟨advances_trans ha hc, fun _ _ => ⟨?_, ?_⟩⟩
          · have := hc.2.1; rw [h2] at this; omega
          · have := hc.2.2 hb; rw [h1] at this; exact this
        · split
          · refine ⟨advances_trans ha (getlineEof_advances is1 acc), fun hok hacc => ?_⟩
            exact absurd hacc (getlineEof_ok is1 acc hok)
          · obtain ⟨hc, _⟩ := ih is1 (acc ++ [c])
            refine ⟨advances_trans ha hc, fun _ _ => ⟨?_, ?_⟩⟩
            · have := hc.2.1; rw [h2] at this; omega
            · have := hc.2.2 hb; rw [h1] at this; exact this

/-- A call of `getline` that returns `true` has consumed at least one byte, and the stream
is then not past the end of the data. -/
theorem getline_progress (is : IStream) (M : Nat) (h : (getline is M).ok = true) :
    (getline is M).stream.data = is.data ∧ is.pos < (getline is M).stream.pos ∧
      (getline is M).stream.pos ≤ is.data.length := by
  obtain ⟨h1, h2⟩ := getlineLoop_progress (M - 1) is []
  obtain ⟨h3, h4⟩ := h2 h rfl
  exact ⟨h1.1, h3, h4⟩

/-! ## The block loop of `load` -/

theorem takeRows_succ {n : Nat} {is : IStream} {rows : List (List Char)}
    (h : takeRows (n + 1) is = some rows) :
    ∃ line rest, rows = line :: rest ∧ (getline is MAX_LINE_SIZE).ok = true ∧
      (getline is MAX_LINE_SIZE).buffer.first ≠ '[' ∧
      (getline is MAX_LINE_SIZE).buffer.cstr = .ok line ∧ line.length ≠ 0 ∧
      takeRows n (getline is MAX_LINE_SIZE).stream = some rest := by
  unfold takeRows at h
  dsimp only at h
  split at h
  · rename_i hc
    split at h
    · rename_i line hline
      split at h
      · cases h
      · rename_i hlen
        rcases hr : takeRows n (getline is MAX_LINE_SIZE).stream with _ | rest
        · rw [hr] at h; cases h
        · rw [hr] at h
          injection h with h
          exact ⟨line, rest, h.symm, hc.1, hc.2, hline, hlen, rfl⟩
    · cases h
  · cases h

theorem sectionLoop_step (body : State → List Char → Except Exit State) (fuel : Nat)
    (s : State) (is : IStream) (line : List Char)
    (h1 : (getline is MAX_LINE_SIZE).ok = true)
    (h2 : (getline is MAX_LINE_SIZE).buffer.first ≠ '[')
    (h3 : (getline is MAX_LINE_SIZE).buffer.cstr = .ok line) (h4 : line.length ≠ 0) :
    sectionLoop body (fuel + 1) s is =
      match body s line with
      | .error e => .error e
      | .ok s1 => sectionLoop body fuel s1 (getline is MAX_LINE_SIZE).stream := by
  rw [sectionLoop]
  simp only [h1, h2, h3, h4, if_false, Bool.true_eq_false]

theorem blockRecord_eq (sc : Scanners) (s : State) (line : List Char) :
    blockRecord sc s line =
      if rowAccepted sc s line = true
      then .ok { s with m_blocks := s.m_blocks ++ [rowEvents sc line] }
      else .error (Exit.ret false s) := by
  unfold blockRecord rowAccepted rowCount rowEvents
  dsimp only
  by_cases h1 : 7 < (sscanf sc line
    [Conv.d, Conv.d, Conv.d, Conv.d, Conv.d, Conv.d, Conv.d, Conv.d]).1
  · simp [h1]
  · simp only [h1, if_false, decide_False, Bool.not_false, Bool.true_and]
    split <;> simp_all

theorem rowAccepted_blocks (sc : Scanners) (s : State) (blocks : List EventIDs)
    (line : List Char) :
    rowAccepted sc { s with m_blocks := blocks } line = rowAccepted sc s line := rfl

/-- The block loop on a stream whose next rows are `pre` and then a row that is not
accepted: it ends `load` with `false`, the table holding the rows accepted before the first
row that is not. -/
theorem sectionLoop_rejects (sc : Scanners) : ∀ (pre : List (List Char)) (bad : List Char)
    (s : State) (is : IStream) (fuel : Nat),
    takeRows (pre.length + 1) is = some (pre ++ [bad]) →
    rowAccepted sc s bad = false →
    is.data.length + 1 ≤ fuel + is.pos →
    sectionLoop (blockRecord sc) fuel s is = .error (Exit.ret false
      { s with m_blocks := s.m_blocks ++ (pre.takeWhile (rowAccepted sc s)).map (rowEvents sc) }) := by
  intro pre
  induction pre with
  | nil =>
    intro bad s is fuel hrows hbad hfuel
    obtain ⟨line, rest, e, h1, h2, h3, h4, _⟩ := takeRows_succ hrows
    have hl : line = bad := by
      simp only [List.nil_append, List.cons.injEq] at e
      exact e.1.symm
    subst hl
    obtain ⟨_, hp, hq⟩ := getline_progress is MAX_LINE_SIZE h1
    cases fuel with
    | zero => omega
    | succ fuel =>
      rw [sectionLoop_step _ fuel s is line h1 h2 h3 h4, blockRecord_eq, hbad]
      simp
  | cons l pre ih =>
    intro bad s is fuel hrows hbad hfuel
    obtain ⟨line, rest, e, h1, h2, h3, h4, hrest⟩ := takeRows_succ hrows
    simp only [List.cons_append, List.cons.injEq] at e
    obtain ⟨e1, e2⟩ := e
    subst e1
    subst e2
    obtain ⟨hd, hp, hq⟩ := getline_progress is MAX_LINE_SIZE h1
    cases fuel with
    | zero => omega
    | succ fuel =>
      rw [sectionLoop_step _ fuel s is l h1 h2 h3 h4, blockRecord_eq]
      by_cases hl : rowAccepted sc s l = true
      · rw [if_pos hl]
        dsimp only
        rw [ih bad _ _ fuel hrest (by rw [rowAccepted_blocks]; exact hbad)
          (by rw [hd]; omega)]
        have hw : rowAccepted sc { s with m_blocks := s.m_blocks ++ [rowEvents sc l] }
            = rowAccepted sc s := by
          funext x; exact rowAccepted_blocks sc s _ x
        rw [hw, List.takeWhile_cons_of_pos hl]
        simp
      · rw [if_neg hl, List.takeWhile_cons_of_neg hl]
        simp

theorem load_of_rejected_row {W : LongBits} (sc : Scanners) (files : Files) (s0 : State)
    (p : State × IStream) (pre : List (List Char)) (bad : List Char)
    (hp : loadPrefix W sc files s0 = .ok p)
    (hrows : takeRows (pre.length + 1) p.2 = some (pre ++ [bad]))
    (hbad : rowAccepted sc p.1 bad = false) :
    load W sc files s0 = .ok (false,
      { p.1 with m_blocks := (pre.takeWhile (rowAccepted sc p.1)).map (rowEvents sc) }) := by
  have h := sectionLoop_rejects sc pre bad { p.1 with m_blocks := [] } p.2
    (p.2.data.length + 1) hrows (by rw [rowAccepted_blocks]; exact hbad) (by omega)
  have hw : rowAccepted sc { p.1 with m_blocks := [] } = rowAccepted sc p.1 := by
    funext x; exact rowAccepted_blocks sc p.1 _ x
  rw [hw] at h
  unfold load
  simp only [bind, Except.bind, hp, loadBlocks, h, List.nil_append]

theorem rowAccepted_of_unresolved (sc : Scanners) (s : State) (line : List Char)
    (h : ¬ SlotsResolve (fun id => id > 0) s (rowEvents sc line)) :
    rowAccepted sc s line = false := by
  unfold rowAccepted
  have hc : checkBlockReferences s (rowEvents sc line) = false := by
    rcases hb : checkBlockReferences s (rowEvents sc line) with _ | _
    · rfl
    · exact absurd ((checkBlockReferences_spec s _).mp hb) h
  rw [hc, Bool.and_false]

set_option maxRecDepth 100000

/-- Counterexample to C8 as stated: in this file the second row of `[BLOCKS]` references the
RF id 5 and there is no RF record at all; `load` returns `false`, and the block table holds
one block afterwards, the entry of the first row; this for every width of the combined
version. -/
theorem load_retains_blocks_counterexample :
    rowEvents integerScanners "2 0 5 0 0 0 0".toList = ⟨0, 5, 0, 0, 0, 0, 0⟩ ∧
      ∀ W : LongBits, loadResult (load W integerScanners
        (singleFile "[SHAPES]\n\n[BLOCKS]\n1 0 0 0 0 0 0\n2 0 5 0 0 0 0\n") (State.init 0))
        = some (false, [⟨0, 0, 0, 0, 0, 0, 0⟩]) :=
  ⟨by decide, fun _ => rfl⟩

/-- C8, amended. For every input, when the block loop of `load` reads a row that references
an id absent from the corresponding library (a positive id that is not a key), whatever
rows `pre` it has read before, `load` returns `false`; the block table is not emptied: it
holds the entries of the rows of `pre` accepted before the first row that was not. -/
theorem load_dangling_reference (W : LongBits) (sc : Scanners) (files : Files) (s0 : State)
    (p : State × IStream) (pre : List (List Char)) (row : List Char)
    (hp : loadPrefix W sc files s0 = .ok p)
    (hrows : takeRows (pre.length + 1) p.2 = some (pre ++ [row]))
    (hrow : ¬ SlotsResolve (fun id => id > 0) p.1 (rowEvents sc row)) :
    load W sc files s0 = .ok (false,
      { p.1 with m_blocks := (pre.takeWhile (rowAccepted sc p.1)).map (rowEvents sc) }) :=
  load_of_rejected_row sc files s0 p pre row hp hrows (rowAccepted_of_unresolved sc p.1 row hrow)

/-- Witness of C8, amended: the file of the counterexample, whose block loop reads the row
`1 0 0 0 0 0 0` and then the row `2 0 5 0 0 0 0`. -/
theorem load_dangling_reference_witness :
    ∃ p, loadPrefix long32 integerScanners
        (singleFile "[SHAPES]\n\n[BLOCKS]\n1 0 0 0 0 0 0\n2 0 5 0 0 0 0\n") (State.init 0) = .ok p ∧
      load long32 integerScanners
        (singleFile "[SHAPES]\n\n[BLOCKS]\n1 0 0 0 0 0 0\n2 0 5 0 0 0 0\n") (State.init 0)
        = .ok (false, { p.1 with m_blocks := (List.map (rowEvents integerScanners)
            (["1 0 0 0 0 0 0".toList].takeWhile (rowAccepted integerScanners p.1))) }) :=
  ⟨_, rfl, load_dangling_reference long32 integerScanners _ (State.init 0) _
    ["1 0 0 0 0 0 0".toList] "2 0 5 0 0 0 0".toList rfl (by decide)
    (by
      intro h
      have h5 := h.2.1 (by decide)
      unfold Resolves at h5
      revert h5
      decide)⟩

/-- C9 at a failing input: the `[DEFINITIONS]` section holds `Num_Blocks 3`, the `[BLOCKS]`
section holds no row; `load` returns `true` with the definition stored and zero blocks, for
every width of the combined version. -/
theorem load_ignores_num_blocks (W : LongBits) :
    ∃ s, load W integerScanners
        (singleFile "[DEFINITIONS]\nNum_Blocks 3\n\n[BLOCKS]\n\n[SHAPES]\n\n") (State.init 0)
        = .ok (true, s) ∧
      s.m_definitions "Num_Blocks".toList = some [3] ∧ s.m_blocks = [] :=
  ⟨_, rfl, by rfl, by rfl⟩

/-- C10 at two failing inputs: a row from which 8 integers scan, with every id `0`, makes
`load` return `false` with no block stored; a row from which only 3 integers scan is
accepted and appended; this for every width of the combined version. -/
theorem load_inverted_field_count (W : LongBits) :
    rowCount integerScanners "1 0 0 0 0 0 0 0".toList = 8 ∧
      loadResult (load W integerScanners
        (singleFile "[SHAPES]\n\n[BLOCKS]\n1 0 0 0 0 0 0 0\n") (State.init 0))
        = some (false, []) ∧
      rowCount integerScanners "1 0 0".toList = 3 ∧
      loadResult (load W integerScanners
        (singleFile "[SHAPES]\n\n[BLOCKS]\n1 0 0\n") (State.init 0))
        = some (true, [⟨0, 0, 0, 0, 0, 0, 0⟩]) :=
  ⟨by decide, rfl, by decide, rfl⟩

/-! ## Fuel

The loops of the embedding never run out of the fuel their callers pass. -/

theorem bind_ne_outOfFuel {α β : Type} (x : Except Fault α) (f : α → Except Fault β)
    (hx : x ≠ .error .outOfFuel) (hf : ∀ a, f a ≠ .error .outOfFuel) :
    (x >>= f) ≠ .error .outOfFuel := by
  cases x with
  | error e => simpa [bind, Except.bind] using hx
  | ok a => simpa [bind, Except.bind] using hf a

theorem readAt_ne_outOfFuel {α : Type} (xs : List α) (i : Int) :
    readAt xs i ≠ .error .outOfFuel := by
  unfold readAt
  split
  · simp
  · split <;> simp

theorem writeAt_ne_outOfFuel {α : Type} (xs : List α) (i : Int) (v : α) :
    writeAt xs i v ≠ .error .outOfFuel := by
  unfold writeAt
  split <;> simp

theorem fillRun_ne_outOfFuel (v : ℚ) : ∀ (n : Nat) (i : Int) (shape : List ℚ),
    fillRun v n i shape ≠ .error .outOfFuel := by
  intro n
  induction n with
  | zero => intro i shape; simp [fillRun]
  | succ n ih =>
    intro i shape
    rw [fillRun]
    exact bind_ne_outOfFuel _ _ (writeAt_ne_outOfFuel _ _ _) (fun a => ih _ a)

theorem cumulativeSum_ne_outOfFuel (add : ℚ → ℚ → ℚ) : ∀ (n : Nat) (i : Int)
    (shape : List ℚ), cumulativeSum add n i shape ≠ .error .outOfFuel := by
  intro n
  induction n with
  | zero => intro i shape; simp [cumulativeSum]
  | succ n ih =>
    intro i shape
    rw [cumulativeSum]
    refine bind_ne_outOfFuel _ _ (readAt_ne_outOfFuel _ _) (fun a => ?_)
    refine bind_ne_outOfFuel _ _ (readAt_ne_outOfFuel _ _) (fun b => ?_)
    exact bind_ne_outOfFuel _ _ (writeAt_ne_outOfFuel _ _ _) (fun c => ih _ c)

theorem unpackLoop_ne_outOfFuel (packed : List ℚ) (N : Int) : ∀ (fuel : Nat) (cp cu : Int)
    (shape : List ℚ), N < cp + fuel →
    unpackLoop packed N fuel cp cu shape ≠ .error .outOfFuel := by
  intro fuel
  induction fuel with
  | zero =>
    intro cp cu shape h
    rw [unpackLoop, if_neg (by simp at h; omega)]
    simp
  | succ fuel ih =>
    intro cp cu shape h
    rw [unpackLoop]
    split
    · refine bind_ne_outOfFuel _ _ (readAt_ne_outOfFuel _ _) (fun a => ?_)
      refine bind_ne_outOfFuel _ _ (readAt_ne_outOfFuel _ _) (fun b => ?_)
      split
      · refine bind_ne_outOfFuel _ _ (writeAt_ne_outOfFuel _ _ _) (fun c => ?_)
        exact ih _ _ _ (by push_cast at h; omega)
      · refine bind_ne_outOfFuel _ _ (readAt_ne_outOfFuel _ _) (fun c => ?_)
        refine bind_ne_outOfFuel _ _ (fillRun_ne_outOfFuel _ _ _ _) (fun d => ?_)
        exact ih _ _ _ (by push_cast at h; omega)
    · simp

theorem trailingLiteral_ne_outOfFuel (packed : List ℚ) (N : Int) (c : Int × Int × List ℚ) :
    trailingLiteral packed N c ≠ .error .outOfFuel := by
  obtain ⟨cp, cu, shape⟩ := c
  unfold trailingLiteral
  dsimp only
  split
  · exact bind_ne_outOfFuel _ _ (readAt_ne_outOfFuel _ _) (fun a => writeAt_ne_outOfFuel _ _ _)
  · simp

/-- The function `decompressShape` passes enough fuel to its loop. -/
theorem decompressShape_ne_outOfFuel (add : ℚ → ℚ → ℚ) (encoded : CompressedShape)
    (shape : List ℚ) : decompressShape add encoded shape ≠ .error .outOfFuel := by
  unfold decompressShape
  refine bind_ne_outOfFuel _ _ (unpackLoop_ne_outOfFuel _ _ _ _ _ _ (by omega)) (fun c => ?_)
  exact bind_ne_outOfFuel _ _ (trailingLiteral_ne_outOfFuel _ _ _)
    (fun d => cumulativeSum_ne_outOfFuel add _ _ _)

theorem fueled_of_data (is r : IStream) (h : r.data = is.data) :
    Fueled (is.data.length + 1) r := by
  unfold Fueled
  rw [h]
  omega

theorem fueled_getline (fuel : Nat) (is : IStream) (M : Nat) (h : Fueled (fuel + 1) is)
    (hok : (getline is M).ok = true) : Fueled fuel (getline is M).stream := by
  obtain ⟨hd, hp, hq⟩ := getline_progress is M hok
  obtain ⟨_, h2⟩ := h
  unfold Fueled
  rw [hd]
  have := h2 (by omega)
  omega

theorem getline_advances (is : IStream) (M : Nat) : Advances is (getline is M).stream :=
  (getlineLoop_progress (M - 1) is []).1

theorem seekg_neg_not_good (is : IStream) : (is.seekg (-1)).good = false := by
  unfold IStream.seekg IStream.good
  split
  · rename_i h; simp [h]
  · rw [if_pos (by decide)]; simp

theorem getlineEof_not_good (is : IStream) (acc : List Char)
    (h : (getlineEof is acc).ok = false) : (getlineEof is acc).stream.good = false := by
  unfold getlineEof at h ⊢
  dsimp only at h ⊢
  cases acc with
  | nil => simpa using seekg_neg_not_good is
  | cons a acc => simp at h

theorem getlineLoop_not_good : ∀ (room : Nat) (is : IStream) (acc : List Char),
    (getlineLoop room is acc).ok = false → (getlineLoop room is acc).stream.good = false := by
  intro room
  induction room with
  | zero =>
    intro is acc
    unfold getlineLoop
    rcases is.get with ⟨_ | c, is1⟩
    · exact getlineEof_not_good is1 acc
    · dsimp only
      split
      · intro h; cases h
      · split
        · intro h; simp [getlineCr] at h
        · split
          · exact getlineEof_not_good is1 acc
          · intro h; cases h
  | succ room ih =>
    intro is acc
    unfold getlineLoop
    rcases is.get with ⟨_ | c, is1⟩
    · exact getlineEof_not_good is1 acc
    · dsimp only
      split
      · intro h; cases h
      · split
        · intro h; simp [getlineCr] at h
        · split
          · exact getlineEof_not_good is1 acc
          · exact ih is1 (acc ++ [c])

/-- After a call of `getline` that returns `false` the stream is not good. -/
theorem getline_not_good (is : IStream) (M : Nat) (h : (getline is M).ok = false) :
    (getline is M).stream.good = false :=
  getlineLoop_not_good (M - 1) is [] h

theorem cstr_ne_outOfFuel (buffer : Buffer) : buffer.cstr ≠ .error .outOfFuel := by
  unfold Buffer.cstr
  dsimp only
  split <;> simp

theorem skipCommentsLoop_ne_outOfFuel : ∀ (fuel : Nat) (is : IStream), Fueled fuel is →
    skipCommentsLoop fuel is ≠ .error .outOfFuel := by
  intro fuel
  induction fuel with
  | zero => intro is h; exact absurd h.1 (by omega)
  | succ fuel ih =>
    intro is h
    rw [skipCommentsLoop]
    split
    · simp
    · rename_i hok
      have hf := fueled_getline fuel is MAX_LINE_SIZE h (by simpa using hok)
      split
      · exact ih _ hf
      · split
        · rename_i f hc
          intro e
          injection e with e
          rw [e] at hc
          exact cstr_ne_outOfFuel _ hc
        · split
          · simp
          · exact ih _ hf

/-- What `skipComments` leaves: the same bytes, a position that has not moved back, and, if
the stream is still good, a position that has moved on and is not past the end. -/
theorem skipCommentsLoop_post : ∀ (fuel : Nat) (is : IStream) (buffer : Buffer)
    (r : IStream), skipCommentsLoop fuel is = .ok (buffer, r) →
    r.data = is.data ∧ is.pos ≤ r.pos ∧
      (r.good = true → is.pos < r.pos ∧ r.pos ≤ is.data.length) := by
  intro fuel
  induction fuel with
  | zero => intro is buffer r h; simp [skipCommentsLoop] at h
  | succ fuel ih =>
    intro is buffer r h
    rw [skipCommentsLoop] at h
    have hadv := getline_advances is MAX_LINE_SIZE
    have next : ∀ buffer r, (getline is MAX_LINE_SIZE).ok = true →
        skipCommentsLoop fuel (getline is MAX_LINE_SIZE).stream = .ok (buffer, r) →
        r.data = is.data ∧ is.pos ≤ r.pos ∧
          (r.good = true → is.pos < r.pos ∧ r.pos ≤ is.data.length) := by
      intro buffer r hok hrec
      obtain ⟨hd, hp, hq⟩ := getline_progress is MAX_LINE_SIZE hok
      obtain ⟨a, b, c⟩ := ih _ _ _ hrec
      refine ⟨a.trans hd, by omega, fun hg => ?_⟩
      obtain ⟨c1, c2⟩ := c hg
      rw [hd] at c2
      exact ⟨by omega, c2⟩
    split at h
    · rename_i hok
      injection h with h
      injection h with h1 h2
      subst h2
      refine ⟨hadv.1, hadv.2.1, fun hg => ?_⟩
      rw [getline_not_good is MAX_LINE_SIZE (by simpa using hok)] at hg
      cases hg
    · rename_i hok
      have hok' : (getline is MAX_LINE_SIZE).ok = true := by simpa using hok
      split at h
      · exact next _ _ hok' h
      · split at h
        · cases h
        · split at h
          · injection h with h
            injection h with h1 h2
            subst h2
            obtain ⟨hd, hp, hq⟩ := getline_progress is MAX_LINE_SIZE hok'
            exact ⟨hd, le_of_lt hp, fun _ => ⟨hp, hq⟩⟩
          · exact next _ _ hok' h

theorem skipComments_ne_outOfFuel (is : IStream) : skipComments is ≠ .error .outOfFuel :=
  skipCommentsLoop_ne_outOfFuel _ _ (fueled_of_data is is rfl)

theorem tellg_same (is : IStream) : is.tellg.2.data = is.data ∧ is.tellg.2.pos = is.pos := by
  unfold IStream.tellg
  split <;> exact ⟨rfl, rfl⟩

theorem buildFileIndexLoop_ne_outOfFuel : ∀ (fuel : Nat) (s : State) (is : IStream),
    Fueled fuel is → buildFileIndexLoop fuel s is ≠ .error .outOfFuel := by
  intro fuel
  induction fuel with
  | zero => intro s is h; exact absurd h.1 (by omega)
  | succ fuel ih =>
    intro s is h
    rw [buildFileIndexLoop]
    split
    · simp
    · rename_i hok
      have hf := fueled_getline fuel is MAX_LINE_SIZE h (by simpa using hok)
      split
      · rename_i f hc
        intro e
        injection e with e
        rw [e] at hc
        exact cstr_ne_outOfFuel _ hc
      · split
        · apply ih
          obtain ⟨t1, t2⟩ := tellg_same (getline is MAX_LINE_SIZE).stream
          unfold Fueled at hf ⊢
          rw [t1, t2]
          exact hf
        · exact ih _ _ hf

theorem buildFileIndex_ne_outOfFuel (s : State) (is : IStream) :
    buildFileIndex s is ≠ .error .outOfFuel := by
  unfold buildFileIndex
  have h := buildFileIndexLoop_ne_outOfFuel (is.data.length + 1) s is (fueled_of_data is is rfl)
  split
  · rename_i f hf
    intro e
    injection e with e
    rw [e] at hf
    exact h hf
  · simp

theorem bind_ne_fuelExit {α β : Type} (x : Except Exit α) (f : α → Except Exit β)
    (hx : x ≠ .error (Exit.fault .outOfFuel))
    (hf : ∀ a, x = .ok a → f a ≠ .error (Exit.fault .outOfFuel)) :
    (x >>= f) ≠ .error (Exit.fault .outOfFuel) := by
  cases x with
  | error e => simpa [bind, Except.bind] using hx
  | ok a => simpa [bind, Except.bind] using hf a rfl

theorem liftFault_ne_fuelExit {α : Type} (r : Except Fault α) (h : r ≠ .error .outOfFuel) :
    liftFault r ≠ .error (Exit.fault .outOfFuel) := by
  unfold liftFault
  split
  · simp
  · rename_i f
    intro e
    injection e with e
    injection e with e
    subst e
    exact h rfl

theorem liftFault_ok {α : Type} {r : Except Fault α} {a : α} (h : liftFault r = .ok a) :
    r = .ok a := by
  unfold liftFault at h
  split at h
  · injection h with h; subst h; rfl
  · cases h

theorem sectionLoop_ne_fuelExit (body : State → List Char → Except Exit State)
    (hbody : ∀ s line, body s line ≠ .error (Exit.fault .outOfFuel)) :
    ∀ (fuel : Nat) (s : State) (is : IStream), Fueled fuel is →
    sectionLoop body fuel s is ≠ .error (Exit.fault .outOfFuel) := by
  intro fuel
  induction fuel with
  | zero => intro s is h; exact absurd h.1 (by omega)
  | succ fuel ih =>
    intro s is h
    rw [sectionLoop]
    split
    · simp
    · rename_i hok
      have hf := fueled_getline fuel is MAX_LINE_SIZE h (by simpa using hok)
      split
      · simp
      · split
        · rename_i f hc
          intro e
          injection e with e
          injection e with e
          rw [e] at hc
          exact cstr_ne_outOfFuel _ hc
        · split
          · simp
          · split
            · rename_i e he
              intro h'
              injection h' with h'
              rw [h'] at he
              exact hbody _ _ he
            · exact ih _ _ hf

theorem sampleLoop_ne_fuelExit (sc : Scanners) (s : State) : ∀ (fuel : Nat) (samples : List ℚ)
    (is : IStream), Fueled fuel is →
    sampleLoop sc s fuel samples is ≠ .error (Exit.fault .outOfFuel) := by
  intro fuel
  induction fuel with
  | zero => intro samples is h; exact absurd h.1 (by omega)
  | succ fuel ih =>
    intro samples is h
    rw [sampleLoop]
    split
    · simp
    · rename_i hok
      have hf := fueled_getline fuel is MAX_LINE_SIZE h (by simpa using hok)
      split
      · simp
      · split
        · rename_i f hc
          intro e
          injection e with e
          injection e with e
          rw [e] at hc
          exact cstr_ne_outOfFuel _ hc
        · split
          · simp
          · dsimp only
            split
            · exact ih _ _ hf
            · simp

theorem sampleLoop_advances (sc : Scanners) (s : State) : ∀ (fuel : Nat) (samples : List ℚ)
    (is : IStream) (out : List ℚ) (r : IStream),
    sampleLoop sc s fuel samples is = .ok (out, r) → Advances is r := by
  intro fuel
  induction fuel with
  | zero => intro samples is out r h; simp [sampleLoop] at h
  | succ fuel ih =>
    intro samples is out r h
    rw [sampleLoop] at h
    have hadv := getline_advances is MAX_LINE_SIZE
    split at h
    · injection h with h; injection h with h1 h2; subst h2; exact hadv
    · split at h
      · injection h with h; injection h with h1 h2; subst h2; exact hadv
      · split at h
        · cases h
        · split at h
          · injection h with h; injection h with h1 h2; subst h2; exact hadv
          · dsimp only at h
            split at h
            · exact advances_trans hadv (ih _ _ _ _ h)
            · cases h

theorem versionField_ne_fuelExit (sc : Scanners) (s : State) (line : List Char) :
    versionField sc s line ≠ .error (Exit.fault .outOfFuel) := by
  unfold versionField
  split
  · split <;> simp
  · split
    · split <;> simp
    · split
      · split <;> simp
      · simp

theorem fueledAfterRead_skip (fuel : Nat) (is : IStream) (buffer : Buffer) (r : IStream)
    (h : FueledAfterRead (fuel + 1) is) (hg : is.good = true)
    (hs : skipComments is = .ok (buffer, r)) : FueledAfterRead fuel r := by
  obtain ⟨hd, hp, hq⟩ := skipCommentsLoop_post _ _ _ _ hs
  obtain ⟨h1, h2⟩ := h.2 hg
  refine ⟨by omega, fun hr => ?_⟩
  obtain ⟨q1, q2⟩ := hq hr
  rw [hd]
  exact ⟨q2, by omega⟩

theorem versionLoop_ne_fuelExit (sc : Scanners) : ∀ (fuel : Nat) (s : State) (buffer : Buffer)
    (is : IStream), FueledAfterRead fuel is →
    versionLoop sc fuel s buffer is ≠ .error (Exit.fault .outOfFuel) := by
  intro fuel
  induction fuel with
  | zero => intro s buffer is h; exact absurd h.1 (by omega)
  | succ fuel ih =>
    intro s buffer is h
    rw [versionLoop]
    split
    · rename_i hc
      have hg : is.good = true := by
        simp only [Bool.and_eq_true] at hc
        exact hc.1
      split
      · rename_i e he
        intro h'
        injection h' with h'
        rw [h'] at he
        exact liftFault_ne_fuelExit _ (cstr_ne_outOfFuel buffer) he
      · split
        · rename_i e he
          intro h'
          injection h' with h'
          rw [h'] at he
          exact versionField_ne_fuelExit sc s _ he
        · split
          · rename_i e he
            intro h'
            injection h' with h'
            rw [h'] at he
            exact liftFault_ne_fuelExit _ (skipComments_ne_outOfFuel is) he
          · rename_i buffer1 is1 hs
            exact ih _ _ _ (fueledAfterRead_skip fuel is buffer1 is1 h hg (liftFault_ok hs))
    · simp

theorem fueledAfterRead_init (is : IStream) (p : Int) (buffer : Buffer) (r : IStream)
    (hs : skipComments (is.seekg p) = .ok (buffer, r)) :
    FueledAfterRead (is.data.length + 1) r := by
  obtain ⟨hd, hp, hq⟩ := skipCommentsLoop_post _ _ _ _ hs
  have hdata : (is.seekg p).data = is.data := by
    unfold IStream.seekg
    split
    · rfl
    · split <;> rfl
  refine ⟨by omega, fun hr => ?_⟩
  obtain ⟨q1, q2⟩ := hq hr
  rw [hd, hdata]
  rw [hdata] at q2
  exact ⟨q2, by omega⟩

theorem readVersion_ne_fuelExit {W : LongBits} (sc : Scanners) (s : State) (is : IStream) :
    readVersion W sc s is ≠ .error (Exit.fault .outOfFuel) := by
  unfold readVersion
  split
  · refine bind_ne_fuelExit _ _
      (liftFault_ne_fuelExit _ (skipComments_ne_outOfFuel _)) (fun a ha => ?_)
    obtain ⟨buffer, is1⟩ := a
    refine bind_ne_fuelExit _ _ (versionLoop_ne_fuelExit sc _ _ _ _
      (fueledAfterRead_init is _ buffer is1 (liftFault_ok ha))) (fun b _ => ?_)
    obtain ⟨s1, is2⟩ := b
    simp [pure, Except.pure]
  · simp [pure, Except.pure]

theorem readShape_ne_fuelExit (sc : Scanners) (s : State) (buffer : Buffer) (is : IStream) :
    readShape sc s buffer is ≠ .error (Exit.fault .outOfFuel) := by
  unfold readShape
  refine bind_ne_fuelExit _ _ (liftFault_ne_fuelExit _ (cstr_ne_outOfFuel _)) (fun line _ => ?_)
  split
  · simp
  · refine bind_ne_fuelExit _ _ (liftFault_ne_fuelExit _ (cstr_ne_outOfFuel _))
      (fun line1 _ => ?_)
    split
    · simp
    · refine bind_ne_fuelExit _ _ (sampleLoop_ne_fuelExit sc s _ _ _
        (fueled_of_data is _ (getline_advances is MAX_LINE_SIZE).1)) (fun a _ => ?_)
      obtain ⟨samples, is1⟩ := a
      refine bind_ne_fuelExit _ _ (liftFault_ne_fuelExit _ (skipComments_ne_outOfFuel _))
        (fun b _ => ?_)
      obtain ⟨buffer1, is2⟩ := b
      simp [pure, Except.pure]

theorem bind_ok {α β : Type} {x : Except Exit α} {f : α → Except Exit β} {b : β}
    (h : (x >>= f) = .ok b) : ∃ a, x = .ok a ∧ f a = .ok b := by
  cases x with
  | error e => simp [bind, Except.bind] at h
  | ok a => exact ⟨a, rfl, by simpa [bind, Except.bind] using h⟩

theorem readShape_post (sc : Scanners) (s s1 : State) (buffer buffer1 : Buffer)
    (is is2 : IStream) (h : readShape sc s buffer is = .ok (s1, buffer1, is2)) :
    is2.data = is.data ∧ (is2.good = true → is.pos < is2.pos ∧ is2.pos ≤ is.data.length) := by
  unfold readShape at h
  obtain ⟨line, _, h⟩ := bind_ok h
  split at h
  · cases h
  · obtain ⟨line1, _, h⟩ := bind_ok h
    split at h
    · cases h
    · obtain ⟨a, ha, h⟩ := bind_ok h
      obtain ⟨samples, is1⟩ := a
      obtain ⟨b, hb, h⟩ := bind_ok h
      obtain ⟨buffer2, is3⟩ := b
      simp only [pure, Except.pure] at h
      injection h with h
      injection h with h1 h2
      injection h2 with h2 h3
      subst h3
      have a1 := getline_advances is MAX_LINE_SIZE
      have a2 := sampleLoop_advances sc s _ _ _ _ _ ha
      have a3 := advances_trans a1 a2
      obtain ⟨hd, hp, hq⟩ := skipCommentsLoop_post _ _ _ _ (liftFault_ok hb)
      refine ⟨hd.trans a3.1, fun hg => ?_⟩
      obtain ⟨q1, q2⟩ := hq hg
      rw [a3.1] at q2
      exact ⟨lt_of_le_of_lt a3.2.1 q1, q2⟩

theorem shapeLoop_ne_fuelExit (sc : Scanners) : ∀ (fuel : Nat) (s : State) (buffer : Buffer)
    (is : IStream), FueledAfterRead fuel is →
    shapeLoop sc fuel s buffer is ≠ .error (Exit.fault .outOfFuel) := by
  intro fuel
  induction fuel with
  | zero => intro s buffer is h; exact absurd h.1 (by omega)
  | succ fuel ih =>
    intro s buffer is h
    rw [shapeLoop]
    split
    · rename_i hc
      have hg : is.good = true := by
        simp only [Bool.and_eq_true] at hc
        exact hc.1
      split
      · rename_i e he
        intro h'
        injection h' with h'
        rw [h'] at he
        exact readShape_ne_fuelExit sc s buffer is he
      · rename_i s1 buffer1 is2 hs
        apply ih
        obtain ⟨hd, hq⟩ := readShape_post sc s s1 buffer buffer1 is is2 hs
        obtain ⟨h1, h2⟩ := h.2 hg
        refine ⟨by omega, fun hr => ?_⟩
        obtain ⟨q1, q2⟩ := hq hr
        rw [hd]
        exact ⟨q2, by omega⟩
    · simp

theorem readShapes_ne_fuelExit (sc : Scanners) (s : State) (is : IStream) :
    readShapes sc s is ≠ .error (Exit.fault .outOfFuel) := by
  unfold readShapes
  split
  · refine bind_ne_fuelExit _ _
      (liftFault_ne_fuelExit _ (skipComments_ne_outOfFuel _)) (fun a ha => ?_)
    obtain ⟨buffer, is1⟩ := a
    refine bind_ne_fuelExit _ _ (shapeLoop_ne_fuelExit sc _ _ _ _
      (fueledAfterRead_init is _ buffer is1 (liftFault_ok ha))) (fun b _ => ?_)
    obtain ⟨s2, is2⟩ := b
    simp [pure, Except.pure]
  · simp

theorem seekg_data (is : IStream) (p : Int) : (is.seekg p).data = is.data := by
  unfold IStream.seekg
  split
  · rfl
  · split <;> rfl

theorem optionalSection_ne_fuelExit (tag : String) (before : State → State)
    (body : State → List Char → Except Exit State)
    (hbody : ∀ s line, body s line ≠ .error (Exit.fault .outOfFuel)) (p : State × IStream) :
    optionalSection tag before body p ≠ .error (Exit.fault .outOfFuel) := by
  unfold optionalSection
  split
  · exact sectionLoop_ne_fuelExit body hbody _ _ _ (fueled_of_data p.2 _ (seekg_data _ _))
  · simp

theorem nextFile_ne_fuelExit (single : Bool) (file : Option (List Char)) (p : State × IStream) :
    nextFile single file p ≠ .error (Exit.fault .outOfFuel) := by
  unfold nextFile
  split
  · simp
  · dsimp only
    split
    · exact liftFault_ne_fuelExit _ (buildFileIndex_ne_outOfFuel _ _)
    · simp

theorem rfRecord_ne_fuelExit (sc : Scanners) (s : State) (line : List Char) :
    rfRecord sc s line ≠ .error (Exit.fault .outOfFuel) := by
  unfold rfRecord
  split <;> dsimp only <;> split <;> simp

theorem gradRecord_ne_fuelExit (sc : Scanners) (s : State) (line : List Char) :
    gradRecord sc s line ≠ .error (Exit.fault .outOfFuel) := by
  unfold gradRecord
  split <;> dsimp only <;> split <;> simp

theorem trapRecord_ne_fuelExit (sc : Scanners) (s : State) (line : List Char) :
    trapRecord sc s line ≠ .error (Exit.fault .outOfFuel) := by
  unfold trapRecord
  split <;> dsimp only <;> split <;> simp

theorem adcRecord_ne_fuelExit (sc : Scanners) (s : State) (line : List Char) :
    adcRecord sc s line ≠ .error (Exit.fault .outOfFuel) := by
  unfold adcRecord
  dsimp only
  split <;> simp

theorem delayRecord_ne_fuelExit (sc : Scanners) (s : State) (line : List Char) :
    delayRecord sc s line ≠ .error (Exit.fault .outOfFuel) := by
  unfold delayRecord
  dsimp only
  split <;> simp

theorem triggerRecord_ne_fuelExit (sc : Scanners) (s : State) (line : List Char) :
    triggerRecord sc s line ≠ .error (Exit.fault .outOfFuel) := by
  unfold triggerRecord
  dsimp only
  split <;> simp

theorem rotationRecord_ne_fuelExit (sc : Scanners) (s : State) (line : List Char) :
    rotationRecord sc s line ≠ .error (Exit.fault .outOfFuel) := by
  unfold rotationRecord
  dsimp only
  split <;> simp

theorem definitionRecord_ne_fuelExit (sc : Scanners) (s : State) (line : List Char) :
    definitionRecord sc s line ≠ .error (Exit.fault .outOfFuel) := by
  unfold definitionRecord
  simp

theorem blockRecord_ne_fuelExit (sc : Scanners) (s : State) (line : List Char) :
    blockRecord sc s line ≠ .error (Exit.fault .outOfFuel) := by
  rw [blockRecord_eq]
  split <;> simp

theorem loadSections_ne_fuelExit {W : LongBits} (sc : Scanners) (files : Files) (single : Bool) (s0 : State)
    (is : IStream) : loadSections W sc files single s0 is ≠ .error (Exit.fault .outOfFuel) := by
  unfold loadSections
  refine bind_ne_fuelExit _ _ (liftFault_ne_fuelExit _ (buildFileIndex_ne_outOfFuel _ _))
    (fun p _ => ?_)
  refine bind_ne_fuelExit _ _ (readVersion_ne_fuelExit sc _ _) (fun p _ => ?_)
  refine bind_ne_fuelExit _ _ (readShapes_ne_fuelExit sc _ _) (fun p _ => ?_)
  refine bind_ne_fuelExit _ _ (nextFile_ne_fuelExit _ _ _) (fun p _ => ?_)
  refine bind_ne_fuelExit _ _
    (optionalSection_ne_fuelExit _ _ _ (rfRecord_ne_fuelExit sc) _) (fun p _ => ?_)
  refine bind_ne_fuelExit _ _
    (optionalSection_ne_fuelExit _ _ _ (gradRecord_ne_fuelExit sc) _) (fun p _ => ?_)
  refine bind_ne_fuelExit _ _
    (optionalSection_ne_fuelExit _ _ _ (trapRecord_ne_fuelExit sc) _) (fun p _ => ?_)
  refine bind_ne_fuelExit _ _
    (optionalSection_ne_fuelExit _ _ _ (adcRecord_ne_fuelExit sc) _) (fun p _ => ?_)
  refine bind_ne_fuelExit _ _
    (optionalSection_ne_fuelExit _ _ _ (delayRecord_ne_fuelExit sc) _) (fun p _ => ?_)
  refine bind_ne_fuelExit _ _
    (optionalSection_ne_fuelExit _ _ _ (triggerRecord_ne_fuelExit sc) _) (fun p _ => ?_)
  refine bind_ne_fuelExit _ _
    (optionalSection_ne_fuelExit _ _ _ (rotationRecord_ne_fuelExit sc) _) (fun p _ => ?_)
  refine bind_ne_fuelExit _ _ (nextFile_ne_fuelExit _ _ _) (fun p _ => ?_)
  refine bind_ne_fuelExit _ _
    (optionalSection_ne_fuelExit _ _ _ (definitionRecord_ne_fuelExit sc) _) (fun p _ => ?_)
  split <;> simp

theorem loadPrefix_ne_fuelExit {W : LongBits} (sc : Scanners) (files : Files) (s0 : State) :
    loadPrefix W sc files s0 ≠ .error (Exit.fault .outOfFuel) := by
  unfold loadPrefix
  dsimp only
  split <;> split <;>
    first
    | exact loadSections_ne_fuelExit sc files _ s0 _
    | simp

theorem loadBlocks_ne_fuelExit (sc : Scanners) (p : State × IStream) :
    loadBlocks sc p ≠ .error (Exit.fault .outOfFuel) := by
  unfold loadBlocks
  refine bind_ne_fuelExit _ _ (sectionLoop_ne_fuelExit _ (blockRecord_ne_fuelExit sc) _ _ _
    (fueled_of_data p.2 p.2 rfl)) (fun q _ => ?_)
  split <;> simp

/-- The function `load` passes enough fuel to every loop it runs. -/
theorem load_ne_outOfFuel {W : LongBits} (sc : Scanners) (files : Files) (s0 : State) :
    load W sc files s0 ≠ .error .outOfFuel := by
  have h := bind_ne_fuelExit (loadPrefix W sc files s0) (loadBlocks sc)
    (loadPrefix_ne_fuelExit sc files s0) (fun p _ => loadBlocks_ne_fuelExit sc p)
  unfold load
  split
  · simp
  · simp
  · rename_i f hf
    intro e
    injection e with e
    rw [e] at hf
    exact h hf

/-! ## Clamping -/

theorem readAt_length_none {α : Type} (w : List α) :
    readAt w (w.length : Int) = .error .outOfBounds := by
  have h : ¬ ((w.length : Int) < 0) := by omega
  simp [readAt, h]

theorem clampAt_append (lo hi : ℚ) (w : List ℚ) (x : ℚ) (r : List ℚ) :
    clampAt lo hi (w ++ x :: r) (w.length : Int) = .ok (w ++ clampTo lo hi x :: r) := by
  unfold clampAt clampTo
  rw [readAt_append_length]
  by_cases h1 : x > hi
  · simp only [h1, if_true, bind, Except.bind, writeAt_append_length, readAt_append_length]
    by_cases h2 : hi < lo
    · simp only [h2, if_true, writeAt_append_length]
    · simp only [h2, if_false, pure, Except.pure]
  · simp only [h1, if_false, bind, Except.bind, pure, Except.pure, readAt_append_length]
    by_cases h2 : x < lo
    · simp only [h2, if_true, writeAt_append_length]
    · simp only [h2, if_false]

theorem clampAt_length (lo hi : ℚ) (w : List ℚ) :
    clampAt lo hi w (w.length : Int) = .error .outOfBounds := by
  unfold clampAt
  rw [readAt_length_none]
  rfl

theorem checkGradientLoop_append : ∀ (r w : List ℚ),
    checkGradientLoop r.length (w.length : Int) (w ++ r) = .ok (w ++ r.map (clampTo (-1) 1)) := by
  intro r
  induction r with
  | nil => intro w; simp [checkGradientLoop]
  | cons x r ih =>
    intro w
    simp only [List.length_cons, checkGradientLoop, bind, Except.bind, clampAt_append]
    have h := ih (w ++ [clampTo (-1) 1 x])
    simp only [List.length_append, List.length_singleton, Nat.cast_add, Nat.cast_one,
      List.append_assoc, List.singleton_append] at h
    rw [h]
    simp

theorem checkGradientLoop_eq (w : List ℚ) :
    checkGradientLoop w.length 0 w = .ok (w.map (clampTo (-1) 1)) := by
  have h := checkGradientLoop_append w []
  simpa using h

theorem checkGradient_eq (block : SeqBlock) :
    checkGradient block = .ok { block with gradWaveforms :=
      ⟨block.gradWaveforms.x.map (clampTo (-1) 1), block.gradWaveforms.y.map (clampTo (-1) 1),
        block.gradWaveforms.z.map (clampTo (-1) 1)⟩ } := by
  simp [checkGradient, List.foldlM, checkGradientChannel, Three.get, Three.set,
    checkGradientLoop_eq, bind, Except.bind, pure, Except.pure]

theorem checkRFLoop_append (U : ℚ) : ∀ (ra wa wp rp : List ℚ) (block : SeqBlock),
    block.rfAmplitude = wa ++ ra → block.rfPhase = wp ++ rp → wp.length = wa.length →
    checkRFLoop U ra.length (wa.length : Int) block =
      if ra.length ≤ rp.length then
        .ok { block with
          rfAmplitude := wa ++ ra.map (clampTo 0 1)
          rfPhase := wp ++ (rp.take ra.length).map (clampTo 0 U) ++ rp.drop ra.length }
      else .error .outOfBounds := by
  intro ra
  induction ra with
  | nil =>
    intro wa wp rp block ha hp hl
    simp only [List.length_nil, checkRFLoop, Nat.zero_le, if_true, List.map_nil,
      List.append_nil, List.take_zero, List.drop_zero]
    rw [← hp]
    simp only [List.append_nil] at ha
    rw [← ha]
  | cons x ra ih =>
    intro wa wp rp block ha hp hl
    cases rp with
    | nil =>
      simp only [List.length_cons, List.length_nil, checkRFLoop, checkRFAt, bind, Except.bind]
      rw [ha, clampAt_append, hp, List.append_nil, ← hl, clampAt_length]
      simp
    | cons y rp =>
      simp only [List.length_cons, checkRFLoop, checkRFAt, bind, Except.bind]
      rw [ha, clampAt_append, hp, ← hl, clampAt_append]
      simp only [pure, Except.pure]
      have h := ih (wa ++ [clampTo 0 1 x]) (wp ++ [clampTo 0 U y]) rp
        { block with rfAmplitude := wa ++ clampTo 0 1 x :: ra,
                     rfPhase := wp ++ clampTo 0 U y :: rp }
        (by simp) (by simp) (by simp [hl])
      simp only [List.length_append, List.length_singleton, Nat.cast_add, Nat.cast_one] at h
      rw [hl, h]
      simp

theorem checkRF_eq (U : ℚ) (block : SeqBlock) :
    checkRF U block =
      if block.rfAmplitude.length ≤ block.rfPhase.length then
        .ok { block with
          rfAmplitude := block.rfAmplitude.map (clampTo 0 1)
          rfPhase := (block.rfPhase.take block.rfAmplitude.length).map (clampTo 0 U) ++
            block.rfPhase.drop block.rfAmplitude.length }
      else .error .outOfBounds := by
  have h := checkRFLoop_append U block.rfAmplitude [] [] block.rfPhase block rfl rfl rfl
  simpa [checkRF] using h

theorem clampTo_idem (lo hi x : ℚ) : clampTo lo hi (clampTo lo hi x) = clampTo lo hi x := by
  unfold clampTo
  dsimp only
  split_ifs <;> rfl

theorem clampSample_finite (lo hi v : ℚ) :
    clampSample lo hi (Sample.finite v) = Sample.finite (clampTo lo hi v) := by
  unfold clampSample clampTo
  by_cases h1 : v > hi
  · by_cases h2 : hi < lo <;> simp [Sample.above, Sample.below, h1, h2]
  · by_cases h2 : v < lo <;> simp [Sample.above, Sample.below, h1, h2]

theorem clampSample_nan (lo hi : ℚ) : clampSample lo hi Sample.nan = Sample.nan := rfl

theorem clampSample_idem (lo hi : ℚ) (x : Sample) :
    clampSample lo hi (clampSample lo hi x) = clampSample lo hi x := by
  cases x with
  | nan => rfl
  | finite v => rw [clampSample_finite, clampSample_finite, clampTo_idem]

/-- C13. Clamping is idempotent: for every block, `checkGradient` applied to its own result
returns that result again, and so does `checkRF` on a block whose `rfPhase` is at least as
long as `rfAmplitude`: the second application changes neither `rfAmplitude` nor `rfPhase`.
The two clamping statements applied twice to a sample give what they give applied once, also
when the sample is a NaN. -/
theorem clamp_idempotent (U : ℚ) (block : SeqBlock) :
    (∃ b, checkGradient block = .ok b ∧ checkGradient b = .ok b) ∧
    (block.rfAmplitude.length ≤ block.rfPhase.length →
      ∃ b, checkRF U block = .ok b ∧ checkRF U b = .ok b) ∧
    (∀ (lo hi : ℚ) (x : Sample),
      clampSample lo hi (clampSample lo hi x) = clampSample lo hi x) := by
  have hidem : (clampTo (-1) 1) ∘ (clampTo (-1) 1) = clampTo (-1) 1 := by
    funext x; exact clampTo_idem (-1) 1 x
  have hidem0 : (clampTo 0 1) ∘ (clampTo 0 1) = clampTo 0 1 := by
    funext x; exact clampTo_idem 0 1 x
  have hidemU : (clampTo 0 U) ∘ (clampTo 0 U) = clampTo 0 U := by
    funext x; exact clampTo_idem 0 U x
  refine ⟨?_, ?_, clampSample_idem⟩
  · refine ⟨_, checkGradient_eq block, ?_⟩
    rw [checkGradient_eq]
    simp only [List.map_map, hidem]
  · intro hlen
    refine ⟨_, by rw [checkRF_eq, if_pos hlen], ?_⟩
    rw [checkRF_eq, if_pos (by simp; omega)]
    simp only [List.map_map, hidem0, List.length_map]
    have e1 : List.take block.rfAmplitude.length
        (List.map (clampTo 0 U) (List.take block.rfAmplitude.length block.rfPhase) ++
          List.drop block.rfAmplitude.length block.rfPhase)
        = List.map (clampTo 0 U) (List.take block.rfAmplitude.length block.rfPhase) := by
      rw [List.take_append_of_le_length (by simp; omega)]
      apply List.take_of_length_le
      simp
    have e2 : List.drop block.rfAmplitude.length
        (List.map (clampTo 0 U) (List.take block.rfAmplitude.length block.rfPhase) ++
          List.drop block.rfAmplitude.length block.rfPhase)
        = List.drop block.rfAmplitude.length block.rfPhase := by
      rw [List.drop_append_of_le_length (by simp; omega)]
      rw [List.drop_of_length_le (by simp)]
      rfl
    rw [e1, e2, List.map_map, hidemU]

/-- Witness of C13: a block with two amplitude samples and two phase samples, on which
`checkRF` returns. -/
theorem clamp_idempotent_witness :
    ∃ b, checkRF (62831 / 10000) (sampleBlock [2, -1] [7, -1] [3, -3]) = .ok b ∧
      checkRF (62831 / 10000) b = .ok b :=
  (clamp_idempotent (62831 / 10000) (sampleBlock [2, -1] [7, -1] [3, -3])).2.1
    (by simp [sampleBlock])

/-! ## Absent slots -/

theorem readAt_valid {α : Type} (xs : List α) (i : Int) (h0 : 0 ≤ i) (h1 : i < xs.length) :
    ∃ x, readAt xs i = .ok x ∧ x ∈ xs := by
  unfold readAt
  have hlt : i.toNat < xs.length := by omega
  rw [if_neg (by omega), List.getElem?_eq_getElem hlt]
  exact ⟨_, rfl, List.getElem_mem _⟩

theorem GetBlock_eq (L : LongBits) (s : State) (fresh : SeqBlock) (index : Int)
    (e : EventIDs) (he : readAt s.m_blocks index = .ok e) :
    ∃ d, GetBlock L s fresh index
      = .ok ({ (fetchEvents s fresh index e).1 with duration := d },
        (eventsDuration L (fetchEvents s fresh index e).2
          (fetchEvents s fresh index e).1).2) := by
  unfold GetBlock
  rw [he]
  simp only [bind, Except.bind, pure, Except.pure]
  split <;> exact ⟨_, rfl⟩

theorem fetchGrad_absent (events : EventIDs) (p : SeqBlock × State) (i : Nat)
    (h : ¬ events.grad i > 0) : fetchGrad events p i = p := by
  unfold fetchGrad
  rw [if_neg h]

theorem fetchGrad_other (events : EventIDs) (p : SeqBlock × State) (i j : Nat)
    (hi : i < 3) (hj : j < 3) (hne : j ≠ i) :
    (fetchGrad events p i).1.grad.get j = p.1.grad.get j := by
  unfold fetchGrad
  split
  · rcases i with _ | _ | _ | i <;> rcases j with _ | _ | _ | j <;>
      first | omega | simp [Three.get, Three.set]
  · rfl

theorem fetchEvents_steps (s : State) (fresh : SeqBlock) (index : Int) (e : EventIDs) :
    fetchEvents s fresh index e = [0, 1, 2].foldl (fetchGrad e)
      (fetchControl e (fetchDelay e (fetchADC e (fetchRF e (fetchInit fresh index e, s))))) := by
  rfl

theorem index_resolved {α : Type} (m : Lib α) (k : Int) (d : α) (h : Resolves m k) :
    (m.index k d).2 = m := by
  unfold Resolves at h
  unfold Lib.index
  cases hk : m k with
  | none => rw [hk] at h; cases h
  | some v => rfl

theorem fetchRF_spec (e : EventIDs) (p : SeqBlock × State) :
    (fetchRF e p).1 = { p.1 with rf := (fetchRF e p).1.rf } ∧
      (fetchRF e p).2 = { p.2 with m_rfLibrary := (fetchRF e p).2.m_rfLibrary } ∧
      (¬ e.rf > 0 → fetchRF e p = p) ∧
      ((e.rf > 0 → Resolves p.2.m_rfLibrary e.rf) → (fetchRF e p).2 = p.2) := by
  unfold fetchRF
  by_cases h : e.rf > 0
  · simp only [h, if_true, not_true_eq_false, false_implies, true_implies, true_and]
    intro hr
    rw [index_resolved _ _ _ hr]
  · simp only [h, if_false, not_false_eq_true, true_implies, false_implies, and_self]

theorem fetchADC_spec (e : EventIDs) (p : SeqBlock × State) :
    (fetchADC e p).1 = { p.1 with adc := (fetchADC e p).1.adc } ∧
      (fetchADC e p).2 = { p.2 with m_adcLibrary := (fetchADC e p).2.m_adcLibrary } ∧
      (¬ e.adc > 0 → fetchADC e p = p) ∧
      ((e.adc > 0 → Resolves p.2.m_adcLibrary e.adc) → (fetchADC e p).2 = p.2) := by
  unfold fetchADC
  by_cases h : e.adc > 0
  · simp only [h, if_true, not_true_eq_false, false_implies, true_implies, true_and]
    intro hr
    rw [index_resolved _ _ _ hr]
  · simp only [h, if_false, not_false_eq_true, true_implies, false_implies, and_self]

theorem fetchDelay_spec (e : EventIDs) (p : SeqBlock × State) :
    (fetchDelay e p).1 = { p.1 with delay := (fetchDelay e p).1.delay } ∧
      (fetchDelay e p).2 = { p.2 with m_delayLibrary := (fetchDelay e p).2.m_delayLibrary } ∧
      (¬ e.delay > 0 → fetchDelay e p = p) ∧
      ((e.delay > 0 → Resolves p.2.m_delayLibrary e.delay) → (fetchDelay e p).2 = p.2) := by
  unfold fetchDelay
  by_cases h : e.delay > 0
  · simp only [h, if_true, not_true_eq_false, false_implies, true_implies, true_and]
    intro hr
    rw [index_resolved _ _ _ hr]
  · simp only [h, if_false, not_false_eq_true, true_implies, false_implies, and_self]

theorem fetchControl_spec (e : EventIDs) (p : SeqBlock × State) :
    (fetchControl e p).1 = { p.1 with control := (fetchControl e p).1.control } ∧
      (fetchControl e p).2
        = { p.2 with m_controlLibrary := (fetchControl e p).2.m_controlLibrary } ∧
      (¬ e.ctrl > 0 → fetchControl e p = p) ∧
      ((e.ctrl > 0 → Resolves p.2.m_controlLibrary e.ctrl) → (fetchControl e p).2 = p.2) := by
  unfold fetchControl
  by_cases h : e.ctrl > 0
  · simp only [h, if_true, not_true_eq_false, false_implies, true_implies, true_and]
    intro hr
    rw [index_resolved _ _ _ hr]
  · simp only [h, if_false, not_false_eq_true, true_implies, false_implies, and_self]

theorem fetchGrad_spec (e : EventIDs) (p : SeqBlock × State) (i : Nat) :
    (fetchGrad e p i).1 = { p.1 with grad := (fetchGrad e p i).1.grad } ∧
      (fetchGrad e p i).2 = { p.2 with m_gradLibrary := (fetchGrad e p i).2.m_gradLibrary } ∧
      (¬ e.grad i > 0 → fetchGrad e p i = p) ∧
      ((e.grad i > 0 → Resolves p.2.m_gradLibrary (e.grad i)) → (fetchGrad e p i).2 = p.2) := by
  unfold fetchGrad
  by_cases h : e.grad i > 0
  · simp only [h, if_true, not_true_eq_false, false_implies, true_implies, true_and]
    intro hr
    rw [index_resolved _ _ _ hr]
  · simp only [h, if_false, not_false_eq_true, true_implies, false_implies, and_self]

theorem untouched_trans {p q r : SeqBlock × State} (h1 : Untouched p q) (h2 : Untouched q r) :
    Untouched p r := by
  obtain ⟨a1, a2, a3, a4, a5, a6, a7, a8⟩ := h1
  obtain ⟨b1, b2, b3, b4, b5, b6, b7, b8⟩ := h2
  exact ⟨b1.trans a1, b2.trans a2, b3.trans a3, b4.trans a4, b5.trans a5, b6.trans a6,
    b7.trans a7, b8.trans a8⟩

theorem fetchRF_untouched (e : EventIDs) (p : SeqBlock × State) : Untouched p (fetchRF e p) := by
  unfold fetchRF
  split
  · exact ⟨rfl, rfl, rfl, rfl, rfl, rfl, rfl, rfl⟩
  · exact ⟨rfl, rfl, rfl, rfl, rfl, rfl, rfl, rfl⟩

theorem fetchADC_untouched (e : EventIDs) (p : SeqBlock × State) :
    Untouched p (fetchADC e p) := by
  unfold fetchADC
  split
  · exact ⟨rfl, rfl, rfl, rfl, rfl, rfl, rfl, rfl⟩
  · exact ⟨rfl, rfl, rfl, rfl, rfl, rfl, rfl, rfl⟩

theorem fetchDelay_untouched (e : EventIDs) (p : SeqBlock × State) :
    Untouched p (fetchDelay e p) := by
  unfold fetchDelay
  split
  · exact ⟨rfl, rfl, rfl, rfl, rfl, rfl, rfl, rfl⟩
  · exact ⟨rfl, rfl, rfl, rfl, rfl, rfl, rfl, rfl⟩

theorem fetchControl_untouched (e : EventIDs) (p : SeqBlock × State) :
    Untouched p (fetchControl e p) := by
  unfold fetchControl
  split
  · exact ⟨rfl, rfl, rfl, rfl, rfl, rfl, rfl, rfl⟩
  · exact ⟨rfl, rfl, rfl, rfl, rfl, rfl, rfl, rfl⟩

theorem fetchGrad_untouched (e : EventIDs) (p : SeqBlock × State) (i : Nat) :
    Untouched p (fetchGrad e p i) := by
  unfold fetchGrad
  split
  · exact ⟨rfl, rfl, rfl, rfl, rfl, rfl, rfl, rfl⟩
  · exact ⟨rfl, rfl, rfl, rfl, rfl, rfl, rfl, rfl⟩

theorem fetchEvents_untouched (s : State) (fresh : SeqBlock) (index : Int) (e : EventIDs) :
    Untouched (fetchInit fresh index e, s) (fetchEvents s fresh index e) := by
  rw [fetchEvents_steps]
  simp only [List.foldl_cons, List.foldl_nil]
  exact untouched_trans (untouched_trans (untouched_trans (untouched_trans (untouched_trans
    (untouched_trans (fetchRF_untouched e _) (fetchADC_untouched e _))
    (fetchDelay_untouched e _)) (fetchControl_untouched e _)) (fetchGrad_untouched e _ 0))
    (fetchGrad_untouched e _ 1)) (fetchGrad_untouched e _ 2)

theorem fetchEvents_resolved (s : State) (fresh : SeqBlock) (index : Int) (e : EventIDs)
    (h : SlotsResolve (fun id => id > 0) s e) : (fetchEvents s fresh index e).2 = s := by
  obtain ⟨hdelay, hrf, hgx, hgy, hgz, hadc, hctrl⟩ := h
  rw [fetchEvents_steps]
  simp only [List.foldl_cons, List.foldl_nil]
  have e1 : (fetchRF e (fetchInit fresh index e, s)).2 = s :=
    (fetchRF_spec e _).2.2.2 hrf
  have e2 : (fetchADC e (fetchRF e (fetchInit fresh index e, s))).2 = s :=
    ((fetchADC_spec e _).2.2.2 (by rw [e1]; exact hadc)).trans e1
  have e3 : (fetchDelay e (fetchADC e (fetchRF e (fetchInit fresh index e, s)))).2 = s :=
    ((fetchDelay_spec e _).2.2.2 (by rw [e2]; exact hdelay)).trans e2
  have e4 : (fetchControl e (fetchDelay e (fetchADC e
      (fetchRF e (fetchInit fresh index e, s))))).2 = s :=
    ((fetchControl_spec e _).2.2.2 (by rw [e3]; exact hctrl)).trans e3
  generalize fetchControl e (fetchDelay e (fetchADC e
      (fetchRF e (fetchInit fresh index e, s)))) = p4 at e4 ⊢
  have e5 : (fetchGrad e p4 0).2 = s :=
    ((fetchGrad_spec e _ 0).2.2.2 (by rw [e4]; exact hgx)).trans e4
  have e6 : (fetchGrad e (fetchGrad e p4 0) 1).2 = s :=
    ((fetchGrad_spec e _ 1).2.2.2 (by rw [e5]; exact hgy)).trans e5
  exact ((fetchGrad_spec e _ 2).2.2.2 (by rw [e6]; exact hgz)).trans e6

theorem fetchRF_others (e : EventIDs) (p : SeqBlock × State) :
    (fetchRF e p).1.adc = p.1.adc ∧
      (fetchRF e p).1.delay = p.1.delay ∧
      (fetchRF e p).1.control = p.1.control ∧
      (fetchRF e p).1.grad = p.1.grad ∧
      (fetchRF e p).2.m_adcLibrary = p.2.m_adcLibrary ∧
      (fetchRF e p).2.m_delayLibrary = p.2.m_delayLibrary ∧
      (fetchRF e p).2.m_controlLibrary = p.2.m_controlLibrary ∧
      (fetchRF e p).2.m_gradLibrary = p.2.m_gradLibrary := by
  unfold fetchRF
  split
  · exact ⟨rfl, rfl, rfl, rfl, rfl, rfl, rfl, rfl⟩
  · exact ⟨rfl, rfl, rfl, rfl, rfl, rfl, rfl, rfl⟩

theorem fetchADC_others (e : EventIDs) (p : SeqBlock × State) :
    (fetchADC e p).1.rf = p.1.rf ∧
      (fetchADC e p).1.delay = p.1.delay ∧
      (fetchADC e p).1.control = p.1.control ∧
      (fetchADC e p).1.grad = p.1.grad ∧
      (fetchADC e p).2.m_rfLibrary = p.2.m_rfLibrary ∧
      (fetchADC e p).2.m_delayLibrary = p.2.m_delayLibrary ∧
      (fetchADC e p).2.m_controlLibrary = p.2.m_controlLibrary ∧
      (fetchADC e p).2.m_gradLibrary = p.2.m_gradLibrary := by
  unfold fetchADC
  split
  · exact ⟨rfl, rfl, rfl, rfl, rfl, rfl, rfl, rfl⟩
  · exact ⟨rfl, rfl, rfl, rfl, rfl, rfl, rfl, rfl⟩

theorem fetchDelay_others (e : EventIDs) (p : SeqBlock × State) :
    (fetchDelay e p).1.rf = p.1.rf ∧
      (fetchDelay e p).1.adc = p.1.adc ∧
      (fetchDelay e p).1.control = p.1.control ∧
      (fetchDelay e p).1.grad = p.1.grad ∧
      (fetchDelay e p).2.m_rfLibrary = p.2.m_rfLibrary ∧
      (fetchDelay e p).2.m_adcLibrary = p.2.m_adcLibrary ∧
      (fetchDelay e p).2.m_controlLibrary = p.2.m_controlLibrary ∧
      (fetchDelay e p).2.m_gradLibrary = p.2.m_gradLibrary := by
  unfold fetchDelay
  split
  · exact ⟨rfl, rfl, rfl, rfl, rfl, rfl, rfl, rfl⟩
  · exact ⟨rfl, rfl, rfl, rfl, rfl, rfl, rfl, rfl⟩

theorem fetchControl_others (e : EventIDs) (p : SeqBlock × State) :
    (fetchControl e p).1.rf = p.1.rf ∧
      (fetchControl e p).1.adc = p.1.adc ∧
      (fetchControl e p).1.delay = p.1.delay ∧
      (fetchControl e p).1.grad = p.1.grad ∧
      (fetchControl e p).2.m_rfLibrary = p.2.m_rfLibrary ∧
      (fetchControl e p).2.m_adcLibrary = p.2.m_adcLibrary ∧
      (fetchControl e p).2.m_delayLibrary = p.2.m_delayLibrary ∧
      (fetchControl e p).2.m_gradLibrary = p.2.m_gradLibrary := by
  unfold fetchControl
  split
  · exact ⟨rfl, rfl, rfl, rfl, rfl, rfl, rfl, rfl⟩
  · exact ⟨rfl, rfl, rfl, rfl, rfl, rfl, rfl, rfl⟩

theorem fetchGrad_others (e : EventIDs) (p : SeqBlock × State) (i : Nat) :
    (fetchGrad e p i).1.rf = p.1.rf ∧
      (fetchGrad e p i).1.adc = p.1.adc ∧
      (fetchGrad e p i).1.delay = p.1.delay ∧
      (fetchGrad e p i).1.control = p.1.control ∧
      (fetchGrad e p i).2.m_rfLibrary = p.2.m_rfLibrary ∧
      (fetchGrad e p i).2.m_adcLibrary = p.2.m_adcLibrary ∧
      (fetchGrad e p i).2.m_delayLibrary = p.2.m_delayLibrary ∧
      (fetchGrad e p i).2.m_controlLibrary = p.2.m_controlLibrary := by
  unfold fetchGrad
  split
  · exact ⟨rfl, rfl, rfl, rfl, rfl, rfl, rfl, rfl⟩
  · exact ⟨rfl, rfl, rfl, rfl, rfl, rfl, rfl, rfl⟩

theorem fetchEvents_absent (s : State) (fresh : SeqBlock) (index : Int) (e : EventIDs) :
    (e.delay = 0 → (fetchEvents s fresh index e).1.delay = 0 ∧
      (fetchEvents s fresh index e).2.m_delayLibrary = s.m_delayLibrary) ∧
    (e.rf = 0 → (fetchEvents s fresh index e).1.rf = fresh.rf ∧
      (fetchEvents s fresh index e).2.m_rfLibrary = s.m_rfLibrary) ∧
    (e.adc = 0 → (fetchEvents s fresh index e).1.adc = { fresh.adc with numSamples := 0 } ∧
      (fetchEvents s fresh index e).2.m_adcLibrary = s.m_adcLibrary) ∧
    (e.ctrl = 0 → (fetchEvents s fresh index e).1.control = fresh.control ∧
      (fetchEvents s fresh index e).2.m_controlLibrary = s.m_controlLibrary) := by
  rw [fetchEvents_steps]
  simp only [List.foldl_cons, List.foldl_nil]
  obtain ⟨r1, r2, r3, r4, r5, r6, r7, r8⟩ := fetchRF_others e (fetchInit fresh index e, s)
  have r0 := (fetchRF_spec e (fetchInit fresh index e, s)).2.2.1
  generalize fetchRF e (fetchInit fresh index e, s) = p1 at *
  obtain ⟨a1, a2, a3, a4, a5, a6, a7, a8⟩ := fetchADC_others e p1
  have a0 := (fetchADC_spec e p1).2.2.1
  generalize fetchADC e p1 = p2 at *
  obtain ⟨d1, d2, d3, d4, d5, d6, d7, d8⟩ := fetchDelay_others e p2
  have d0 := (fetchDelay_spec e p2).2.2.1
  generalize fetchDelay e p2 = p3 at *
  obtain ⟨c1, c2, c3, c4, c5, c6, c7, c8⟩ := fetchControl_others e p3
  have c0 := (fetchControl_spec e p3).2.2.1
  generalize fetchControl e p3 = p4 at *
  obtain ⟨x1, x2, x3, x4, x5, x6, x7, x8⟩ := fetchGrad_others e p4 0
  generalize fetchGrad e p4 0 = p5 at *
  obtain ⟨y1, y2, y3, y4, y5, y6, y7, y8⟩ := fetchGrad_others e p5 1
  generalize fetchGrad e p5 1 = p6 at *
  obtain ⟨z1, z2, z3, z4, z5, z6, z7, z8⟩ := fetchGrad_others e p6 2
  generalize fetchGrad e p6 2 = p7 at *
  refine ⟨?_, ?_, ?_, ?_⟩
  · intro h
    have hd := d0 (by omega)
    rw [z3, y3, x3, c3, z7, y7, x7, c7, hd, a2, r2, a6, r6]
    exact ⟨rfl, rfl⟩
  · intro h
    have hr := r0 (by omega)
    rw [z1, y1, x1, c1, d1, a1, z5, y5, x5, c5, d5, a5, hr]
    exact ⟨rfl, rfl⟩
  · intro h
    have ha := a0 (by omega)
    rw [z2, y2, x2, c2, d2, z6, y6, x6, c6, d6, ha, r1, r5]
    exact ⟨rfl, rfl⟩
  · intro h
    have hc := c0 (by omega)
    rw [z4, y4, x4, z8, y8, x8, hc, d3, a3, r3, d7, a7, r7]
    exact ⟨rfl, rfl⟩

theorem fetchEvents_absent_grad (s : State) (fresh : SeqBlock) (index : Int) (e : EventIDs) :
    (∀ i, i < 3 → e.grad i = 0 →
      (fetchEvents s fresh index e).1.grad.get i = fresh.grad.get i) ∧
    (e.gx = 0 → e.gy = 0 → e.gz = 0 →
      (fetchEvents s fresh index e).2.m_gradLibrary = s.m_gradLibrary) := by
  rw [fetchEvents_steps]
  simp only [List.foldl_cons, List.foldl_nil]
  have hg : (fetchControl e (fetchDelay e (fetchADC e
      (fetchRF e (fetchInit fresh index e, s))))).1.grad = fresh.grad :=
    (fetchControl_others e _).2.2.2.1.trans ((fetchDelay_others e _).2.2.2.1.trans
      ((fetchADC_others e _).2.2.2.1.trans (fetchRF_others e _).2.2.2.1))
  have hl : (fetchControl e (fetchDelay e (fetchADC e
      (fetchRF e (fetchInit fresh index e, s))))).2.m_gradLibrary = s.m_gradLibrary :=
    (fetchControl_others e _).2.2.2.2.2.2.2.trans ((fetchDelay_others e _).2.2.2.2.2.2.2.trans
      ((fetchADC_others e _).2.2.2.2.2.2.2.trans (fetchRF_others e _).2.2.2.2.2.2.2))
  generalize fetchControl e (fetchDelay e (fetchADC e
      (fetchRF e (fetchInit fresh index e, s)))) = P at hg hl ⊢
  constructor
  · intro i hi h
    have h' : ¬ e.grad i > 0 := by omega
    rw [← hg]
    rcases i with _ | _ | _ | i
    · rw [fetchGrad_other _ _ 2 0 (by omega) (by omega) (by omega),
        fetchGrad_other _ _ 1 0 (by omega) (by omega) (by omega), fetchGrad_absent _ _ 0 h']
    · rw [fetchGrad_other _ _ 2 1 (by omega) (by omega) (by omega), fetchGrad_absent _ _ 1 h',
        fetchGrad_other _ _ 0 1 (by omega) (by omega) (by omega)]
    · rw [fetchGrad_absent _ _ 2 h', fetchGrad_other _ _ 1 2 (by omega) (by omega) (by omega),
        fetchGrad_other _ _ 0 2 (by omega) (by omega) (by omega)]
    · omega
  · intro hx hy hz
    have h0 : ¬ e.grad 0 > 0 := by simp only [EventIDs.grad]; omega
    have h1 : ¬ e.grad 1 > 0 := by simp only [EventIDs.grad]; omega
    have h2 : ¬ e.grad 2 > 0 := by simp only [EventIDs.grad]; omega
    rw [fetchGrad_absent _ _ 2 h2, fetchGrad_absent _ _ 1 h1, fetchGrad_absent _ _ 0 h0, hl]

theorem candidates_absent (L : LongBits) (s : State) (b : SeqBlock)
    (h : b.events = ⟨0, 0, 0, 0, 0, 0, 0⟩) : candidates L s b = [] := by
  unfold candidates candidatesWith gradCandidate
  rw [h]
  simp [EventIDs.grad]

/-- C16. For every block-table entry and every slot whose id is `0`, `GetBlock` leaves the
library of the slot as it is and the value it materialises for the slot is the default, the
same whatever the library holds: the delay `0`, the ADC event of the fresh block with
`numSamples = 0`, the RF event, gradient or control event of the fresh block; an entry whose
seven slots are all `0` gets the duration `0` under every combined version; all of it for
every width of `long`. -/
theorem GetBlock_absent_slots (L : LongBits) (s : State) (fresh : SeqBlock) (index : Int)
    (h0 : 0 ≤ index) (h1 : index < s.m_blocks.length) :
    ∃ (e : EventIDs) (b : SeqBlock) (t : State),
      readAt s.m_blocks index = .ok e ∧ GetBlock L s fresh index = .ok (b, t) ∧
      (e.delay = 0 → b.delay = 0 ∧ t.m_delayLibrary = s.m_delayLibrary) ∧
      (e.rf = 0 → b.rf = fresh.rf ∧ t.m_rfLibrary = s.m_rfLibrary) ∧
      (∀ i, i < 3 → e.grad i = 0 → b.grad.get i = fresh.grad.get i) ∧
      (e.gx = 0 → e.gy = 0 → e.gz = 0 → t.m_gradLibrary = s.m_gradLibrary) ∧
      (e.adc = 0 → b.adc = { fresh.adc with numSamples := 0 } ∧
        t.m_adcLibrary = s.m_adcLibrary) ∧
      (e.ctrl = 0 → b.control = fresh.control ∧ t.m_controlLibrary = s.m_controlLibrary) ∧
      (e = ⟨0, 0, 0, 0, 0, 0, 0⟩ → b.duration = 0) := by
  obtain ⟨e, he, _⟩ := readAt_valid s.m_blocks index h0 h1
  obtain ⟨d, hd⟩ := GetBlock_eq L s fresh index e he
  obtain ⟨b, t, hb, hdur⟩ := GetBlock_duration L s fresh index h0 h1
  rw [hd] at hb
  injection hb with hb
  injection hb with hb1 hb2
  have a0 := (fetchEvents_untouched s fresh index e).1
  obtain ⟨a1, a2, a3, a4⟩ := fetchEvents_absent s fresh index e
  obtain ⟨g1, g2⟩ := fetchEvents_absent_grad s fresh index e
  obtain ⟨_, _, k1, k2, k3, k4, k5, _⟩ :=
    (eventsDuration_spec L (fetchEvents s fresh index e).2 (fetchEvents s fresh index e).1).2
  refine ⟨e, b, t, he, hd.trans (by rw [hb1, hb2]), ?_, ?_, ?_, ?_, ?_, ?_, ?_⟩
  · intro h
    rw [← hb1, ← hb2, k4]
    exact a1 h
  · intro h
    rw [← hb1, ← hb2, k1]
    exact a2 h
  · intro i hi h
    rw [← hb1]
    exact g1 i hi h
  · intro hx hy hz
    rw [← hb2, k2]
    exact g2 hx hy hz
  · intro h
    rw [← hb1, ← hb2, k3]
    exact a3 h
  · intro h
    rw [← hb1, ← hb2, k5]
    exact a4 h
  · intro h
    have hev : b.events = ⟨0, 0, 0, 0, 0, 0, 0⟩ := by rw [← hb1, ← h]; exact a0
    have hdl : b.delay = 0 := by
      rw [← hb1]
      exact (a1 (by rw [h])).1
    rw [hdur, candidates_absent L s b hev, hdl]
    have w : wrapLong L 0 = 0 := wrapLong_of_int L 0 (by norm_num) (by norm_num)
    simp [maxOf, w]

/-- Witness of C16: the block of `trapezoidExample`, whose slots other than delay and gx are
`0`. -/
theorem GetBlock_absent_slots_witness :
    ∃ (e : EventIDs) (b : SeqBlock) (t : State),
      readAt (trapezoidExample 0).m_blocks 0 = .ok e ∧
      GetBlock long32 (trapezoidExample 0) SeqBlock.blank 0 = .ok (b, t) ∧
      (e.delay = 0 → b.delay = 0 ∧ t.m_delayLibrary = (trapezoidExample 0).m_delayLibrary) ∧
      (e.rf = 0 → b.rf = SeqBlock.blank.rf ∧ t.m_rfLibrary = (trapezoidExample 0).m_rfLibrary) ∧
      (∀ i, i < 3 → e.grad i = 0 → b.grad.get i = SeqBlock.blank.grad.get i) ∧
      (e.gx = 0 → e.gy = 0 → e.gz = 0 → t.m_gradLibrary = (trapezoidExample 0).m_gradLibrary) ∧
      (e.adc = 0 → b.adc = { SeqBlock.blank.adc with numSamples := 0 } ∧
        t.m_adcLibrary = (trapezoidExample 0).m_adcLibrary) ∧
      (e.ctrl = 0 → b.control = SeqBlock.blank.control ∧
        t.m_controlLibrary = (trapezoidExample 0).m_controlLibrary) ∧
      (e = ⟨0, 0, 0, 0, 0, 0, 0⟩ → b.duration = 0) :=
  GetBlock_absent_slots long32 (trapezoidExample 0) SeqBlock.blank 0 (le_refl 0)
    (by simp [trapezoidExample])

/-! ## The number of samples a stored shape decodes to -/

theorem emittedSamples_tokens (toks : List Token) (n : Int) (buf : List ℚ)
    (hs : Splits toks) (hlen : ((expansionOf toks).length : Int) = n)
    (hbuf : (buf.length : Int) = n) (hn : n < 2147483647) :
    emittedSamples ⟨n, packedOf toks⟩ buf = .ok n := by
  have hlen' : buf.length = (expansionOf toks).length := by omega
  obtain ⟨c, hc1, hc2, hc3⟩ := unpack_tokens toks [] [] buf (packedOf toks).length hs hlen'
    (by simp only [List.length_nil, Nat.cast_zero, zero_add]; omega) (le_refl _)
  have h1 : wrapInt 1 = 1 := wrapInt_of_range 1 (by omega) (by omega)
  simp only [List.nil_append, List.length_nil, Nat.cast_zero, zero_add, h1] at hc1 hc2 hc3
  unfold emittedSamples
  simp only [hc1, hc2, bind, Except.bind, pure, Except.pure]
  rw [hc3 (by omega), hbuf]


/-- Counterexample to C14 as stated: from this file `load` stores the shape 1 with the declared
length 5 and the two packed samples `1, 2`, and returns `true`, for every width of the
combined version; on that entry the decode loop emits 2 samples. -/
theorem load_stores_undeclared_length_counterexample :
    (∀ W : LongBits, storedShape (load W integerScanners
        (singleFile "[SHAPES]\n\nshape_id 1\nnum_samples 5\n1\n2\n\n[BLOCKS]\n\n")
        (State.init 0)) 1 = some (true, some (5, [1, 2]))) ∧
      emittedSamples ⟨5, [1, 2]⟩ (freshBuffer ⟨5, [1, 2]⟩) = .ok 2 :=
  ⟨fun _ => rfl, rfl⟩

/-- C14, amended. For every shape entry, and so for every one `load` stores, whose packed
samples split into literals and runs with an expansion of exactly `declaredLength` elements,
`declaredLength` below `2^31 - 1`, the number of samples the decode loop of
`decompressShape` emits into a buffer of `declaredLength` entries equals `declaredLength`. -/
theorem emittedSamples_declared (encoded : CompressedShape) (toks : List Token)
    (hpacked : encoded.samples = packedOf toks) (hsplit : Splits toks)
    (hlen : ((expansionOf toks).length : Int) = encoded.numUncompressedSamples)
    (hint : encoded.numUncompressedSamples < 2147483647) :
    emittedSamples encoded (freshBuffer encoded) = .ok encoded.numUncompressedSamples := by
  obtain ⟨n, packed⟩ := encoded
  simp only at hpacked hlen hint
  subst hpacked
  apply emittedSamples_tokens toks n _ hsplit hlen _ hint
  simp only [freshBuffer, List.length_replicate]
  omega

/-- Witness of C14, amended: the entry with the packed samples `1, 1, 3` (one run) and the
declared length 5. -/
theorem emittedSamples_declared_witness :
    emittedSamples ⟨5, [1, 1, 3]⟩ (freshBuffer ⟨5, [1, 1, 3]⟩) = .ok 5 :=
  emittedSamples_declared ⟨5, [1, 1, 3]⟩ [Token.run 1 3] (by simp [packedOf, Token.packed])
    trivial (by simp [expansionOf, Token.expansion]) (by decide)

/-! ## Last write wins -/

theorem sectionLoop_rows (body : State → List Char → Except Exit State) :
    ∀ (fuel : Nat) (s s1 : State) (is is1 : IStream) (rows : List (List Char)),
    sectionRows fuel is = some (rows, is1) → rows.foldlM body s = .ok s1 →
    sectionLoop body fuel s is = .ok (s1, is1) := by
  intro fuel
  induction fuel with
  | zero => intro s s1 is is1 rows h; simp [sectionRows] at h
  | succ fuel ih =>
    intro s s1 is is1 rows h hf
    have hnil : ∀ st : IStream, some (([] : List (List Char)), st) = some (rows, is1) →
        (.ok (s, st) : Except Exit (State × IStream)) = .ok (s1, is1) := by
      intro st e
      injection e with e
      injection e with ha hb
      subst ha hb
      simp only [List.foldlM, pure, Except.pure] at hf
      injection hf with hf
      rw [hf]
    rw [sectionRows] at h
    rw [sectionLoop]
    by_cases h1 : (getline is MAX_LINE_SIZE).ok = false
    · rw [if_pos h1] at h ⊢
      exact hnil _ h
    · rw [if_neg h1] at h ⊢
      by_cases h2 : (getline is MAX_LINE_SIZE).buffer.first = '['
      · rw [if_pos h2] at h ⊢
        exact hnil _ h
      · rw [if_neg h2] at h ⊢
        cases hl : (getline is MAX_LINE_SIZE).buffer.cstr with
        | error f => rw [hl] at h; cases h
        | ok line =>
          rw [hl] at h
          dsimp only at h ⊢
          by_cases h3 : line.length = 0
          · rw [if_pos h3] at h ⊢
            exact hnil _ h
          · rw [if_neg h3] at h ⊢
            cases hr : sectionRows fuel (getline is MAX_LINE_SIZE).stream with
            | none => rw [hr] at h; cases h
            | some p =>
              rw [hr] at h
              simp only [Option.map_some'] at h
              injection h with h
              injection h with ha hb
              subst ha hb
              simp only [List.foldlM, bind, Except.bind] at hf
              cases hb : body s line with
              | error e => rw [hb] at hf; cases hf
              | ok s2 =>
                rw [hb] at hf
                exact ih s2 s1 _ _ p.1 (by rw [hr]) hf

theorem lastRecord_append {α : Type} (rs : List (Int × α)) (r : Int × α) (id : Int) :
    lastRecord (rs ++ [r]) id = if r.1 = id then some r.2 else lastRecord rs id := by
  unfold lastRecord
  rw [List.reverse_append]
  simp only [List.reverse_cons, List.reverse_nil, List.nil_append, List.singleton_append,
    List.find?_cons]
  by_cases h : r.1 = id
  · simp [h]
  · simp [h]

theorem foldl_assign_lastRecord {α : Type} (records : List (Int × α)) (l : Lib α) (id : Int) :
    (records.foldl (fun m r => m.assign r.1 r.2) l) id
      = match lastRecord records id with
        | some v => some v
        | none => l id := by
  induction records using List.reverseRecOn with
  | nil => simp [lastRecord]
  | append_singleton rs r ih =>
    rw [List.foldl_append, lastRecord_append]
    simp only [List.foldl_cons, List.foldl_nil, Lib.assign]
    by_cases h : r.1 = id
    · rw [if_pos h.symm, if_pos h]
    · rw [if_neg (fun e => h e.symm), if_neg h, ih]

theorem foldlM_records {α : Type} (body : State → List Char → Except Exit State)
    (fields : Int → List Char → Option (Int × α)) (lib : State → Lib α)
    (setLib : State → Lib α → State)
    (hbody : ∀ s line, body s line =
      match fields s.version_combined line with
      | some r => .ok (setLib s ((lib s).assign r.1 r.2))
      | none => .error (Exit.ret false s))
    (hget : ∀ s l, lib (setLib s l) = l)
    (hver : ∀ s l, (setLib s l).version_combined = s.version_combined) :
    ∀ (rows : List (List Char)) (s : State),
      (∀ row ∈ rows, (fields s.version_combined row).isSome = true) →
      ∃ s1, rows.foldlM body s = .ok s1 ∧
        lib s1 = (rows.filterMap (fields s.version_combined)).foldl
          (fun m r => m.assign r.1 r.2) (lib s) := by
  intro rows
  induction rows with
  | nil => intro s _; exact ⟨s, rfl, rfl⟩
  | cons row rows ih =>
    intro s hw
    have h1 := hw row (List.mem_cons_self _ _)
    cases hf : fields s.version_combined row with
    | none => rw [hf] at h1; cases h1
    | some r =>
      have hb := hbody s row
      rw [hf] at hb
      have hv := hver s ((lib s).assign r.1 r.2)
      obtain ⟨s1, e1, e2⟩ := ih (setLib s ((lib s).assign r.1 r.2)) (by
        intro row' hrow'
        rw [hv]
        exact hw row' (List.mem_cons_of_mem _ hrow'))
      refine ⟨s1, ?_, ?_⟩
      · simp only [List.foldlM, bind, Except.bind, hb]
        exact e1
      · rw [e2, hv, hget, List.filterMap_cons, hf]
        rfl

theorem lastWriteWins_of {α : Type} (body : State → List Char → Except Exit State)
    (fields : Int → List Char → Option (Int × α)) (lib : State → Lib α)
    (setLib : State → Lib α → State)
    (hbody : ∀ s line, body s line =
      match fields s.version_combined line with
      | some r => .ok (setLib s ((lib s).assign r.1 r.2))
      | none => .error (Exit.ret false s))
    (hget : ∀ s l, lib (setLib s l) = l)
    (hver : ∀ s l, (setLib s l).version_combined = s.version_combined) :
    LastWriteWins body fields lib := by
  intro fuel s is is1 rows hrows hw
  obtain ⟨s1, e1, e2⟩ := foldlM_records body fields lib setLib hbody hget hver rows s hw
  refine ⟨s1, sectionLoop_rows body fuel s s1 is is1 rows hrows e1, ?_⟩
  intro id
  have h := foldl_assign_lastRecord (rows.filterMap (fields s.version_combined)) (lib s) id
  rw [← e2] at h
  constructor
  · intro v hl
    rw [hl] at h
    exact ⟨h, by unfold Lib.count; rw [h]⟩
  · intro hl
    rw [hl] at h
    exact h

/-- C17. For every library (RF, gradient, ADC, delay, control) and every sequence of
well-formed records of one section, the record loop of the section returns and the library
afterwards maps each id to the fields of the last record carrying that id, as its one entry
for the id; the ids no record carries stay as they were. -/
theorem last_write_wins (sc : Scanners) :
    LastWriteWins (rfRecord sc) (rfFields sc) (fun s => s.m_rfLibrary) ∧
    LastWriteWins (gradRecord sc) (gradFields sc) (fun s => s.m_gradLibrary) ∧
    LastWriteWins (trapRecord sc) (trapFields sc) (fun s => s.m_gradLibrary) ∧
    LastWriteWins (adcRecord sc) (adcFields sc) (fun s => s.m_adcLibrary) ∧
    LastWriteWins (delayRecord sc) (delayFields sc) (fun s => s.m_delayLibrary) ∧
    LastWriteWins (triggerRecord sc) (triggerFields sc) (fun s => s.m_controlLibrary) ∧
    LastWriteWins (rotationRecord sc) (rotationFields sc) (fun s => s.m_controlLibrary) := by
  refine ⟨?_, ?_, ?_, ?_, ?_, ?_, ?_⟩
  · apply lastWriteWins_of _ _ _ (fun s l => { s with m_rfLibrary := l })
    · intro s line
      unfold rfRecord rfFields
      dsimp only
      split_ifs <;> rfl
    · intro s l; rfl
    · intro s l; rfl
  · apply lastWriteWins_of _ _ _ (fun s l => { s with m_gradLibrary := l })
    · intro s line
      unfold gradRecord gradFields
      dsimp only
      split_ifs <;> rfl
    · intro s l; rfl
    · intro s l; rfl
  · apply lastWriteWins_of _ _ _ (fun s l => { s with m_gradLibrary := l })
    · intro s line
      unfold trapRecord trapFields
      dsimp only
      split_ifs <;> rfl
    · intro s l; rfl
    · intro s l; rfl
  · apply lastWriteWins_of _ _ _ (fun s l => { s with m_adcLibrary := l })
    · intro s line
      unfold adcRecord adcFields
      dsimp only
      split_ifs <;> rfl
    · intro s l; rfl
    · intro s l; rfl
  · apply lastWriteWins_of _ _ _ (fun s l => { s with m_delayLibrary := l })
    · intro s line
      unfold delayRecord delayFields
      dsimp only
      split_ifs <;> rfl
    · intro s l; rfl
    · intro s l; rfl
  · apply lastWriteWins_of _ _ _ (fun s l => { s with m_controlLibrary := l })
    · intro s line
      unfold triggerRecord triggerFields
      dsimp only
      split_ifs <;> rfl
    · intro s l; rfl
    · intro s l; rfl
  · apply lastWriteWins_of _ _ _ (fun s l => { s with m_controlLibrary := l })
    · intro s line
      unfold rotationRecord rotationFields
      dsimp only
      split_ifs <;> rfl
    · intro s l; rfl
    · intro s l; rfl

/-- Witness of C17: an `[RF]` section with two records of the id 1; the library afterwards
holds the fields of the second. -/
theorem last_write_wins_witness :
    ∃ s1, sectionLoop (rfRecord integerScanners) 30 (State.init 0)
        (IStream.open (some "1 5 0 0 0 0\n1 7 0 0 0 0\n\n".toList))
        = .ok (s1, ⟨"1 5 0 0 0 0\n1 7 0 0 0 0\n\n".toList, 25, false, false⟩) ∧
      ∀ id,
        (∀ v, lastRecord (List.filterMap
            (rfFields integerScanners (State.init 0).version_combined)
            ["1 5 0 0 0 0".toList, "1 7 0 0 0 0".toList]) id = some v →
          s1.m_rfLibrary id = some v ∧ s1.m_rfLibrary.count id = 1) ∧
        (lastRecord (List.filterMap
            (rfFields integerScanners (State.init 0).version_combined)
            ["1 5 0 0 0 0".toList, "1 7 0 0 0 0".toList]) id = none →
          s1.m_rfLibrary id = (State.init 0).m_rfLibrary id) :=
  (last_write_wins integerScanners).1 30 (State.init 0)
    (IStream.open (some "1 5 0 0 0 0\n1 7 0 0 0 0\n\n".toList))
    ⟨"1 5 0 0 0 0\n1 7 0 0 0 0\n\n".toList, 25, false, false⟩
    ["1 5 0 0 0 0".toList, "1 7 0 0 0 0".toList] rfl
    (by
      intro row hrow
      simp only [List.mem_cons, List.mem_singleton, List.not_mem_nil, or_false] at hrow
      rcases hrow with h | h <;> (subst h; rfl))

/-! ## Reading lines -/

theorem get_of_drop (is : IStream) (c : Char) (tail : List Char) (hg : is.good = true)
    (hd : is.data.drop is.pos = c :: tail) :
    is.get = (some c, { is with pos := is.pos + 1 }) ∧ is.data.drop (is.pos + 1) = tail := by
  have h0 : is.data[is.pos]? = some c := by
    have := List.getElem?_drop (L := is.data) (i := is.pos) (j := 0)
    rw [hd] at this
    simpa using this.symm
  have h1 : is.data.drop (is.pos + 1) = tail := by
    have := List.drop_drop 1 is.pos is.data
    rw [hd] at this
    simpa [Nat.add_comm] using this.symm
  refine ⟨?_, h1⟩
  unfold IStream.get
  rw [if_pos hg, h0]

theorem get_at_end (is : IStream) (hg : is.good = true) (hd : is.data.drop is.pos = []) :
    is.get = (none, { is with eofbit := true, failbit := true }) := by
  have h0 : is.data[is.pos]? = none := by
    rw [List.getElem?_eq_none_iff]
    exact List.drop_eq_nil_iff.mp hd
  unfold IStream.get
  rw [if_pos hg, h0]

theorem get_not_good (is : IStream) (hg : is.good = false) :
    is.get = (none, { is with failbit := true }) := by
  unfold IStream.get
  rw [if_neg (by rw [hg]; decide)]

theorem getlineLoop_step (room : Nat) (is : IStream) (acc : List Char) (c : Char)
    (tail : List Char) (hg : is.good = true) (hd : is.data.drop is.pos = c :: tail)
    (h1 : c ≠ '\n') (h2 : c ≠ '\r') (h3 : c ≠ Char.ofNat 255) :
    getlineLoop (room + 1) is acc = getlineLoop room { is with pos := is.pos + 1 } (acc ++ [c]) := by
  rw [getlineLoop, (get_of_drop is c tail hg hd).1]
  simp only [h1, h2, h3, if_false]

theorem getlineLoop_content : ∀ (content : List Char) (room : Nat) (is : IStream)
    (acc rest : List Char), is.good = true → is.data.drop is.pos = content ++ rest →
    (∀ c ∈ content, c ≠ '\n' ∧ c ≠ '\r' ∧ c ≠ Char.ofNat 255) → content.length ≤ room →
    getlineLoop room is acc = getlineLoop (room - content.length)
      { is with pos := is.pos + content.length } (acc ++ content) := by
  intro content
  induction content with
  | nil => intro room is acc rest _ _ _ _; simp
  | cons c content ih =>
    intro room is acc rest hg hd hc hr
    cases room with
    | zero => simp at hr
    | succ room =>
      obtain ⟨c1, c2, c3⟩ := hc c (List.mem_cons_self _ _)
      rw [getlineLoop_step room is acc c (content ++ rest) hg hd c1 c2 c3]
      have hd' := (get_of_drop is c (content ++ rest) hg hd).2
      rw [ih room { is with pos := is.pos + 1 } (acc ++ [c]) rest hg hd'
        (fun x hx => hc x (List.mem_cons_of_mem _ hx))
        (by simpa using hr)]
      have e1 : room + 1 - (c :: content).length = room - content.length := by
        simp
      have e2 : is.pos + 1 + content.length = is.pos + (c :: content).length := by
        simp; omega
      rw [e1]
      simp only [List.append_assoc, List.singleton_append, e2]

theorem getlineLoop_newline (room : Nat) (is : IStream) (acc rest : List Char)
    (hg : is.good = true) (hd : is.data.drop is.pos = '\n' :: rest) :
    getlineLoop room is acc = ⟨true, ⟨acc, true⟩, { is with pos := is.pos + 1 }⟩ := by
  cases room <;> rw [getlineLoop, (get_of_drop is '\n' rest hg hd).1] <;> simp

theorem getlineLoop_crlf (room : Nat) (is : IStream) (acc rest : List Char)
    (hg : is.good = true) (hd : is.data.drop is.pos = '\r' :: '\n' :: rest) :
    getlineLoop room is acc = ⟨true, ⟨acc, true⟩, { is with pos := is.pos + 2 }⟩ := by
  obtain ⟨g1, g2⟩ := get_of_drop is '\r' ('\n' :: rest) hg hd
  have hg' : ({ is with pos := is.pos + 1 } : IStream).good = true := hg
  obtain ⟨k1, _⟩ := get_of_drop { is with pos := is.pos + 1 } '\n' rest hg' g2
  have hp : ({ is with pos := is.pos + 1 } : IStream).peek
      = (some '\n', { is with pos := is.pos + 1 }) := by
    have h0 : is.data[is.pos + 1]? = some '\n' := by
      have := List.getElem?_drop (L := is.data) (i := is.pos + 1) (j := 0)
      rw [g2] at this
      simpa using this.symm
    unfold IStream.peek
    rw [if_pos hg']
    simp only [h0]
  have hcr : ('\r' : Char) ≠ '\n' := by decide
  cases room <;> rw [getlineLoop, g1] <;>
    simp only [hcr, if_false, if_true, getlineCr, hp, k1]

theorem getlineLoop_end (room : Nat) (is : IStream) (acc : List Char)
    (hg : is.good = true) (hd : is.data.drop is.pos = []) :
    getlineLoop room is acc = getlineEof { is with eofbit := true, failbit := true } acc := by
  cases room <;> rw [getlineLoop, get_at_end is hg hd]

theorem getlineLoop_failed (room : Nat) (is : IStream) (acc : List Char)
    (hg : is.good = false) :
    getlineLoop room is acc = getlineEof { is with failbit := true } acc := by
  cases room <;> rw [getlineLoop, get_not_good is hg]

theorem getlineLoop_ok_of_acc : ∀ (room : Nat) (is : IStream) (acc : List Char),
    acc ≠ [] → (getlineLoop room is acc).ok = true := by
  intro room
  induction room with
  | zero =>
    intro is acc hacc
    unfold getlineLoop
    have he : ∀ st, (getlineEof st acc).ok = true := by
      intro st; cases acc with
      | nil => exact absurd rfl hacc
      | cons a acc => rfl
    rcases is.get with ⟨_ | c, is1⟩
    · exact he is1
    · dsimp only
      split_ifs
      · rfl
      · rfl
      · exact he is1
      · rfl
  | succ room ih =>
    intro is acc hacc
    unfold getlineLoop
    have he : ∀ st, (getlineEof st acc).ok = true := by
      intro st; cases acc with
      | nil => exact absurd rfl hacc
      | cons a acc => rfl
    rcases is.get with ⟨_ | c, is1⟩
    · exact he is1
    · dsimp only
      split_ifs
      · rfl
      · rfl
      · exact he is1
      · exact ih is1 (acc ++ [c]) (by simp)

theorem getline_failed (is : IStream) (M : Nat) (hg : is.good = false) :
    (getline is M).ok = false ∧ (getline is M).stream.good = false := by
  have h : (getline is M).ok = false := by
    unfold getline
    rw [getlineLoop_failed _ _ _ hg]
    rfl
  exact ⟨h, getline_not_good is M h⟩

theorem afterCalls_failed (M : Nat) : ∀ (n : Nat) (is : IStream), is.good = false →
    (afterCalls M n is).good = false := by
  intro n
  induction n with
  | zero => intro is h; exact h
  | succ n ih => intro is h; exact ih _ (getline_failed is M h).2

theorem getline_false_iff (is : IStream) (M : Nat) (hg : is.good = true)
    (hff : ∀ c ∈ is.data.drop is.pos, c ≠ Char.ofNat 255) :
    (getline is M).ok = false ↔ is.data.length ≤ is.pos := by
  constructor
  · intro h
    by_contra hlt
    cases hd : is.data.drop is.pos with
    | nil => exact hlt (List.drop_eq_nil_iff.mp hd)
    | cons c tail =>
      have hc : c ≠ Char.ofNat 255 := hff c (by rw [hd]; exact List.mem_cons_self _ _)
      have hget := (get_of_drop is c tail hg hd).1
      have : (getline is M).ok = true := by
        unfold getline
        cases M - 1 with
        | zero =>
          rw [getlineLoop, hget]
          dsimp only
          split_ifs <;> rfl
        | succ room =>
          rw [getlineLoop, hget]
          dsimp only
          split_ifs
          · rfl
          · rfl
          · exact getlineLoop_ok_of_acc _ _ _ (by simp)
      rw [this] at h
      cases h
  · intro h
    unfold getline
    rw [getlineLoop_end _ _ _ hg (List.drop_eq_nil_iff.mpr h)]
    rfl

/-- Counterexample to C19 as stated.  On the three bytes `0xFF, 'a', '\n'` the first call of
`getline` returns `false` after one byte, with two bytes left in the stream: the byte `0xFF`
equals `EOF` once it is a `char`.  And with `MAX_SIZE = 8` the final line `0123456789`,
which has no terminator, is returned in two calls, the first with 8 of its characters. -/
theorem getline_counterexample :
    (getline (IStream.open (some [Char.ofNat 255, 'a', '\n'])) MAX_LINE_SIZE).ok = false ∧
    (getline (IStream.open (some [Char.ofNat 255, 'a', '\n'])) MAX_LINE_SIZE).stream.pos = 1 ∧
    (getline (IStream.open (some "0123456789".toList)) 8).ok = true ∧
    (getline (IStream.open (some "0123456789".toList)) 8).buffer.chars = "01234567".toList ∧
    (getline (getline (IStream.open (some "0123456789".toList)) 8).stream 8).ok = true ∧
    (getline (getline (IStream.open (some "0123456789".toList)) 8).stream 8).buffer.chars
      = "89".toList := by
  exact ⟨rfl, rfl, rfl, rfl, rfl, rfl⟩

/-- C19, amended. For every byte stream in good state that holds no byte `0xFF` from the read
position on, `getline` returns `false` only when the stream is exhausted with zero bytes read
for the current line, and it does return `false` then; a final line that lacks a terminator
and is shorter than `MAX_SIZE` is returned (`true`, with its full content) by the first
call, and every later call of `getline` returns `false`. -/
theorem getline_final_line (is : IStream) (M : Nat) (hgood : is.good = true)
    (hff : ∀ c ∈ is.data.drop is.pos, c ≠ Char.ofNat 255) :
    ((getline is M).ok = false ↔ is.data.length ≤ is.pos) ∧
    (is.data.drop is.pos ≠ [] → (∀ c ∈ is.data.drop is.pos, c ≠ '\n' ∧ c ≠ '\r') →
      (is.data.drop is.pos).length < M →
      (getline is M).ok = true ∧ (getline is M).buffer = ⟨is.data.drop is.pos, true⟩ ∧
        ∀ n, (getline (afterCalls M n (getline is M).stream) M).ok = false) := by
  refine ⟨getline_false_iff is M hgood hff, ?_⟩
  intro hne hterm hlen
  have hc : ∀ c ∈ is.data.drop is.pos, c ≠ '\n' ∧ c ≠ '\r' ∧ c ≠ Char.ofNat 255 :=
    fun c h => ⟨(hterm c h).1, (hterm c h).2, hff c h⟩
  have hpos : is.pos + (is.data.drop is.pos).length = is.data.length := by
    rw [List.length_drop]
    have : is.pos < is.data.length := by
      by_contra hle
      exact hne (List.drop_eq_nil_iff.mpr (by omega))
    omega
  have e : getline is M = ⟨true, ⟨is.data.drop is.pos, true⟩,
      { is with pos := is.data.length, eofbit := true, failbit := true }⟩ := by
    unfold getline
    have hg' : ({ is with pos := is.pos + (is.data.drop is.pos).length } : IStream).good
        = true := hgood
    rw [getlineLoop_content (is.data.drop is.pos) (M - 1) is [] [] hgood (by simp) hc (by omega),
      getlineLoop_end _ { is with pos := is.pos + (is.data.drop is.pos).length } _ hg'
        (List.drop_eq_nil_iff.mpr (le_of_eq hpos.symm)), hpos]
    unfold getlineEof
    cases hd : is.data.drop is.pos with
    | nil => exact absurd hd hne
    | cons c tail => simp
  rw [e]
  refine ⟨rfl, rfl, fun n => ?_⟩
  exact (getline_failed _ M (afterCalls_failed M n _ (by simp [IStream.good]))).1

/-- Witness of C19, amended: the stream `"ab\ncd"` after its first line has been read. -/
theorem getline_final_line_witness :
    ((getline ⟨"ab\ncd".toList, 3, false, false⟩ 256).ok = false ↔
      "ab\ncd".toList.length ≤ 3) ∧
    ("ab\ncd".toList.drop 3 ≠ [] → (∀ c ∈ "ab\ncd".toList.drop 3, c ≠ '\n' ∧ c ≠ '\r') →
      ("ab\ncd".toList.drop 3).length < 256 →
      (getline ⟨"ab\ncd".toList, 3, false, false⟩ 256).ok = true ∧
        (getline ⟨"ab\ncd".toList, 3, false, false⟩ 256).buffer
          = ⟨"ab\ncd".toList.drop 3, true⟩ ∧
        ∀ n, (getline (afterCalls 256 n
          (getline ⟨"ab\ncd".toList, 3, false, false⟩ 256).stream) 256).ok = false) :=
  getline_final_line ⟨"ab\ncd".toList, 3, false, false⟩ 256 rfl (by decide)

/-! ## The section index -/

theorem cstr_plain (content : List Char) (h : ∀ c ∈ content, c ≠ Char.ofNat 0) :
    Buffer.cstr ⟨content, true⟩ = .ok content := by
  unfold Buffer.cstr
  have e : content.takeWhile (fun c => decide (c ≠ Char.ofNat 0)) = content := by
    rw [List.takeWhile_eq_self_iff]
    intro c hc
    simpa using h c hc
  simp only [e, or_true, if_true]

theorem getline_plain (is : IStream) (l : TextLine) (rest : List Char) (hg : is.good = true)
    (hd : is.data.drop is.pos = l.bytes ++ rest) (hl : PlainLine l) :
    getline is MAX_LINE_SIZE
      = ⟨true, ⟨l.content, true⟩, { is with pos := is.pos + l.bytes.length }⟩ := by
  obtain ⟨h1, h2⟩ := hl
  have hc : ∀ c ∈ l.content, c ≠ '\n' ∧ c ≠ '\r' ∧ c ≠ Char.ofNat 255 :=
    fun c h => ⟨(h2 c h).1, (h2 c h).2.1, (h2 c h).2.2.1⟩
  have hg' : ({ is with pos := is.pos + l.content.length } : IStream).good = true := hg
  unfold getline
  unfold TextLine.bytes at hd ⊢
  have hroom : l.content.length ≤ MAX_LINE_SIZE - 1 := by omega
  cases hcr : l.crlf with
  | false =>
    rw [hcr] at hd
    simp only [Bool.false_eq_true, if_false, List.append_assoc] at hd ⊢
    rw [getlineLoop_content l.content _ is [] _ hg hd hc hroom]
    have hd' : ({ is with pos := is.pos + l.content.length } : IStream).data.drop
        ({ is with pos := is.pos + l.content.length } : IStream).pos = '\n' :: rest := by
      have := List.drop_drop l.content.length is.pos is.data
      rw [hd] at this
      simpa [Nat.add_comm] using this.symm
    rw [getlineLoop_newline _ _ _ _ hg' hd']
    simp [Nat.add_assoc]
  | true =>
    rw [hcr] at hd
    simp only [if_true, List.append_assoc] at hd ⊢
    rw [getlineLoop_content l.content _ is [] _ hg hd hc hroom]
    have hd' : ({ is with pos := is.pos + l.content.length } : IStream).data.drop
        ({ is with pos := is.pos + l.content.length } : IStream).pos
          = '\r' :: '\n' :: rest := by
      have := List.drop_drop l.content.length is.pos is.data
      rw [hd] at this
      simpa [Nat.add_comm] using this.symm
    rw [getlineLoop_crlf _ _ _ _ hg' hd']
    simp [Nat.add_assoc]

theorem isTag_iff (content : List Char) :
    (content.headD (Char.ofNat 0) = '[' ∧ content.getLastD (Char.ofNat 0) = ']')
      ↔ isTag content = true := by
  unfold isTag
  cases content with
  | nil => simp
  | cons c cs =>
    simp only [List.headD_cons, List.head?_cons, Option.some.injEq, Bool.and_eq_true,
      decide_eq_true_eq]
    rw [List.getLastD_eq_getLast?]
    cases h : (c :: cs).getLast? with
    | none => simp at h
    | some x => simp

theorem tellg_good (is : IStream) (hg : is.good = true) : is.tellg = ((is.pos : Int), is) := by
  unfold IStream.tellg
  rw [if_pos hg]

theorem buildFileIndexLoop_lines : ∀ (lines : List TextLine) (fuel : Nat) (s : State)
    (is : IStream), is.good = true → is.data.drop is.pos = textOf lines →
    (∀ l ∈ lines, PlainLine l) → lines.length < fuel →
    ∃ is1, buildFileIndexLoop fuel s is = .ok ({ s with m_fileIndex :=
        ((lineEnds is.pos lines).foldl
          (fun m p => if isTag p.1 = true then assignKey m p.1 p.2 else m) s.m_fileIndex) },
        is1) ∧ is1.data = is.data := by
  intro lines
  induction lines with
  | nil =>
    intro fuel s is hg hd _ hf
    cases fuel with
    | zero => simp at hf
    | succ fuel =>
      have e : getline is MAX_LINE_SIZE
          = getlineEof { is with eofbit := true, failbit := true } [] := by
        unfold getline
        rw [getlineLoop_end _ _ _ hg hd]
      refine ⟨(getline is MAX_LINE_SIZE).stream, ?_, (getline_advances is _).1⟩
      rw [buildFileIndexLoop]
      have hok : (getline is MAX_LINE_SIZE).ok = false := by rw [e]; rfl
      simp only [hok, if_true, lineEnds, List.foldl_nil]
  | cons l ls ih =>
    intro fuel s is hg hd hp hf
    cases fuel with
    | zero => simp at hf
    | succ fuel =>
      have hl := hp l (List.mem_cons_self _ _)
      have hgl := getline_plain is l (textOf ls) hg hd hl
      have hcs := cstr_plain l.content (fun c hc => (hl.2 c hc).2.2.2)
      have hg' : ({ is with pos := is.pos + l.bytes.length } : IStream).good = true := hg
      have hd' : ({ is with pos := is.pos + l.bytes.length } : IStream).data.drop
          ({ is with pos := is.pos + l.bytes.length } : IStream).pos = textOf ls := by
        have := List.drop_drop l.bytes.length is.pos is.data
        rw [hd] at this
        simpa [textOf, Nat.add_comm] using this.symm
      rw [buildFileIndexLoop]
      simp only [hgl, Bool.true_eq_false, if_false, hcs, tellg_good _ hg']
      by_cases ht : isTag l.content = true
      · rw [if_pos ((isTag_iff l.content).mpr ht)]
        obtain ⟨is1, e1, e2⟩ := ih fuel
          { s with m_fileIndex :=
            (assignKey s.m_fileIndex l.content ((is.pos + l.bytes.length : Nat) : Int)) }
          { is with pos := is.pos + l.bytes.length } hg' hd'
          (fun x hx => hp x (List.mem_cons_of_mem _ hx)) (by simpa using hf)
        refine ⟨is1, ?_, e2⟩
        rw [e1]
        simp only [lineEnds, List.foldl_cons, if_pos ht]
      · rw [if_neg (fun h => ht ((isTag_iff l.content).mp h))]
        obtain ⟨is1, e1, e2⟩ := ih fuel s { is with pos := is.pos + l.bytes.length } hg' hd'
          (fun x hx => hp x (List.mem_cons_of_mem _ hx)) (by simpa using hf)
        refine ⟨is1, ?_, e2⟩
        rw [e1]
        simp only [lineEnds, List.foldl_cons, if_neg ht]

theorem tagOffset_append (ends : List (List Char × Int)) (p : List Char × Int)
    (key : List Char) :
    tagOffset (ends ++ [p]) key
      = if isTag p.1 = true ∧ p.1 = key then some p.2 else tagOffset ends key := by
  unfold tagOffset
  rw [List.reverse_append]
  simp only [List.reverse_cons, List.reverse_nil, List.nil_append, List.singleton_append,
    List.find?_cons]
  by_cases h : isTag p.1 = true ∧ p.1 = key
  · rw [if_pos h]
    have : (isTag p.1 && decide (p.1 = key)) = true := by
      rw [h.1, decide_eq_true h.2]
      rfl
    rw [this]
    rfl
  · rw [if_neg h]
    have : (isTag p.1 && decide (p.1 = key)) = false := by
      simpa using h
    rw [this]

theorem foldl_index_tagOffset (ends : List (List Char × Int)) (m : List Char → Option Int)
    (key : List Char) :
    (ends.foldl (fun m p => if isTag p.1 = true then assignKey m p.1 p.2 else m) m) key
      = match tagOffset ends key with
        | some off => some off
        | none => m key := by
  induction ends using List.reverseRecOn with
  | nil => simp [tagOffset]
  | append_singleton ends p ih =>
    rw [List.foldl_append, tagOffset_append]
    simp only [List.foldl_cons, List.foldl_nil]
    have ha : ∀ m1 : List Char → Option Int,
        assignKey m1 p.1 p.2 key = if key = p.1 then some p.2 else m1 key := fun _ => rfl
    by_cases h1 : isTag p.1 = true
    · rw [if_pos h1, ha]
      by_cases h2 : p.1 = key
      · rw [if_pos h2.symm, if_pos ⟨h1, h2⟩]
      · rw [if_neg (fun e => h2 e.symm), if_neg (fun e => h2 e.2), ih]
    · rw [if_neg h1, if_neg (fun e => h1 e.1), ih]

theorem textOf_length_ge : ∀ lines : List TextLine, lines.length ≤ (textOf lines).length := by
  intro lines
  induction lines with
  | nil => simp [textOf]
  | cons l ls ih =>
    have : 1 ≤ l.bytes.length := by
      unfold TextLine.bytes
      cases l.crlf <;> simp
    simp only [textOf, List.length_cons, List.length_append]
    omega

/-- Counterexample to C20 as stated, at four texts.  In `"[A]\n[B]"` the line `[B]` has no
terminator: the index maps it to `-1`, not to the offset 7 after the line.  In
`"[A]\x00x\n"`, `"[A]\xffx\n"` and `"[A]\rx\n"` the first line ends with `x`, yet the index
holds the key `[A]`: the line is cut at the byte `0x00`, at the byte `0xFF` (taken for the
end of the file) and at the bare `\r`. -/
theorem buildFileIndex_counterexample :
    indexedAt (buildFileIndex (State.init 0) (IStream.open (some "[A]\n[B]".toList))) "[B]"
      = some (some (-1), 0) ∧
    indexedAt (buildFileIndex (State.init 0) (IStream.open (some "[A]\x00x\n".toList))) "[A]"
      = some (some 6, 0) ∧
    indexedAt (buildFileIndex (State.init 0) (IStream.open (some "[A]\xffx\n".toList))) "[A]"
      = some (some 4, 0) ∧
    indexedAt (buildFileIndex (State.init 0) (IStream.open (some "[A]\rx\n".toList))) "[A]"
      = some (some 4, 0) :=
  ⟨rfl, rfl, rfl, rfl⟩

/-- C20, amended. For every text made of lines shorter than `MAX_LINE_SIZE`, each ended by
`\n` or `\r\n` and free of the bytes `\r`, `0x00` and `0xFF`, read from its start,
`buildFileIndex` returns; afterwards the index maps each line that begins with `[` and ends
with `]` to the byte offset immediately after that line (the last occurrence for a repeated
tag), holds every other key as before, and the stream's read position is back at 0, the
stream in good state. -/
theorem buildFileIndex_offsets (s : State) (lines : List TextLine)
    (hplain : ∀ l ∈ lines, PlainLine l) :
    ∃ s1, buildFileIndex s (IStream.open (some (textOf lines)))
        = .ok (s1, ⟨textOf lines, 0, false, false⟩) ∧
      ∀ key,
        (∀ off, tagOffset (lineEnds 0 lines) key = some off → s1.m_fileIndex key = some off) ∧
        (tagOffset (lineEnds 0 lines) key = none → s1.m_fileIndex key = s.m_fileIndex key) := by
  have hfuel : lines.length < (textOf lines).length + 1 := by
    have := textOf_length_ge lines
    omega
  obtain ⟨is1, e1, e2⟩ := buildFileIndexLoop_lines lines ((textOf lines).length + 1) s
    (IStream.open (some (textOf lines))) rfl (by simp [IStream.open]) hplain hfuel
  refine ⟨{ s with m_fileIndex := ((lineEnds 0 lines).foldl
    (fun m p => if isTag p.1 = true then assignKey m p.1 p.2 else m) s.m_fileIndex) }, ?_, ?_⟩
  swap
  · intro key
    have h := foldl_index_tagOffset (lineEnds 0 lines) s.m_fileIndex key
    constructor
    · intro off ho
      rw [ho] at h
      exact h
    · intro ho
      rw [ho] at h
      exact h
  unfold buildFileIndex
  have hlen : (IStream.open (some (textOf lines))).data.length = (textOf lines).length := rfl
  rw [hlen, e1]
  simp only [IStream.clear, IStream.seekg]
  have hd : is1.data = textOf lines := e2
  simp [hd, IStream.open]

/-- Witness of C20, amended: a text of three lines, the second a tag ended by `\r\n`. -/
theorem buildFileIndex_offsets_witness :
    ∃ s1, buildFileIndex (State.init 0) (IStream.open (some (textOf
        [⟨"# text".toList, false⟩, ⟨"[A]".toList, true⟩, ⟨"1 2".toList, false⟩])))
        = .ok (s1, ⟨textOf
          [⟨"# text".toList, false⟩, ⟨"[A]".toList, true⟩, ⟨"1 2".toList, false⟩],
          0, false, false⟩) ∧
      ∀ key,
        (∀ off, tagOffset (lineEnds 0
            [⟨"# text".toList, false⟩, ⟨"[A]".toList, true⟩, ⟨"1 2".toList, false⟩]) key
          = some off → s1.m_fileIndex key = some off) ∧
        (tagOffset (lineEnds 0
            [⟨"# text".toList, false⟩, ⟨"[A]".toList, true⟩, ⟨"1 2".toList, false⟩]) key
          = none → s1.m_fileIndex key = (State.init 0).m_fileIndex key) :=
  buildFileIndex_offsets (State.init 0)
    [⟨"# text".toList, false⟩, ⟨"[A]".toList, true⟩, ⟨"1 2".toList, false⟩]
    (by
      intro l hl
      simp only [List.mem_cons, List.mem_singleton, List.not_mem_nil, or_false] at hl
      rcases hl with h | h | h <;> (subst h; exact ⟨by decide, by decide⟩))

/-! ## The version fields -/

theorem sameVersion_refl (s : State) : SameVersion s s := ⟨rfl, rfl, rfl, rfl⟩

theorem sameVersion_trans {s t u : State} (h1 : SameVersion s t) (h2 : SameVersion t u) :
    SameVersion s u :=
  ⟨h2.1.trans h1.1, h2.2.1.trans h1.2.1, h2.2.2.1.trans h1.2.2.1, h2.2.2.2.trans h1.2.2.2⟩

theorem post_bind {α β : Type} (p : α → State) (G : State → Prop) {q : β → State}
    {B G1 : State → Prop} {x : Except Exit α} {f : α → Except Exit β} (hx : Post p G B x)
    (hf : ∀ a, x = .ok a → G (p a) → Post q G1 B (f a)) : Post q G1 B (x >>= f) := by
  cases x with
  | error e =>
    cases e with
    | fault f => trivial
    | ret v t => exact hx
  | ok a => exact hf a rfl hx

theorem post_mono {β : Type} {st : β → State} {G B G1 B1 : State → Prop}
    {r : Except Exit β} (h : Post st G B r) (hg : ∀ t, G t → G1 t) (hb : ∀ t, B t → B1 t) :
    Post st G1 B1 r := by
  cases r with
  | error e =>
    cases e with
    | fault f => trivial
    | ret v t => exact ⟨h.1, hb t h.2⟩
  | ok a => exact hg _ h

theorem post_liftFault {β : Type} {st : β → State} {G B : State → Prop} {r : Except Fault β}
    (h : ∀ b, r = .ok b → G (st b)) : Post st G B (liftFault r) := by
  cases r with
  | error e => trivial
  | ok b => exact h b rfl

theorem post_ok {β : Type} {st : β → State} {G B : State → Prop} {r : Except Exit β} {b : β}
    (h : Post st G B r) (e : r = .ok b) : G (st b) := by
  subst e
  exact h

theorem post_ret {β : Type} {st : β → State} {G B : State → Prop} {r : Except Exit β}
    {v : Bool} {t : State} (h : Post st G B r) (e : r = .error (Exit.ret v t)) :
    v = false ∧ B t := by
  subst e
  exact h

theorem buildFileIndexLoop_version : ∀ (fuel : Nat) (s s1 : State) (is is1 : IStream),
    buildFileIndexLoop fuel s is = .ok (s1, is1) → SameVersion s s1 := by
  intro fuel
  induction fuel with
  | zero => intro s s1 is is1 h; simp [buildFileIndexLoop] at h
  | succ fuel ih =>
    intro s s1 is is1 h
    rw [buildFileIndexLoop] at h
    by_cases h1 : (getline is MAX_LINE_SIZE).ok = false
    · rw [if_pos h1] at h
      injection h with h
      injection h with ha hb
      subst ha
      exact sameVersion_refl s
    · rw [if_neg h1] at h
      cases hl : (getline is MAX_LINE_SIZE).buffer.cstr with
      | error f => rw [hl] at h; cases h
      | ok line =>
        rw [hl] at h
        dsimp only at h
        split at h
        · have h2 := ih _ _ _ _ h
          exact ⟨h2.1, h2.2.1, h2.2.2.1, h2.2.2.2⟩
        · exact ih _ _ _ _ h

theorem buildFileIndex_version (s s1 : State) (is is1 : IStream)
    (h : buildFileIndex s is = .ok (s1, is1)) : SameVersion s s1 := by
  unfold buildFileIndex at h
  split at h
  · cases h
  · rename_i s2 is2 h2
    injection h with h
    injection h with ha hb
    subst ha
    exact buildFileIndexLoop_version _ _ _ _ _ h2

theorem sectionLoop_post (body : State → List Char → Except Exit State)
    (hbody : ∀ s line, Post id (SameVersion s) (SameVersion s) (body s line)) :
    ∀ (fuel : Nat) (s : State) (is : IStream),
      Post (fun p : State × IStream => p.1) (SameVersion s) (SameVersion s)
        (sectionLoop body fuel s is) := by
  intro fuel
  induction fuel with
  | zero => intro s is; trivial
  | succ fuel ih =>
    intro s is
    rw [sectionLoop]
    by_cases h1 : (getline is MAX_LINE_SIZE).ok = false
    · rw [if_pos h1]; exact sameVersion_refl s
    · rw [if_neg h1]
      by_cases h2 : (getline is MAX_LINE_SIZE).buffer.first = '['
      · rw [if_pos h2]; exact sameVersion_refl s
      · rw [if_neg h2]
        cases hl : (getline is MAX_LINE_SIZE).buffer.cstr with
        | error f => trivial
        | ok line =>
          dsimp only
          by_cases h3 : line.length = 0
          · rw [if_pos h3]; exact sameVersion_refl s
          · rw [if_neg h3]
            have hb := hbody s line
            cases hr : body s line with
            | error e =>
              rw [hr] at hb
              cases e with
              | fault f => trivial
              | ret v t => exact hb
            | ok s2 =>
              rw [hr] at hb
              dsimp only
              have hs : SameVersion s s2 := hb
              exact post_mono (ih s2 _) (fun t ht => sameVersion_trans hs ht)
                (fun t ht => sameVersion_trans hs ht)

theorem optionalSection_post (tag : String) (before : State → State)
    (body : State → List Char → Except Exit State)
    (hbefore : ∀ s, SameVersion s (before s))
    (hbody : ∀ s line, Post id (SameVersion s) (SameVersion s) (body s line))
    (p : State × IStream) :
    Post (fun q : State × IStream => q.1) (SameVersion p.1) (SameVersion p.1)
      (optionalSection tag before body p) := by
  unfold optionalSection
  split
  · exact post_mono (sectionLoop_post body hbody _ _ _)
      (fun t ht => sameVersion_trans (hbefore p.1) ht)
      (fun t ht => sameVersion_trans (hbefore p.1) ht)
  · exact sameVersion_refl p.1

theorem nextFile_post (single : Bool) (file : Option (List Char)) (p : State × IStream) :
    Post (fun q : State × IStream => q.1) (SameVersion p.1) (SameVersion p.1)
      (nextFile single file p) := by
  unfold nextFile
  split
  · exact sameVersion_refl p.1
  · dsimp only
    split
    · exact post_liftFault (fun b hb => buildFileIndex_version _ _ _ _ hb)
    · exact ⟨rfl, sameVersion_refl p.1⟩

theorem rfRecord_post (sc : Scanners) (s : State) (line : List Char) :
    Post id (SameVersion s) (SameVersion s) (rfRecord sc s line) := by
  unfold rfRecord
  split <;> dsimp only <;> split <;>
    first | exact ⟨rfl, rfl, rfl, rfl⟩ | exact ⟨rfl, sameVersion_refl s⟩

theorem gradRecord_post (sc : Scanners) (s : State) (line : List Char) :
    Post id (SameVersion s) (SameVersion s) (gradRecord sc s line) := by
  unfold gradRecord
  split <;> dsimp only <;> split <;>
    first | exact ⟨rfl, rfl, rfl, rfl⟩ | exact ⟨rfl, sameVersion_refl s⟩

theorem trapRecord_post (sc : Scanners) (s : State) (line : List Char) :
    Post id (SameVersion s) (SameVersion s) (trapRecord sc s line) := by
  unfold trapRecord
  split <;> dsimp only <;> split <;>
    first | exact ⟨rfl, rfl, rfl, rfl⟩ | exact ⟨rfl, sameVersion_refl s⟩

theorem adcRecord_post (sc : Scanners) (s : State) (line : List Char) :
    Post id (SameVersion s) (SameVersion s) (adcRecord sc s line) := by
  unfold adcRecord
  dsimp only
  split <;> first | exact ⟨rfl, rfl, rfl, rfl⟩ | exact ⟨rfl, sameVersion_refl s⟩

theorem delayRecord_post (sc : Scanners) (s : State) (line : List Char) :
    Post id (SameVersion s) (SameVersion s) (delayRecord sc s line) := by
  unfold delayRecord
  dsimp only
  split <;> first | exact ⟨rfl, rfl, rfl, rfl⟩ | exact ⟨rfl, sameVersion_refl s⟩

theorem triggerRecord_post (sc : Scanners) (s : State) (line : List Char) :
    Post id (SameVersion s) (SameVersion s) (triggerRecord sc s line) := by
  unfold triggerRecord
  dsimp only
  split <;> first | exact ⟨rfl, rfl, rfl, rfl⟩ | exact ⟨rfl, sameVersion_refl s⟩

theorem rotationRecord_post (sc : Scanners) (s : State) (line : List Char) :
    Post id (SameVersion s) (SameVersion s) (rotationRecord sc s line) := by
  unfold rotationRecord
  dsimp only
  split <;> first | exact ⟨rfl, rfl, rfl, rfl⟩ | exact ⟨rfl, sameVersion_refl s⟩

theorem definitionRecord_post (sc : Scanners) (s : State) (line : List Char) :
    Post id (SameVersion s) (SameVersion s) (definitionRecord sc s line) := by
  unfold definitionRecord
  exact ⟨rfl, rfl, rfl, rfl⟩

theorem blockRecord_post (sc : Scanners) (s : State) (line : List Char) :
    Post id (SameVersion s) (SameVersion s) (blockRecord sc s line) := by
  rw [blockRecord_eq]
  split <;> first | exact ⟨rfl, rfl, rfl, rfl⟩ | exact ⟨rfl, sameVersion_refl s⟩

theorem sampleLoop_post (sc : Scanners) (s : State) : ∀ (fuel : Nat) (samples : List ℚ)
    (is : IStream),
    Post (fun _ : List ℚ × IStream => s) (fun _ => True) (SameVersion s)
      (sampleLoop sc s fuel samples is) := by
  intro fuel
  induction fuel with
  | zero => intro samples is; trivial
  | succ fuel ih =>
    intro samples is
    rw [sampleLoop]
    by_cases h1 : (getline is MAX_LINE_SIZE).ok = false
    · rw [if_pos h1]; trivial
    · rw [if_neg h1]
      by_cases h2 : (getline is MAX_LINE_SIZE).buffer.first = 's'
      · rw [if_pos h2]; trivial
      · rw [if_neg h2]
        cases hl : (getline is MAX_LINE_SIZE).buffer.cstr with
        | error f => trivial
        | ok line =>
          dsimp only
          by_cases h3 : line.length = 0
          · rw [if_pos h3]; trivial
          · rw [if_neg h3]
            split
            · exact ih _ _
            · exact ⟨rfl, sameVersion_refl s⟩

theorem readShape_version (sc : Scanners) (s : State) (buffer : Buffer) (is : IStream) :
    Post (fun r : State × Buffer × IStream => r.1) (SameVersion s) (SameVersion s)
      (readShape sc s buffer is) := by
  unfold readShape
  refine post_bind (fun _ => s) (fun _ => True) (post_liftFault (fun _ _ => trivial))
    (fun line _ _ => ?_)
  split
  · exact ⟨rfl, sameVersion_refl s⟩
  · dsimp only
    refine post_bind (fun _ => s) (fun _ => True) (post_liftFault (fun _ _ => trivial))
      (fun line1 _ _ => ?_)
    split
    · exact ⟨rfl, sameVersion_refl s⟩
    · refine post_bind (fun _ => s) (fun _ => True) (sampleLoop_post sc s _ _ _)
        (fun a _ _ => ?_)
      obtain ⟨samples, is1⟩ := a
      refine post_bind (fun _ => s) (fun _ => True) (post_liftFault (fun _ _ => trivial))
        (fun b _ _ => ?_)
      obtain ⟨buffer1, is2⟩ := b
      exact ⟨rfl, rfl, rfl, rfl⟩

theorem shapeLoop_post (sc : Scanners) : ∀ (fuel : Nat) (s : State) (buffer : Buffer)
    (is : IStream),
    Post (fun p : State × IStream => p.1) (SameVersion s) (SameVersion s)
      (shapeLoop sc fuel s buffer is) := by
  intro fuel
  induction fuel with
  | zero => intro s buffer is; trivial
  | succ fuel ih =>
    intro s buffer is
    rw [shapeLoop]
    split
    · have hb := readShape_version sc s buffer is
      cases hr : readShape sc s buffer is with
      | error e =>
        rw [hr] at hb
        cases e with
        | fault f => trivial
        | ret v t => exact hb
      | ok r =>
        rw [hr] at hb
        obtain ⟨s1, buffer1, is2⟩ := r
        dsimp only
        have hs : SameVersion s s1 := hb
        exact post_mono (ih s1 buffer1 is2) (fun t ht => sameVersion_trans hs ht)
          (fun t ht => sameVersion_trans hs ht)
    · exact sameVersion_refl s

theorem readShapes_post (sc : Scanners) (s : State) (is : IStream) :
    Post (fun p : State × IStream => p.1) (SameVersion s) (SameVersion s)
      (readShapes sc s is) := by
  unfold readShapes
  split
  · refine post_bind (fun _ => s) (fun _ => True) (post_liftFault (fun _ _ => trivial))
      (fun a _ _ => ?_)
    obtain ⟨buffer, is1⟩ := a
    dsimp only
    refine post_bind (fun p : State × IStream => p.1) (SameVersion s)
      (post_mono (shapeLoop_post sc _ _ buffer is1) (fun t ht => ?_) (fun t ht => ?_))
      (fun b _ hb => ?_)
    · exact ⟨ht.1, ht.2.1, ht.2.2.1, ht.2.2.2⟩
    · exact ⟨ht.1, ht.2.1, ht.2.2.1, ht.2.2.2⟩
    · obtain ⟨s2, is2⟩ := b
      exact hb
  · exact ⟨rfl, sameVersion_refl s⟩

theorem loadBlocks_post (sc : Scanners) (p : State × IStream) :
    Post id (SameVersion p.1) (SameVersion p.1) (loadBlocks sc p) := by
  unfold loadBlocks
  refine post_bind (fun q : State × IStream => q.1) (SameVersion p.1)
    (post_mono (sectionLoop_post _ (blockRecord_post sc) _ _ _) (fun t ht => ?_)
      (fun t ht => ?_)) (fun q _ hq => ?_)
  · exact ⟨ht.1, ht.2.1, ht.2.2.1, ht.2.2.2⟩
  · exact ⟨ht.1, ht.2.1, ht.2.2.1, ht.2.2.2⟩
  · split
    · exact ⟨rfl, hq⟩
    · exact hq

theorem liftFault_error {α : Type} {r : Except Fault α} {e : Exit}
    (h : liftFault r = .error e) : ∃ f, e = Exit.fault f := by
  unfold liftFault at h
  split at h
  · cases h
  · rename_i f
    injection h with h
    exact ⟨f, h.symm⟩

theorem versionField_post (sc : Scanners) (s : State) (line : List Char) :
    Post id (fun _ => True) (fun _ => True) (versionField sc s line) := by
  unfold versionField
  split
  · split
    · trivial
    · exact ⟨rfl, trivial⟩
  · split
    · split
      · trivial
      · exact ⟨rfl, trivial⟩
    · split
      · split
        · trivial
        · exact ⟨rfl, trivial⟩
      · exact ⟨rfl, trivial⟩

theorem versionLoop_post (sc : Scanners) : ∀ (fuel : Nat) (s : State) (buffer : Buffer)
    (is : IStream),
    Post (fun p : State × IStream => p.1) (fun _ => True) (fun _ => True)
      (versionLoop sc fuel s buffer is) := by
  intro fuel
  induction fuel with
  | zero => intro s buffer is; trivial
  | succ fuel ih =>
    intro s buffer is
    rw [versionLoop]
    split
    · cases hl : liftFault buffer.cstr with
      | error e =>
        obtain ⟨f, hf⟩ := liftFault_error hl
        subst hf
        trivial
      | ok line =>
        dsimp only
        have hb := versionField_post sc s line
        cases hr : versionField sc s line with
        | error e =>
          rw [hr] at hb
          cases e with
          | fault f => trivial
          | ret v t => exact hb
        | ok s1 =>
          dsimp only
          cases hs : liftFault (skipComments is) with
          | error e =>
            obtain ⟨f, hf⟩ := liftFault_error hs
            subst hf
            trivial
          | ok r =>
            obtain ⟨buffer1, is1⟩ := r
            exact ih s1 buffer1 is1
    · trivial

theorem readVersion_post {W : LongBits} (sc : Scanners) (s : State) (is : IStream)
    (hs : s.version_combined = wrapLong W
      (s.version_major * 1000000 + s.version_minor * 1000 + s.version_revision)) :
    Post (fun p : State × IStream => p.1)
      (fun t => t.version_combined = wrapLong W
        (t.version_major * 1000000 + t.version_minor * 1000 + t.version_revision))
      (fun _ => True) (readVersion W sc s is) := by
  unfold readVersion
  split
  · refine post_bind (fun _ => s) (fun _ => True) (post_liftFault (fun _ _ => trivial))
      (fun a _ _ => ?_)
    obtain ⟨buffer, is1⟩ := a
    refine post_bind (fun p : State × IStream => p.1) (fun _ => True)
      (versionLoop_post sc _ _ buffer is1) (fun b _ _ => ?_)
    obtain ⟨s1, is2⟩ := b
    rfl
  · exact hs

theorem loadSections_post {W : LongBits} (P B : State → Prop)
    (hP : ∀ s t, SameVersion s t → P s → P t) (hB : ∀ s t, SameVersion s t → P s → B t)
    (sc : Scanners) (files : Files) (single : Bool) (s0 : State) (is : IStream)
    (hv : ∀ p, buildFileIndex s0 is = .ok p →
      Post (fun q : State × IStream => q.1) P B (readVersion W sc p.1 p.2)) :
    Post (fun q : State × IStream => q.1) P B (loadSections W sc files single s0 is) := by
  unfold loadSections
  refine post_bind (fun q : State × IStream => q.1) (fun _ => True)
    (post_liftFault (fun _ _ => trivial)) (fun p hp _ => ?_)
  refine post_bind (fun q : State × IStream => q.1) P (hv p (liftFault_ok hp))
    (fun p _ hPp => ?_)
  refine post_bind (fun q : State × IStream => q.1) P
    (post_mono (readShapes_post sc p.1 p.2) (fun t ht => hP _ _ ht hPp)
      (fun t ht => hB _ _ ht hPp)) (fun p _ hPp => ?_)
  refine post_bind (fun q : State × IStream => q.1) P
    (post_mono (nextFile_post _ _ p) (fun t ht => hP _ _ ht hPp)
      (fun t ht => hB _ _ ht hPp)) (fun p _ hPp => ?_)
  refine post_bind (fun q : State × IStream => q.1) P
    (post_mono (optionalSection_post _ _ _ (by intro s; exact ⟨rfl, rfl, rfl, rfl⟩) (rfRecord_post sc) p)
      (fun t ht => hP _ _ ht hPp) (fun t ht => hB _ _ ht hPp)) (fun p _ hPp => ?_)
  have hPp1 : P ({ p.1 with m_gradLibrary := Lib.empty }, p.2).1 :=
    hP p.1 _ ⟨rfl, rfl, rfl, rfl⟩ hPp
  refine post_bind (fun q : State × IStream => q.1) P
    (post_mono (optionalSection_post _ _ _ (by intro s; exact sameVersion_refl s) (gradRecord_post sc) _)
      (fun t ht => hP _ _ ht hPp1) (fun t ht => hB _ _ ht hPp1)) (fun p _ hPp => ?_)
  refine post_bind (fun q : State × IStream => q.1) P
    (post_mono (optionalSection_post _ _ _ (by intro s; exact sameVersion_refl s) (trapRecord_post sc) p)
      (fun t ht => hP _ _ ht hPp) (fun t ht => hB _ _ ht hPp)) (fun p _ hPp => ?_)
  refine post_bind (fun q : State × IStream => q.1) P
    (post_mono (optionalSection_post _ _ _ (by intro s; exact ⟨rfl, rfl, rfl, rfl⟩) (adcRecord_post sc) p)
      (fun t ht => hP _ _ ht hPp) (fun t ht => hB _ _ ht hPp)) (fun p _ hPp => ?_)
  refine post_bind (fun q : State × IStream => q.1) P
    (post_mono (optionalSection_post _ _ _ (by intro s; exact ⟨rfl, rfl, rfl, rfl⟩)
      (delayRecord_post sc) p)
      (fun t ht => hP _ _ ht hPp) (fun t ht => hB _ _ ht hPp)) (fun p _ hPp => ?_)
  have hPp2 : P ({ p.1 with m_controlLibrary := Lib.empty }, p.2).1 :=
    hP p.1 _ ⟨rfl, rfl, rfl, rfl⟩ hPp
  refine post_bind (fun q : State × IStream => q.1) P
    (post_mono (optionalSection_post _ _ _ (by intro s; exact sameVersion_refl s)
      (triggerRecord_post sc) _)
      (fun t ht => hP _ _ ht hPp2) (fun t ht => hB _ _ ht hPp2)) (fun p _ hPp => ?_)
  refine post_bind (fun q : State × IStream => q.1) P
    (post_mono (optionalSection_post _ _ _ (by intro s; exact sameVersion_refl s)
      (rotationRecord_post sc) p)
      (fun t ht => hP _ _ ht hPp) (fun t ht => hB _ _ ht hPp)) (fun p _ hPp => ?_)
  refine post_bind (fun q : State × IStream => q.1) P
    (post_mono (nextFile_post _ _ p) (fun t ht => hP _ _ ht hPp)
      (fun t ht => hB _ _ ht hPp)) (fun p _ hPp => ?_)
  refine post_bind (fun q : State × IStream => q.1) P
    (post_mono (optionalSection_post _ _ _ (by intro s; exact ⟨rfl, rfl, rfl, rfl⟩)
      (definitionRecord_post sc) p)
      (fun t ht => hP _ _ ht hPp) (fun t ht => hB _ _ ht hPp)) (fun p _ hPp => ?_)
  split
  · exact hPp
  · exact ⟨rfl, hB _ _ (sameVersion_refl _) hPp⟩

theorem loadPrefix_eq {W : LongBits} (sc : Scanners) (files : Files) (s0 : State) :
    loadPrefix W sc files s0 =
      if (firstFile files).good = false then .error (Exit.ret false s0)
      else loadSections W sc files (IStream.open files.single).good s0 (firstFile files) := by
  rfl

theorem load_post {W : LongBits} (P B : State → Prop)
    (hP : ∀ s t, SameVersion s t → P s → P t) (hB : ∀ s t, SameVersion s t → P s → B t)
    (sc : Scanners) (files : Files) (s0 : State) (hB0 : B s0)
    (hv : ∀ p, buildFileIndex s0 (firstFile files) = .ok p →
      Post (fun q : State × IStream => q.1) P B (readVersion W sc p.1 p.2))
    (v : Bool) (s : State) (h : load W sc files s0 = .ok (v, s)) :
    (v = true ∧ P s) ∨ (v = false ∧ B s) := by
  have h1 : Post (fun q : State × IStream => q.1) P B (loadPrefix W sc files s0) := by
    rw [loadPrefix_eq]
    split
    · exact ⟨rfl, hB0⟩
    · exact loadSections_post P B hP hB sc files _ s0 _ hv
  have h2 : Post id P B (loadPrefix W sc files s0 >>= loadBlocks sc) :=
    post_bind (fun q : State × IStream => q.1) P h1 (fun p _ hp =>
      post_mono (loadBlocks_post sc p) (fun t ht => hP _ _ ht hp) (fun t ht => hB _ _ ht hp))
  unfold load at h
  cases hr : loadPrefix W sc files s0 >>= loadBlocks sc with
  | ok t =>
    rw [hr] at h h2
    injection h with h
    injection h with ha hb
    subst ha hb
    exact Or.inl ⟨rfl, h2⟩
  | error e =>
    rw [hr] at h h2
    cases e with
    | fault f => cases h
    | ret w t =>
      injection h with h
      injection h with ha hb
      subst ha hb
      exact Or.inr h2

theorem versionField_bad (sc : Scanners) (s : State) (line : List Char)
    (h : BadVersionLine sc line) : versionField sc s line = .error (Exit.ret false s) := by
  unfold versionField
  have d1 : "major".toList ≠ "minor".toList := by decide
  rcases h with ⟨h1, h2, h3⟩ | ⟨h1, h2⟩ | ⟨h1, h2⟩ | ⟨h1, h2⟩
  · rw [if_neg h1, if_neg h2, if_neg h3]
  · rw [if_pos h1, h2]
  · rw [if_neg (by rw [h1]; exact fun e => d1 e.symm), if_pos h1, h2]
  · have e5 : line.take 5 = "revis".toList := by
      have := congrArg (List.take 5) h1
      rw [List.take_take] at this
      simpa using this
    rw [if_neg (by rw [e5]; decide), if_neg (by rw [e5]; decide), if_pos h1, h2]

theorem versionField_error (sc : Scanners) (s : State) (line : List Char) (e : Exit)
    (h : versionField sc s line = .error e) : e = Exit.ret false s := by
  unfold versionField at h
  split at h
  · split at h
    · cases h
    · injection h with h; exact h.symm
  · split at h
    · split at h
      · cases h
      · injection h with h; exact h.symm
    · split at h
      · split at h
        · cases h
        · injection h with h; exact h.symm
      · injection h with h; exact h.symm

theorem versionLoop_bad (sc : Scanners) : ∀ (n fuel : Nat) (s : State) (b0 : Buffer)
    (is0 : IStream) (pre : List (List Char)) (b : Buffer) (is : IStream) (line : List Char),
    versionLines n b0 is0 = some (pre, b, is) → is.good = true → b.first ≠ '[' →
    b.cstr = .ok line → BadVersionLine sc line → FueledAfterRead fuel is0 →
    ∃ t, versionLoop sc fuel s b0 is0 = .error (Exit.ret false t) := by
  intro n
  induction n with
  | zero =>
    intro fuel s b0 is0 pre b is line hl hg hf hc hbad hfuel
    simp only [versionLines] at hl
    injection hl with hl
    injection hl with h1 h2
    injection h2 with h2 h3
    subst h2 h3
    cases fuel with
    | zero => exact absurd hfuel.1 (by omega)
    | succ fuel =>
      refine ⟨s, ?_⟩
      rw [versionLoop]
      have hcond : (is0.good && decide (b0.first ≠ '[')) = true := by
        simp [hg, hf]
      rw [if_pos hcond, hc]
      simp only [liftFault]
      rw [versionField_bad sc s line hbad]
  | succ n ih =>
    intro fuel s b0 is0 pre b is line hl hg hf hc hbad hfuel
    rw [versionLines] at hl
    split at hl
    · rename_i hcond
      have hg0 : is0.good = true := by
        simp only [Bool.and_eq_true] at hcond
        exact hcond.1
      cases hc0 : b0.cstr with
      | error f => rw [hc0] at hl; cases hl
      | ok line0 =>
        rw [hc0] at hl
        dsimp only at hl
        cases hs : skipComments is0 with
        | error f => rw [hs] at hl; cases hl
        | ok r =>
          obtain ⟨b1, is1⟩ := r
          rw [hs] at hl
          dsimp only at hl
          cases hv : versionLines n b1 is1 with
          | none => rw [hv] at hl; cases hl
          | some q =>
            rw [hv] at hl
            simp only [Option.map_some'] at hl
            injection hl with hl
            injection hl with h1 h2
            obtain ⟨pre1, b2, is2⟩ := q
            injection h2 with h2 h3
            subst h2 h3
            cases fuel with
            | zero => exact absurd hfuel.1 (by omega)
            | succ fuel =>
              rw [versionLoop, if_pos hcond, hc0]
              simp only [liftFault]
              cases hvf : versionField sc s line0 with
              | error e =>
                exact ⟨s, by rw [versionField_error sc s line0 e hvf]⟩
              | ok s1 =>
                dsimp only
                rw [hs]
                dsimp only
                exact ih fuel s1 b1 is1 pre1 _ _ line hv hg hf hc hbad
                  (fueledAfterRead_skip fuel is0 b1 is1 hfuel hg0 hs)
    · cases hl

theorem load_bad_version_line {W : LongBits} (sc : Scanners) (files : Files) (s0 : State)
    (p : State × IStream) (b0 : Buffer) (is0 : IStream) (n : Nat) (pre : List (List Char))
    (b : Buffer) (is : IStream) (line : List Char)
    (hfile : (firstFile files).good = true)
    (hidx : buildFileIndex s0 (firstFile files) = .ok p)
    (hsec : hasSection p.1 "[VERSION]" = true)
    (hskip : skipComments (p.2.seekg (indexOf p.1 "[VERSION]")) = .ok (b0, is0))
    (hlines : versionLines n b0 is0 = some (pre, b, is))
    (hg : is.good = true) (hf : b.first ≠ '[') (hc : b.cstr = .ok line)
    (hbad : BadVersionLine sc line) :
    ∃ t, load W sc files s0 = .ok (false, t) := by
  obtain ⟨t, ht⟩ := versionLoop_bad sc n (p.2.data.length + 1) p.1 b0 is0 pre b is line
    hlines hg hf hc hbad (fueledAfterRead_init p.2 _ b0 is0 hskip)
  have hrv : readVersion W sc p.1 p.2 = .error (Exit.ret false t) := by
    unfold readVersion
    rw [if_pos hsec, hskip]
    simp only [liftFault, bind, Except.bind]
    rw [ht]
  have hls : loadSections W sc files (IStream.open files.single).good s0 (firstFile files)
      = .error (Exit.ret false t) := by
    unfold loadSections
    rw [hidx]
    simp only [liftFault, bind, Except.bind]
    rw [hrv]
  refine ⟨t, ?_⟩
  unfold load
  rw [loadPrefix_eq, if_neg (by rw [hfile]; decide), hls]
  rfl

theorem versionField_parsed (sc : Scanners) (s s1 : State) (line : List Char)
    (h : versionField sc s line = .ok s1) :
    (s1.version_major, s1.version_minor, s1.version_revision)
      = parsedField sc line (s.version_major, s.version_minor, s.version_revision) := by
  unfold versionField at h
  unfold parsedField
  by_cases h1 : line.take 5 = "major".toList
  · rw [if_pos h1] at h
    rw [if_pos h1]
    cases hv : scanVersionField sc line 5 with
    | none => rw [hv] at h; cases h
    | some v =>
      rw [hv] at h
      injection h with h
      subst h
      rfl
  · rw [if_neg h1] at h
    rw [if_neg h1]
    by_cases h2 : line.take 5 = "minor".toList
    · rw [if_pos h2] at h
      rw [if_pos h2]
      cases hv : scanVersionField sc line 5 with
      | none => rw [hv] at h; cases h
      | some v =>
        rw [hv] at h
        injection h with h
        subst h
        rfl
    · rw [if_neg h2] at h
      rw [if_neg h2]
      by_cases h3 : line.take 8 = "revision".toList
      · rw [if_pos h3] at h
        rw [if_pos h3]
        cases hv : scanVersionField sc line 8 with
        | none => rw [hv] at h; cases h
        | some v =>
          rw [hv] at h
          injection h with h
          subst h
          rfl
      · rw [if_neg h3] at h
        cases h

theorem versionLoop_lines (sc : Scanners) : ∀ (n fuel : Nat) (s : State) (b0 : Buffer)
    (is0 : IStream) (pre : List (List Char)) (b : Buffer) (is : IStream)
    (r : State × IStream),
    versionLines n b0 is0 = some (pre, b, is) →
    (is.good && decide (b.first ≠ '[')) = false →
    versionLoop sc fuel s b0 is0 = .ok r →
    (r.1.version_major, r.1.version_minor, r.1.version_revision)
      = parsedVersion sc pre (s.version_major, s.version_minor, s.version_revision) := by
  intro n
  induction n with
  | zero =>
    intro fuel s b0 is0 pre b is r hl hend h
    simp only [versionLines] at hl
    injection hl with hl
    injection hl with h1 h2
    injection h2 with h2 h3
    subst h1 h2 h3
    cases fuel with
    | zero => rw [versionLoop] at h; cases h
    | succ fuel =>
      rw [versionLoop, if_neg (by rw [hend]; decide)] at h
      injection h with h
      subst h
      rfl
  | succ n ih =>
    intro fuel s b0 is0 pre b is r hl hend h
    rw [versionLines] at hl
    split at hl
    · rename_i hcond
      cases hc0 : b0.cstr with
      | error f => rw [hc0] at hl; cases hl
      | ok line0 =>
        rw [hc0] at hl
        dsimp only at hl
        cases hs : skipComments is0 with
        | error f => rw [hs] at hl; cases hl
        | ok q0 =>
          obtain ⟨b1, is1⟩ := q0
          rw [hs] at hl
          dsimp only at hl
          cases hv : versionLines n b1 is1 with
          | none => rw [hv] at hl; cases hl
          | some q =>
            rw [hv] at hl
            simp only [Option.map_some'] at hl
            injection hl with hl
            injection hl with h1 h2
            obtain ⟨pre1, b2, is2⟩ := q
            injection h2 with h2 h3
            subst h1 h2 h3
            cases fuel with
            | zero => rw [versionLoop] at h; cases h
            | succ fuel =>
              rw [versionLoop, if_pos hcond, hc0] at h
              simp only [liftFault] at h
              cases hvf : versionField sc s line0 with
              | error e => rw [hvf] at h; cases h
              | ok s1 =>
                rw [hvf] at h
                dsimp only at h
                rw [hs] at h
                dsimp only at h
                rw [ih fuel s1 b1 is1 pre1 _ _ r hv hend h, parsedVersion,
                  versionField_parsed sc s s1 line0 hvf]
    · cases hl

theorem readVersion_parsed {W : LongBits} (sc : Scanners) (s : State) (is : IStream)
    (b0 : Buffer)
    (is0 : IStream) (n : Nat) (pre : List (List Char)) (b : Buffer) (is1 : IStream)
    (hsec : hasSection s "[VERSION]" = true)
    (hskip : skipComments (is.seekg (indexOf s "[VERSION]")) = .ok (b0, is0))
    (hlines : versionLines n b0 is0 = some (pre, b, is1))
    (hend : (is1.good && decide (b.first ≠ '[')) = false) :
    Post (fun p : State × IStream => p.1)
      (fun t => (t.version_major, t.version_minor, t.version_revision)
          = parsedVersion sc pre (s.version_major, s.version_minor, s.version_revision) ∧
        t.version_combined = wrapLong W
          (t.version_major * 1000000 + t.version_minor * 1000 + t.version_revision))
      (fun _ => True) (readVersion W sc s is) := by
  unfold readVersion
  rw [if_pos hsec, hskip]
  simp only [liftFault, bind, Except.bind]
  have hpost := versionLoop_post sc (is.data.length + 1) s b0 is0
  cases hr : versionLoop sc (is.data.length + 1) s b0 is0 with
  | error e =>
    rw [hr] at hpost
    cases e with
    | fault f => trivial
    | ret v t => exact hpost
  | ok r =>
    obtain ⟨s1, is2⟩ := r
    exact ⟨versionLoop_lines sc n _ s b0 is0 pre b is1 (s1, is2) hlines hend hr, rfl⟩

/-- Counterexample to C18 as stated, at four files loaded into a fresh instance; each entry
is the value `load` returns, then `version_major`, `version_minor`, `version_revision` and
`version_combined`.  The value `1.5` is not an integer and the key `major5` is none of the
three, yet `load` returns `true`, with the major version 1 and 5; the line `bogus 1` at the
end of the file, without terminator, is never looked at and `load` returns `true`; and after
the load that fails on the line `bogus` the section is present with `major 1` parsed, and
`version_combined` is `0`.  The four are given for a combined version of 32 and of 64
bits. -/
theorem load_version_counterexample :
    (versionResult (load long32 integerScanners
        (singleFile "[VERSION]\nmajor 1.5\n\n[SHAPES]\n\n[BLOCKS]\n\n") (State.init 0))
      = some (true, 1, 0, 0, 1000000) ∧
    versionResult (load long32 integerScanners
        (singleFile "[VERSION]\nmajor5\n\n[SHAPES]\n\n[BLOCKS]\n\n") (State.init 0))
      = some (true, 5, 0, 0, 5000000) ∧
    versionResult (load long32 integerScanners
        (singleFile "[SHAPES]\n\n[BLOCKS]\n\n[VERSION]\nbogus 1") (State.init 0))
      = some (true, 0, 0, 0, 0) ∧
    versionResult (load long32 integerScanners
        (singleFile "[VERSION]\nmajor 1\nbogus\n") (State.init 0))
      = some (false, 1, 0, 0, 0)) ∧
    (versionResult (load long64 integerScanners
        (singleFile "[VERSION]\nmajor 1.5\n\n[SHAPES]\n\n[BLOCKS]\n\n") (State.init 0))
      = some (true, 1, 0, 0, 1000000) ∧
    versionResult (load long64 integerScanners
        (singleFile "[VERSION]\nmajor5\n\n[SHAPES]\n\n[BLOCKS]\n\n") (State.init 0))
      = some (true, 5, 0, 0, 5000000) ∧
    versionResult (load long64 integerScanners
        (singleFile "[SHAPES]\n\n[BLOCKS]\n\n[VERSION]\nbogus 1") (State.init 0))
      = some (true, 0, 0, 0, 0) ∧
    versionResult (load long64 integerScanners
        (singleFile "[VERSION]\nmajor 1\nbogus\n") (State.init 0))
      = some (false, 1, 0, 0, 0)) :=
  ⟨⟨rfl, rfl, rfl, rfl⟩, ⟨rfl, rfl, rfl, rfl⟩⟩

/-- C18, amended. After a load on a freshly constructed instance that returns `true`,
`version_combined` equals `major*1000000 + minor*1000 + revision` of the version members,
reduced to the width it is formed and stored in, and so that value itself when it is one
that width holds; when the index of the first file has a `[VERSION]` tag, these members are
the fields parsed from the lines of that section, which the loop reads up to the first line
that begins with `[` or to the end of the stream: each line that begins with `major`,
`minor` or `revision` gives the field the integer scanned after the word, and the last line
of a key wins; when the index of the first file has no `[VERSION]` tag, `version_combined`
is `0` after every load; and a line the loop over the `[VERSION]` section reads that begins
with none of `major`, `minor`, `revision`, or after whose keyword no integer scans, makes
`load` return `false`. -/
theorem load_version (W : LongBits) (sc : Scanners) (files : Files) :
    (∀ s, load W sc files (State.init 0) = .ok (true, s) →
      s.version_combined = wrapLong W
        (s.version_major * 1000000 + s.version_minor * 1000 + s.version_revision) ∧
      (FitsLong W
          (s.version_major * 1000000 + s.version_minor * 1000 + s.version_revision) →
        s.version_combined
          = s.version_major * 1000000 + s.version_minor * 1000 + s.version_revision)) ∧
    (∀ (p : State × IStream) (b0 : Buffer) (is0 : IStream) (n : Nat)
      (pre : List (List Char)) (b : Buffer) (is : IStream) (s : State),
      buildFileIndex (State.init 0) (firstFile files) = .ok p →
      hasSection p.1 "[VERSION]" = true →
      skipComments (p.2.seekg (indexOf p.1 "[VERSION]")) = .ok (b0, is0) →
      versionLines n b0 is0 = some (pre, b, is) →
      (is.good && decide (b.first ≠ '[')) = false →
      load W sc files (State.init 0) = .ok (true, s) →
      (s.version_major, s.version_minor, s.version_revision)
        = parsedVersion sc pre (0, 0, 0) ∧
      s.version_combined = wrapLong W
        ((parsedVersion sc pre (0, 0, 0)).1 * 1000000
          + (parsedVersion sc pre (0, 0, 0)).2.1 * 1000
          + (parsedVersion sc pre (0, 0, 0)).2.2)) ∧
    (∀ p v s, buildFileIndex (State.init 0) (firstFile files) = .ok p →
      hasSection p.1 "[VERSION]" = false → load W sc files (State.init 0) = .ok (v, s) →
      s.version_combined = 0) ∧
    (∀ (p : State × IStream) (b0 : Buffer) (is0 : IStream) (n : Nat)
      (pre : List (List Char)) (b : Buffer) (is : IStream) (line : List Char),
      (firstFile files).good = true →
      buildFileIndex (State.init 0) (firstFile files) = .ok p →
      hasSection p.1 "[VERSION]" = true →
      skipComments (p.2.seekg (indexOf p.1 "[VERSION]")) = .ok (b0, is0) →
      versionLines n b0 is0 = some (pre, b, is) →
      is.good = true → b.first ≠ '[' → b.cstr = .ok line → BadVersionLine sc line →
      ∃ t, load W sc files (State.init 0) = .ok (false, t)) := by
  refine ⟨?_, ?_, ?_, ?_⟩
  · intro s h
    have hp := load_post
      (fun t => t.version_combined = wrapLong W
        (t.version_major * 1000000 + t.version_minor * 1000 + t.version_revision))
      (fun _ => True)
      (fun s t hst hs => by
        obtain ⟨h1, h2, h3, h4⟩ := hst
        show t.version_combined = _
        rw [h1, h2, h3, h4]
        exact hs)
      (fun _ _ _ _ => trivial) sc files (State.init 0) trivial
      (fun p hp => readVersion_post sc p.1 p.2 (by
        obtain ⟨h1, h2, h3, h4⟩ := buildFileIndex_version _ _ _ _ hp
        rw [h1, h2, h3, h4]
        exact (wrapLong_of_int W _ (by decide) (by decide)).symm))
      true s h
    rcases hp with ⟨_, h1⟩ | ⟨h1, _⟩
    · exact ⟨h1, fun hfit => by rw [h1, wrapLong_of_fits W _ hfit]⟩
    · cases h1
  · intro p b0 is0 n pre b is s hidx hsec hskip hlines hend h
    have hp := load_post
      (fun t => (t.version_major, t.version_minor, t.version_revision)
          = parsedVersion sc pre (0, 0, 0) ∧
        t.version_combined = wrapLong W
          (t.version_major * 1000000 + t.version_minor * 1000 + t.version_revision))
      (fun _ => True)
      (fun s t hst hs => by
        obtain ⟨h1, h2, h3, h4⟩ := hst
        show (t.version_major, t.version_minor, t.version_revision) = _ ∧
          t.version_combined = _
        rw [h1, h2, h3, h4]
        exact hs)
      (fun _ _ _ _ => trivial) sc files (State.init 0) trivial
      (fun q hq => by
        rw [hidx] at hq
        injection hq with hq
        subst hq
        obtain ⟨h1, h2, h3, _⟩ := buildFileIndex_version _ _ _ _ hidx
        have hr := readVersion_parsed (W := W) sc p.1 p.2 b0 is0 n pre b is hsec hskip
          hlines hend
        rw [h1, h2, h3] at hr
        exact hr)
      true s h
    rcases hp with ⟨_, h1, h2⟩ | ⟨h1, _⟩
    · refine ⟨h1, ?_⟩
      rw [h2, ← h1]
    · cases h1
  · intro p v s hidx habs h
    have hp := load_post (fun t => t.version_combined = 0) (fun t => t.version_combined = 0)
      (fun s t hst hs => by
        show t.version_combined = 0
        rw [hst.2.2.2]
        exact hs)
      (fun s t hst hs => by
        show t.version_combined = 0
        rw [hst.2.2.2]
        exact hs)
      sc files (State.init 0) rfl
      (fun q hq => by
        rw [hidx] at hq
        injection hq with hq
        subst hq
        unfold readVersion
        rw [if_neg (by rw [habs]; decide)]
        exact (buildFileIndex_version _ _ _ _ hidx).2.2.2)
      v s h
    rcases hp with ⟨_, h1⟩ | ⟨_, h1⟩ <;> exact h1
  · intro p b0 is0 n pre b is line hfile hidx hsec hskip hlines hg hf hc hbad
    exact load_bad_version_line sc files (State.init 0) p b0 is0 n pre b is line hfile hidx
      hsec hskip hlines hg hf hc hbad

/-- Witness of C18, amended: a file with the version 1.2.3, for which `load` returns `true`
with the combined version `1002003`, in a width of 32 bits; and a file whose `[VERSION]`
section holds the line `bogus` after the line `major 1`, for which `load` returns `false`. -/
theorem load_version_witness :
    (∃ s, load long32 integerScanners (singleFile
        "[VERSION]\nmajor 1\nminor 2\nrevision 3\n\n[SHAPES]\n\n[BLOCKS]\n\n") (State.init 0)
        = .ok (true, s) ∧
      (s.version_combined = wrapLong long32
          (s.version_major * 1000000 + s.version_minor * 1000 + s.version_revision) ∧
        (FitsLong long32
            (s.version_major * 1000000 + s.version_minor * 1000 + s.version_revision) →
          s.version_combined
            = s.version_major * 1000000 + s.version_minor * 1000 + s.version_revision)) ∧
      s.version_major = 1 ∧ s.version_minor = 2 ∧ s.version_revision = 3 ∧
      s.version_combined = 1002003 ∧
      ((s.version_major, s.version_minor, s.version_revision)
          = parsedVersion integerScanners
            ["major 1".toList, "minor 2".toList, "revision 3".toList] (0, 0, 0) ∧
        s.version_combined = wrapLong long32
          ((parsedVersion integerScanners
              ["major 1".toList, "minor 2".toList, "revision 3".toList] (0, 0, 0)).1 * 1000000
            + (parsedVersion integerScanners
              ["major 1".toList, "minor 2".toList, "revision 3".toList] (0, 0, 0)).2.1 * 1000
            + (parsedVersion integerScanners
              ["major 1".toList, "minor 2".toList, "revision 3".toList] (0, 0, 0)).2.2)) ∧
      parsedVersion integerScanners
        ["major 1".toList, "minor 2".toList, "revision 3".toList] (0, 0, 0) = (1, 2, 3)) ∧
    (∃ t, load long32 integerScanners (singleFile "[VERSION]\nmajor 1\nbogus\n")
      (State.init 0) = .ok (false, t)) :=
  ⟨⟨_, rfl, (load_version long32 integerScanners (singleFile
      "[VERSION]\nmajor 1\nminor 2\nrevision 3\n\n[SHAPES]\n\n[BLOCKS]\n\n")).1 _ rfl,
      rfl, rfl, rfl, rfl,
      (load_version long32 integerScanners (singleFile
        "[VERSION]\nmajor 1\nminor 2\nrevision 3\n\n[SHAPES]\n\n[BLOCKS]\n\n")).2.1
        _ _ _ 3 ["major 1".toList, "minor 2".toList, "revision 3".toList] _ _ _
        rfl rfl rfl rfl rfl rfl, rfl⟩,
    (load_version long32 integerScanners (singleFile "[VERSION]\nmajor 1\nbogus\n")).2.2.2
      _ _ _ 1 ["major 1".toList] _ _ "bogus".toList rfl rfl rfl rfl rfl rfl (by decide) rfl
      (Or.inl ⟨by decide, by decide, by decide⟩)⟩

/-! ## The members after a block is materialised -/

theorem onlyShapesAdded_refl (s : State) : OnlyShapesAdded s s :=
  ⟨rfl, fun _ _ => rfl⟩

theorem kept_index (s t : State) (P : Prop) (k : Int) (h1 : OnlyShapesAdded s t)
    (h2 : P → t = s) (hk : P → Resolves s.m_shapeLibrary k) :
    OnlyShapesAdded s
        { t with m_shapeLibrary := (t.m_shapeLibrary.index k CompressedShape.zero).2 } ∧
      (P → { t with m_shapeLibrary := (t.m_shapeLibrary.index k CompressedShape.zero).2 }
        = s) := by
  obtain ⟨a1, a2⟩ := h1
  refine ⟨⟨?_, ?_⟩, ?_⟩
  · cases s
    cases t
    simp only [State.mk.injEq] at a1 ⊢
    obtain ⟨b1, b2, b3, b4, b5, b6, b7, b8, b9, b10, b11, b12, b13⟩ := a1
    exact ⟨b1, b2, b3, b4, b5, trivial, b7, b8, b9, b10, b11, b12, b13⟩
  · intro id hid
    show (t.m_shapeLibrary.index k CompressedShape.zero).2 id = s.m_shapeLibrary id
    unfold Lib.index
    cases hk1 : t.m_shapeLibrary k with
    | some v => exact a2 id hid
    | none =>
      show Lib.assign t.m_shapeLibrary k CompressedShape.zero id = s.m_shapeLibrary id
      unfold Lib.assign
      by_cases e : id = k
      · subst e
        have h3 := a2 id hid
        unfold Resolves at hid
        rw [← h3, hk1] at hid
        cases hid
      · rw [if_neg e]
        exact a2 id hid
  · intro hp
    have e := h2 hp
    subst e
    rw [index_resolved _ _ _ (hk hp)]

theorem gradDuration_kept (L : LongBits) (s : State) (block : SeqBlock) (p : Int × State)
    (i : Nat) (hi : i < 3) (h1 : OnlyShapesAdded s p.2)
    (h2 : ShapesResolve s block → p.2 = s) :
    OnlyShapesAdded s (gradDuration L block p i).2 ∧
      (ShapesResolve s block → (gradDuration L block p i).2 = s) := by
  unfold gradDuration
  dsimp only
  by_cases ha : block.isArbitraryGradient i = true
  · rw [if_pos ha]
    exact kept_index s p.2 _ _ h1 h2 (fun hp => hp.2 i hi ha)
  · rw [if_neg ha]
    by_cases ht : block.isTrapGradient i = true
    · rw [if_pos ht]; exact ⟨h1, h2⟩
    · rw [if_neg ht]; exact ⟨h1, h2⟩

theorem eventsDuration_kept (L : LongBits) (s : State) (block : SeqBlock) :
    OnlyShapesAdded s (eventsDuration L s block).2 ∧
      (ShapesResolve s block → (eventsDuration L s block).2 = s) := by
  have hrf : ∀ d : Int, OnlyShapesAdded s (if block.isRF = true then
        (MAX d (s.m_shapeLibrary.index block.rf.magShape CompressedShape.zero).1.numUncompressedSamples,
          { s with m_shapeLibrary :=
            (s.m_shapeLibrary.index block.rf.magShape CompressedShape.zero).2 })
        else (d, s)).2 ∧
      (ShapesResolve s block → (if block.isRF = true then
        (MAX d (s.m_shapeLibrary.index block.rf.magShape CompressedShape.zero).1.numUncompressedSamples,
          { s with m_shapeLibrary :=
            (s.m_shapeLibrary.index block.rf.magShape CompressedShape.zero).2 })
        else (d, s)).2 = s) := by
    intro d
    by_cases h : block.isRF = true
    · rw [if_pos h]
      exact kept_index s s _ _ (onlyShapesAdded_refl s) (fun _ => rfl) (fun hp => (hp.1 h).1)
    · rw [if_neg h]
      exact ⟨onlyShapesAdded_refl s, fun _ => rfl⟩
  unfold eventsDuration
  simp only [List.foldl_cons, List.foldl_nil]
  obtain ⟨a1, a2⟩ := hrf 0
  generalize (if block.isRF = true then
        (MAX 0 (s.m_shapeLibrary.index block.rf.magShape CompressedShape.zero).1.numUncompressedSamples,
          { s with m_shapeLibrary :=
            (s.m_shapeLibrary.index block.rf.magShape CompressedShape.zero).2 })
        else (0, s)) = p0 at a1 a2 ⊢
  obtain ⟨b1, b2⟩ := gradDuration_kept L s block p0 0 (by decide) a1 a2
  generalize gradDuration L block p0 0 = p1 at b1 b2 ⊢
  obtain ⟨c1, c2⟩ := gradDuration_kept L s block p1 1 (by decide) b1 b2
  generalize gradDuration L block p1 1 = p2 at c1 c2 ⊢
  obtain ⟨d1, d2⟩ := gradDuration_kept L s block p2 2 (by decide) c1 c2
  generalize gradDuration L block p2 2 = p3 at d1 d2 ⊢
  by_cases h1 : block.isADC = true <;> by_cases h2 : block.isTrigger = true <;>
    simp only [h1, h2, if_true, if_false] <;> exact ⟨d1, d2⟩

theorem addedShapes_index (s t : State) (N : Int → Prop) (k : Int)
    (h : AddedShapes s t N) :
    AddedShapes s
      { t with m_shapeLibrary := (t.m_shapeLibrary.index k CompressedShape.zero).2 }
      (fun id => N id ∨ id = k) := by
  intro id hid
  obtain ⟨h1, h2⟩ := h id hid
  show (N id ∨ id = k →
      (t.m_shapeLibrary.index k CompressedShape.zero).2 id = some CompressedShape.zero) ∧
    (¬ (N id ∨ id = k) → (t.m_shapeLibrary.index k CompressedShape.zero).2 id = none)
  unfold Lib.index
  cases hk : t.m_shapeLibrary k with
  | some v =>
    dsimp only
    constructor
    · intro hn
      rcases hn with hn | hn
      · exact h1 hn
      · subst hn
        by_cases hN : N id
        · exact h1 hN
        · rw [h2 hN] at hk
          cases hk
    · intro hn
      exact h2 (fun hN => hn (Or.inl hN))
  | none =>
    dsimp only
    unfold Lib.assign
    constructor
    · intro hn
      by_cases e : id = k
      · rw [if_pos e]
      · rw [if_neg e]
        rcases hn with hn | hn
        · exact h1 hn
        · exact absurd hn e
    · intro hn
      have e : ¬ id = k := fun e => hn (Or.inr e)
      rw [if_neg e]
      exact h2 (fun hN => hn (Or.inl hN))

theorem addedShapes_step (s t : State) (N : Int → Prop) (c : Prop) [Decidable c] (k : Int)
    (h : AddedShapes s t N) :
    AddedShapes s
      (if c then
        { t with m_shapeLibrary := (t.m_shapeLibrary.index k CompressedShape.zero).2 }
        else t)
      (fun id => N id ∨ (c ∧ id = k)) := by
  by_cases hc : c
  · rw [if_pos hc]
    intro id hid
    obtain ⟨h1, h2⟩ := addedShapes_index s t N k h id hid
    exact ⟨fun hn => h1 (hn.imp (fun x => x) (fun x => x.2)),
      fun hn => h2 (fun hx => hn (hx.imp (fun x => x) (fun x => ⟨hc, x⟩)))⟩
  · rw [if_neg hc]
    intro id hid
    obtain ⟨h1, h2⟩ := h id hid
    refine ⟨fun hn => ?_, fun hn => h2 (fun hN => hn (Or.inl hN))⟩
    rcases hn with hn | hn
    · exact h1 hn
    · exact absurd hn.1 hc

theorem addedShapes_congr (s t : State) (N M : Int → Prop) (h : AddedShapes s t N)
    (hiff : ∀ id, N id ↔ M id) : AddedShapes s t M := by
  intro id hid
  obtain ⟨h1, h2⟩ := h id hid
  exact ⟨fun hm => h1 ((hiff id).mpr hm), fun hm => h2 (fun hn => hm ((hiff id).mp hn))⟩

theorem exists_channel (P : Nat → Prop) : (∃ i, i < 3 ∧ P i) ↔ (P 0 ∨ P 1 ∨ P 2) := by
  constructor
  · rintro ⟨i, hi, hp⟩
    have hcase : i = 0 ∨ i = 1 ∨ i = 2 := by omega
    rcases hcase with e | e | e <;> subst e
    · exact Or.inl hp
    · exact Or.inr (Or.inl hp)
    · exact Or.inr (Or.inr hp)
  · rintro (h | h | h)
    · exact ⟨0, by decide, h⟩
    · exact ⟨1, by decide, h⟩
    · exact ⟨2, by decide, h⟩

theorem gradDuration_added (L : LongBits) (s : State) (block : SeqBlock) (p : Int × State)
    (i : Nat) (N : Int → Prop) (h : AddedShapes s p.2 N) :
    AddedShapes s (gradDuration L block p i).2
      (fun id => N id ∨ (block.isArbitraryGradient i = true ∧ id = (block.grad.get i).shape))
      := by
  have hs := addedShapes_step s p.2 N (block.isArbitraryGradient i = true)
    (block.grad.get i).shape h
  unfold gradDuration
  dsimp only
  by_cases ha : block.isArbitraryGradient i = true
  · rw [if_pos ha] at hs ⊢
    exact hs
  · rw [if_neg ha] at hs ⊢
    by_cases ht : block.isTrapGradient i = true
    · rw [if_pos ht]; exact hs
    · rw [if_neg ht]; exact hs

theorem eventsDuration_added (L : LongBits) (s : State) (block : SeqBlock) :
    AddedShapes s (eventsDuration L s block).2 (TimedShape block) := by
  have hrf : ∀ d : Int, AddedShapes s (if block.isRF = true then
        (MAX d (s.m_shapeLibrary.index block.rf.magShape CompressedShape.zero).1.numUncompressedSamples,
          { s with m_shapeLibrary :=
            (s.m_shapeLibrary.index block.rf.magShape CompressedShape.zero).2 })
        else (d, s)).2
      (fun id => False ∨ (block.isRF = true ∧ id = block.rf.magShape)) := by
    intro d
    have hs := addedShapes_step s s (fun _ => False) (block.isRF = true) block.rf.magShape
      (fun id hid => ⟨fun hf => hf.elim, fun _ => hid⟩)
    by_cases h : block.isRF = true
    · rw [if_pos h] at hs ⊢
      exact hs
    · rw [if_neg h] at hs ⊢
      exact hs
  unfold eventsDuration
  simp only [List.foldl_cons, List.foldl_nil]
  have a1 := hrf 0
  generalize (if block.isRF = true then
        (MAX 0 (s.m_shapeLibrary.index block.rf.magShape CompressedShape.zero).1.numUncompressedSamples,
          { s with m_shapeLibrary :=
            (s.m_shapeLibrary.index block.rf.magShape CompressedShape.zero).2 })
        else (0, s)) = p0 at a1 ⊢
  have b1 := gradDuration_added L s block p0 0 _ a1
  generalize gradDuration L block p0 0 = p1 at b1 ⊢
  have c1 := gradDuration_added L s block p1 1 _ b1
  generalize gradDuration L block p1 1 = p2 at c1 ⊢
  have d1 := gradDuration_added L s block p2 2 _ c1
  generalize gradDuration L block p2 2 = p3 at d1 ⊢
  have d2 : AddedShapes s p3.2 (TimedShape block) := by
    refine addedShapes_congr s p3.2 _ _ d1 (fun id => ?_)
    unfold TimedShape
    rw [exists_channel (fun i => block.isArbitraryGradient i = true
      ∧ id = (block.grad.get i).shape)]
    tauto
  by_cases h1 : block.isADC = true <;> by_cases h2 : block.isTrigger = true <;>
    simp only [h1, h2, if_true, if_false] <;> exact d2

theorem GetBlock_kept (L : LongBits) (s : State) (fresh : SeqBlock) (index : Int)
    (e : EventIDs) (he : readAt s.m_blocks index = .ok e)
    (hr : checkBlockReferences s e = true) :
    ∃ b t, GetBlock L s fresh index = .ok (b, t) ∧ OnlyShapesAdded s t ∧
      (ShapesResolve s b → t = s) ∧ AddedShapes s t (TimedShape b) := by
  obtain ⟨d, hd⟩ := GetBlock_eq L s fresh index e he
  have hs := fetchEvents_resolved s fresh index e ((checkBlockReferences_spec s e).mp hr)
  rw [hs] at hd
  exact ⟨_, _, hd, (eventsDuration_kept L s _).1, fun h => (eventsDuration_kept L s _).2 h,
    eventsDuration_added L s _⟩

theorem decodeRF_kept (add : ℚ → ℚ → ℚ) (s : State) (b : SeqBlock)
    (p q : SeqBlock × State × List ℚ) (h : decodeRF add p = .ok q)
    (he : p.1.events = b.events ∧ p.1.rf = b.rf ∧ p.1.grad = b.grad)
    (h1 : OnlyShapesAdded s p.2.1) (h2 : ShapesResolve s b → p.2.1 = s) :
    (q.1.events = b.events ∧ q.1.rf = b.rf ∧ q.1.grad = b.grad) ∧
      OnlyShapesAdded s q.2.1 ∧ (ShapesResolve s b → q.2.1 = s) := by
  unfold decodeRF at h
  by_cases hrf : p.1.isRF = true
  · rw [if_pos hrf] at h
    have hb : b.isRF = true := by
      unfold SeqBlock.isRF at hrf ⊢
      rw [← he.1]
      exact hrf
    simp only [bind, Except.bind, pure, Except.pure] at h
    cases hw1 : decodeShape add
        (p.2.1.m_shapeLibrary.index p.1.rf.magShape CompressedShape.zero).1 p.2.2 with
    | error f => rw [hw1] at h; cases h
    | ok w1 =>
      rw [hw1] at h
      dsimp only at h
      obtain ⟨k1, k2⟩ := kept_index s p.2.1 (ShapesResolve s b) p.1.rf.magShape h1 h2
        (fun hp => by rw [he.2.1]; exact (hp.1 hb).1)
      obtain ⟨m1, m2⟩ := kept_index s _ (ShapesResolve s b) p.1.rf.phaseShape k1 k2
        (fun hp => by rw [he.2.1]; exact (hp.1 hb).2)
      split at h
      · cases h
      · injection h with h
        subst h
        exact ⟨he, m1, m2⟩
  · rw [if_neg hrf] at h
    injection h with h
    subst h
    exact ⟨he, h1, h2⟩

theorem decodeGrad_kept (add : ℚ → ℚ → ℚ) (s : State) (b : SeqBlock)
    (p q : SeqBlock × State × List ℚ) (i : Nat) (hi : i < 3) (h : decodeGrad add p i = .ok q)
    (he : p.1.events = b.events ∧ p.1.rf = b.rf ∧ p.1.grad = b.grad)
    (h1 : OnlyShapesAdded s p.2.1) (h2 : ShapesResolve s b → p.2.1 = s) :
    (q.1.events = b.events ∧ q.1.rf = b.rf ∧ q.1.grad = b.grad) ∧
      OnlyShapesAdded s q.2.1 ∧ (ShapesResolve s b → q.2.1 = s) := by
  unfold decodeGrad at h
  by_cases ha : p.1.isArbitraryGradient i = true
  · rw [if_pos ha] at h
    have hb : b.isArbitraryGradient i = true := by
      unfold SeqBlock.isArbitraryGradient at ha ⊢
      rw [← he.1, ← he.2.2]
      exact ha
    simp only [bind, Except.bind, pure, Except.pure] at h
    obtain ⟨k1, k2⟩ := kept_index s p.2.1 (ShapesResolve s b) (p.1.grad.get i).shape h1 h2
      (fun hp => by rw [he.2.2]; exact hp.2 i hi hb)
    split at h
    · cases h
    · injection h with h
      subst h
      exact ⟨he, k1, k2⟩
  · rw [if_neg ha] at h
    injection h with h
    subst h
    exact ⟨he, h1, h2⟩

theorem decodeBlock_steps (add : ℚ → ℚ → ℚ) (U : ℚ) (s : State) (block b1 : SeqBlock)
    (t1 : State) (h : decodeBlock add U s block = .ok (b1, t1)) :
    ∃ p0 p1 p2 p3 g, decodeRF add (block, s, []) = .ok p0 ∧ decodeGrad add p0 0 = .ok p1 ∧
      decodeGrad add p1 1 = .ok p2 ∧ decodeGrad add p2 2 = .ok p3 ∧
      checkGradient p3.1 = .ok g ∧ checkRF U g = .ok b1 ∧ t1 = p3.2.1 := by
  unfold decodeBlock at h
  simp only [bind, Except.bind, List.foldlM, pure, Except.pure] at h
  cases hr : decodeRF add (block, s, []) with
  | error f => rw [hr] at h; cases h
  | ok p0 =>
    rw [hr] at h
    dsimp only at h
    cases hg0 : decodeGrad add p0 0 with
    | error f => rw [hg0] at h; cases h
    | ok p1 =>
      rw [hg0] at h
      dsimp only at h
      cases hg1 : decodeGrad add p1 1 with
      | error f => rw [hg1] at h; cases h
      | ok p2 =>
        rw [hg1] at h
        dsimp only at h
        cases hg2 : decodeGrad add p2 2 with
        | error f => rw [hg2] at h; cases h
        | ok p3 =>
          rw [hg2] at h
          dsimp only at h
          cases hc : checkGradient p3.1 with
          | error f => rw [hc] at h; cases h
          | ok g =>
            rw [hc] at h
            dsimp only at h
            cases hq : checkRF U g with
            | error f => rw [hq] at h; cases h
            | ok g1 =>
              rw [hq] at h
              dsimp only at h
              injection h with h
              injection h with ha hb
              subst ha hb
              exact ⟨p0, p1, p2, p3, g, rfl, hg0, hg1, hg2, hc, hq, rfl⟩

theorem decodeBlock_kept (add : ℚ → ℚ → ℚ) (U : ℚ) (s t : State) (b b1 : SeqBlock)
    (t1 : State) (h : decodeBlock add U t b = .ok (b1, t1)) (h1 : OnlyShapesAdded s t)
    (h2 : ShapesResolve s b → t = s) :
    OnlyShapesAdded s t1 ∧ (ShapesResolve s b → t1 = s) := by
  obtain ⟨p0, p1, p2, p3, g, hr, hg0, hg1, hg2, _, _, ht⟩ :=
    decodeBlock_steps add U t b b1 t1 h
  obtain ⟨a0, a1, a2⟩ := decodeRF_kept add s b _ p0 hr ⟨rfl, rfl, rfl⟩ h1 h2
  obtain ⟨b0, b1, b2⟩ := decodeGrad_kept add s b p0 p1 0 (by decide) hg0 a0 a1 a2
  obtain ⟨c0, c1, c2⟩ := decodeGrad_kept add s b p1 p2 1 (by decide) hg1 b0 b1 b2
  obtain ⟨_, d1, d2⟩ := decodeGrad_kept add s b p2 p3 2 (by decide) hg2 c0 c1 c2
  rw [ht]
  exact ⟨d1, d2⟩

theorem decodeRF_added (add : ℚ → ℚ → ℚ) (s : State) (b : SeqBlock)
    (p q : SeqBlock × State × List ℚ) (N : Int → Prop) (h : decodeRF add p = .ok q)
    (he : p.1.events = b.events ∧ p.1.rf = b.rf ∧ p.1.grad = b.grad)
    (hN : AddedShapes s p.2.1 N) :
    AddedShapes s q.2.1
      (fun id => N id ∨ (b.isRF = true ∧ (id = b.rf.magShape ∨ id = b.rf.phaseShape))) := by
  have hiso : p.1.isRF = b.isRF := by
    unfold SeqBlock.isRF
    rw [he.1]
  unfold decodeRF at h
  by_cases hrf : p.1.isRF = true
  · rw [if_pos hrf] at h
    simp only [bind, Except.bind, pure, Except.pure] at h
    have k1 := addedShapes_index s p.2.1 N p.1.rf.magShape hN
    have k2 := addedShapes_index s _ _ p.1.rf.phaseShape k1
    split at h
    · cases h
    · split at h
      · cases h
      · injection h with h
        subst h
        refine addedShapes_congr s _ _ _ k2 (fun id => ?_)
        rw [he.2.1, ← hiso, hrf]
        tauto
  · rw [if_neg hrf] at h
    injection h with h
    subst h
    refine addedShapes_congr s _ _ _ hN (fun id => ?_)
    rw [← hiso]
    tauto

theorem decodeGrad_added (add : ℚ → ℚ → ℚ) (s : State) (b : SeqBlock)
    (p q : SeqBlock × State × List ℚ) (i : Nat) (N : Int → Prop)
    (h : decodeGrad add p i = .ok q)
    (he : p.1.events = b.events ∧ p.1.rf = b.rf ∧ p.1.grad = b.grad)
    (hN : AddedShapes s p.2.1 N) :
    AddedShapes s q.2.1
      (fun id => N id ∨ (b.isArbitraryGradient i = true ∧ id = (b.grad.get i).shape)) := by
  have hiso : p.1.isArbitraryGradient i = b.isArbitraryGradient i := by
    unfold SeqBlock.isArbitraryGradient
    rw [he.1, he.2.2]
  unfold decodeGrad at h
  by_cases ha : p.1.isArbitraryGradient i = true
  · rw [if_pos ha] at h
    simp only [bind, Except.bind, pure, Except.pure] at h
    have k1 := addedShapes_index s p.2.1 N (p.1.grad.get i).shape hN
    split at h
    · cases h
    · injection h with h
      subst h
      refine addedShapes_congr s _ _ _ k1 (fun id => ?_)
      rw [he.2.2, ← hiso, ha]
      tauto
  · rw [if_neg ha] at h
    injection h with h
    subst h
    refine addedShapes_congr s _ _ _ hN (fun id => ?_)
    rw [← hiso]
    tauto

theorem decodeRF_events (add : ℚ → ℚ → ℚ) (p q : SeqBlock × State × List ℚ)
    (h : decodeRF add p = .ok q) :
    q.1.events = p.1.events ∧ q.1.rf = p.1.rf ∧ q.1.grad = p.1.grad := by
  unfold decodeRF at h
  by_cases hrf : p.1.isRF = true
  · rw [if_pos hrf] at h
    simp only [bind, Except.bind, pure, Except.pure] at h
    split at h
    · cases h
    · split at h
      · cases h
      · injection h with h
        subst h
        exact ⟨rfl, rfl, rfl⟩
  · rw [if_neg hrf] at h
    injection h with h
    subst h
    exact ⟨rfl, rfl, rfl⟩

theorem decodeGrad_events (add : ℚ → ℚ → ℚ) (p q : SeqBlock × State × List ℚ) (i : Nat)
    (h : decodeGrad add p i = .ok q) :
    q.1.events = p.1.events ∧ q.1.rf = p.1.rf ∧ q.1.grad = p.1.grad := by
  unfold decodeGrad at h
  by_cases ha : p.1.isArbitraryGradient i = true
  · rw [if_pos ha] at h
    simp only [bind, Except.bind, pure, Except.pure] at h
    split at h
    · cases h
    · injection h with h
      subst h
      exact ⟨rfl, rfl, rfl⟩
  · rw [if_neg ha] at h
    injection h with h
    subst h
    exact ⟨rfl, rfl, rfl⟩

theorem decodeBlock_added (add : ℚ → ℚ → ℚ) (U : ℚ) (s t : State) (b b1 : SeqBlock)
    (t1 : State) (N : Int → Prop) (h : decodeBlock add U t b = .ok (b1, t1))
    (hN : AddedShapes s t N) :
    AddedShapes s t1 (fun id => N id ∨ NamedShape b id) := by
  obtain ⟨p0, p1, p2, p3, g, hr, hg0, hg1, hg2, _, _, ht⟩ :=
    decodeBlock_steps add U t b b1 t1 h
  have a0 : p0.1.events = b.events ∧ p0.1.rf = b.rf ∧ p0.1.grad = b.grad :=
    decodeRF_events add _ p0 hr
  have b0 : p1.1.events = b.events ∧ p1.1.rf = b.rf ∧ p1.1.grad = b.grad := by
    obtain ⟨x1, x2, x3⟩ := decodeGrad_events add p0 p1 0 hg0
    exact ⟨x1.trans a0.1, x2.trans a0.2.1, x3.trans a0.2.2⟩
  have c0 : p2.1.events = b.events ∧ p2.1.rf = b.rf ∧ p2.1.grad = b.grad := by
    obtain ⟨x1, x2, x3⟩ := decodeGrad_events add p1 p2 1 hg1
    exact ⟨x1.trans b0.1, x2.trans b0.2.1, x3.trans b0.2.2⟩
  have n0 := decodeRF_added add s b _ p0 N hr ⟨rfl, rfl, rfl⟩ hN
  have n1 := decodeGrad_added add s b p0 p1 0 _ hg0 a0 n0
  have n2 := decodeGrad_added add s b p1 p2 1 _ hg1 b0 n1
  have n3 := decodeGrad_added add s b p2 p3 2 _ hg2 c0 n2
  rw [ht]
  refine addedShapes_congr s _ _ _ n3 (fun id => ?_)
  unfold NamedShape
  rw [exists_channel (fun i => b.isArbitraryGradient i = true ∧ id = (b.grad.get i).shape)]
  tauto

theorem sectionLoop_invariant (I : State → Prop)
    (body : State → List Char → Except Exit State)
    (hbody : ∀ s line t, I s → body s line = .ok t → I t) :
    ∀ (fuel : Nat) (s : State) (is : IStream) (q : State × IStream), I s →
      sectionLoop body fuel s is = .ok q → I q.1 := by
  intro fuel
  induction fuel with
  | zero => intro s is q _ h; rw [sectionLoop] at h; cases h
  | succ fuel ih =>
    intro s is q hs h
    have hnil : ∀ st : IStream,
        (.ok (s, st) : Except Exit (State × IStream)) = .ok q → I q.1 := by
      intro st e
      injection e with e
      subst e
      exact hs
    rw [sectionLoop] at h
    by_cases h1 : (getline is MAX_LINE_SIZE).ok = false
    · rw [if_pos h1] at h
      exact hnil _ h
    · rw [if_neg h1] at h
      by_cases h2 : (getline is MAX_LINE_SIZE).buffer.first = '['
      · rw [if_pos h2] at h
        exact hnil _ h
      · rw [if_neg h2] at h
        cases hl : (getline is MAX_LINE_SIZE).buffer.cstr with
        | error f => rw [hl] at h; cases h
        | ok line =>
          rw [hl] at h
          dsimp only at h
          by_cases h3 : line.length = 0
          · rw [if_pos h3] at h
            exact hnil _ h
          · rw [if_neg h3] at h
            cases hb : body s line with
            | error e => rw [hb] at h; cases h
            | ok s2 =>
              rw [hb] at h
              exact ih s2 _ q (hbody s line s2 hs hb) h

theorem blockRecord_resolve (sc : Scanners) (s : State) (line : List Char) (t : State)
    (hs : BlocksResolve s) (h : blockRecord sc s line = .ok t) : BlocksResolve t := by
  rw [blockRecord_eq] at h
  by_cases hc : rowAccepted sc s line = true
  · rw [if_pos hc] at h
    injection h with h
    subst h
    have hc2 : checkBlockReferences s (rowEvents sc line) = true := by
      unfold rowAccepted at hc
      rw [Bool.and_eq_true] at hc
      exact hc.2
    intro e he
    have he1 : e ∈ s.m_blocks ++ [rowEvents sc line] := he
    rw [List.mem_append] at he1
    rcases he1 with he1 | he1
    · exact hs e he1
    · rw [List.mem_singleton] at he1
      subst he1
      exact hc2
  · rw [if_neg hc] at h
    cases h

theorem readVersion_returns_false {W : LongBits} (sc : Scanners) (s : State) (is : IStream) :
    Post (fun p : State × IStream => p.1) (fun _ => True) (fun _ => True)
      (readVersion W sc s is) := by
  unfold readVersion
  split
  · refine post_bind (fun _ => s) (fun _ => True) (post_liftFault (fun _ _ => trivial))
      (fun a _ _ => ?_)
    obtain ⟨buffer, is1⟩ := a
    refine post_bind (fun p : State × IStream => p.1) (fun _ => True)
      (versionLoop_post sc _ _ buffer is1) (fun b _ _ => ?_)
    obtain ⟨s1, is2⟩ := b
    trivial
  · trivial

theorem loadBlocks_resolve (sc : Scanners) (p : State × IStream) :
    Post id BlocksResolve (fun _ => True) (loadBlocks sc p) := by
  have h0 := loadBlocks_post sc p
  cases hr : loadBlocks sc p with
  | error e =>
    rw [hr] at h0
    cases e with
    | fault f => trivial
    | ret v t => exact ⟨h0.1, trivial⟩
  | ok t =>
    show BlocksResolve t
    unfold loadBlocks at hr
    simp only [bind, Except.bind] at hr
    cases hq : sectionLoop (blockRecord sc) (p.2.data.length + 1)
        { p.1 with m_blocks := [] } p.2 with
    | error e => rw [hq] at hr; cases hr
    | ok q =>
      rw [hq] at hr
      dsimp only at hr
      have hI := sectionLoop_invariant BlocksResolve (blockRecord sc)
        (fun s line t => blockRecord_resolve sc s line t) _ _ _ q
        (by intro e he; cases he) hq
      split at hr
      · cases hr
      · injection hr with hr
        subst hr
        exact hI

theorem load_blocks_resolve {W : LongBits} (sc : Scanners) (files : Files) (s0 s : State)
    (h : load W sc files s0 = .ok (true, s)) : BlocksResolve s := by
  have hpre : Post (fun q : State × IStream => q.1) (fun _ => True) (fun _ => True)
      (loadPrefix W sc files s0) := by
    rw [loadPrefix_eq]
    split
    · exact ⟨rfl, trivial⟩
    · exact loadSections_post (fun _ => True) (fun _ => True) (fun _ _ _ _ => trivial)
        (fun _ _ _ _ => trivial) sc files _ s0 _
        (fun p _ => readVersion_returns_false sc p.1 p.2)
  have h2 : Post id BlocksResolve (fun _ => True) (loadPrefix W sc files s0 >>= loadBlocks sc) :=
    post_bind (fun q : State × IStream => q.1) (fun _ => True) hpre
      (fun p _ _ => loadBlocks_resolve sc p)
  unfold load at h
  cases hr : loadPrefix W sc files s0 >>= loadBlocks sc with
  | ok t =>
    rw [hr] at h h2
    injection h with h
    injection h with ha hb
    subst hb
    exact h2
  | error e =>
    rw [hr] at h h2
    cases e with
    | fault f => cases h
    | ret w t =>
      injection h with h
      injection h with ha hb
      subst ha
      exact absurd h2.1 (by decide)

/-- Counterexample to C15 as stated: each of these files is loaded with `true`, and its only
block names a shape that is not a key of the shape library: the RF event 1 the mag shape 7
and the phase shape 8, the gradient 1 the shape 9.  The triple is the value `load` returns
and the number of entries of that id in the shape library after `load` and after `GetBlock`
and `decodeBlock` on the block 0: the id is a key afterwards, for every width of `long` and
whatever the sum of two samples is. -/
theorem materialize_inserts_shape_counterexample :
    (∀ (W L : LongBits) (add : ℚ → ℚ → ℚ),
      shapeCountAround L add (62831 / 10000) (load W integerScanners
        (singleFile "[SHAPES]\n\n[RF]\n1 1 7 8 0 0\n\n[BLOCKS]\n1 0 1 0 0 0 0\n")
        (State.init 0)) 0 7 = some (true, 0, 1)) ∧
    (∀ (W L : LongBits) (add : ℚ → ℚ → ℚ),
      shapeCountAround L add (62831 / 10000) (load W integerScanners
        (singleFile "[SHAPES]\n\n[RF]\n1 1 7 8 0 0\n\n[BLOCKS]\n1 0 1 0 0 0 0\n")
        (State.init 0)) 0 8 = some (true, 0, 1)) ∧
    (∀ (W L : LongBits) (add : ℚ → ℚ → ℚ),
      shapeCountAround L add (62831 / 10000) (load W integerScanners
        (singleFile "[SHAPES]\n\n[GRADIENTS]\n1 1 9\n\n[BLOCKS]\n1 0 0 1\n")
        (State.init 0)) 0 9 = some (true, 0, 1)) :=
  ⟨fun _ _ _ => rfl, fun _ _ _ => rfl, fun _ _ _ => rfl⟩

/-- C15, amended. For the members `s` a `load` returning `true` leaves and every valid block
index, `GetBlock` returns a block `b` and members `t`, and whenever `decodeBlock` returns on
them, with members `t1`: `t` and `t1` are `s` but for entries added to the shape library
(the block table, the five event libraries and every other member are the same, and every
key of the shape library of `s` is held with its value), and both are `s` itself when every
shape id an event of the block names is a key of the shape library of `s`.  Of the ids that
are not keys of the shape library of `s`, the library of `t` holds, each with an empty
shape, exactly those the duration computation looks up (the mag shape of a present RF event
and the shape of every arbitrary gradient), and the library of `t1` exactly those an event
of the block names (the phase shape of a present RF event as well).  All of it for every
width of `long` and of the combined version and whatever the sum of two samples is. -/
theorem materialize_frame (W L : LongBits) (add : ℚ → ℚ → ℚ) (U : ℚ) (sc : Scanners)
    (files : Files) (s0 s : State) (fresh : SeqBlock) (index : Int)
    (hload : load W sc files s0 = .ok (true, s))
    (h0 : 0 ≤ index) (h1 : index < s.m_blocks.length) :
    ∃ b t, GetBlock L s fresh index = .ok (b, t) ∧
      OnlyShapesAdded s t ∧ (ShapesResolve s b → t = s) ∧ AddedShapes s t (TimedShape b) ∧
      ∀ b1 t1, decodeBlock add U t b = .ok (b1, t1) →
        OnlyShapesAdded s t1 ∧ (ShapesResolve s b → t1 = s) ∧
          AddedShapes s t1 (NamedShape b) := by
  obtain ⟨e, he, hmem⟩ := readAt_valid s.m_blocks index h0 h1
  obtain ⟨b, t, hg, k1, k2, k3⟩ := GetBlock_kept L s fresh index e he
    (load_blocks_resolve sc files s0 s hload e hmem)
  refine ⟨b, t, hg, k1, k2, k3, fun b1 t1 hd => ?_⟩
  obtain ⟨m1, m2⟩ := decodeBlock_kept add U s t b b1 t1 hd k1 k2
  refine ⟨m1, m2, ?_⟩
  refine addedShapes_congr s t1 _ _ (decodeBlock_added add U s t b b1 t1 _ hd k3)
    (fun id => ?_)
  unfold TimedShape NamedShape
  tauto

/-- Witness of C15, amended: a file whose only block has the RF event 1, with the mag shape
7 of the file, which declares no sample, and the phase shape 8, which the file does not
hold; `GetBlock` and `decodeBlock` return on it, and the shape 8 is a key afterwards. -/
theorem materialize_frame_witness :
    ∃ s, load long32 integerScanners (singleFile
        "[SHAPES]\n\nshape_id 7\nnum_samples 0\n\n[RF]\n1 1 7 8 0 0\n\n[BLOCKS]\n1 0 1\n")
        (State.init 0) = .ok (true, s) ∧
      shapeCountAround long32 exactAdd (62831 / 10000) (.ok (true, s)) 0 7
        = some (true, 1, 1) ∧
      shapeCountAround long32 exactAdd (62831 / 10000) (.ok (true, s)) 0 8
        = some (true, 0, 1) ∧
      ∃ b t, GetBlock long32 s SeqBlock.blank 0 = .ok (b, t) ∧
        OnlyShapesAdded s t ∧ (ShapesResolve s b → t = s) ∧
        AddedShapes s t (TimedShape b) ∧
        ∀ b1 t1, decodeBlock exactAdd (62831 / 10000) t b = .ok (b1, t1) →
          OnlyShapesAdded s t1 ∧ (ShapesResolve s b → t1 = s) ∧
            AddedShapes s t1 (NamedShape b) :=
  ⟨_, rfl, rfl, rfl, materialize_frame long32 long32 exactAdd (62831 / 10000) integerScanners
      (singleFile
        "[SHAPES]\n\nshape_id 7\nnum_samples 0\n\n[RF]\n1 1 7 8 0 0\n\n[BLOCKS]\n1 0 1\n")
      (State.init 0) _ SeqBlock.blank 0 rfl (le_refl 0) (by decide)⟩

/-! ## The cap of `getline` -/

theorem getlineLoop_last (is : IStream) (acc : List Char) (c : Char) (tail : List Char)
    (hg : is.good = true) (hd : is.data.drop is.pos = c :: tail)
    (h1 : c ≠ '\n') (h2 : c ≠ '\r') (h3 : c ≠ Char.ofNat 255) :
    getlineLoop 0 is acc = ⟨true, ⟨acc ++ [c], false⟩, { is with pos := is.pos + 1 }⟩ := by
  rw [getlineLoop, (get_of_drop is c tail hg hd).1]
  simp only [h1, h2, h3, if_false]

theorem getlineEof_stored (is : IStream) (acc : List Char) :
    (getlineEof is acc).buffer = ⟨acc, true⟩ := rfl

theorem getlineCr_stored (is : IStream) (acc : List Char) :
    (getlineCr is acc).buffer = ⟨acc, true⟩ := rfl

theorem getlineLoop_stored : ∀ (room : Nat) (is : IStream) (acc : List Char),
    ((getlineLoop room is acc).buffer.terminated = true →
      (getlineLoop room is acc).buffer.chars.length ≤ acc.length + room) ∧
    ((getlineLoop room is acc).buffer.terminated = false →
      (getlineLoop room is acc).buffer.chars.length = acc.length + room + 1) := by
  intro room
  induction room with
  | zero =>
    intro is acc
    rw [getlineLoop]
    rcases hget : is.get with ⟨_ | c, is1⟩
    · simp [getlineEof_stored]
    · dsimp only
      by_cases h1 : c = '\n'
      · rw [if_pos h1]; simp
      · rw [if_neg h1]
        by_cases h2 : c = '\r'
        · rw [if_pos h2]; simp [getlineCr_stored]
        · rw [if_neg h2]
          by_cases h3 : c = Char.ofNat 255
          · rw [if_pos h3]; simp [getlineEof_stored]
          · rw [if_neg h3]; simp
  | succ room ih =>
    intro is acc
    rw [getlineLoop]
    rcases hget : is.get with ⟨_ | c, is1⟩
    · simp [getlineEof_stored]
    · dsimp only
      by_cases h1 : c = '\n'
      · rw [if_pos h1]; simp
      · rw [if_neg h1]
        by_cases h2 : c = '\r'
        · rw [if_pos h2]; simp [getlineCr_stored]
        · rw [if_neg h2]
          by_cases h3 : c = Char.ofNat 255
          · rw [if_pos h3]; simp [getlineEof_stored]
          · rw [if_neg h3]
            obtain ⟨a1, a2⟩ := ih is1 (acc ++ [c])
            simp only [List.length_append, List.length_singleton] at a1 a2
            constructor
            · intro h; have := a1 h; omega
            · intro h; have := a2 h; omega

/-- C21: `getline` does not terminate a line of `MAX_SIZE` or more characters.  With
`MAX_SIZE = M + 1`, on a stream that starts with `M + 1` letters `a` the call returns `true`
with those `MAX_SIZE` characters stored in `buffer[0..MAX_SIZE)` and without a NUL written,
so that reading `buffer` as a C string leaves the array.  What holds on every stream: a call
that writes the NUL has stored at most `MAX_SIZE - 1` characters before it, and a call that
does not has stored exactly `MAX_SIZE` characters; every write is inside
`buffer[0..MAX_SIZE)`. -/
theorem getline_overlong_unterminated (M : Nat) (rest : List Char) :
    getline (IStream.open (some (List.replicate (M + 1) 'a' ++ rest))) (M + 1)
      = ⟨true, ⟨List.replicate (M + 1) 'a', false⟩,
          ⟨List.replicate (M + 1) 'a' ++ rest, M + 1, false, false⟩⟩ ∧
    Buffer.cstr ⟨List.replicate (M + 1) 'a', false⟩ = .error .outOfBounds ∧
    ∀ is : IStream,
      ((getline is (M + 1)).buffer.terminated = true →
        (getline is (M + 1)).buffer.chars.length ≤ M) ∧
      ((getline is (M + 1)).buffer.terminated = false →
        (getline is (M + 1)).buffer.chars.length = M + 1) := by
  refine ⟨?_, ?_, ?_⟩
  · unfold getline
    have hc : ∀ c ∈ List.replicate M 'a', c ≠ '\n' ∧ c ≠ '\r' ∧ c ≠ Char.ofNat 255 := by
      intro c hc
      rw [List.eq_of_mem_replicate hc]
      decide
    have h := getlineLoop_content (List.replicate M 'a') M
      (IStream.open (some (List.replicate (M + 1) 'a' ++ rest))) [] ('a' :: rest) rfl
      (by
        show List.drop 0 (List.replicate (M + 1) 'a' ++ rest)
          = List.replicate M 'a' ++ 'a' :: rest
        rw [List.drop_zero, List.replicate_succ', List.append_assoc]
        rfl)
      hc (by simp)
    have hr : M - (List.replicate M 'a').length = 0 := by simp
    have hd : List.drop (0 + (List.replicate M 'a').length)
        (List.replicate (M + 1) 'a' ++ rest) = 'a' :: rest := by
      rw [List.replicate_succ', List.append_assoc, Nat.zero_add, List.drop_left]
      rfl
    have h2 := getlineLoop_last
      { IStream.open (some (List.replicate (M + 1) 'a' ++ rest)) with
        pos := (IStream.open (some (List.replicate (M + 1) 'a' ++ rest))).pos
          + (List.replicate M 'a').length }
      ([] ++ List.replicate M 'a') 'a' rest rfl hd (by decide) (by decide) (by decide)
    rw [Nat.add_sub_cancel, h, hr, h2]
    simp [IStream.open, List.replicate_succ']
  · unfold Buffer.cstr
    have ht : List.takeWhile (fun c => decide (c ≠ Char.ofNat 0)) (List.replicate (M + 1) 'a')
        = List.replicate (M + 1) 'a' := by
      rw [List.takeWhile_eq_self_iff]
      intro c hc
      rw [List.eq_of_mem_replicate hc]
      decide
    simp [ht]
  · intro is
    have h := getlineLoop_stored M is []
    simpa [getline] using h

/-! ## The call of `checkRF` at the end of `decodeBlock` -/

theorem decodeRF_phase (add : ℚ → ℚ → ℚ) (p q : SeqBlock × State × List ℚ)
    (h : decodeRF add p = .ok q) :
    q.1.rfPhase = p.1.rfPhase ∧ q.1.gradWaveforms = p.1.gradWaveforms ∧
      (p.1.isRF = false → q.1.rfAmplitude = p.1.rfAmplitude) := by
  unfold decodeRF at h
  by_cases hrf : p.1.isRF = true
  · rw [if_pos hrf] at h
    simp only [bind, Except.bind, pure, Except.pure] at h
    split at h
    · cases h
    · split at h
      · cases h
      · injection h with h
        subst h
        exact ⟨rfl, rfl, fun hf => by rw [hrf] at hf; cases hf⟩
  · rw [if_neg hrf] at h
    injection h with h
    subst h
    exact ⟨rfl, rfl, fun _ => rfl⟩

theorem decodeGrad_rf (add : ℚ → ℚ → ℚ) (p q : SeqBlock × State × List ℚ) (i : Nat)
    (h : decodeGrad add p i = .ok q) :
    q.1.rfPhase = p.1.rfPhase ∧ q.1.rfAmplitude = p.1.rfAmplitude := by
  unfold decodeGrad at h
  by_cases ha : p.1.isArbitraryGradient i = true
  · rw [if_pos ha] at h
    simp only [bind, Except.bind, pure, Except.pure] at h
    split at h
    · cases h
    · injection h with h
      subst h
      exact ⟨rfl, rfl⟩
  · rw [if_neg ha] at h
    injection h with h
    subst h
    exact ⟨rfl, rfl⟩

theorem decodeBlock_returns_empty_amplitude (add : ℚ → ℚ → ℚ) (U : ℚ) (s : State)
    (block b1 : SeqBlock) (t1 : State) (hphase : block.rfPhase = [])
    (h : decodeBlock add U s block = .ok (b1, t1)) : b1.rfAmplitude = [] := by
  obtain ⟨p0, p1, p2, p3, g, h0, h1, h2, h3, hg, hq, _⟩ :=
    decodeBlock_steps add U s block b1 t1 h
  have a0 := (decodeRF_phase add _ _ h0).1
  have a1 := decodeGrad_rf add _ _ _ h1
  have a2 := decodeGrad_rf add _ _ _ h2
  have a3 := decodeGrad_rf add _ _ _ h3
  rw [checkGradient_eq] at hg
  injection hg with hg
  have hp : g.rfPhase = [] := by
    rw [← hg]
    show p3.1.rfPhase = []
    rw [a3.1, a2.1, a1.1, a0]
    exact hphase
  rw [checkRF_eq] at hq
  by_cases hl : g.rfAmplitude.length ≤ g.rfPhase.length
  · rw [if_pos hl] at hq
    injection hq with hq
    rw [hp] at hl
    have he : g.rfAmplitude = [] := List.length_eq_zero.mp (Nat.le_zero.mp hl)
    rw [← hq]
    show g.rfAmplitude.map (clampTo 0 1) = []
    rw [he]
    rfl
  · rw [if_neg hl] at hq
    cases hq

/-- C22: the call of `checkRF` at the end of `decodeBlock` indexes `rfPhase`, which
`decodeBlock` never fills, over the length of `rfAmplitude`.  On every block whose
`rfPhase` is empty and whose `rfAmplitude` holds a sample, `checkRF` reads `rfPhase[0]`
outside of the vector.  The file below is loaded with `true`; its only block has the RF
event 1, whose mag shape 1 decodes to one sample, and `decodeBlock` on the block `GetBlock`
returns for it ends in the fault `outOfBounds`, for every width of `long` and of the
combined version and whatever the sum of two samples is. -/
theorem checkRF_reads_past_rfPhase :
    (∀ (U : ℚ) (block : SeqBlock) (a : ℚ) (rest : List ℚ),
      checkRF U { block with rfAmplitude := a :: rest, rfPhase := [] }
        = .error .outOfBounds) ∧
    (∀ W : LongBits, loadResult (load W integerScanners (singleFile
      "[SHAPES]\n\nshape_id 1\nnum_samples 1\n1\n\n[RF]\n1 1 1 1 0 0\n\n[BLOCKS]\n1 0 1\n")
      (State.init 0)) = some (true, [⟨0, 1, 0, 0, 0, 0, 0⟩])) ∧
    ∀ (W L : LongBits) (add : ℚ → ℚ → ℚ),
      decodedAfterLoad L add (62831 / 10000) (load W integerScanners (singleFile
        "[SHAPES]\n\nshape_id 1\nnum_samples 1\n1\n\n[RF]\n1 1 1 1 0 0\n\n[BLOCKS]\n1 0 1\n")
        (State.init 0)) 0 = .error .outOfBounds := by
  refine ⟨?_, fun _ => rfl, fun _ _ _ => rfl⟩
  intro U block a rest
  rw [checkRF_eq, if_neg]
  simp

/-! ## The bounds of `decompressShape` -/

theorem writeAt_extend {α : Type} (xs ys ex : List α) (i : Int) (v : α)
    (h : writeAt xs i v = .ok ys) : writeAt (xs ++ ex) i v = .ok (ys ++ ex) := by
  unfold writeAt at h ⊢
  by_cases hc : 0 ≤ i ∧ i.toNat < xs.length
  · rw [if_pos hc] at h
    injection h with h
    subst h
    rw [if_pos ⟨hc.1, by rw [List.length_append]; omega⟩, List.set_append_left _ _ hc.2]
  · rw [if_neg hc] at h
    cases h

theorem fillRun_extend (v : ℚ) (ex : List ℚ) : ∀ (n : Nat) (i : Int) (sh sh1 : List ℚ),
    fillRun v n i sh = .ok sh1 → fillRun v n i (sh ++ ex) = .ok (sh1 ++ ex) := by
  intro n
  induction n with
  | zero =>
    intro i sh sh1 h
    rw [fillRun] at h ⊢
    injection h with h
    rw [h]
  | succ n ih =>
    intro i sh sh1 h
    rw [fillRun] at h ⊢
    cases hw : writeAt sh i v with
    | error f => rw [hw] at h; cases h
    | ok sh2 =>
      rw [hw] at h
      rw [writeAt_extend sh sh2 ex i v hw]
      exact ih (i + 1) sh2 sh1 h

theorem unpackLoop_extend (packed : List ℚ) (N : Int) (ex : List ℚ) :
    ∀ (fuel : Nat) (cp cu : Int) (sh : List ℚ) (c : Int × Int × List ℚ),
    unpackLoop packed N fuel cp cu sh = .ok c →
    unpackLoop packed N fuel cp cu (sh ++ ex) = .ok (c.1, c.2.1, c.2.2 ++ ex) := by
  intro fuel
  induction fuel with
  | zero =>
    intro cp cu sh c h
    rw [unpackLoop] at h ⊢
    by_cases hlt : cp < N
    · rw [if_pos hlt] at h; cases h
    · rw [if_neg hlt] at h ⊢
      injection h with h
      subst h
      rfl
  | succ fuel ih =>
    intro cp cu sh c h
    by_cases hlt : cp < N
    · rw [unpackLoop, if_pos hlt] at h
      cases h1 : readAt packed (cp - 1) with
      | error f => rw [h1] at h; cases h
      | ok a =>
        rw [h1] at h
        cases h2 : readAt packed cp with
        | error f => rw [h2] at h; cases h
        | ok b =>
          rw [h2] at h
          simp only [bind, Except.bind] at h
          by_cases hab : a ≠ b
          · rw [if_pos hab] at h
            cases h3 : writeAt sh (cu - 1) a with
            | error f => rw [h3] at h; cases h
            | ok sh1 =>
              rw [h3] at h
              rw [unpackLoop_literal packed N fuel cp cu (sh ++ ex) (sh1 ++ ex) a b hlt h1 h2
                hab (writeAt_extend sh sh1 ex _ a h3)]
              exact ih _ _ sh1 c h
          · rw [if_neg hab] at h
            have hab' : b = a := by
              by_contra hne
              exact hab (fun e => hne e.symm)
            subst hab'
            cases h3 : readAt packed (cp + 1) with
            | error f => rw [h3] at h; cases h
            | ok k =>
              rw [h3] at h
              dsimp only at h
              cases h4 : fillRun b (wrapInt (wrapInt (cu + wrapInt (floatToInt k + 2)) - 2)
                  - (cu - 1) + 1).toNat (cu - 1) sh with
              | error f => rw [h4] at h; cases h
              | ok sh1 =>
                rw [h4] at h
                rw [unpackLoop_run packed N fuel cp cu (sh ++ ex) (sh1 ++ ex) b k hlt h1 h2 h3
                  (fillRun_extend b ex _ _ sh sh1 h4)]
                exact ih _ _ sh1 c h
    · rw [unpackLoop_exit packed N _ cp cu sh hlt] at h
      rw [unpackLoop_exit packed N _ cp cu (sh ++ ex) hlt]
      injection h with h
      subst h
      rfl

theorem trailingLiteral_extend (packed : List ℚ) (N : Int) (ex : List ℚ)
    (c : Int × Int × List ℚ) (sh1 : List ℚ) (h : trailingLiteral packed N c = .ok sh1) :
    trailingLiteral packed N (c.1, c.2.1, c.2.2 ++ ex) = .ok (sh1 ++ ex) := by
  obtain ⟨cp, cu, sh⟩ := c
  unfold trailingLiteral at h ⊢
  dsimp only at h ⊢
  by_cases hc : cp = N
  · rw [if_pos hc] at h ⊢
    cases h1 : readAt packed (cp - 1) with
    | error f => rw [h1] at h; cases h
    | ok a =>
      rw [h1] at h
      exact writeAt_extend sh sh1 ex _ a h
  · rw [if_neg hc] at h ⊢
    injection h with h
    rw [h]

theorem decompressShape_short (add : ℚ → ℚ → ℚ) (toks : List Token) (n : Int)
    (buf : List ℚ) (hs : Splits toks) (hlen : ((expansionOf toks).length : Int) ≤ n)
    (hbuf : (buf.length : Int) = n) (hn : n ≤ 2147483647) :
    decompressShape add ⟨n, packedOf toks⟩ buf
      = .ok (runningSums add (expansionOf toks ++ buf.drop (expansionOf toks).length)) := by
  have hm : (expansionOf toks).length ≤ buf.length := by omega
  have hlen' : (buf.take (expansionOf toks).length).length = (expansionOf toks).length := by
    rw [List.length_take]; omega
  obtain ⟨c, hc1, hc2, _⟩ := unpack_tokens toks [] [] (buf.take (expansionOf toks).length)
    (packedOf toks).length hs hlen'
    (by simp only [List.length_nil, Nat.cast_zero, zero_add]; omega) (le_refl _)
  have h1 : wrapInt (((([] : List ℚ).length : ℕ) : Int) + 1) = 1 := by
    simp only [List.length_nil, Nat.cast_zero, zero_add]
    exact wrapInt_of_range 1 (by omega) (by omega)
  rw [h1] at hc1
  simp only [List.nil_append, List.length_nil, Nat.cast_zero, zero_add] at hc1 hc2
  have e1 := unpackLoop_extend _ _ (buf.drop (expansionOf toks).length) _ _ _ _ c hc1
  rw [List.take_append_drop] at e1
  have e2 := trailingLiteral_extend _ _ (buf.drop (expansionOf toks).length) c _ hc2
  simp only [decompressShape, bind, Except.bind, e1, e2]
  have hl : (((expansionOf toks ++ buf.drop (expansionOf toks).length).length : ℕ) : Int)
      = n := by
    rw [List.length_append, List.length_drop]
    omega
  rw [← hl]
  exact cumulativeSum_runningSums add _

theorem prefixSums_length (xs : List ℚ) : (prefixSums xs).length = xs.length := by
  simp [prefixSums]

/-- Counterexample to C23 as stated, each on a buffer of `declaredLength` entries.  The
packed sequence `1, 1` ends in a run opened by its last two values: the count is read at
`packed[2]`, past the two values.  The packed sequence `1, 2` with the declared length 1
stores its second literal at `shape[1]`.  The packed sequence `1, 1, -5, 2` has the run
count `-5`: the counter of unpacked samples becomes `-2` and the last literal is stored at
`shape[-3]`. -/
theorem decompressShape_out_of_bounds_counterexample :
    (∀ add : ℚ → ℚ → ℚ, decompressShape add ⟨2, [1, 1]⟩ [0, 0] = .error .outOfBounds) ∧
    (∀ add : ℚ → ℚ → ℚ, decompressShape add ⟨1, [1, 2]⟩ [0] = .error .outOfBounds) ∧
    (∀ add : ℚ → ℚ → ℚ,
      decompressShape add ⟨2, [1, 1, -5, 2]⟩ [0, 0] = .error .outOfBounds) :=
  ⟨fun _ => rfl, fun _ => rfl, fun _ => rfl⟩

/-- C23, amended. For every packed sequence that splits, left to right, into literals and
runs with a count `k ≥ 0`, and whose expansion has at most `declaredLength` elements
(`declaredLength` an `int`), `decompressShape` on a buffer of `declaredLength` entries
returns without a fault: it reads `packed` only at indices in `[0, numPacked)` and writes
`shape` only at indices in `[0, declaredLength)`, and the buffer keeps its length; this
whatever the sum of two samples is. -/
theorem decompressShape_in_bounds (add : ℚ → ℚ → ℚ) (packed : List ℚ) (toks : List Token)
    (declaredLength : Int) (shape : List ℚ)
    (hpacked : packed = packedOf toks) (hsplit : Splits toks)
    (hlen : ((expansionOf toks).length : Int) ≤ declaredLength)
    (hshape : (shape.length : Int) = declaredLength)
    (hint : declaredLength ≤ 2147483647) :
    ∃ out, decompressShape add ⟨declaredLength, packed⟩ shape = .ok out ∧
      out.length = shape.length := by
  subst hpacked
  refine ⟨_, decompressShape_short add toks declaredLength shape hsplit hlen hshape hint, ?_⟩
  rw [runningSums_length, List.length_append, List.length_drop]
  omega

/-- Witness of C23, amended: the packed sequence `0, 1, 1, 3` (a literal and a run of
`3 + 2` ones) with 7 declared samples, one more than its expansion has. -/
theorem decompressShape_in_bounds_witness :
    ∃ out, decompressShape floatAdd ⟨7, [0, 1, 1, 3]⟩ [9, 9, 9, 9, 9, 9, 9] = .ok out ∧
      out.length = [(9 : ℚ), 9, 9, 9, 9, 9, 9].length :=
  decompressShape_in_bounds floatAdd [0, 1, 1, 3] [Token.literal 0, Token.run 1 3] 7
    [9, 9, 9, 9, 9, 9, 9] (by simp [packedOf, Token.packed])
    (by simp [Splits, packedOf, Token.packed]) (by simp [expansionOf, Token.expansion])
    (by simp) (by norm_num)

/-! ## The waveform of a gradient channel -/

theorem decodeShape_wellformed (add : ℚ → ℚ → ℚ) (shape : CompressedShape)
    (toks : List Token) (w : List ℚ)
    (hp : shape.samples = packedOf toks) (hs : Splits toks)
    (hlen : ((expansionOf toks).length : Int) = shape.numUncompressedSamples)
    (hint : shape.numUncompressedSamples ≤ 2147483647) :
    decodeShape add shape w = .ok (runningSums add (expansionOf toks)) := by
  obtain ⟨n, samples⟩ := shape
  dsimp only at hp hlen hint
  subst hp
  have hn : ¬ n < 0 := by omega
  unfold decodeShape resize
  rw [if_neg hn]
  simp only [bind, Except.bind]
  apply decompressShape_running add toks n _ hs hlen _ hint
  rw [List.length_append, List.length_take, List.length_replicate]
  omega

theorem three_get_set {α : Type} (a : Three α) (j : Nat) (v : α) (hj : j < 3) :
    (a.set j v).get j = v := by
  interval_cases j <;> rfl

theorem three_get_set_other {α : Type} (a : Three α) (j k : Nat) (v : α) (hj : j < 3)
    (hk : k < 3) (hne : k ≠ j) : (a.set j v).get k = a.get k := by
  interval_cases j <;> interval_cases k <;> first | rfl | exact absurd rfl hne

theorem three_get_map {α β : Type} (a : Three α) (f : α → β) (i : Nat) :
    (⟨f a.x, f a.y, f a.z⟩ : Three β).get i = f (a.get i) := by
  rcases i with _ | _ | i <;> rfl

theorem index_of_some {α : Type} (m : Lib α) (k : Int) (d v : α) (h : m k = some v) :
    (m.index k d).1 = v := by
  unfold Lib.index
  rw [h]

theorem decodeGrad_waveform (add : ℚ → ℚ → ℚ) (s : State) (b : SeqBlock)
    (p q : SeqBlock × State × List ℚ) (j : Nat) (hj : j < 3) (h : decodeGrad add p j = .ok q)
    (he : p.1.events = b.events ∧ p.1.rf = b.rf ∧ p.1.grad = b.grad)
    (h1 : OnlyShapesAdded s p.2.1) :
    (∀ k, k < 3 → k ≠ j → q.1.gradWaveforms.get k = p.1.gradWaveforms.get k) ∧
    (∀ shape, b.isArbitraryGradient j = true →
      s.m_shapeLibrary (b.grad.get j).shape = some shape →
      decodeShape add shape p.2.2 = .ok (q.1.gradWaveforms.get j)) := by
  unfold decodeGrad at h
  by_cases ha : p.1.isArbitraryGradient j = true
  · rw [if_pos ha] at h
    simp only [bind, Except.bind, pure, Except.pure] at h
    cases hw : decodeShape add
        (p.2.1.m_shapeLibrary.index (p.1.grad.get j).shape CompressedShape.zero).1 p.2.2 with
    | error f => rw [hw] at h; cases h
    | ok w =>
      rw [hw] at h
      injection h with h
      subst h
      refine ⟨fun k hk hne => three_get_set_other _ j k w hj hk hne, ?_⟩
      intro shape _ hshape
      have hkey : p.2.1.m_shapeLibrary (p.1.grad.get j).shape = some shape := by
        rw [he.2.2, h1.2 _ (by unfold Resolves; rw [hshape]; rfl), hshape]
      rw [index_of_some _ _ _ shape hkey] at hw
      rw [hw]
      show Except.ok w = Except.ok ((p.1.gradWaveforms.set j w).get j)
      rw [three_get_set _ j w hj]
  · rw [if_neg ha] at h
    injection h with h
    subst h
    refine ⟨fun _ _ _ => rfl, ?_⟩
    intro shape hb _
    exfalso
    apply ha
    unfold SeqBlock.isArbitraryGradient at hb ⊢
    rw [he.1, he.2.2]
    exact hb

theorem decodeBlock_waveform (add : ℚ → ℚ → ℚ) (U : ℚ) (s : State) (block : SeqBlock)
    (i : Nat) (shape : CompressedShape) (toks : List Token) (hi : i < 3)
    (harb : block.isArbitraryGradient i = true)
    (hshape : s.m_shapeLibrary (block.grad.get i).shape = some shape)
    (hp : shape.samples = packedOf toks) (hs : Splits toks)
    (hlen : ((expansionOf toks).length : Int) = shape.numUncompressedSamples)
    (hint : shape.numUncompressedSamples ≤ 2147483647)
    (b1 : SeqBlock) (t1 : State) (h : decodeBlock add U s block = .ok (b1, t1)) :
    b1.gradWaveforms.get i = (runningSums add (expansionOf toks)).map (clampTo (-1) 1) := by
  obtain ⟨p0, p1, p2, p3, g, h0, h1, h2, h3, hg, hq, _⟩ :=
    decodeBlock_steps add U s block b1 t1 h
  obtain ⟨a0, a1, a2⟩ := decodeRF_kept add s block _ p0 h0 ⟨rfl, rfl, rfl⟩
    (onlyShapesAdded_refl s) (fun _ => rfl)
  obtain ⟨b0, b1', b2⟩ := decodeGrad_kept add s block p0 p1 0 (by decide) h1 a0 a1 a2
  obtain ⟨c0, c1, c2⟩ := decodeGrad_kept add s block p1 p2 1 (by decide) h2 b0 b1' b2
  obtain ⟨w01, w02⟩ := decodeGrad_waveform add s block p0 p1 0 (by decide) h1 a0 a1
  obtain ⟨w11, w12⟩ := decodeGrad_waveform add s block p1 p2 1 (by decide) h2 b0 b1'
  obtain ⟨w21, w22⟩ := decodeGrad_waveform add s block p2 p3 2 (by decide) h3 c0 c1
  have hval : ∀ (w : List ℚ) (x : List ℚ), decodeShape add shape w = .ok x →
      x = runningSums add (expansionOf toks) := by
    intro w x hx
    rw [decodeShape_wellformed add shape toks w hp hs hlen hint] at hx
    injection hx with hx
    exact hx.symm
  have hp3 : p3.1.gradWaveforms.get i = runningSums add (expansionOf toks) := by
    have hcase : i = 0 ∨ i = 1 ∨ i = 2 := by omega
    rcases hcase with e | e | e
    · subst e
      rw [w21 0 (by decide) (by decide), w11 0 (by decide) (by decide)]
      exact hval _ _ (w02 shape harb hshape)
    · subst e
      rw [w21 1 (by decide) (by decide)]
      exact hval _ _ (w12 shape harb hshape)
    · subst e
      exact hval _ _ (w22 shape harb hshape)
  rw [checkGradient_eq] at hg
  injection hg with hg
  rw [checkRF_eq] at hq
  split at hq
  · injection hq with hq
    rw [← hq, ← hg]
    show (⟨p3.1.gradWaveforms.x.map (clampTo (-1) 1), p3.1.gradWaveforms.y.map (clampTo (-1) 1),
      p3.1.gradWaveforms.z.map (clampTo (-1) 1)⟩ : Three (List ℚ)).get i = _
    rw [three_get_map p3.1.gradWaveforms (fun l => l.map (clampTo (-1) 1)) i, hp3]
  · cases hq

theorem staleExample_blocks (L : LongBits) :
    ∃ d0 d1 d2 d3 : Int,
    GetBlock L staleExample SeqBlock.blank 0 = .ok
      (staleBlock 0 ⟨0, 0, 0, 1, 0, 0, 0⟩ GradEvent.zero ⟨1, 0, 0, 0, 0, 1⟩ d0,
        staleExample) ∧
    GetBlock L staleExample SeqBlock.blank 1 = .ok
      (staleBlock 1 ⟨0, 0, 2, 1, 0, 0, 0⟩ ⟨1, 0, 0, 0, 0, 2⟩ ⟨1, 0, 0, 0, 0, 1⟩ d1,
        staleExample) ∧
    GetBlock L staleExample SeqBlock.blank 2 = .ok
      (staleBlock 2 ⟨0, 0, 1, 2, 0, 0, 0⟩ ⟨1, 0, 0, 0, 0, 1⟩ ⟨1, 0, 0, 0, 0, 2⟩ d2,
        staleExample) ∧
    GetBlock L staleExample SeqBlock.blank 3 = .ok
      (staleBlock 3 ⟨0, 0, 0, 2, 0, 0, 0⟩ GradEvent.zero ⟨1, 0, 0, 0, 0, 2⟩ d3,
        staleExample) :=
  ⟨_, _, _, _, rfl, rfl, rfl, rfl⟩

theorem staleExample_shapes (add : ℚ → ℚ → ℚ) (h1 : add 0 1 = 1) (h2 : add (-1) 1 = 0)
    (h3 : add 0 (-1) = -1) :
    decodeShape add ⟨2, [1]⟩ [] = .ok [1, 1] ∧
    decodeShape add ⟨2, [-1, 0]⟩ [] = .ok [-1, -1] ∧
    decodeShape add ⟨2, [1]⟩ [-1, -1] = .ok [1, 0] ∧
    decodeShape add ⟨2, [-1, 0]⟩ [1, 1] = .ok [-1, -1] := by
  refine ⟨?_, ?_, ?_, ?_⟩ <;>
  simp [decodeShape, resize, decompressShape, unpackLoop, trailingLiteral, cumulativeSum,
    readAt, writeAt, bind, Except.bind, wrapInt, h1, h2, h3]

theorem staleExample_decoded (add : ℚ → ℚ → ℚ) (h1 : add 0 1 = 1) (h2 : add (-1) 1 = 0)
    (h3 : add 0 (-1) = -1) (U : ℚ) (d : Int) :
    decodeBlock add U staleExample
        (staleBlock 0 ⟨0, 0, 0, 1, 0, 0, 0⟩ GradEvent.zero ⟨1, 0, 0, 0, 0, 1⟩ d)
      = .ok ({ staleBlock 0 ⟨0, 0, 0, 1, 0, 0, 0⟩ GradEvent.zero ⟨1, 0, 0, 0, 0, 1⟩ d with
          gradWaveforms := ⟨[], [1, 1], []⟩ }, staleExample) ∧
    decodeBlock add U staleExample
        (staleBlock 1 ⟨0, 0, 2, 1, 0, 0, 0⟩ ⟨1, 0, 0, 0, 0, 2⟩ ⟨1, 0, 0, 0, 0, 1⟩ d)
      = .ok ({ staleBlock 1 ⟨0, 0, 2, 1, 0, 0, 0⟩ ⟨1, 0, 0, 0, 0, 2⟩ ⟨1, 0, 0, 0, 0, 1⟩ d with
          gradWaveforms := ⟨[-1, -1], [1, 0], []⟩ }, staleExample) ∧
    decodeBlock add U staleExample
        (staleBlock 2 ⟨0, 0, 1, 2, 0, 0, 0⟩ ⟨1, 0, 0, 0, 0, 1⟩ ⟨1, 0, 0, 0, 0, 2⟩ d)
      = .ok ({ staleBlock 2 ⟨0, 0, 1, 2, 0, 0, 0⟩ ⟨1, 0, 0, 0, 0, 1⟩ ⟨1, 0, 0, 0, 0, 2⟩ d with
          gradWaveforms := ⟨[1, 1], [-1, -1], []⟩ }, staleExample) ∧
    decodeBlock add U staleExample
        (staleBlock 3 ⟨0, 0, 0, 2, 0, 0, 0⟩ GradEvent.zero ⟨1, 0, 0, 0, 0, 2⟩ d)
      = .ok ({ staleBlock 3 ⟨0, 0, 0, 2, 0, 0, 0⟩ GradEvent.zero ⟨1, 0, 0, 0, 0, 2⟩ d with
          gradWaveforms := ⟨[], [-1, -1], []⟩ }, staleExample) := by
  obtain ⟨e1, e2, e3, e4⟩ := staleExample_shapes add h1 h2 h3
  refine ⟨?_, ?_, ?_, ?_⟩
  all_goals simp [decodeBlock, decodeRF, decodeGrad, SeqBlock.isRF, SeqBlock.isArbitraryGradient,
    staleBlock, SeqBlock.blank, EventIDs.grad, Three.get, Three.set, staleExample, Lib.index,
    Lib.assign, Lib.empty, State.init, GradEvent.zero, e1, e2, e3, e4, checkGradient_eq,
    checkRF_eq, clampTo, bind, Except.bind, pure, Except.pure, List.foldlM]
  norm_num

theorem exactAdd_small :
    exactAdd 0 1 = 1 ∧ exactAdd (-1) 1 = 0 ∧ exactAdd 0 (-1) = -1 := by
  unfold exactAdd
  norm_num

theorem gradWaveformAt_stale (L : LongBits) (add : ℚ → ℚ → ℚ) (h1 : add 0 1 = 1)
    (h2 : add (-1) 1 = 0) (h3 : add 0 (-1) = -1) (U : ℚ) :
    gradWaveformAt L add U staleExample 0 1 = some (⟨1, 0, 0, 0, 0, 1⟩, [1, 1]) ∧
    gradWaveformAt L add U staleExample 1 1 = some (⟨1, 0, 0, 0, 0, 1⟩, [1, 0]) := by
  obtain ⟨d0, d1, _, _, g0, g1, _, _⟩ := staleExample_blocks L
  obtain ⟨e0, _, _, _⟩ := staleExample_decoded add h1 h2 h3 U d0
  obtain ⟨_, e1, _, _⟩ := staleExample_decoded add h1 h2 h3 U d1
  unfold gradWaveformAt materialize
  rw [g0, g1]
  simp only [bind, Except.bind]
  rw [e0, e1]
  exact ⟨rfl, rfl⟩

/-- Counterexample to C24 as stated: the blocks 0 and 1 of `staleExample` have the same
gradient on the y channel, with the shape 1, which declares 2 samples and packs the one
sample `1`.  After `GetBlock` and `decodeBlock` the waveform of the y channel is `1, 1` in
the block 0 and `1, 0` in the block 1, whose x channel has left `-1, -1` in the vector the
shapes are decoded in; this for every width of `long`, over exact arithmetic and in the
arithmetic of `float`. -/
theorem decodeBlock_stale_waveform_counterexample :
    (∀ L : LongBits,
      gradWaveformAt L exactAdd (62831 / 10000) staleExample 0 1
        = some (⟨1, 0, 0, 0, 0, 1⟩, [1, 1]) ∧
      gradWaveformAt L exactAdd (62831 / 10000) staleExample 1 1
        = some (⟨1, 0, 0, 0, 0, 1⟩, [1, 0])) ∧
    (∀ L : LongBits,
      gradWaveformAt L floatAdd (62831 / 10000) staleExample 0 1
        = some (⟨1, 0, 0, 0, 0, 1⟩, [1, 1]) ∧
      gradWaveformAt L floatAdd (62831 / 10000) staleExample 1 1
        = some (⟨1, 0, 0, 0, 0, 1⟩, [1, 0])) :=
  ⟨fun L => gradWaveformAt_stale L exactAdd exactAdd_small.1 exactAdd_small.2.1
      exactAdd_small.2.2 _,
    fun L => gradWaveformAt_stale L floatAdd floatAdd_small.1 floatAdd_small.2.1
      floatAdd_small.2.2 _⟩

/-- C24, amended. For every block and every channel whose gradient is arbitrary, with a
shape of the library whose packed samples split into literals and runs with an expansion of
exactly `declaredLength` elements (`declaredLength` an `int`): whenever `decodeBlock`
returns, the waveform it has produced for the channel is the running sums of that expansion
clamped to `[-1, 1]`, so that two blocks that agree on the shape of the channel get the same
waveform for it, whatever their RF event and the shapes of the other channels are.  The
running sums are formed with the sum of two samples the code uses, whatever it is; over
exact arithmetic they are the prefix sums of the expansion. -/
theorem decodeBlock_waveform_determined (add : ℚ → ℚ → ℚ) (U : ℚ) (s s' : State)
    (block block' : SeqBlock)
    (i : Nat) (shape : CompressedShape) (toks : List Token) (hi : i < 3)
    (harb : block.isArbitraryGradient i = true)
    (harb' : block'.isArbitraryGradient i = true)
    (hshape : s.m_shapeLibrary (block.grad.get i).shape = some shape)
    (hshape' : s'.m_shapeLibrary (block'.grad.get i).shape = some shape)
    (hp : shape.samples = packedOf toks) (hs : Splits toks)
    (hlen : ((expansionOf toks).length : Int) = shape.numUncompressedSamples)
    (hint : shape.numUncompressedSamples ≤ 2147483647)
    (b1 b1' : SeqBlock) (t1 t1' : State) (h : decodeBlock add U s block = .ok (b1, t1))
    (h' : decodeBlock add U s' block' = .ok (b1', t1')) :
    b1.gradWaveforms.get i = b1'.gradWaveforms.get i ∧
      b1.gradWaveforms.get i = (runningSums add (expansionOf toks)).map (clampTo (-1) 1) ∧
      runningSums exactAdd (expansionOf toks) = prefixSums (expansionOf toks) := by
  have e := decodeBlock_waveform add U s block i shape toks hi harb hshape hp hs hlen hint
    b1 t1 h
  have e' := decodeBlock_waveform add U s' block' i shape toks hi harb' hshape' hp hs hlen
    hint b1' t1' h'
  exact ⟨e.trans e'.symm, e, runningSums_exactAdd _⟩

/-- Witness of C24, amended: the blocks 2 and 3 of `staleExample` have the gradient 2 on the
y channel, with the shape 2, which declares 2 samples and packs the literals `-1, 0`; the
block 2 has another gradient on the x channel.  `decodeBlock` returns on both, in the
arithmetic of `float`. -/
theorem decodeBlock_waveform_determined_witness :
    ∃ (b1 b2 : SeqBlock) (t1 t2 : State),
      decodeBlock floatAdd 6 staleExample
        (staleBlock 2 ⟨0, 0, 1, 2, 0, 0, 0⟩ ⟨1, 0, 0, 0, 0, 1⟩ ⟨1, 0, 0, 0, 0, 2⟩ 20)
        = .ok (b1, t1) ∧
      decodeBlock floatAdd 6 staleExample
        (staleBlock 3 ⟨0, 0, 0, 2, 0, 0, 0⟩ GradEvent.zero ⟨1, 0, 0, 0, 0, 2⟩ 20)
        = .ok (b2, t2) ∧
      b1.gradWaveforms.get 1 = b2.gradWaveforms.get 1 ∧
      b1.gradWaveforms.get 1
        = (runningSums floatAdd (expansionOf [Token.literal (-1), Token.literal 0])).map
          (clampTo (-1) 1) ∧
      runningSums exactAdd (expansionOf [Token.literal (-1), Token.literal 0])
        = prefixSums (expansionOf [Token.literal (-1), Token.literal 0]) :=
  ⟨_, _, _, _,
    (staleExample_decoded floatAdd floatAdd_small.1 floatAdd_small.2.1 floatAdd_small.2.2
      6 20).2.2.1,
    (staleExample_decoded floatAdd floatAdd_small.1 floatAdd_small.2.1 floatAdd_small.2.2
      6 20).2.2.2,
    decodeBlock_waveform_determined floatAdd 6 staleExample staleExample
      (staleBlock 2 ⟨0, 0, 1, 2, 0, 0, 0⟩ ⟨1, 0, 0, 0, 0, 1⟩ ⟨1, 0, 0, 0, 0, 2⟩ 20)
      (staleBlock 3 ⟨0, 0, 0, 2, 0, 0, 0⟩ GradEvent.zero ⟨1, 0, 0, 0, 0, 2⟩ 20) 1 ⟨2, [-1, 0]⟩
      [Token.literal (-1), Token.literal 0] (by decide) rfl rfl rfl rfl
      (by simp [packedOf, Token.packed]) (by simp [Splits, packedOf, Token.packed])
      (by simp [expansionOf, Token.expansion]) (by norm_num) _ _ _ _
      (staleExample_decoded floatAdd floatAdd_small.1 floatAdd_small.2.1 floatAdd_small.2.2
        6 20).2.2.1
      (staleExample_decoded floatAdd floatAdd_small.1 floatAdd_small.2.1 floatAdd_small.2.2
        6 20).2.2.2⟩

/-! ## The two ways of applying the block delay -/

theorem maxOf_nonneg (l : List Int) : 0 ≤ maxOf l := by
  unfold maxOf
  induction l with
  | nil => exact le_refl 0
  | cons a l ih => exact le_trans ih (le_max_right _ _)

theorem fetchRF_version (e : EventIDs) (vc : Int) (p : SeqBlock × State) :
    fetchRF e (p.1, { p.2 with version_combined := vc })
      = ((fetchRF e p).1, { (fetchRF e p).2 with version_combined := vc }) := by
  unfold fetchRF
  split <;> rfl

theorem fetchADC_version (e : EventIDs) (vc : Int) (p : SeqBlock × State) :
    fetchADC e (p.1, { p.2 with version_combined := vc })
      = ((fetchADC e p).1, { (fetchADC e p).2 with version_combined := vc }) := by
  unfold fetchADC
  split <;> rfl

theorem fetchDelay_version (e : EventIDs) (vc : Int) (p : SeqBlock × State) :
    fetchDelay e (p.1, { p.2 with version_combined := vc })
      = ((fetchDelay e p).1, { (fetchDelay e p).2 with version_combined := vc }) := by
  unfold fetchDelay
  split <;> rfl

theorem fetchControl_version (e : EventIDs) (vc : Int) (p : SeqBlock × State) :
    fetchControl e (p.1, { p.2 with version_combined := vc })
      = ((fetchControl e p).1, { (fetchControl e p).2 with version_combined := vc }) := by
  unfold fetchControl
  split <;> rfl

theorem fetchGrad_version (e : EventIDs) (vc : Int) (p : SeqBlock × State) (i : Nat) :
    fetchGrad e (p.1, { p.2 with version_combined := vc }) i
      = ((fetchGrad e p i).1, { (fetchGrad e p i).2 with version_combined := vc }) := by
  unfold fetchGrad
  split <;> rfl

theorem fetchEvents_version (s : State) (fresh : SeqBlock) (index : Int) (e : EventIDs)
    (vc : Int) :
    (fetchEvents { s with version_combined := vc } fresh index e).1
      = (fetchEvents s fresh index e).1 := by
  have step : ∀ (f : SeqBlock × State → SeqBlock × State),
      (∀ p, f (p.1, { p.2 with version_combined := vc })
        = ((f p).1, { (f p).2 with version_combined := vc })) →
      ∀ x y : SeqBlock × State, x = (y.1, { y.2 with version_combined := vc }) →
        f x = ((f y).1, { (f y).2 with version_combined := vc }) := by
    intro f hf x y hxy
    rw [hxy]
    exact hf y
  have r0 : ((fetchInit fresh index e, { s with version_combined := vc }) : SeqBlock × State)
      = ((fetchInit fresh index e, s).1,
        { (fetchInit fresh index e, s).2 with version_combined := vc }) := rfl
  have r1 := step (fetchRF e) (fetchRF_version e vc) _ _ r0
  have r2 := step (fetchADC e) (fetchADC_version e vc) _ _ r1
  have r3 := step (fetchDelay e) (fetchDelay_version e vc) _ _ r2
  have r4 := step (fetchControl e) (fetchControl_version e vc) _ _ r3
  have r5 := step (fun p => fetchGrad e p 0) (fun p => fetchGrad_version e vc p 0) _ _ r4
  have r6 := step (fun p => fetchGrad e p 1) (fun p => fetchGrad_version e vc p 1) _ _ r5
  have r7 := step (fun p => fetchGrad e p 2) (fun p => fetchGrad_version e vc p 2) _ _ r6
  rw [fetchEvents_steps, fetchEvents_steps]
  have h := congrArg Prod.fst r7
  exact h

theorem candidates_version (L : LongBits) (s : State) (vc d : Int) (block : SeqBlock) :
    candidates L { s with version_combined := vc } { block with duration := d }
      = candidates L s block := rfl

/-- Counterexample to C25 as stated: the block of the specification's example (a trapezoid
gradient with `rampUp = 100`, `flat = 1000`, `rampDown = 100`, `delay = 50`, so the maximum
of the candidates is `1250`) with the block delay `LONG_MAX - 1249`: every field is
non-negative.  Under the combined version `0` the sum `1250 + block.delay` is formed in
`long` and the duration is `LONG_MIN`; under the combined version `1002000` the duration is
the block delay, which is greater.  With a `long` of 32 bits the delay is `2147482398`, with
one of 64 bits `9223372036854774558`. -/
theorem GetBlock_delay_gate_counterexample :
    (∃ (b b' : SeqBlock) (t t' : State),
      GetBlock long32 { trapezoidExample 0 with
        m_delayLibrary := Lib.empty.assign 1 2147482398 } SeqBlock.blank 0 = .ok (b, t) ∧
      GetBlock long32 { trapezoidExample 1002000 with
        m_delayLibrary := Lib.empty.assign 1 2147482398 } SeqBlock.blank 0 = .ok (b', t') ∧
      b.delay = 2147482398 ∧ b'.delay = 2147482398 ∧
      b.duration = -2147483648 ∧ b'.duration = 2147482398 ∧ b.duration < b'.duration) ∧
    (∃ (b b' : SeqBlock) (t t' : State),
      GetBlock long64 { trapezoidExample 0 with
        m_delayLibrary := Lib.empty.assign 1 9223372036854774558 } SeqBlock.blank 0
          = .ok (b, t) ∧
      GetBlock long64 { trapezoidExample 1002000 with
        m_delayLibrary := Lib.empty.assign 1 9223372036854774558 } SeqBlock.blank 0
          = .ok (b', t') ∧
      b.delay = 9223372036854774558 ∧ b'.delay = 9223372036854774558 ∧
      b.duration = -9223372036854775808 ∧ b'.duration = 9223372036854774558 ∧
      b.duration < b'.duration) := by
  constructor
  · obtain ⟨b, t, h1, h2, _, h4⟩ :=
      GetBlock_trapezoidExample long32 0 2147482398 SeqBlock.blank
    obtain ⟨b', t', h1', h2', _, h4'⟩ :=
      GetBlock_trapezoidExample long32 1002000 2147482398 SeqBlock.blank
    have e : b.duration = -2147483648 := by rw [h4]; decide
    have e' : b'.duration = 2147482398 := by rw [h4']; decide
    exact ⟨b, b', t, t', h1, h1', h2, h2', e, e', by rw [e, e']; decide⟩
  · obtain ⟨b, t, h1, h2, _, h4⟩ :=
      GetBlock_trapezoidExample long64 0 9223372036854774558 SeqBlock.blank
    obtain ⟨b', t', h1', h2', _, h4'⟩ :=
      GetBlock_trapezoidExample long64 1002000 9223372036854774558 SeqBlock.blank
    have e : b.duration = -9223372036854775808 := by rw [h4]; decide
    have e' : b'.duration = 9223372036854774558 := by rw [h4']; decide
    exact ⟨b, b', t, t', h1, h1', h2, h2', e, e', by rw [e, e']; decide⟩

/-- C25, amended. For every block (every valid index of the block table) whose block delay
is `>= 0` and for which the sum of the maximum of the event candidates and the block delay
is one a `long` holds, the duration `GetBlock` computes under a combined version `< 1002000`
is greater than or equal to the one it computes under a combined version `>= 1002000`, the
members being the same otherwise, with equality if and only if the block delay is `0` or the
maximum of the event candidates, which `GetBlock` takes from `0` on, is `0`; the events
fetched, and so the block delay and the candidates, are the same under both versions.  This
for every width of `long`. -/
theorem GetBlock_delay_gate (L : LongBits) (s : State) (fresh : SeqBlock) (index : Int)
    (lo hi : Int) (h0 : 0 ≤ index) (h1 : index < s.m_blocks.length) (hlo : lo < 1002000)
    (hhi : 1002000 ≤ hi) :
    ∃ (b b' : SeqBlock) (t t' : State),
      GetBlock L { s with version_combined := lo } fresh index = .ok (b, t) ∧
      GetBlock L { s with version_combined := hi } fresh index = .ok (b', t') ∧
      b'.delay = b.delay ∧ candidates L s b' = candidates L s b ∧
      (0 ≤ b.delay → FitsLong L (maxOf (candidates L s b) + b.delay) →
        b'.duration ≤ b.duration ∧
        (b.duration = b'.duration ↔ b.delay = 0 ∨ maxOf (candidates L s b) = 0)) := by
  obtain ⟨e, he, _⟩ := readAt_valid s.m_blocks index h0 h1
  obtain ⟨b, t, hb, hd⟩ := GetBlock_duration L { s with version_combined := lo } fresh index
    h0 h1
  obtain ⟨b', t', hb', hd'⟩ := GetBlock_duration L { s with version_combined := hi } fresh
    index h0 h1
  obtain ⟨d, hq⟩ := GetBlock_eq L { s with version_combined := lo } fresh index e he
  obtain ⟨d', hq'⟩ := GetBlock_eq L { s with version_combined := hi } fresh index e he
  rw [hb] at hq
  rw [hb'] at hq'
  injection hq with hq
  injection hq' with hq'
  injection hq with hq _
  injection hq' with hq' _
  rw [fetchEvents_version] at hq hq'
  have hdelay : b'.delay = b.delay := by rw [hq, hq']
  have hcand : candidates L s b' = candidates L s b := by
    rw [hq, hq']
    rfl
  have hc : candidates L { s with version_combined := lo } b = candidates L s b := by
    rw [hq]; rfl
  have hc' : candidates L { s with version_combined := hi } b' = candidates L s b := by
    rw [hq, hq']; rfl
  have hlo' : ({ s with version_combined := lo } : State).version_combined < 1002000 := hlo
  have hhi' : ¬ ({ s with version_combined := hi } : State).version_combined < 1002000 :=
    not_lt.mpr hhi
  rw [if_pos hlo', hc] at hd
  rw [if_neg hhi', hc', hdelay] at hd'
  refine ⟨b, b', t, t', hb, hb', hdelay, hcand, ?_⟩
  intro hnn hfit
  have hm := maxOf_nonneg (candidates L s b)
  rw [wrapLong_of_fits L _ hfit] at hd
  rw [hd, hd']
  refine ⟨max_le (by omega) (by omega), ?_⟩
  constructor
  · intro heq
    rcases max_cases (maxOf (candidates L s b)) b.delay with ⟨h, _⟩ | ⟨h, _⟩
    · rw [h] at heq; left; omega
    · rw [h] at heq; right; omega
  · intro h
    rcases h with h | h
    · rw [h, add_zero, max_eq_left hm]
    · rw [h, zero_add, max_eq_right hnn]

/-- Witness of C25, amended: the block of `trapezoidExample`, whose block delay is `2000`,
under the combined versions `0` and `1002000`, with a `long` of 32 bits. -/
theorem GetBlock_delay_gate_witness :
    ∃ (b b' : SeqBlock) (t t' : State),
      GetBlock long32 { trapezoidExample 7 with version_combined := 0 } SeqBlock.blank 0
        = .ok (b, t) ∧
      GetBlock long32 { trapezoidExample 7 with version_combined := 1002000 }
        SeqBlock.blank 0 = .ok (b', t') ∧
      b'.delay = b.delay ∧
      candidates long32 (trapezoidExample 7) b'
        = candidates long32 (trapezoidExample 7) b ∧
      (0 ≤ b.delay → FitsLong long32 (maxOf (candidates long32 (trapezoidExample 7) b)
          + b.delay) →
        b'.duration ≤ b.duration ∧
        (b.duration = b'.duration ↔
          b.delay = 0 ∨ maxOf (candidates long32 (trapezoidExample 7) b) = 0)) :=
  GetBlock_delay_gate long32 (trapezoidExample 7) SeqBlock.blank 0 0 1002000 (le_refl 0)
    (by simp [trapezoidExample]) (by decide) (by decide)

end ExternalSequence
